import Mathlib

/-!
# apsis: process runner, fd handlers and event reactor

A shallow embedding of the C++ sources (`program.cc`, `env.cc`, `json.hh`,
`json.cc`, `event.cc`, `fd_handler.cc`, `proc.hh`, `param.cc`, `bin/run.cc`)
together with theorems about them.

Conventions of the embedding:

* `std::map<K, V>` is a list of pairs kept in strictly ascending key order
  (`StdMap.WF`); `operator[]` assignment is `StdMap.insert`, `erase(key)` is
  `StdMap.erase`, `find(key)` is `StdMap.find`.
* `std::vector<T>` and `std::deque<T>` are lists; a vector of `SIG_MAX`
  entries indexed by signal number is a function of the index.
* The deadlines of timers are of a type with the comparisons `<` and `!=`
  (`evt.TimeOps`): the doubles `evt.Double F`, a number of a linearly ordered
  type `F` or NaN, or a linearly ordered type, which stands for the doubles
  other than NaN.
* A thrown exception or a failed `assert` is a value of `Exc`; a function that
  can throw returns `Except Exc`, and the object state at the throw is not kept,
  except by the functions `set_state`, `set_signal` and `set_wait`, whose error
  carries the state at the throw.
* The JSON parser works on positions in the `c_str()` of the text; a read
  beyond the terminating NUL is the fault `json.Fault.beyond`, and the number of
  loop rounds and nested calls of a run is bounded by a fuel argument.
* `std::string` is `String`; `double` is `Rat`, its arithmetic exact, and the
  library functions that write and read numbers are parameters.
* A `std::function<void()>` is an optional identifier; calling one is recorded
  as an `Event`, and callbacks are taken not to change the reactor themselves.
* The operating system is a value of `sys.Os` (descriptor table, open file
  descriptions, file contents, children) or of `evt.SigWorld` (signal
  dispositions); platform constants (`SIG_MAX`, `SIGCHLD`) are parameters.
-/

namespace alxs

/-! ## Exceptions (`exc.hh`, `json.hh`) -/

/-- Exceptions the code throws, by class; `AssertionError` stands for a failed
`assert` (the process aborts) and `bad_function_call` for the invocation of an
empty `std::function`. -/
inductive Exc where
  | Error (what : String)
  | NameError (name : String)
  | ValueError (name : String)
  | TypeError (what : String)
  | IndexError (index size : Nat)
  | SystemError (call : String)
  | AssertionError (expr : String)
  | bad_function_call
  deriving DecidableEq, Repr

/-! ## `std::map` -/

namespace StdMap

variable {K V : Type} [LinearOrder K]

/-- Representation invariant of `std::map`: keys strictly ascending. -/
def WF (m : List (K × V)) : Prop :=
  m.Pairwise (fun a b => a.1 < b.1)

/-- Member `find(key)`: the mapped value, `none` for `end()`. -/
def find : List (K × V) → K → Option V
  | [], _ => none
  | (k', v) :: rest, k => if k = k' then some v else find rest k

/-- Assignment `m[k] = v`: overwrite the entry of `k` or insert it at its place
in key order. -/
def insert (k : K) (v : V) : List (K × V) → List (K × V)
  | [] => [(k, v)]
  | (k', v') :: rest =>
    if k < k' then (k, v) :: (k', v') :: rest
    else if k = k' then (k, v) :: rest
    else (k', v') :: insert k v rest

/-- Member `erase(key)`: drop the entry of `k` if there is one. -/
def erase (k : K) (m : List (K × V)) : List (K × V) :=
  m.filter (fun e => decide (e.1 ≠ k))

/-- The keys, in iteration order. -/
def keys (m : List (K × V)) : List K :=
  m.map Prod.fst

end StdMap

/-! ## Json (`json.hh`) -/

namespace json

/-- The class `Json`: a tagged value tree. A `NUM` holds a `double`; the finite
doubles are rationals, so the value is kept as a rational. An `OBJ` holds a
`std::map<std::string, Json>`, an `ARR` a `std::vector<Json>`. -/
inductive Json where
  | NUL
  | FAL
  | TRU
  | NUM (val : Rat)
  | STR (val : String)
  | ARR (val : List Json)
  | OBJ (val : List (String × Json))

/-- The enum `Json::Type`. -/
inductive Type_ where
  | NUL | FAL | TRU | NUM | STR | ARR | OBJ
  deriving DecidableEq, Repr

namespace Json

/-- Member `get_type`. -/
def get_type : Json → Type_
  | NUL => Type_.NUL
  | FAL => Type_.FAL
  | TRU => Type_.TRU
  | NUM _ => Type_.NUM
  | STR _ => Type_.STR
  | ARR _ => Type_.ARR
  | OBJ _ => Type_.OBJ

/-- Member `get_bool`. -/
def get_bool : Json → Except Exc Bool
  | FAL => pure false
  | TRU => pure true
  | _ => throw (Exc.TypeError "not a TRU or FAL")

/-- Member `get_num`. -/
def get_num : Json → Except Exc Rat
  | NUM v => pure v
  | _ => throw (Exc.TypeError "not a NUM")

/-- Member `get_str`. -/
def get_str : Json → Except Exc String
  | STR v => pure v
  | _ => throw (Exc.TypeError "not a STR")

/-- Member `get_arr`. -/
def get_arr : Json → Except Exc (List Json)
  | ARR v => pure v
  | _ => throw (Exc.TypeError "not a ARR")

/-- Member `get_obj` (the `const` overload, which throws). -/
def get_obj : Json → Except Exc (List (String × Json))
  | OBJ v => pure v
  | _ => throw (Exc.TypeError "not a OBJ")

/-- Member `has`. -/
def has (self : Json) (name : String) : Except Exc Bool := do
  let obj ← self.get_obj
  pure (StdMap.find obj name).isSome

/-- Member `operator[](std::string const&) const`. -/
def subscript (self : Json) (name : String) : Except Exc Json := do
  let obj ← self.get_obj
  match StdMap.find obj name with
  | some v => pure v
  | none => throw (Exc.NameError name)

/-- Whether an integer is a value of the 32-bit type `int`. -/
def is_int (v : Int) : Bool :=
  decide (-2147483648 ≤ v) && decide (v < 2147483648)

/-- Member `get_int`: `int(num)` truncates toward zero, and the result is
accepted when it compares equal to `num`. The conversion of a number outside
the range of `int` is undefined in C++ and yields `INT_MIN` on x86, which then
differs from `num`; it is taken to fail the comparison. -/
def get_int (self : Json) : Except Exc Int := do
  let num ← self.get_num
  let val : Int := Int.tdiv num.num num.den
  if is_int val ∧ (val : Rat) = num then pure val
  else throw (Exc.TypeError "not an int")

/-- The loop `for (auto const& name : arr) out.push_back(name.get_str())`. -/
def get_strs : List Json → Except Exc (List String)
  | [] => pure []
  | j :: rest => do
    let s ← j.get_str
    let r ← get_strs rest
    pure (s :: r)

end Json

end json

/-! ## File library (`file.hh`, `filename.hh`) -/

namespace fs

/-- Parameters standing for the functions of `file.hh` and `filename.hh`, which
are not part of these sources: the text held by an `fs::Filename` constructed
from a string, and the conversions between an open mode and its text. -/
structure FsLib where
  Filename : String → String
  mode_as_str : Nat → String
  mode_from_str : String → Except Exc Nat

/-- The flag `O_RDONLY` of `fcntl.h` (Linux value). -/
def O_RDONLY : Nat := 0

/-- The flag `O_RDWR` of `fcntl.h` (Linux value). -/
def O_RDWR : Nat := 2

/-- The flag `O_CREAT` of `fcntl.h` (Linux value). -/
def O_CREAT : Nat := 64

end fs

/-! ## Environment (`env.hh`, `env.cc`) -/

namespace sys

/-- The class `Environment`, a `std::map<std::string, std::string>`. -/
abbrev Environment := List (String × String)

/-- Split of one `environ` entry at its first `=` (`strchr(*ptr, '=')`):
`none` when the entry has no `=`. -/
def split_entry (entry : String) : Option (String × String) :=
  let cs := entry.toList
  if '=' ∈ cs then
    some (String.mk (cs.takeWhile (fun c => c != '=')),
          String.mk ((cs.dropWhile (fun c => c != '=')).drop 1))
  else none

/-- Member `Environment::get_proc_env`: load the entries of `environ` into the
map, skipping entries without `=`. -/
def Environment.get_proc_env (self : Environment) (environ : List String) : Environment :=
  environ.foldl
    (fun env entry =>
      match split_entry entry with
      | some (name, val) => StdMap.insert name val env
      | none => env)
    self

end sys

/-! ## EnvSpec (`program.hh`, `program.cc`) -/

namespace run

/-- The struct `EnvSpec`. -/
structure EnvSpec where
  keep_all_ : Bool
  keep_ : List String
  unset_ : List String
  set_ : List (String × String)
  deriving DecidableEq, Repr

/-- Constructor `EnvSpec::EnvSpec()`. -/
def EnvSpec.new : EnvSpec :=
  { keep_all_ := true, keep_ := [], unset_ := [], set_ := [] }

/-- Member `EnvSpec::build`, reading the process environment from `environ`. -/
def EnvSpec.build (self : EnvSpec) (environ : List String) : sys.Environment :=
  let env0 : sys.Environment :=
    if self.keep_all_ then
      sys.Environment.get_proc_env [] environ
    else if self.keep_.length > 0 then
      let proc_env := sys.Environment.get_proc_env [] environ
      self.keep_.foldl
        (fun env name =>
          match StdMap.find proc_env name with
          | some v => StdMap.insert name v env
          | none => env)
        []
    else []
  let env1 := self.unset_.foldl (fun env name => StdMap.erase name env) env0
  self.set_.foldl (fun env ent => StdMap.insert ent.1 ent.2 env) env1

open json in
/-- Member `EnvSpec::to_json`. -/
def EnvSpec.to_json (self : EnvSpec) : Json :=
  let json : List (String × Json) := []
  let json :=
    if self.keep_all_ then StdMap.insert "keep" Json.TRU json
    else if self.keep_.length = 0 then StdMap.insert "keep" Json.FAL json
    else
      StdMap.insert "keep" (Json.ARR (self.keep_.foldl (fun keep var => keep ++ [Json.STR var]) []))
        json
  let json :=
    StdMap.insert "unset" (Json.ARR (self.unset_.foldl (fun unset var => unset ++ [Json.STR var]) []))
      json
  let json :=
    StdMap.insert "set"
      (Json.OBJ (self.set_.foldl (fun set var => StdMap.insert var.1 (Json.STR var.2) set) []))
      json
  Json.OBJ json

/-- The loop `for (auto const& ent : obj) set_[ent.first] = ent.second.get_str()`. -/
def EnvSpec.from_json_set (set_ : List (String × String)) :
    List (String × json.Json) → Except Exc (List (String × String))
  | [] => pure set_
  | ent :: rest => do
    let v ← ent.2.get_str
    EnvSpec.from_json_set (StdMap.insert ent.1 v set_) rest

open json in
/-- Static member `EnvSpec::from_json`. -/
def EnvSpec.from_json (json : Json) : Except Exc EnvSpec := do
  let spec := EnvSpec.new
  let spec ←
    if (← json.has "keep") then do
      let keep ← json.subscript "keep"
      if keep.get_type = Type_.TRU ∨ keep.get_type = Type_.FAL then
        pure { spec with keep_all_ := (← keep.get_bool) }
      else do
        let names ← Json.get_strs (← keep.get_arr)
        pure { spec with keep_all_ := false, keep_ := spec.keep_ ++ names }
    else pure spec
  let spec ←
    if (← json.has "unset") then do
      let names ← Json.get_strs (← (← json.subscript "unset").get_arr)
      pure { spec with unset_ := spec.unset_ ++ names }
    else pure spec
  let spec ←
    if (← json.has "set") then do
      let set_ ← EnvSpec.from_json_set spec.set_ (← (← json.subscript "set").get_obj)
      pure { spec with set_ := set_ }
    else pure spec
  pure spec

/-! ## FdHandlerSpec (`program.hh`, `program.cc`) -/

/-- The struct `FdHandlerSpec`; `filename_` is the text of the `fs::Filename`
and `from_fd_` an `int`. -/
structure FdHandlerSpec where
  type_ : String
  from_fd_ : Int
  filename_ : String
  mode_ : Nat
  deriving DecidableEq, Repr

/-- Constructor `FdHandlerSpec::FdHandlerSpec(type)`. -/
def FdHandlerSpec.new (lib : fs.FsLib) (type : String) : FdHandlerSpec :=
  { type_ := type, from_fd_ := 1, filename_ := lib.Filename "/dev/null", mode_ := fs.O_RDONLY }

open json in
/-- Member `FdHandlerSpec::to_json`. -/
def FdHandlerSpec.to_json (lib : fs.FsLib) (self : FdHandlerSpec) : Json :=
  let json : List (String × Json) := []
  let json := StdMap.insert "type" (Json.STR self.type_) json
  let json :=
    if self.type_ = "dup" then
      StdMap.insert "from_fd" (Json.NUM self.from_fd_) json
    else if self.type_ = "file" then
      let json := StdMap.insert "filename" (Json.STR self.filename_) json
      StdMap.insert "mode" (Json.STR (lib.mode_as_str self.mode_)) json
    else json
  Json.OBJ json

open json in
/-- Static member `FdHandlerSpec::from_json`. -/
def FdHandlerSpec.from_json (lib : fs.FsLib) (json : Json) : Except Exc FdHandlerSpec := do
  let spec := FdHandlerSpec.new lib "leave"
  let type ←
    if json.get_type = Type_.STR then json.get_str
    else do (← json.subscript "type").get_str
  let spec := { spec with type_ := type }
  if spec.type_ = "leave" ∨ spec.type_ = "close" ∨ spec.type_ = "null"
      ∨ spec.type_ = "capture" then
    pure spec
  else if spec.type_ = "dup" then do
    let from_fd ← (← json.subscript "from_fd").get_int
    pure { spec with from_fd_ := from_fd }
  else if spec.type_ = "file" then do
    let filename := lib.Filename (← (← json.subscript "filename").get_str)
    let mode ←
      if (← json.has "mode") then do
        lib.mode_from_str (← (← json.subscript "mode").get_str)
      else pure (fs.O_RDWR ||| fs.O_CREAT)
    pure { spec with filename_ := filename, mode_ := mode }
  else throw (Exc.TypeError spec.type_)

/-! ## ProcessProgramSpec (`program.hh`, `program.cc`) -/

/-- The class `ProcessProgramSpec`. -/
structure ProcessProgramSpec where
  executable_ : String
  args_ : List String
  env_ : EnvSpec
  stdin_ : FdHandlerSpec
  stdout_ : FdHandlerSpec
  stderr_ : FdHandlerSpec
  deriving DecidableEq, Repr

/-- The static member `ProcessProgramSpec::JSON_TYPE_NAME`. -/
def ProcessProgramSpec.JSON_TYPE_NAME : String := "ProcessProgram"

/-- Constructor `ProcessProgramSpec::ProcessProgramSpec()`. -/
def ProcessProgramSpec.new (lib : fs.FsLib) : ProcessProgramSpec :=
  { executable_ := "/bin/true", args_ := [], env_ := EnvSpec.new,
    stdin_ := FdHandlerSpec.new lib "leave", stdout_ := FdHandlerSpec.new lib "leave",
    stderr_ := FdHandlerSpec.new lib "leave" }

open json in
/-- Member `ProcessProgramSpec::to_json`. -/
def ProcessProgramSpec.to_json (lib : fs.FsLib) (self : ProcessProgramSpec) : Json :=
  let json : List (String × Json) := []
  let json := StdMap.insert "type" (Json.STR ProcessProgramSpec.JSON_TYPE_NAME) json
  let json := StdMap.insert "executable" (Json.STR self.executable_) json
  let arr := self.args_.foldl (fun arr arg => arr ++ [Json.STR arg]) []
  let json := StdMap.insert "args" (Json.ARR arr) json
  let json := StdMap.insert "env" self.env_.to_json json
  let json := StdMap.insert "stdin" (self.stdin_.to_json lib) json
  let json := StdMap.insert "stdout" (self.stdout_.to_json lib) json
  let json := StdMap.insert "stderr" (self.stderr_.to_json lib) json
  Json.OBJ json

open json in
/-- Static member `ProcessProgramSpec::from_json`. -/
def ProcessProgramSpec.from_json (lib : fs.FsLib) (json : Json) :
    Except Exc ProcessProgramSpec := do
  let spec := ProcessProgramSpec.new lib
  let executable ← (← json.subscript "executable").get_str
  let spec := { spec with executable_ := executable }
  let args ← Json.get_strs (← (← json.subscript "args").get_arr)
  let spec := { spec with args_ := spec.args_ ++ args }
  let spec ←
    if (← json.has "env") then do
      pure { spec with env_ := (← EnvSpec.from_json (← json.subscript "env")) }
    else pure spec
  let spec ←
    if (← json.has "stdin") then do
      pure { spec with stdin_ := (← FdHandlerSpec.from_json lib (← json.subscript "stdin")) }
    else pure spec
  let spec ←
    if (← json.has "stdout") then do
      pure { spec with stdout_ := (← FdHandlerSpec.from_json lib (← json.subscript "stdout")) }
    else pure spec
  let spec ←
    if (← json.has "stderr") then do
      pure { spec with stderr_ := (← FdHandlerSpec.from_json lib (← json.subscript "stderr")) }
    else pure spec
  pure spec

/-! ## Example values -/

/-- The scenario of C1: parent `A=1, B=2, C=3`, keep `[A, B]`, unset `[B]`,
set `{A: z, D: 4}`. -/
def env_scenario : EnvSpec :=
  { keep_all_ := false, keep_ := ["A", "B"], unset_ := ["B"], set_ := [("A", "z"), ("D", "4")] }

end run

namespace run

open json

/-- Validity of an fd-handler spec for a file library: its kind is one of the
six, a `dup` source descriptor is an `int`, and for a `file` the stored name is
one the `fs::Filename` constructor leaves as it is and the mode is one that
`mode_from_str` reads back from the text `mode_as_str` writes. -/
def FdHandlerSpec.valid (lib : fs.FsLib) (h : FdHandlerSpec) : Prop :=
  (h.type_ = "leave" ∨ h.type_ = "close" ∨ h.type_ = "null" ∨ h.type_ = "capture"
    ∨ h.type_ = "dup" ∨ h.type_ = "file") ∧
  (h.type_ = "dup" → Json.is_int h.from_fd_ = true) ∧
  (h.type_ = "file" →
    lib.Filename h.filename_ = h.filename_ ∧
    lib.mode_from_str (lib.mode_as_str h.mode_) = .ok h.mode_)

/-- Agreement of two fd-handler specs on the fields their kind uses. -/
def FdHandlerSpec.agrees (a b : FdHandlerSpec) : Prop :=
  a.type_ = b.type_ ∧
  (a.type_ = "dup" → a.from_fd_ = b.from_fd_) ∧
  (a.type_ = "file" → a.filename_ = b.filename_ ∧ a.mode_ = b.mode_)

/-- The fields a kind does not use hold the values the constructor gives them. -/
def FdHandlerSpec.unused_default (lib : fs.FsLib) (h : FdHandlerSpec) : Prop :=
  (h.type_ ≠ "dup" → h.from_fd_ = 1) ∧
  (h.type_ ≠ "file" → h.filename_ = lib.Filename "/dev/null" ∧ h.mode_ = fs.O_RDONLY)

/-- Validity of a program spec: `set_` is a `std::map` and the three handler
specs are valid. -/
def ProcessProgramSpec.valid (lib : fs.FsLib) (S : ProcessProgramSpec) : Prop :=
  StdMap.WF S.env_.set_ ∧ S.stdin_.valid lib ∧ S.stdout_.valid lib ∧ S.stderr_.valid lib

end run

namespace run

open json

/-- A file library for examples: names are kept as given and a mode is written
as that many letters `x`. -/
def sample_lib : fs.FsLib :=
  { Filename := id,
    mode_as_str := fun n => String.mk (List.replicate n 'x'),
    mode_from_str := fun s => pure s.length }

/-- The form in which `FdHandlerSpec::to_json` writes a handler: an object
holding `type` and exactly the members of its kind. -/
def FdHandlerSpec.canonical_json (lib : fs.FsLib) (j : Json) : Prop :=
  (∃ k : String, (k = "leave" ∨ k = "close" ∨ k = "null" ∨ k = "capture") ∧
    j = Json.OBJ [("type", Json.STR k)]) ∨
  (∃ n : Int, Json.is_int n = true ∧
    j = Json.OBJ [("from_fd", Json.NUM n), ("type", Json.STR "dup")]) ∨
  (∃ (f m : String) (md : Nat), lib.Filename f = f ∧ lib.mode_from_str m = .ok md ∧
    lib.mode_as_str md = m ∧
    j = Json.OBJ [("filename", Json.STR f), ("mode", Json.STR m), ("type", Json.STR "file")])

/-- The form in which `EnvSpec::to_json` writes an environment policy: the
members `keep`, `set` and `unset`, with `keep` true, false or a non-empty list
of names. -/
def EnvSpec.canonical_json (j : Json) : Prop :=
  ∃ (keep : Json) (unset : List String) (set : List (String × String)),
    StdMap.WF set ∧
    (keep = Json.TRU ∨ keep = Json.FAL ∨
      ∃ (a : String) (l : List String), keep = Json.ARR ((a :: l).map Json.STR)) ∧
    j = Json.OBJ [("keep", keep), ("set", Json.OBJ (set.map (fun e => (e.1, Json.STR e.2)))),
      ("unset", Json.ARR (unset.map Json.STR))]

/-- The form in which `ProcessProgramSpec::to_json` writes a program. -/
def ProcessProgramSpec.canonical_json (lib : fs.FsLib) (j : Json) : Prop :=
  ∃ (exe : String) (args : List String) (env sin sout serr : Json),
    EnvSpec.canonical_json env ∧ FdHandlerSpec.canonical_json lib sin ∧
    FdHandlerSpec.canonical_json lib sout ∧ FdHandlerSpec.canonical_json lib serr ∧
    j = Json.OBJ [("args", Json.ARR (args.map Json.STR)), ("env", env),
      ("executable", Json.STR exe), ("stderr", serr), ("stdin", sin), ("stdout", sout),
      ("type", Json.STR "ProcessProgram")]

end run

namespace run

open json

/-- The spec edited by `run --keep-env A`: `keep_all_` keeps its default `true`
and `keep_` holds `A`. -/
def spec_keep_all : ProcessProgramSpec :=
  { ProcessProgramSpec.new sample_lib with
    env_ := { keep_all_ := true, keep_ := ["A"], unset_ := [], set_ := [] } }

/-- A spec using a `file`, a `capture` and a `dup` handler. -/
def spec_sample : ProcessProgramSpec :=
  { executable_ := "/bin/echo", args_ := ["hello", "world"],
    env_ := env_scenario,
    stdin_ := { type_ := "file", from_fd_ := 1, filename_ := "/tmp/in", mode_ := 0 },
    stdout_ := FdHandlerSpec.new sample_lib "capture",
    stderr_ := { FdHandlerSpec.new sample_lib "dup" with from_fd_ := 1 } }

/-- A document of the schema with its handlers written as bare kind strings. -/
def doc_bare : Json :=
  Json.OBJ [("args", Json.ARR []),
    ("env", Json.OBJ [("keep", Json.TRU), ("set", Json.OBJ []), ("unset", Json.ARR [])]),
    ("executable", Json.STR "/bin/true"), ("stderr", Json.STR "null"),
    ("stdin", Json.STR "null"), ("stdout", Json.STR "capture"),
    ("type", Json.STR "ProcessProgram")]

/-- A document in the serializer's form, with a `file`, a `capture` and a `dup`
handler and a list of kept names. -/
def doc_sample : Json :=
  Json.OBJ [("args", Json.ARR [Json.STR "hello"]),
    ("env", Json.OBJ [("keep", Json.ARR [Json.STR "A"]),
      ("set", Json.OBJ [("D", Json.STR "4")]), ("unset", Json.ARR [Json.STR "B"])]),
    ("executable", Json.STR "/bin/echo"),
    ("stderr", Json.OBJ [("from_fd", Json.NUM 1), ("type", Json.STR "dup")]),
    ("stdin", Json.OBJ [("filename", Json.STR "/tmp/in"), ("mode", Json.STR ""),
      ("type", Json.STR "file")]),
    ("stdout", Json.OBJ [("type", Json.STR "capture")]),
    ("type", Json.STR "ProcessProgram")]

end run

namespace evt

/-- A `std::function<void()>`: `none` is the empty function (`nullptr`),
`some c` the callable identified by `c`. -/
abbrev Callback := Option Nat

/-- The type `sighandler_t`: a signal disposition. `handler` is the static
thunk `SignalHandler::handler`; `other a` is any other handler function. -/
inductive sighandler_t where
  | SIG_DFL
  | SIG_IGN
  | SIG_ERR
  | handler
  | other (addr : Nat)
  deriving DecidableEq, Repr

/-- The struct `SignalHandler::Signal`. -/
structure SignalHandler.Signal where
  old_ : sighandler_t
  callback_ : Callback
  deriving DecidableEq, Repr

/-- The class `SignalHandler`. `this` is the address of the object; `signals_`
is the vector of `SIG_MAX` entries, kept as a function of the index (only
indices below `SIG_MAX` are accessed). -/
structure SignalHandler where
  this : Nat
  signals_ : Nat → SignalHandler.Signal

/-- The process-wide signal state: the static `SignalHandler::instance_`
(`none` is `nullptr`), the disposition the OS holds for each signal, and the
signals for which `signal()` fails (`SIGKILL`, `SIGSTOP`). -/
structure SigWorld where
  instance_ : Option Nat
  disposition : Nat → sighandler_t
  uncatchable : Nat → Bool

/-- The libc call `::signal(signum, h)`: it fails with `SIG_ERR`, changing
nothing, when `h` is `SIG_ERR` or the signal cannot be caught; otherwise it
sets the disposition and returns the previous one. -/
def os_signal (w : SigWorld) (signum : Nat) (h : sighandler_t) : sighandler_t × SigWorld :=
  if h = sighandler_t.SIG_ERR ∨ w.uncatchable signum = true then
    (sighandler_t.SIG_ERR, w)
  else
    (w.disposition signum, { w with disposition := Function.update w.disposition signum h })

/-- Constructor `SignalHandler::SignalHandler()`; the member `old_` of an entry
is indeterminate until `install(signum)` writes it and is shown as `SIG_DFL`. -/
def SignalHandler.new (this : Nat) : SignalHandler :=
  { this := this, signals_ := fun _ => { old_ := sighandler_t.SIG_DFL, callback_ := none } }

/-- Private member `SignalHandler::install(signum)`. -/
def SignalHandler.install_signum (SIG_MAX : Nat) (self : SignalHandler) (w : SigWorld)
    (signum : Nat) : Except Exc (SignalHandler × SigWorld) :=
  if ¬ (0 < signum ∧ signum < SIG_MAX) then
    throw (Exc.AssertionError "0 < signum && signum < SIG_MAX")
  else if (self.signals_ signum).callback_ = none then
    throw (Exc.AssertionError "signal.callback_ != nullptr")
  else
    let r := os_signal w signum sighandler_t.handler
    let self' : SignalHandler :=
      { self with
        signals_ := Function.update self.signals_ signum
          { self.signals_ signum with old_ := r.1 } }
    if r.1 = sighandler_t.handler then
      throw (Exc.AssertionError "signal.old_ != handler")
    else pure (self', r.2)

/-- The loop `for (signum ...) if (signals_[signum].callback_ != nullptr)
install(signum)` over the signal numbers still to visit. -/
def SignalHandler.install_loop (SIG_MAX : Nat) :
    List Nat → SignalHandler → SigWorld → Except Exc (SignalHandler × SigWorld)
  | [], self, w => pure (self, w)
  | signum :: rest, self, w =>
    if (self.signals_ signum).callback_ ≠ none then
      match SignalHandler.install_signum SIG_MAX self w signum with
      | .ok (self', w') => SignalHandler.install_loop SIG_MAX rest self' w'
      | .error e => throw e
    else SignalHandler.install_loop SIG_MAX rest self w

/-- Member `SignalHandler::install()`. -/
def SignalHandler.install (SIG_MAX : Nat) (self : SignalHandler) (w : SigWorld) :
    Except Exc (SignalHandler × SigWorld) :=
  if w.instance_ ≠ none then
    throw (Exc.AssertionError "instance_ == nullptr")
  else
    SignalHandler.install_loop SIG_MAX (List.range' 1 (SIG_MAX - 1)) self
      { w with instance_ := some self.this }

/-- Member `SignalHandler::set(signum, callback)`. -/
def SignalHandler.set (SIG_MAX : Nat) (self : SignalHandler) (w : SigWorld)
    (signum : Nat) (callback : Callback) : Except Exc (SignalHandler × SigWorld) :=
  if ¬ (0 < signum ∧ signum < SIG_MAX) then
    throw (Exc.AssertionError "0 < signum && signum < SIG_MAX")
  else if callback = none then
    throw (Exc.AssertionError "callback != nullptr")
  else if (self.signals_ signum).callback_ ≠ none then
    throw (Exc.Error "signal already set")
  else
    let self' : SignalHandler :=
      { self with
        signals_ := Function.update self.signals_ signum
          { self.signals_ signum with callback_ := callback } }
    if w.instance_ = some self.this then
      SignalHandler.install_signum SIG_MAX self' w signum
    else pure (self', w)

end evt

namespace evt

end evt

namespace evt

/-- Example: a dispatcher at address 1 with a callback registered for signal 17. -/
def handler_sample : SignalHandler :=
  { this := 1,
    signals_ := fun s =>
      if s = 17 then { old_ := sighandler_t.SIG_DFL, callback_ := some 17 }
      else { old_ := sighandler_t.SIG_DFL, callback_ := none } }

/-- Example: no dispatcher installed, signal 2 ignored, signal 10 handled by
another function, every other signal at its default; signals 9 and 19 cannot be
caught. -/
def world_sample : SigWorld :=
  { instance_ := none,
    disposition := fun s =>
      if s = 2 then sighandler_t.SIG_IGN
      else if s = 10 then sighandler_t.other 7
      else sighandler_t.SIG_DFL,
    uncatchable := fun s => decide (s = 9 ∨ s = 19) }

end evt

namespace evt

/-- The comparisons of the type `Time` that the reactor makes: `operator<` and
`operator!=`. `Time` is `double` in the source (`typedef double Time`). -/
class TimeOps (Time : Type) where
  lt : Time → Time → Bool
  ne : Time → Time → Bool

/-- The comparisons of a linearly ordered type. The doubles other than NaN are
one. -/
instance TimeOps.ofLinearOrder {Time : Type} [LinearOrder Time] : TimeOps Time where
  lt := fun a b => decide (a < b)
  ne := fun a b => decide (a ≠ b)

/-- The values of the type `double`: NaN, or a number. The numbers, the two
infinities among them, are linearly ordered, and the model takes any linearly
ordered type `F` for them. -/
inductive Double (F : Type) where
  | nan
  | num (x : F)
  deriving DecidableEq, Repr

/-- Whether a double is a number. -/
def Double.is_num {F : Type} : Double F → Bool
  | .nan => false
  | .num _ => true

/-- The operator `<` of `double`: false when an operand is NaN. -/
def Double.lt {F : Type} [LinearOrder F] : Double F → Double F → Bool
  | .num x, .num y => decide (x < y)
  | _, _ => false

/-- The operator `!=` of `double`: true when an operand is NaN. -/
def Double.ne {F : Type} [LinearOrder F] : Double F → Double F → Bool
  | .num x, .num y => decide (x ≠ y)
  | _, _ => true

/-- The operator `<=` of `double`: false when an operand is NaN. -/
def Double.le {F : Type} [LinearOrder F] : Double F → Double F → Prop
  | .num x, .num y => x ≤ y
  | _, _ => False

/-- The comparisons of `double`. -/
instance Double.instTimeOps {F : Type} [LinearOrder F] : TimeOps (Double F) where
  lt := Double.lt
  ne := Double.ne

/-- The order `<=` of `double`. -/
instance Double.instLE {F : Type} [LinearOrder F] : LE (Double F) where
  le := Double.le

/-- The struct `Reactor::Timer`. `Time` is `double` in the source; the code only
compares times, with `operator<` and `operator!=`, and the model takes any type
with these two comparisons for it: `Double F`, or a linearly ordered type. -/
structure Timer (Time : Type) where
  time_ : Time
  callback_ : Callback

/-- Member `Reactor::Timer::operator<`. The tie-break compares the addresses of
the two `callback_` members, which are passed as `self_addr` and `other_addr`. -/
def Timer.lt {Time : Type} [TimeOps Time] (self other : Timer Time)
    (self_addr other_addr : Nat) : Bool :=
  if TimeOps.ne self.time_ other.time_ = true then TimeOps.lt self.time_ other.time_
  else decide (self_addr < other_addr)

/-- The loop of `std::lower_bound` over the positions `[first, first + len)`,
where `less i` answers `*(begin + i) < value`. Each iteration makes `len`
smaller, so `fuel = len` iterations are enough and the loop always leaves
through `len = 0`. -/
def lower_bound_loop (less : Nat → Bool) : Nat → Nat → Nat → Nat
  | 0, first, _ => first
  | fuel + 1, first, len =>
    if len = 0 then first
    else
      let half := len / 2
      let middle := first + half
      if less middle then lower_bound_loop less fuel (middle + 1) (len - half - 1)
      else lower_bound_loop less fuel first half

/-- The library function `std::lower_bound(begin, end, value)` on a sequence of
`n` elements: the position returned by its binary search. -/
def lower_bound (less : Nat → Bool) (n : Nat) : Nat :=
  lower_bound_loop less n 0 n

/-- The struct `Reactor::Signal`. -/
structure Signal where
  callback_ : Callback
  raised_ : Bool
  deriving DecidableEq, Repr

/-- The class `Reactor`. `timers_` is the deque of timers, `waits_` the
`std::map<pid_t, Callback>`, `signals_` the vector of `SIG_MAX` entries kept as
a function of the index. -/
structure Reactor (Time : Type) where
  timers_ : List (Timer Time)
  waits_ : List (Int × Callback)
  signals_ : Nat → Signal
  signal_handler_ : SignalHandler

/-- Member `Reactor::add_timer`. `slot_addr i` is the address of the `callback_`
member of the deque's element `i` and `local_addr` the address of that member
of the local `timer`; they decide `operator<` between equal deadlines. -/
def Reactor.add_timer {Time : Type} [TimeOps Time] (slot_addr : Nat → Nat)
    (local_addr : Nat) (self : Reactor Time) (time : Time) (callback : Callback) :
    Reactor Time :=
  let timer : Timer Time := { time_ := time, callback_ := callback }
  let position :=
    lower_bound
      (fun i =>
        match self.timers_[i]? with
        | some t => t.lt timer (slot_addr i) local_addr
        | none => false)
      self.timers_.length
  { self with timers_ := self.timers_.take position ++ timer :: self.timers_.drop position }

/-- Deadlines in non-decreasing order. -/
def timers_sorted {Time : Type} [LE Time] (timers : List (Timer Time)) : Prop :=
  timers.Pairwise (fun a b => a.time_ ≤ b.time_)

/-- The timers in front of the first one whose deadline is NaN: they are the
ones `handle_current` can reach, since its loop stops at a timer whose deadline
is not `< now`. -/
def timers_before_nan {F : Type} (timers : List (Timer (Double F))) : List (Timer (Double F)) :=
  timers.takeWhile (fun t => t.time_.is_num)

/-- Example: the dispatcher of a reactor that handles `SIGCHLD` (17) and the
user signal 10; the closure registered for a signal is identified by the
signal's number. -/
def dispatcher_sample : SignalHandler :=
  { this := 1,
    signals_ := fun s =>
      if s = 10 ∨ s = 17 then { old_ := sighandler_t.SIG_DFL, callback_ := some s }
      else { old_ := sighandler_t.SIG_DFL, callback_ := none } }

/-- Example: a reactor holding timers with deadlines 10, 20, 20 and 30, waiting
for the children 5 and 7, with a callback for the user signal 10. -/
def reactor_sample : Reactor Nat :=
  { timers_ := [⟨10, some 1⟩, ⟨20, some 2⟩, ⟨20, some 3⟩, ⟨30, some 4⟩],
    waits_ := [(5, some 50), (7, some 70)],
    signals_ := fun s =>
      if s = 10 then { callback_ := some 100, raised_ := false }
      else { callback_ := none, raised_ := false },
    signal_handler_ := dispatcher_sample }

end evt

namespace evt

/-- One invocation of a callback registered with the reactor, with what caused
it: a user signal, the completion of a child, or a timer. -/
inductive Event (Time : Type) where
  | signal (signum : Nat) (callback : Nat)
  | child (pid : Int) (callback : Nat)
  | timer (time : Time) (callback : Nat)

/-- The signal number whose flag led to the invocation: the signal itself, or
`SIGCHLD` for a child completion; none for a timer. -/
def Event.signum {Time : Type} (SIGCHLD : Nat) : Event Time → Option Nat
  | .signal s _ => some s
  | .child _ _ => some SIGCHLD
  | .timer _ _ => none

/-- Whether the invocation is a child-completion callback. -/
def Event.is_child {Time : Type} : Event Time → Bool
  | .child _ _ => true
  | _ => false

/-- The deadline of the timer invoked; none for a signal or a child. -/
def Event.deadline {Time : Type} : Event Time → Option Time
  | .timer t _ => some t
  | _ => none

/-- What one call of `handle_current` sees of the outside world: the signals
delivered to the process since the previous call (each runs the thunk
`SignalHandler::handler`), the value of `evt::now()`, and for each pid the
outcome of `xwaitid(P_PID, pid, &siginfo, WEXITED | WNOHANG | WNOWAIT)`, that
is the test `siginfo.si_pid > 0` or the exception thrown. -/
structure Obs (Time : Type) where
  delivered : List Nat
  now : Time
  waitid : Int → Except Exc Bool

/-- Outcome of `nanosleep`: slept to the end, interrupted (`EINTR`), or failed
with another error. -/
inductive SleepResult where
  | slept
  | eintr
  | failed
  deriving DecidableEq, Repr

/-- Delivery of `signum` to the process while the reactor's dispatcher is
installed: `SignalHandler::handler` calls the callback registered for `signum`,
and the closure registered by the reactor for signal `k` sets
`signals_[k].raised_`; its callback identity is `k`. A signal without a
registered callback does not reach the dispatcher. -/
def Reactor.deliver {Time : Type} (self : Reactor Time) (signum : Nat) : Reactor Time :=
  match (self.signal_handler_.signals_ signum).callback_ with
  | some k =>
    { self with
      signals_ := Function.update self.signals_ k { self.signals_ k with raised_ := true } }
  | none => self

/-- Member `Reactor::is_empty`. -/
def Reactor.is_empty {Time : Type} (SIG_MAX : Nat) (self : Reactor Time) : Bool :=
  let num_signals :=
    ((List.range SIG_MAX).filter (fun s => decide ((self.signals_ s).callback_ ≠ none))).length
  decide (self.timers_.length = 0 ∧ self.waits_.length = 0 ∧ num_signals = 0)

/-- The loop of `Reactor::handle_sigchld` over the entries of `waits_` still to
visit: the invocations made, and either the exception thrown or the number of
callbacks called with the entries that stay in the map. -/
def Reactor.handle_sigchld_loop {Time : Type} (waitid : Int → Except Exc Bool) :
    List (Int × Callback) → List (Event Time) × Except Exc (Nat × List (Int × Callback))
  | [] => ([], .ok (0, []))
  | entry :: rest =>
    match waitid entry.1 with
    | .error e => ([], .error e)
    | .ok done =>
      if done = true then
        match entry.2 with
        | none => ([], .error Exc.bad_function_call)
        | some c =>
          let out := Reactor.handle_sigchld_loop waitid rest
          (Event.child entry.1 c :: out.1, out.2.map (fun p => (p.1 + 1, p.2)))
      else
        let out := Reactor.handle_sigchld_loop waitid rest
        (out.1, out.2.map (fun p => (p.1, entry :: p.2)))

/-- Member `Reactor::handle_sigchld`. -/
def Reactor.handle_sigchld {Time : Type} (self : Reactor Time)
    (waitid : Int → Except Exc Bool) : List (Event Time) × Except Exc (Nat × Reactor Time) :=
  match Reactor.handle_sigchld_loop waitid self.waits_ with
  | (tr, .error e) => (tr, .error e)
  | (tr, .ok (n, kept)) => (tr, .ok (n, { self with waits_ := kept }))

/-- The loop of `Reactor::handle_signals` over the signal numbers still to
visit. -/
def Reactor.handle_signals_loop {Time : Type} (SIGCHLD : Nat)
    (waitid : Int → Except Exc Bool) :
    List Nat → Reactor Time → List (Event Time) × Except Exc (Nat × Reactor Time)
  | [], self => ([], .ok (0, self))
  | signum :: rest, self =>
    if (self.signals_ signum).raised_ = true then
      let self1 : Reactor Time :=
        { self with
          signals_ := Function.update self.signals_ signum
            { self.signals_ signum with raised_ := false } }
      if signum = SIGCHLD then
        match Reactor.handle_sigchld self1 waitid with
        | (tr, .error e) => (tr, .error e)
        | (tr, .ok (k, self2)) =>
          let out := Reactor.handle_signals_loop SIGCHLD waitid rest self2
          (tr ++ out.1, out.2.map (fun p => (k + p.1, p.2)))
      else
        match (self1.signals_ signum).callback_ with
        | none => ([], .error Exc.bad_function_call)
        | some c =>
          let out := Reactor.handle_signals_loop SIGCHLD waitid rest self1
          (Event.signal signum c :: out.1, out.2.map (fun p => (p.1 + 1, p.2)))
    else Reactor.handle_signals_loop SIGCHLD waitid rest self

/-- Member `Reactor::handle_signals`. -/
def Reactor.handle_signals {Time : Type} (SIG_MAX SIGCHLD : Nat) (self : Reactor Time)
    (waitid : Int → Except Exc Bool) : List (Event Time) × Except Exc (Nat × Reactor Time) :=
  Reactor.handle_signals_loop SIGCHLD waitid (List.range' 1 (SIG_MAX - 1)) self

/-- The timer loop of `Reactor::handle_current`: the invocations made, and
either the exception thrown or the number of timers called with the timers
left after `timers_.erase(begin(timers_), iter)`. -/
def Reactor.handle_timers {Time : Type} [TimeOps Time] (now : Time) :
    List (Timer Time) → List (Event Time) × Except Exc (Nat × List (Timer Time))
  | [] => ([], .ok (0, []))
  | t :: rest =>
    if TimeOps.lt t.time_ now = true then
      match t.callback_ with
      | none => ([], .error Exc.bad_function_call)
      | some c =>
        let out := Reactor.handle_timers now rest
        (Event.timer t.time_ c :: out.1, out.2.map (fun p => (p.1 + 1, p.2)))
    else ([], .ok (0, t :: rest))

/-- Member `Reactor::handle_current`, under the observation `obs`. -/
def Reactor.handle_current {Time : Type} [TimeOps Time] (SIG_MAX SIGCHLD : Nat)
    (self : Reactor Time) (obs : Obs Time) :
    List (Event Time) × Except Exc (Nat × Reactor Time) :=
  match Reactor.handle_signals SIG_MAX SIGCHLD self obs.waitid with
  | (tr, .error e) => (tr, .error e)
  | (tr, .ok (n, self1)) =>
    match Reactor.handle_timers obs.now self1.timers_ with
    | (tr', .error e) => (tr ++ tr', .error e)
    | (tr', .ok (k, left)) => (tr ++ tr', .ok (n + k, { self1 with timers_ := left }))

/-- The loop `while (sleep && num_done == 0)` of `Reactor::run`, entered with
`sleep` true: one element of `later` per iteration, giving the outcome of
`nanosleep` and what the following `handle_current` observes. The length of
the sleep, computed from `timers_.front()` and `now()`, has no effect on the
state and is left out. The result holds the invocations made and the outcome,
`none` when the observations end while the reactor is still waiting. -/
def Reactor.run_loop {Time : Type} [TimeOps Time] (SIG_MAX SIGCHLD : Nat) :
    List (SleepResult × Obs Time) → Reactor Time → Nat →
      List (Event Time) × Option (Except Exc (Nat × Reactor Time))
  | [], self, num_done =>
    if num_done = 0 then ([], none) else ([], some (.ok (num_done, self)))
  | step :: later, self, num_done =>
    if num_done = 0 then
      if step.1 = SleepResult.failed then ([], some (.error (Exc.SystemError "nanosleep")))
      else
        match Reactor.handle_current SIG_MAX SIGCHLD
            (step.2.delivered.foldl Reactor.deliver self) step.2 with
        | (tr, .error e) => (tr, some (.error e))
        | (tr, .ok (n, self1)) =>
          let out := Reactor.run_loop SIG_MAX SIGCHLD later self1 (num_done + n)
          (tr ++ out.1, out.2)
    else ([], some (.ok (num_done, self)))

/-- Member `Reactor::run(sleep)`: `first` is what the first `handle_current`
observes and `later` what the iterations of the loop observe. -/
def Reactor.run {Time : Type} [TimeOps Time] (SIG_MAX SIGCHLD : Nat)
    (self : Reactor Time) (sleep : Bool) (first : Obs Time)
    (later : List (SleepResult × Obs Time)) :
    List (Event Time) × Option (Except Exc (Nat × Reactor Time)) :=
  if self.is_empty SIG_MAX = true then
    ([], some (.error (Exc.AssertionError "! is_empty()")))
  else
    match Reactor.handle_current SIG_MAX SIGCHLD (first.delivered.foldl Reactor.deliver self)
        first with
    | (tr, .error e) => (tr, some (.error e))
    | (tr, .ok (num_done, self1)) =>
      if sleep = true then
        let out := Reactor.run_loop SIG_MAX SIGCHLD later self1 num_done
        (tr ++ out.1, out.2)
      else (tr, some (.ok (num_done, self1)))

/-- Order between two signal-driven invocations: the first comes from a lower
signal number than the second, or both are child completions (which all stand
at `SIGCHLD`). -/
def sig_before {Time : Type} (SIGCHLD : Nat) (a b : Event Time) : Prop :=
  (∃ sa sb, a.signum SIGCHLD = some sa ∧ b.signum SIGCHLD = some sb ∧ sa < sb) ∨
  (a.is_child = true ∧ b.is_child = true)

/-- Order between two timer invocations: the deadline of the first is not
later than that of the second. -/
def deadline_le {Time : Type} [LE Time] (a b : Event Time) : Prop :=
  ∀ ta tb, a.deadline = some ta → b.deadline = some tb → ta ≤ tb

/-- The order of invocations claimed for one `run` call: first the
signal-driven ones in ascending signal number, the child completions taking
the place of `SIGCHLD`, then the timers in non-decreasing deadline order. -/
def run_order {Time : Type} [LE Time] (SIGCHLD : Nat) (trace : List (Event Time)) :
    Prop :=
  ∃ sigs tms : List (Event Time), trace = sigs ++ tms ∧
    (∀ e ∈ sigs, (e.signum SIGCHLD).isSome = true) ∧
    sigs.Pairwise (sig_before SIGCHLD) ∧
    (∀ e ∈ tms, e.deadline.isSome = true) ∧
    tms.Pairwise deadline_le

end evt

namespace evt

/-- Example: `SIGCHLD` (17) and signal 10 have been delivered, the clock reads
25, and `waitid` reports child 5 as exited. -/
def obs_sample : Obs Nat :=
  { delivered := [17, 10], now := 25, waitid := fun pid => .ok (decide (pid = 5)) }

end evt

namespace sys

/-- An open file description: the file it is open on, the flags it was opened
with and its offset. -/
structure OpenFile where
  file : Nat
  flags : Nat
  offset : Nat
  deriving DecidableEq, Repr

/-- The struct `timeval`. -/
structure timeval where
  tv_sec : Int
  tv_usec : Int
  deriving DecidableEq, Repr

/-- The struct `rusage`, with the members the code reads. -/
structure rusage where
  ru_utime : timeval
  ru_stime : timeval
  ru_maxrss : Int
  deriving DecidableEq, Repr

/-- State of a child of the process: still running, or exited and not yet
reaped, with its wait status and resource usage. -/
inductive Child where
  | running
  | zombie (status : Int) (usage : rusage)
  deriving DecidableEq, Repr

/-- The part of the operating system the code talks to, as seen from one
process: its descriptor table (`fds fd` is the open file description that `fd`
refers to, `none` when `fd` is closed), the bound on descriptor numbers, the
open file descriptions and file contents with counters for fresh ones, the file
that `open(path, flags)` yields (`none` when it fails), whether `mkstemp` can
create a file, the children of the process (`none` when there is no such
child), and a count of the `wait4` calls made. -/
structure Os where
  fds : Nat → Option Nat
  limit : Nat
  ofds : Nat → OpenFile
  next_ofd : Nat
  data : Nat → String
  next_file : Nat
  path_file : String → Nat → Option Nat
  tmp_ok : Bool
  children : Int → Option Child
  wait4_calls : Nat

/-- The lowest descriptor number that is not open, if there is one below the
limit. -/
def Os.lowest_free (os : Os) : Option Nat :=
  (List.range os.limit).find? (fun fd => (os.fds fd).isNone)

/-- Modelled from the spec: `xdup` of `xsys.hh`, which is not part of these
sources; `dup(fd)` with a failure surfacing as `SystemError`. The new
descriptor is the lowest free one and refers to the same open file
description. -/
def xdup (os : Os) (fd : Nat) : Except Exc (Nat × Os) :=
  match os.fds fd with
  | none => .error (Exc.SystemError "dup")
  | some d =>
    match os.lowest_free with
    | none => .error (Exc.SystemError "dup")
    | some new_fd => .ok (new_fd, { os with fds := Function.update os.fds new_fd (some d) })

/-- Modelled from the spec: `xdup2` of `xsys.hh`, which is not part of these
sources; `dup2(old_fd, new_fd)` with a failure surfacing as `SystemError`. It
fails when `old_fd` is not open; when the two are equal it does nothing;
otherwise `new_fd` is made to refer to the open file description of `old_fd`,
whatever it referred to before. The descriptors the code passes as `new_fd` are
0, 1 and 2, which are below any limit. -/
def xdup2 (os : Os) (old_fd : Int) (new_fd : Nat) : Except Exc Os :=
  if old_fd < 0 then .error (Exc.SystemError "dup2")
  else
    match os.fds old_fd.toNat with
    | none => .error (Exc.SystemError "dup2")
    | some d => .ok { os with fds := Function.update os.fds new_fd (some d) }

/-- Modelled from the spec: `xclose` of `xsys.hh`, which is not part of these
sources; `close(fd)` with a failure surfacing as `SystemError`. -/
def xclose (os : Os) (fd : Nat) : Except Exc Os :=
  match os.fds fd with
  | none => .error (Exc.SystemError "close")
  | some _ => .ok { os with fds := Function.update os.fds fd none }

/-- Modelled from the spec: `xopen` of `xsys.hh`, which is not part of these
sources; `open(path, flags)` with a failure surfacing as `SystemError`. A
successful call makes a new open file description at offset 0 and returns the
lowest free descriptor. -/
def xopen (os : Os) (path : String) (flags : Nat) : Except Exc (Nat × Os) :=
  match os.path_file path flags with
  | none => .error (Exc.SystemError "open")
  | some file =>
    match os.lowest_free with
    | none => .error (Exc.SystemError "open")
    | some fd =>
      .ok (fd,
        { os with
          fds := Function.update os.fds fd (some os.next_ofd),
          ofds := Function.update os.ofds os.next_ofd
            { file := file, flags := flags, offset := 0 },
          next_ofd := os.next_ofd + 1 })

/-- Modelled from the spec: `xmkstemp` of `xsys.hh`, which is not part of these
sources; `mkstemp(template)` with a failure surfacing as `SystemError`. A
successful call creates a new empty file and opens it read-write on the lowest
free descriptor. -/
def xmkstemp (os : Os) : Except Exc (Nat × Os) :=
  if os.tmp_ok = false then .error (Exc.SystemError "mkstemp")
  else
    match os.lowest_free with
    | none => .error (Exc.SystemError "mkstemp")
    | some fd =>
      .ok (fd,
        { os with
          fds := Function.update os.fds fd (some os.next_ofd),
          ofds := Function.update os.ofds os.next_ofd
            { file := os.next_file, flags := fs.O_RDWR, offset := 0 },
          next_ofd := os.next_ofd + 1,
          data := Function.update os.data os.next_file "",
          next_file := os.next_file + 1 })

/-- Modelled from the spec: `xunlink` of `xsys.hh`, which is not part of these
sources; `unlink(path)` of the file just created by `mkstemp`. File names are
not part of the state, which is left as it is. -/
def xunlink (os : Os) : Except Exc Os :=
  .ok os

/-- Modelled from the spec: `xfstat` of `xsys.hh`, which is not part of these
sources; the member `st_size` that `fstat(fd, &stats)` reports, with a failure
surfacing as `SystemError`. The descriptor is `none` for the value `-1`. -/
def xfstat_size (os : Os) (fd : Option Nat) : Except Exc Nat :=
  match fd with
  | none => .error (Exc.SystemError "fstat")
  | some fd =>
    match os.fds fd with
    | none => .error (Exc.SystemError "fstat")
    | some d => .ok (os.data (os.ofds d).file).length

/-- Modelled from the spec: `xlseek` of `xsys.hh`, which is not part of these
sources; `lseek(fd, offset, SEEK_SET)` with a failure surfacing as
`SystemError`. -/
def xlseek (os : Os) (fd : Option Nat) (offset : Nat) : Except Exc Os :=
  match fd with
  | none => .error (Exc.SystemError "lseek")
  | some fd =>
    match os.fds fd with
    | none => .error (Exc.SystemError "lseek")
    | some d =>
      .ok { os with ofds := Function.update os.ofds d { os.ofds d with offset := offset } }

/-- Modelled from the spec: `xread` of `xsys.hh`, which is not part of these
sources; `read(fd, buf, size)` with a failure surfacing as `SystemError`: the
bytes read, at most `size` of them from the offset on, and the offset moved
past them. -/
def xread (os : Os) (fd : Option Nat) (size : Nat) : Except Exc (String × Os) :=
  match fd with
  | none => .error (Exc.SystemError "read")
  | some fd =>
    match os.fds fd with
    | none => .error (Exc.SystemError "read")
    | some d =>
      let text :=
        String.mk (((os.data (os.ofds d).file).toList.drop (os.ofds d).offset).take size)
      .ok (text,
        { os with
          ofds := Function.update os.ofds d
            { os.ofds d with offset := (os.ofds d).offset + text.length } })

end sys

namespace run

/-- The class `AnonymousTempFile` (`proc.hh`); `fd_` is `none` for the value
`-1` of a closed file. -/
structure AnonymousTempFile where
  fd_ : Option Nat
  deriving DecidableEq, Repr

/-- Static member `AnonymousTempFile::open`: `xmkstemp` on the template under
`dir_`, then `xunlink` of the name. -/
def AnonymousTempFile.open (os : sys.Os) : Except Exc (Nat × sys.Os) :=
  match sys.xmkstemp os with
  | .error e => .error e
  | .ok (fd, os1) =>
    match sys.xunlink os1 with
    | .error e => .error e
    | .ok os2 => .ok (fd, os2)

/-- Constructor `AnonymousTempFile::AnonymousTempFile`. -/
def AnonymousTempFile.new (os : sys.Os) : Except Exc (AnonymousTempFile × sys.Os) :=
  match AnonymousTempFile.open os with
  | .error e => .error e
  | .ok (fd, os1) => .ok ({ fd_ := some fd }, os1)

/-- Member `AnonymousTempFile::close`. -/
def AnonymousTempFile.close (self : AnonymousTempFile) (os : sys.Os) :
    Except Exc (AnonymousTempFile × sys.Os) :=
  match self.fd_ with
  | some fd =>
    match sys.xclose os fd with
    | .error e => .error e
    | .ok os1 => .ok ({ fd_ := none }, os1)
  | none => .ok (self, os)

/-- Member `AnonymousTempFile::dup_fd`, with the assertion of `get_fd`. -/
def AnonymousTempFile.dup_fd (self : AnonymousTempFile) (os : sys.Os) (fd : Nat) :
    Except Exc sys.Os :=
  match self.fd_ with
  | none => .error (Exc.AssertionError "! is_closed()")
  | some tmp_fd => sys.xdup2 os tmp_fd fd

/-- Member `AnonymousTempFile::rewind`. -/
def AnonymousTempFile.rewind (self : AnonymousTempFile) (os : sys.Os) : Except Exc sys.Os :=
  sys.xlseek os self.fd_ 0

/-- Member `AnonymousTempFile::read()` with the default `max_size` of
`SIZE_MAX`, so that `size` is the size of the file. -/
def AnonymousTempFile.read (self : AnonymousTempFile) (os : sys.Os) :
    Except Exc (String × sys.Os) :=
  match sys.xfstat_size os self.fd_ with
  | .error e => .error e
  | .ok size =>
    match self.rewind os with
    | .error e => .error e
    | .ok os1 =>
      match sys.xread os1 self.fd_ size with
      | .error e => .error e
      | .ok (text, os2) =>
        if text.length = size then .ok (text, os2)
        else .error (Exc.AssertionError "rval == size")

/-- The classes derived from `FdHandler` (`fd_handler.hh`), with the members
each adds; `tmp_file_` is `none` for a null `unique_ptr`. -/
inductive FdHandler.Kind where
  | LeaveFdHandler
  | CloseFdHandler
  | NullFdHandler
  | CaptureFdHandler (tmp_file_ : Option AnonymousTempFile)
  | DupFdHandler (from_fd_ : Int)
  | FileFdHandler (filename_ : String) (mode_ : Nat)
  deriving DecidableEq, Repr

/-- The class `FdHandler` with its dynamic type; `old_fd_` is `none` for the
value `-1`. -/
structure FdHandler where
  fd_ : Nat
  old_fd_ : Option Nat
  kind : FdHandler.Kind
  deriving DecidableEq, Repr

/-- The base member `FdHandler::start(final)`. -/
def FdHandler.base_start (self : FdHandler) (os : sys.Os) (final : Bool) :
    Except Exc (FdHandler × sys.Os) :=
  if final = false then
    match sys.xdup os self.fd_ with
    | .error e => .error e
    | .ok (fd, os1) => .ok ({ self with old_fd_ := some fd }, os1)
  else .ok (self, os)

/-- The virtual member `start(final)`, by dynamic type. -/
def FdHandler.start (self : FdHandler) (os : sys.Os) (final : Bool) :
    Except Exc (FdHandler × sys.Os) :=
  match self.kind with
  | .LeaveFdHandler => .ok (self, os)
  | .CloseFdHandler =>
    match self.base_start os final with
    | .error e => .error e
    | .ok (self1, os1) =>
      match sys.xclose os1 self1.fd_ with
      | .error e => .error e
      | .ok os2 => .ok (self1, os2)
  | .NullFdHandler =>
    match self.base_start os final with
    | .error e => .error e
    | .ok (self1, os1) =>
      match sys.xopen os1 "/dev/null" fs.O_RDONLY with
      | .error e => .error e
      | .ok (null_fd, os2) =>
        match sys.xdup2 os2 null_fd self1.fd_ with
        | .error e => .error e
        | .ok os3 => .ok (self1, os3)
  | .CaptureFdHandler tmp_file_ =>
    match self.base_start os final with
    | .error e => .error e
    | .ok (self1, os1) =>
      match tmp_file_ with
      | none => .error (Exc.AssertionError "tmp_file_ != NULL")
      | some tmp =>
        match tmp.dup_fd os1 self1.fd_ with
        | .error e => .error e
        | .ok os2 => .ok (self1, os2)
  | .DupFdHandler from_fd_ =>
    match self.base_start os final with
    | .error e => .error e
    | .ok (self1, os1) =>
      match sys.xdup2 os1 from_fd_ self1.fd_ with
      | .error e => .error e
      | .ok os2 => .ok (self1, os2)
  | .FileFdHandler filename_ mode_ =>
    match sys.xopen os filename_ mode_ with
    | .error e => .error e
    | .ok (file_fd, os1) =>
      match sys.xdup2 os1 file_fd self.fd_ with
      | .error e => .error e
      | .ok os2 =>
        match sys.xclose os2 file_fd with
        | .error e => .error e
        | .ok os3 => .ok (self, os3)

/-- The virtual member `restore()`: `LeaveFdHandler` overrides it with an empty
body, the other classes inherit `FdHandler::restore`. -/
def FdHandler.restore (self : FdHandler) (os : sys.Os) : Except Exc (FdHandler × sys.Os) :=
  match self.kind with
  | .LeaveFdHandler => .ok (self, os)
  | _ =>
    match self.old_fd_ with
    | none => .error (Exc.AssertionError "old_fd_ >= 0")
    | some old_fd =>
      match sys.xdup2 os old_fd self.fd_ with
      | .error e => .error e
      | .ok os1 =>
        match sys.xclose os1 old_fd with
        | .error e => .error e
        | .ok os2 => .ok ({ self with old_fd_ := none }, os2)

/-- The virtual member `close()`: `CaptureFdHandler` resets `tmp_file_`, whose
destructor closes the file; the other classes inherit the empty body. -/
def FdHandler.close (self : FdHandler) (os : sys.Os) : Except Exc (FdHandler × sys.Os) :=
  match self.kind with
  | .CaptureFdHandler (some tmp) =>
    match tmp.close os with
    | .error e => .error e
    | .ok (_, os1) => .ok ({ self with kind := .CaptureFdHandler none }, os1)
  | _ => .ok (self, os)

/-- Member `FdHandlerSpec::build(fd)`; the constructor of `CaptureFdHandler`
creates the temporary file. -/
def FdHandlerSpec.build (self : FdHandlerSpec) (os : sys.Os) (fd : Nat) :
    Except Exc (FdHandler × sys.Os) :=
  if self.type_ = "leave" then
    .ok ({ fd_ := fd, old_fd_ := none, kind := .LeaveFdHandler }, os)
  else if self.type_ = "close" then
    .ok ({ fd_ := fd, old_fd_ := none, kind := .CloseFdHandler }, os)
  else if self.type_ = "null" then
    .ok ({ fd_ := fd, old_fd_ := none, kind := .NullFdHandler }, os)
  else if self.type_ = "capture" then
    match AnonymousTempFile.new os with
    | .error e => .error e
    | .ok (tmp, os1) =>
      .ok ({ fd_ := fd, old_fd_ := none, kind := .CaptureFdHandler (some tmp) }, os1)
  else if self.type_ = "dup" then
    .ok ({ fd_ := fd, old_fd_ := none, kind := .DupFdHandler self.from_fd_ }, os)
  else if self.type_ = "file" then
    .ok ({ fd_ := fd, old_fd_ := none, kind := .FileFdHandler self.filename_ self.mode_ }, os)
  else .error (Exc.AssertionError "false")

end run

namespace run

/-- Example: a process whose descriptors 0, 1 and 2 are open on the terminal
(open file description 0, file 0), with `/dev/null` as file 1, `/tmp/in` as
file 2, and one exited child, pid 100, not yet reaped. -/
def os_sample : sys.Os :=
  { fds := fun fd => if fd < 3 then some 0 else none,
    limit := 64,
    ofds := fun _ => { file := 0, flags := fs.O_RDWR, offset := 0 },
    next_ofd := 1,
    data := fun _ => "",
    next_file := 3,
    path_file := fun path _ =>
      if path = "/dev/null" then some 1 else if path = "/tmp/in" then some 2 else none,
    tmp_ok := true,
    children := fun pid =>
      if pid = 100 then
        some (sys.Child.zombie 0
          { ru_utime := ⟨0, 1000⟩, ru_stime := ⟨0, 2000⟩, ru_maxrss := 1500 })
      else none,
    wait4_calls := 0 }

end run

namespace run

/-- Example: a `file` handler for `/dev/null`, read-only, bound to descriptor 1. -/
def file_handler_sample : FdHandler :=
  { fd_ := 1, old_fd_ := none, kind := .FileFdHandler "/dev/null" fs.O_RDONLY }

end run

namespace run

/-- The member initializers of `ProcessProgram::ProcessProgram`: the three
handlers are built for the descriptors 0, 1 and 2, in this order, before the
fork. -/
def ProcessProgram.build_handlers (spec : ProcessProgramSpec) (os : sys.Os) :
    Except Exc ((FdHandler × FdHandler × FdHandler) × sys.Os) :=
  match spec.stdin_.build os 0 with
  | .error e => .error e
  | .ok (stdin_, os1) =>
    match spec.stdout_.build os1 1 with
    | .error e => .error e
    | .ok (stdout_, os2) =>
      match spec.stderr_.build os2 2 with
      | .error e => .error e
      | .ok (stderr_, os3) => .ok ((stdin_, stdout_, stderr_), os3)

/-- The two statements `h->start(true); h->close();` of the child branch. -/
def FdHandler.stage (self : FdHandler) (os : sys.Os) : Except Exc (FdHandler × sys.Os) :=
  match self.start os true with
  | .error e => .error e
  | .ok (self1, os1) => self1.close os1

/-- The child branch of `ProcessProgram::ProcessProgram` from "Start file
descriptor handling" up to the `execve`: the three handlers are started and
closed in the order stdin, stdout, stderr, on the descriptor table the child
got from the fork. -/
def ProcessProgram.child_staging (stdin_ stdout_ stderr_ : FdHandler) (os : sys.Os) :
    Except Exc ((FdHandler × FdHandler × FdHandler) × sys.Os) :=
  match stdin_.stage os with
  | .error e => .error e
  | .ok (stdin1, os1) =>
    match stdout_.stage os1 with
    | .error e => .error e
    | .ok (stdout1, os2) =>
      match stderr_.stage os2 with
      | .error e => .error e
      | .ok (stderr1, os3) => .ok ((stdin1, stdout1, stderr1), os3)

/-- Example: the spec of scenario 3, stdout captured and stderr duplicated from
descriptor 1, stdin left alone. -/
def spec_capture_dup : ProcessProgramSpec :=
  { ProcessProgramSpec.new sample_lib with
    executable_ := "/bin/sh", args_ := ["-c", "echo out; echo err 1>&2"],
    stdout_ := FdHandlerSpec.new sample_lib "capture",
    stderr_ := { FdHandlerSpec.new sample_lib "dup" with from_fd_ := 1 } }

/-- Example: a process started with descriptor 1 closed (as by `run ... >&-`),
descriptors 0 and 2 open. -/
def os_stdout_closed : sys.Os :=
  { os_sample with fds := fun fd => if fd = 0 ∨ fd = 2 then some 0 else none }

end run

namespace sys

/-- Modelled from the spec: `xwaitid` of `xsys.hh`, which is not part of these
sources, called as `xwaitid(P_PID, pid, &siginfo, WEXITED | WNOHANG | WNOWAIT)`
with `siginfo.si_pid` preset to 0: the value of `siginfo.si_pid > 0` after the
call, which leaves an exited child in place; a failure (no such child)
surfaces as `SystemError`. -/
def xwaitid (os : Os) (pid : Int) : Except Exc Bool :=
  match os.children pid with
  | none => .error (Exc.SystemError "waitid")
  | some Child.running => .ok false
  | some (Child.zombie _ _) => .ok true

/-- Modelled from the spec: `xwait4` of `xsys.hh`, which is not part of these
sources, called as `xwait4(pid, &status, WNOHANG, &usage)`: the return value
with the new `status` and `usage`. An exited child is reaped and its status
and usage are stored; for a running child 0 is returned and both are left as
they were; a failure (no such child) surfaces as `SystemError`. -/
def xwait4 (os : Os) (pid : Int) (status : Int) (usage : rusage) :
    Except Exc (Int × Int × rusage × Os) :=
  match os.children pid with
  | none => .error (Exc.SystemError "wait4")
  | some Child.running =>
    .ok (0, status, usage, { os with wait4_calls := os.wait4_calls + 1 })
  | some (Child.zombie st us) =>
    .ok (pid, st, us,
      { os with
        children := Function.update os.children pid none,
        wait4_calls := os.wait4_calls + 1 })

end sys

namespace run

/-- Parameters standing for the overloads of `to_string` of `string.hh`, which
is not part of these sources. -/
structure StringLib where
  to_string_int : Int → String
  to_string_long : Int → String
  to_string_timeval : sys.timeval → String

/-- The class `ProcessProgram`; `status_` and `usage_` are indeterminate until
`get_result` has reaped the child. -/
structure ProcessProgram where
  pid_ : Int
  waited_ : Bool
  stdin_ : FdHandler
  stdout_ : FdHandler
  stderr_ : FdHandler
  status_ : Int
  usage_ : sys.rusage
  deriving DecidableEq, Repr

/-- The class `Result`: its member `more_`, a `std::map` from name to text. -/
abbrev Result := List (String × String)

/-- Member `Result::set<std::string>`. -/
def Result.set (self : Result) (name val : String) : Result :=
  StdMap.insert name val self

/-- Member `ProcessProgram::is_done`. -/
def ProcessProgram.is_done (self : ProcessProgram) (os : sys.Os) : Except Exc Bool :=
  sys.xwaitid os self.pid_

/-- Member `CaptureFdHandler::get`, on a handler whose dynamic type is
`CaptureFdHandler`. -/
def CaptureFdHandler.get (tmp_file_ : Option AnonymousTempFile) (os : sys.Os) :
    Except Exc (String × sys.Os) :=
  match tmp_file_ with
  | none => .error (Exc.AssertionError "tmp_file_ != NULL")
  | some tmp => tmp.read os

/-- The statements of `get_result` for one stream: `dynamic_cast` to
`CaptureFdHandler`, and when it succeeds `result->set(name, capture->get())`. -/
def ProcessProgram.add_capture (handler : FdHandler) (name : String) (result : Result)
    (os : sys.Os) : Except Exc (Result × sys.Os) :=
  match handler.kind with
  | .CaptureFdHandler tmp_file_ =>
    match CaptureFdHandler.get tmp_file_ os with
    | .error e => .error e
    | .ok (text, os1) => .ok (result.set name text, os1)
  | _ => .ok (result, os)

/-- The first statement of `get_result`: when the child has not been waited
for, assert that it is done, reap it with `xwait4` and record that. -/
def ProcessProgram.reap (self : ProcessProgram) (os : sys.Os) :
    Except Exc (ProcessProgram × sys.Os) :=
  if self.waited_ = false then
    match self.is_done os with
    | .error e => .error e
    | .ok done =>
      if done = false then .error (Exc.AssertionError "is_done()")
      else
        match sys.xwait4 os self.pid_ self.status_ { self.usage_ with ru_maxrss := 0 } with
        | .error e => .error e
        | .ok (_, status, usage, os1) =>
          .ok ({ self with status_ := status, usage_ := usage, waited_ := true }, os1)
  else .ok (self, os)

/-- Member `ProcessProgram::get_result`: the result, the program after the
call and the state of the system after it. The product `ru_maxrss * 1024` is
taken exactly. -/
def ProcessProgram.get_result (str : StringLib) (self : ProcessProgram) (os : sys.Os) :
    Except Exc (Result × ProcessProgram × sys.Os) :=
  match self.reap os with
  | .error e => .error e
  | .ok (self1, os1) =>
    let result : Result := []
    let result := result.set "status" (str.to_string_int self1.status_)
    let result := result.set "pid" (str.to_string_int self1.pid_)
    match ProcessProgram.add_capture self1.stdout_ "stdout" result os1 with
    | .error e => .error e
    | .ok (result, os2) =>
      match ProcessProgram.add_capture self1.stderr_ "stderr" result os2 with
      | .error e => .error e
      | .ok (result, os3) =>
        let result := result.set "user_cpu_time" (str.to_string_timeval self1.usage_.ru_utime)
        let result :=
          result.set "system_cpu_time" (str.to_string_timeval self1.usage_.ru_stime)
        let result := result.set "max_rss" (str.to_string_long (self1.usage_.ru_maxrss * 1024))
        .ok (result, self1, os3)

/-- Whether the dynamic type of a handler is `CaptureFdHandler`. -/
def FdHandler.is_capture (h : FdHandler) : Bool :=
  match h.kind with
  | .CaptureFdHandler _ => true
  | _ => false

/-- A text library for examples: a number is written as that many letters. -/
def sample_str : StringLib :=
  { to_string_int := fun n => String.mk (List.replicate n.toNat 'i'),
    to_string_long := fun n => String.mk (List.replicate n.toNat 'l'),
    to_string_timeval := fun t => String.mk (List.replicate t.tv_usec.toNat 'u') }

/-- Example: the parent after starting scenario 3; descriptor 3 is the capture
temp file (open file description 1, file 3) holding the child's output, and
the child, pid 100, has exited. -/
def os_parent_sample : sys.Os :=
  { os_sample with
    fds := fun fd => if fd < 3 then some 0 else if fd = 3 then some 1 else none,
    ofds := fun d =>
      if d = 1 then { file := 3, flags := fs.O_RDWR, offset := 0 }
      else { file := 0, flags := fs.O_RDWR, offset := 0 },
    next_ofd := 2,
    data := fun f => if f = 3 then "out\nerr\n" else "",
    next_file := 4,
    children := fun pid =>
      if pid = 100 then
        some (sys.Child.zombie 0 { ru_utime := ⟨0, 1⟩, ru_stime := ⟨0, 2⟩, ru_maxrss := 0 })
      else none }

/-- Example: the program handle of scenario 3 in the parent, stdout captured
through descriptor 3 and stderr duplicated from 1. -/
def program_sample : ProcessProgram :=
  { pid_ := 100, waited_ := false,
    stdin_ := { fd_ := 0, old_fd_ := none, kind := .LeaveFdHandler },
    stdout_ := { fd_ := 1, old_fd_ := none, kind := .CaptureFdHandler (some { fd_ := some 3 }) },
    stderr_ := { fd_ := 2, old_fd_ := none, kind := .DupFdHandler 1 },
    status_ := 0,
    usage_ := { ru_utime := ⟨0, 0⟩, ru_stime := ⟨0, 0⟩, ru_maxrss := 0 } }

end run

namespace run

/-- Example: a `null` handler bound to descriptor 0. -/
def null_handler_sample : FdHandler :=
  { fd_ := 0, old_fd_ := none, kind := .NullFdHandler }

end run

/-! ## The tool `run` (`bin/run.cc`) -/

namespace bin

open run json

/-- Exceptions of the C++ standard library that the tool can meet. -/
inductive StdException where
  | out_of_range (what : String)
  | invalid_argument (what : String)
  deriving DecidableEq, Repr

/-- The ways a call in the tool ends without returning to its caller: the
process exits with a status after writing a message to `std::cerr`, or an
exception propagates that nothing catches. -/
inductive Stop where
  | exit (status : Nat) (message : String)
  | std_exception (e : StdException)
  | exc (e : Exc)
  deriving DecidableEq, Repr

/-- The constant `EXIT_SUCCESS` of `cstdlib`. -/
def EXIT_SUCCESS : Nat := 0

/-- The constant `EXIT_FAILURE` of `cstdlib`. -/
def EXIT_FAILURE : Nat := 1

/-- The constant `STDOUT_FILENO` of `unistd.h`. -/
def STDOUT_FILENO : Int := 1

/-- The constant `STDERR_FILENO` of `unistd.h`. -/
def STDERR_FILENO : Int := 2

/-- The function template `remove_all_of`: erase from the vector every element
that compares equal to `val`. -/
def remove_all_of (vec : List String) (val : String) : List String :=
  vec.filter (fun s => !decide (s = val))

/-- The function `usage_error(message)`: it writes the message, when there is
one, and the usage text to `std::cerr` and calls `exit(EXIT_FAILURE)`, so it
does not return. Of what is written the message is kept. -/
def usage_error {α : Type} (message : String) : Except Stop α :=
  .error (Stop.exit EXIT_FAILURE message)

/-- Member `std::string::substr(pos, len)`, with `none` for the default length
`npos`: it throws `std::out_of_range` when `pos` is past the end. -/
def substr (s : String) (pos : Nat) (len : Option Nat) : Except StdException String :=
  if s.length < pos then .error (StdException.out_of_range "basic_string::substr")
  else
    match len with
    | none => .ok (String.mk (s.toList.drop pos))
    | some n => .ok (String.mk ((s.toList.drop pos).take n))

/-- Position of the first occurrence of a character in a sequence. -/
def find_first (c : Char) : List Char → Option Nat
  | [] => none
  | x :: rest => if x = c then some 0 else (find_first c rest).map (fun i => i + 1)

/-- Member `std::string::find(c)`, with `none` for `npos`. -/
def find (s : String) (c : Char) : Option Nat :=
  find_first c s.toList

/-- The predicate `isspace` of the C locale. -/
def isspace (c : Char) : Bool :=
  c = ' ' || (decide (9 ≤ c.toNat) && decide (c.toNat ≤ 13))

/-- The function `std::stoi(str)` in base 10: white space is skipped, then an
optional sign and the longest run of digits are read, and what follows is
ignored. It throws `std::invalid_argument` when there is no digit to read and
`std::out_of_range` when the number is not a value of `int`. -/
def stoi (str : String) : Except StdException Int :=
  let cs := str.toList.dropWhile isspace
  let neg : Bool := cs.head? = some '-'
  let cs := if cs.head? = some '-' ∨ cs.head? = some '+' then cs.drop 1 else cs
  let digits := cs.takeWhile Char.isDigit
  if digits = [] then .error (StdException.invalid_argument "stoi")
  else
    let mag : Int := digits.foldl (fun acc c => 10 * acc + ((c.toNat : Int) - 48)) 0
    let val : Int := if neg then -mag else mag
    if Json.is_int val then .ok val
    else .error (StdException.out_of_range "stoi")

/-- The function `parse_fd_handler(arg)` of `run.cc`. -/
def parse_fd_handler (lib : fs.FsLib) (arg : String) : Except Stop FdHandlerSpec :=
  let spec := FdHandlerSpec.new lib "leave"
  if arg = "leave" then .ok { spec with type_ := "leave" }
  else if arg = "null" then .ok { spec with type_ := "null" }
  else if arg = "close" then .ok { spec with type_ := "close" }
  else if arg = "capture" then .ok { spec with type_ := "capture" }
  else
    match substr arg 0 (some 4) with
    | .error e => .error (Stop.std_exception e)
    | .ok head =>
      if head = "dup" then
        let spec := { spec with type_ := "dup" }
        match (substr arg 4 none).bind stoi with
        | .ok from_fd => .ok { spec with from_fd_ := from_fd }
        | .error _ => usage_error ("Invalid file descriptor: " ++ arg)
      else if arg = "stdout" then .ok { spec with type_ := "dup", from_fd_ := STDOUT_FILENO }
      else if arg = "stderr" then .ok { spec with type_ := "dup", from_fd_ := STDERR_FILENO }
      else .ok spec

end bin

namespace bin

open run json

/-- The function `read_spec_file(arg)`; `load_json` stands for
`json::parse(fs::load_text_for_arg(arg))`, the text loader being part of
`file.hh`, which is not in these sources. -/
def read_spec_file (lib : fs.FsLib) (load_json : String → Except Exc Json) (arg : String) :
    Except Exc ProcessProgramSpec :=
  (load_json arg).bind (ProcessProgramSpec.from_json lib)

/-- The struct `CmdLine`; `spec_` is never null. -/
structure CmdLine where
  spec_ : ProcessProgramSpec
  write_ : String
  run_ : Bool
  print_ : Bool
  output_ : String
  deriving DecidableEq, Repr

/-- The enumerator `CMD_CLEAR_ENV` of `parse_cmd_line`. -/
def CMD_CLEAR_ENV : Int := 1000

/-- The enumerator `CMD_KEEP_ENV`. -/
def CMD_KEEP_ENV : Int := 1001

/-- The enumerator `CMD_NO_PRINT`. -/
def CMD_NO_PRINT : Int := 1002

/-- The enumerator `CMD_NO_RUN`. -/
def CMD_NO_RUN : Int := 1003

/-- The enumerator `CMD_PRINT`. -/
def CMD_PRINT : Int := 1004

/-- The enumerator `CMD_RUN`. -/
def CMD_RUN : Int := 1005

/-- A character constant as an `int`. -/
def chr (c : Char) : Int := c.toNat

/-- The body of the loop of `parse_cmd_line` for one option: `c` is the value
`getopt_long` returned (not -1) and `optarg` the argument it left, `none` for a
null pointer. -/
def parse_cmd_line_case (lib : fs.FsLib) (load_json : String → Except Exc Json)
    (cmd_line : CmdLine) (c : Int) (optarg : Option String) : Except Stop CmdLine :=
  let arg : String := optarg.getD ""
  let spec := cmd_line.spec_
  let env := spec.env_
  if c = chr 'e' then
    match find arg '=' with
    | none => usage_error ("bad --env option: " ++ arg)
    | some eq =>
      match substr arg 0 (some eq) with
      | .error e => .error (Stop.std_exception e)
      | .ok var =>
        match substr arg (eq + 1) none with
        | .error e => .error (Stop.std_exception e)
        | .ok val =>
          .ok { cmd_line with
            spec_ := { spec with
              env_ := { env with
                keep_ := remove_all_of env.keep_ var,
                unset_ := remove_all_of env.unset_ var,
                set_ := StdMap.insert var val env.set_ } } }
  else if c = chr 'E' then
    (parse_fd_handler lib arg).map (fun h => { cmd_line with spec_ := { spec with stderr_ := h } })
  else if c = chr 'h' then
    .error (Stop.exit EXIT_SUCCESS "")
  else if c = chr 'I' then
    (parse_fd_handler lib arg).map (fun h => { cmd_line with spec_ := { spec with stdin_ := h } })
  else if c = chr 'o' then
    .ok { cmd_line with output_ := arg, print_ := false }
  else if c = chr 'O' then
    (parse_fd_handler lib arg).map (fun h => { cmd_line with spec_ := { spec with stdout_ := h } })
  else if c = chr 'r' then
    match read_spec_file lib load_json arg with
    | .ok s => .ok { cmd_line with spec_ := s }
    | .error e => .error (Stop.exc e)
  else if c = chr 'u' then
    .ok { cmd_line with
      spec_ := { spec with
        env_ := { env with
          keep_ := remove_all_of env.keep_ arg,
          set_ := StdMap.erase arg env.set_,
          unset_ := env.unset_ ++ [arg] } } }
  else if c = chr 'w' then
    .ok { cmd_line with write_ := arg, run_ := false }
  else if c = CMD_CLEAR_ENV then
    .ok { cmd_line with spec_ := { spec with env_ := { env with keep_all_ := false, keep_ := [] } } }
  else if c = CMD_KEEP_ENV then
    .ok { cmd_line with
      spec_ := { spec with
        env_ := { env with
          keep_ := remove_all_of env.keep_ arg ++ [arg],
          set_ := StdMap.erase arg env.set_,
          unset_ := remove_all_of env.unset_ arg } } }
  else if c = CMD_NO_PRINT then .ok { cmd_line with print_ := false }
  else if c = CMD_NO_RUN then .ok { cmd_line with run_ := false }
  else if c = CMD_PRINT then .ok { cmd_line with print_ := true }
  else if c = CMD_RUN then .ok { cmd_line with run_ := true }
  else if c = chr '?' then usage_error ""
  else .error (Stop.exc (Exc.AssertionError "false"))

/-- The loop `while (true)` of `parse_cmd_line`, over the values and arguments
that the successive calls of `getopt_long` yield before it returns -1. -/
def parse_cmd_line_loop (lib : fs.FsLib) (load_json : String → Except Exc Json) :
    CmdLine → List (Int × Option String) → Except Stop CmdLine
  | cmd_line, [] => .ok cmd_line
  | cmd_line, opt :: rest =>
    match parse_cmd_line_case lib load_json cmd_line opt.1 opt.2 with
    | .error e => .error e
    | .ok next => parse_cmd_line_loop lib load_json next rest

/-- The function `parse_cmd_line(argc, argv)`. The command line is given as
what `getopt_long` makes of it: the options in order, each with its argument,
and the arguments that are not options (`argv[optind]` onwards after the
loop). -/
def parse_cmd_line (lib : fs.FsLib) (load_json : String → Except Exc Json)
    (options : List (Int × Option String)) (operands : List String) : Except Stop CmdLine :=
  let cmd_line : CmdLine :=
    { spec_ := ProcessProgramSpec.new lib, write_ := "", run_ := true, print_ := true,
      output_ := "" }
  match parse_cmd_line_loop lib load_json cmd_line options with
  | .error e => .error e
  | .ok cmd_line =>
    match operands with
    | [] => .ok cmd_line
    | executable :: args =>
      .ok { cmd_line with spec_ := { cmd_line.spec_ with executable_ := executable, args_ := args } }

/-- The three name collections of an `EnvSpec` are pairwise disjoint. -/
def env_disjoint (E : EnvSpec) : Prop :=
  (∀ n ∈ E.keep_, n ∉ E.unset_) ∧ (∀ n ∈ E.keep_, n ∉ StdMap.keys E.set_) ∧
    (∀ n ∈ E.unset_, n ∉ StdMap.keys E.set_)

/-- The values `getopt_long` returns for the four options that edit the
environment: `--clear-env`, `--keep-env`, `-u` and `-e`. -/
def is_env_option (c : Int) : Prop :=
  c = CMD_CLEAR_ENV ∨ c = CMD_KEEP_ENV ∨ c = chr 'u' ∨ c = chr 'e'

/-- A loader for examples, which finds no file. -/
def load_none : String → Except Exc Json :=
  fun arg => .error (Exc.SystemError arg)

end bin

namespace bin

open run json

/-- Example: a command line under construction, with entries in all three name
collections of its environment spec. -/
def cmd_line_sample : CmdLine :=
  { spec_ :=
      { ProcessProgramSpec.new sample_lib with
        env_ := { keep_all_ := false, keep_ := ["A", "B"], unset_ := ["A", "C"],
                  set_ := [("D", "4")] } },
    write_ := "", run_ := true, print_ := true, output_ := "" }

end bin

namespace bin

open run json

/-- Example: the options of
`run -e A=1 --keep-env A -u A -e B=2 --clear-env --keep-env B -e C=`. -/
def options_sample : List (Int × Option String) :=
  [(chr 'e', some "A=1"), (CMD_KEEP_ENV, some "A"), (chr 'u', some "A"),
   (chr 'e', some "B=2"), (CMD_CLEAR_ENV, none), (CMD_KEEP_ENV, some "B"),
   (chr 'e', some "C=")]

end bin

namespace run

/-- Example: the scenario of C1 with its `keep` list written in the other
order. -/
def env_scenario_permuted : EnvSpec :=
  { keep_all_ := false, keep_ := ["B", "A"], unset_ := ["B"], set_ := [("A", "z"), ("D", "4")] }

end run

namespace sys

/-- The NUL character, which ends a C string. -/
def NUL : Char := Char.ofNat 0

/-- What `strncpy(dest, src, n)` stores at `dest`, for `src` the `c_str()` of a
string with the characters `src`: the characters before the first NUL, at most
`n` of them, then NULs up to `n` characters in all. -/
def strncpy (src : List Char) (n : Nat) : List Char :=
  let s := src.takeWhile (fun c => c != NUL)
  (s ++ List.replicate (n - s.length) NUL).take n

/-- What `strcpy(dest, src)` stores at `dest`, for `src` the `c_str()` of a
string with the characters `src`: the characters before the first NUL, and a
NUL. -/
def strcpy (src : List Char) : List Char :=
  src.takeWhile (fun c => c != NUL) ++ [NUL]

/-- The allocation made by `Environment::Buffer::build`: its length in bytes,
the array of pointers at its start (each the offset of its target from the
start of the allocation, `none` for a null pointer) and the bytes after that
array (`none` for a byte never written, whose value is indeterminate). -/
structure Environment.Buffer where
  alloc : Nat
  vars : List (Option Nat)
  chars : List (Option Char)
  deriving DecidableEq, Repr

/-- Store of the characters `cs` at position `pos` of a byte sequence. -/
def Environment.Buffer.store (chars : List (Option Char)) (pos : Nat) (cs : List Char) :
    List (Option Char) :=
  chars.take pos ++ cs.map some ++ chars.drop (pos + cs.length)

/-- The variables of the second loop of `Environment::Buffer::build`: the
pointers stored so far (`vars` points past them), the bytes after the pointer
array, and `var`, as an offset from the start of the allocation. -/
structure Environment.Buffer.Fill where
  vars : List (Option Nat)
  chars : List (Option Char)
  var : Nat
  deriving DecidableEq, Repr

/-- The second loop of `Environment::Buffer::build`; `base` is the offset of
the first byte after the pointer array. -/
def Environment.Buffer.build_loop (base : Nat) :
    List (String × String) → Environment.Buffer.Fill → Environment.Buffer.Fill
  | [], st => st
  | i :: rest, st =>
    let name := i.1
    let val := i.2
    let chars := Environment.Buffer.store st.chars (st.var - base)
      (strncpy name.toList name.length)
    let chars := Environment.Buffer.store chars (st.var - base + name.length) ['=']
    let chars := Environment.Buffer.store chars (st.var - base + name.length + 1)
      (strcpy val.toList)
    Environment.Buffer.build_loop base rest
      { vars := st.vars ++ [some st.var], chars := chars,
        var := st.var + (name.length + 1 + val.length + 1) }

/-- Static member `Environment::Buffer::build`; `ptr_size` is `sizeof(char*)`.
The allocation itself is taken to succeed. -/
def Environment.Buffer.build (ptr_size : Nat) (env : Environment) :
    Except Exc Environment.Buffer :=
  let alloc := env.foldl (fun alloc i => alloc + (i.1.length + 1 + i.2.length + 1))
    ((env.length + 1) * ptr_size)
  let base := (env.length + 1) * ptr_size
  let st := Environment.Buffer.build_loop base env
    { vars := [], chars := List.replicate (alloc - base) none, var := base }
  if st.var = alloc then .ok { alloc := alloc, vars := st.vars ++ [none], chars := st.chars }
  else .error (Exc.AssertionError "var == (char*) buf.get() + alloc")

end sys

namespace run

/-- Example: an environment spec that sets a variable whose name contains `=`,
as loaded from a document whose member `set` maps `A=B` to `c`. -/
def env_eq_name : EnvSpec :=
  { keep_all_ := false, keep_ := [], unset_ := [], set_ := [("A=B", "c")] }

end run

namespace sys

/-- The system call `write(fd, buf, n)` on a file that is not open for
appending, as POSIX defines it; the code does not call it, its child and the
standard streams do. The descriptor must be open for writing; the text replaces
what the file holds from the offset of the open file description on (a gap
between the end of the file and the offset reads as NULs), and the offset moves
past it. A failure is a `SystemError`. -/
def write (os : Os) (fd : Nat) (text : String) : Except Exc Os :=
  match os.fds fd with
  | none => .error (Exc.SystemError "write")
  | some d =>
    let of := os.ofds d
    if of.flags % 4 = fs.O_RDONLY then .error (Exc.SystemError "write")
    else
      let old := (os.data of.file).toList
      let new := old.take of.offset ++ List.replicate (of.offset - old.length) NUL
        ++ text.toList ++ old.drop (of.offset + text.length)
      .ok { os with
        data := Function.update os.data of.file (String.mk new),
        ofds := Function.update os.ofds d { of with offset := of.offset + text.length } }

/-- What a program does with its descriptors between two calls of the handler:
a `write`, a `dup`, a `dup2`, a `close` or an `open`. -/
inductive Act where
  | write (fd : Nat) (text : String)
  | dup (fd : Nat)
  | dup2 (old_fd new_fd : Nat)
  | close (fd : Nat)
  | open_file (path : String) (flags : Nat)
  deriving DecidableEq, Repr

/-- The descriptor that an action closes or redirects, if it does. -/
def Act.target : Act → Option Nat
  | .dup2 _ new_fd => some new_fd
  | .close fd => some fd
  | _ => none

/-- One action on the system. -/
def Os.step (os : Os) : Act → Except Exc Os
  | .write fd text => write os fd text
  | .dup fd => (xdup os fd).map Prod.snd
  | .dup2 old_fd new_fd => xdup2 os old_fd new_fd
  | .close fd => xclose os fd
  | .open_file path flags => (xopen os path flags).map Prod.snd

/-- A sequence of actions, stopping at the first that fails. -/
def Os.run : Os → List Act → Except Exc Os
  | os, [] => .ok os
  | os, a :: rest =>
    match os.step a with
    | .error e => .error e
    | .ok os1 => Os.run os1 rest

/-- The text that one action writes through the open file description `d`:
the text of a write whose descriptor refers to `d` at the time of the write.
A descriptor refers to the same open file description as the one it was
duplicated from. -/
def Os.written_by (d : Nat) (os : Os) : Act → String
  | .write fd text => if os.fds fd = some d then text else ""
  | _ => ""

/-- The text that a sequence of actions writes through the open file
description `d`, in the order of the writes. -/
def Os.written (d : Nat) : Os → List Act → String
  | _, [] => ""
  | os, a :: rest =>
    match os.step a with
    | .error _ => Os.written_by d os a
    | .ok os1 => Os.written_by d os a ++ Os.written d os1 rest

/-- Consistency of the counters of the system state: every open descriptor
refers to an open file description made so far, every such description is on a
file made so far, and `open` yields a file made so far. -/
def Os.WF (os : Os) : Prop :=
  (∀ fd d, os.fds fd = some d → d < os.next_ofd) ∧
  (∀ d, d < os.next_ofd → (os.ofds d).file < os.next_file) ∧
  (∀ path flags f, os.path_file path flags = some f → f < os.next_file)

/-- The open file description `d` is the only one on the file `f`, it is open
for reading and writing, and its offset is at the end of the file. -/
def Os.Captures (d f : Nat) (os : Os) : Prop :=
  (os.ofds d).file = f ∧ (os.ofds d).offset = (os.data f).length ∧
  (os.ofds d).flags = fs.O_RDWR ∧ d < os.next_ofd ∧
  (∀ fd d1, os.fds fd = some d1 → d1 < os.next_ofd) ∧
  (∀ d1, d1 < os.next_ofd → d1 ≠ d → (os.ofds d1).file ≠ f) ∧
  (∀ path flags f1, os.path_file path flags = some f1 → f1 ≠ f)

end sys

namespace run

/-- Constructor `CaptureFdHandler::CaptureFdHandler(fd)`: it creates the
temporary file. -/
def CaptureFdHandler.new (os : sys.Os) (fd : Nat) : Except Exc (FdHandler × sys.Os) :=
  match AnonymousTempFile.new os with
  | .error e => .error e
  | .ok (tmp, os1) =>
    .ok ({ fd_ := fd, old_fd_ := none, kind := .CaptureFdHandler (some tmp) }, os1)

/-- The descriptors a handler keeps for itself: the saved copy of its target
and, for a capture handler, the descriptor of the temporary file. -/
def FdHandler.private_fds (h : FdHandler) : List Nat :=
  h.old_fd_.toList ++
    match h.kind with
    | .CaptureFdHandler (some tmp) => tmp.fd_.toList
    | _ => []

/-- Member `CaptureFdHandler::get` on a handler: `none` when its dynamic type
is not `CaptureFdHandler`. -/
def FdHandler.get (h : FdHandler) (os : sys.Os) : Option (Except Exc (String × sys.Os)) :=
  match h.kind with
  | .CaptureFdHandler tmp_file_ => some (CaptureFdHandler.get tmp_file_ os)
  | _ => none

end run

namespace run

/-- Example: what `work/fd_handler0.cc` does between `fh1.start()` and
`fh1.restore()`, with descriptor 5 the lowest free one: `fh2.start()` (a `dup`
of 2 and a `dup2` of 1 onto 2), the writes to `std::cout` and `std::cerr`,
`fh2.restore()` (a `dup2` of 5 onto 2 and a `close` of 5) and two more writes. -/
def fd_handler0_acts : List sys.Act :=
  [.dup 2, .dup2 1 2,
   .write 1 "Hello, world!\n", .write 2 "err0\n", .write 1 "This is a test.\n",
   .write 2 "err1\n", .write 1 "The end.\n",
   .dup2 5 2, .close 5,
   .write 1 "Really, the end.\n", .write 2 "err2\n"]

end run

namespace run

open json

/-- Static member `ProgramSpec::from_json`; the `ProgramSpec` it returns is the
`ProcessProgramSpec` loaded. -/
def ProgramSpec.from_json (lib : fs.FsLib) (json : Json) : Except Exc ProcessProgramSpec := do
  let type ← (← json.subscript "type").get_str
  if type = ProcessProgramSpec.JSON_TYPE_NAME then
    ProcessProgramSpec.from_json lib json
  else throw (Exc.AssertionError "false")

/-- Example: a program document of another type, with the members a process
program has. -/
def doc_other_type : Json :=
  Json.OBJ [("args", Json.ARR []), ("executable", Json.STR "/bin/true"),
    ("type", Json.STR "ShellProgram")]

end run

namespace run

open json

end run

namespace evt

/-- Member `SignalHandler::set(signum, callback)` with the state in which it
ends: at a `throw`, the exception together with the dispatcher and the signal
state at that point. For a failed assertion inside `install(signum)` the
process aborts, and the state given is the one before that call. -/
def SignalHandler.set_state (SIG_MAX : Nat) (self : SignalHandler) (w : SigWorld)
    (signum : Nat) (callback : Callback) :
    Except (Exc × SignalHandler × SigWorld) (SignalHandler × SigWorld) :=
  if ¬ (0 < signum ∧ signum < SIG_MAX) then
    .error (Exc.AssertionError "0 < signum && signum < SIG_MAX", self, w)
  else if callback = none then
    .error (Exc.AssertionError "callback != nullptr", self, w)
  else if (self.signals_ signum).callback_ ≠ none then
    .error (Exc.Error "signal already set", self, w)
  else
    let self1 : SignalHandler :=
      { self with
        signals_ := Function.update self.signals_ signum
          { self.signals_ signum with callback_ := callback } }
    if w.instance_ = some self.this then
      match SignalHandler.install_signum SIG_MAX self1 w signum with
      | .ok s => .ok s
      | .error e => .error (e, self1, w)
    else .ok (self1, w)

/-- Constructor `Reactor::Reactor()`: the tables are empty, the dispatcher gets
a closure for `SIGCHLD` that sets `signals_[SIGCHLD].raised_` (its identity is
the signal number) and is installed. `this` is the address of the member
`signal_handler_`. -/
def Reactor.new {Time : Type} (SIG_MAX SIGCHLD : Nat) (this : Nat) (w : SigWorld) :
    Except Exc (Reactor Time × SigWorld) :=
  let signals_ : Nat → Signal := fun _ => { callback_ := none, raised_ := false }
  let signals_ := Function.update signals_ SIGCHLD { signals_ SIGCHLD with raised_ := false }
  match SignalHandler.set SIG_MAX (SignalHandler.new this) w SIGCHLD (some SIGCHLD) with
  | .error e => .error e
  | .ok registered =>
    match SignalHandler.install SIG_MAX registered.1 registered.2 with
    | .error e => .error e
    | .ok installed =>
      .ok ({ timers_ := [], waits_ := [], signals_ := signals_,
             signal_handler_ := installed.1 }, installed.2)

/-- Member `Reactor::set_signal(signum, callback)` with the state in which it
ends: at a `throw` or a failed assertion, the exception together with the
reactor and the signal state at that point. The closure handed to the
dispatcher sets `signals_[signum].raised_`; its identity is the signal
number. -/
def Reactor.set_signal {Time : Type} (SIG_MAX SIGCHLD : Nat) (self : Reactor Time)
    (w : SigWorld) (signum : Nat) (callback : Callback) :
    Except (Exc × Reactor Time × SigWorld) (Reactor Time × SigWorld) :=
  if ¬ (signum > 0 ∧ signum < SIG_MAX) then
    .error (Exc.AssertionError "signum > 0 && signum < SIG_MAX", self, w)
  else if signum = SIGCHLD then
    .error (Exc.AssertionError "signum != SIGCHLD", self, w)
  else if (self.signals_ signum).callback_ = none then
    let self1 : Reactor Time :=
      { self with
        signals_ := Function.update self.signals_ signum
          { callback_ := callback, raised_ := false } }
    match SignalHandler.set_state SIG_MAX self1.signal_handler_ w signum (some signum) with
    | .ok s => .ok ({ self1 with signal_handler_ := s.1 }, s.2)
    | .error s => .error (s.1, { self1 with signal_handler_ := s.2.1 }, s.2.2)
  else .error (Exc.Error "callback for signal already set", self, w)

/-- Member `Reactor::set_wait(pid, callback)` with the state in which it ends:
at the `throw`, the exception together with the reactor at that point. -/
def Reactor.set_wait {Time : Type} (self : Reactor Time) (pid : Int) (callback : Callback) :
    Except (Exc × Reactor Time) (Reactor Time) :=
  match StdMap.find self.waits_ pid with
  | none => .ok { self with waits_ := StdMap.insert pid callback self.waits_ }
  | some _ => .error (Exc.Error "callback for pid already set", self)

/-- Example: the clock reads 25, no signal has been delivered and no child has
exited. -/
def obs_idle : Obs Nat :=
  { delivered := [], now := 25, waitid := fun _ => .ok false }

end evt

namespace evt

/-- Every closure held by a dispatcher is the flag-setting closure of the
signal it is registered for. -/
def SignalHandler.Wired (h : SignalHandler) : Prop :=
  ∀ s, (h.signals_ s).callback_ = none ∨ (h.signals_ s).callback_ = some s

/-- What can happen to a reactor: the operating system delivers a signal to the
process, or the program calls `add_timer`, `set_signal`, `set_wait` or `run`. -/
inductive Reactor.Op (Time : Type) where
  | deliver (signum : Nat)
  | add_timer (slot_addr : Nat → Nat) (local_addr : Nat) (time : Time) (callback : Callback)
  | set_signal (signum : Nat) (callback : Callback)
  | set_wait (pid : Int) (callback : Callback)
  | run (sleep : Bool) (first : Obs Time) (later : List (SleepResult × Obs Time))

/-- One step of a reactor and the signal state: the invocations of callbacks
registered with the reactor that the step makes, and the state after it. A
delivered signal runs `SignalHandler::handler` when that thunk is the
disposition of the signal. After an `Error` thrown by `set_signal` or
`set_wait` the program may go on, from the state at the throw; after a failed
assertion, or a `run` that does not return, there is no next state. -/
def Reactor.step {Time : Type} [TimeOps Time] (SIG_MAX SIGCHLD : Nat)
    (st : Reactor Time × SigWorld) :
    Reactor.Op Time → List (Event Time) × Option (Reactor Time × SigWorld)
  | .deliver signum =>
    if st.2.disposition signum = sighandler_t.handler then
      ([], some (st.1.deliver signum, st.2))
    else ([], some st)
  | .add_timer slot_addr local_addr time callback =>
    ([], some (st.1.add_timer slot_addr local_addr time callback, st.2))
  | .set_signal signum callback =>
    match st.1.set_signal SIG_MAX SIGCHLD st.2 signum callback with
    | .ok st1 => ([], some st1)
    | .error (Exc.Error _, st1) => ([], some st1)
    | .error _ => ([], none)
  | .set_wait pid callback =>
    match st.1.set_wait pid callback with
    | .ok r1 => ([], some (r1, st.2))
    | .error (_, r1) => ([], some (r1, st.2))
  | .run sleep first later =>
    match st.1.run SIG_MAX SIGCHLD sleep first later with
    | (trace, some (.ok (_, r1))) => (trace, some (r1, st.2))
    | (trace, _) => (trace, none)

/-- A sequence of steps, ending at the first that has no next state. -/
def Reactor.exec {Time : Type} [TimeOps Time] (SIG_MAX SIGCHLD : Nat) :
    Reactor Time × SigWorld → List (Reactor.Op Time) →
      List (Event Time) × Option (Reactor Time × SigWorld)
  | st, [] => ([], some st)
  | st, op :: rest =>
    match (Reactor.step SIG_MAX SIGCHLD st op).2 with
    | none => ((Reactor.step SIG_MAX SIGCHLD st op).1, none)
    | some st1 =>
      ((Reactor.step SIG_MAX SIGCHLD st op).1 ++ (Reactor.exec SIG_MAX SIGCHLD st1 rest).1,
       (Reactor.exec SIG_MAX SIGCHLD st1 rest).2)

/-- Example: a program that registers a callback for signal 10, a wait for
child 5 and a timer, receives `SIGCHLD` and signal 10, and runs the reactor. -/
def ops_sample : List (Reactor.Op Nat) :=
  [.set_signal 10 (some 100), .set_wait 5 (some 50), .add_timer (fun i => i) 99 20 (some 2),
   .deliver 17, .deliver 10,
   .run false { delivered := [], now := 25, waitid := fun pid => .ok (decide (pid = 5)) } []]

end evt

namespace json

/-- The constant `FORMAT_MIN`. -/
def FORMAT_MIN : Int := -2

/-- The constant `FORMAT_ONE_LINE`. -/
def FORMAT_ONE_LINE : Int := -1

/-- The function `sep(os, indent, level)`: the characters it writes. The bound
`indent * level` of its loop is a `size_t`, the product of `indent` converted to
`size_t` and `level`, taken modulo `2^64`. -/
def sep (indent : Int) (level : Nat) : List Char :=
  if indent = FORMAT_MIN then []
  else if indent = FORMAT_ONE_LINE then [' ']
  else '\n' :: List.replicate ((indent * (level : Int)) % 2 ^ 64).toNat ' '

/-- The predicate `isprint` of the C locale: the codes 32 to 126. -/
def isprint (c : Char) : Bool :=
  decide (32 ≤ c.toNat) && decide (c.toNat ≤ 126)

/-- One round of the loop in case `STR` of `Json::print`: the characters
written for the character `c`, or the failed assertion. -/
def Json.print_char (c : Char) : Except Exc (List Char) :=
  if c = '"' then pure ['\\', '"']
  else if c = '\\' then pure ['\\', '\\']
  else if c = Char.ofNat 8 then pure ['\\', 'b']
  else if c = Char.ofNat 12 then pure ['\\', 'f']
  else if c = '\n' then pure ['\\', 'n']
  else if c = '\r' then pure ['\\', 'r']
  else if c = '\t' then pure ['\\', 't']
  else if isprint c then pure [c]
  else throw (Exc.AssertionError "isprint(c)")

/-- The loop `for (char const c : get_str())` in case `STR` of `Json::print`. -/
def Json.print_chars : List Char → Except Exc (List Char)
  | [] => pure []
  | c :: rest => do
    let head ← Json.print_char c
    let tail ← Json.print_chars rest
    pure (head ++ tail)

/-- Case `STR` of `Json::print`. -/
def Json.print_str (val : String) : Except Exc (List Char) := do
  let body ← Json.print_chars val.toList
  pure ('"' :: body ++ ['"'])

mutual
/-- Member `Json::print(os, indent, level)`: the characters written to `os`, or
the failed assertion. `put_double` stands for `os << double` of the standard
library. -/
def Json.print (put_double : Rat → String) (indent : Int) : Json → Nat → Except Exc (List Char)
  | .NUL, _ => pure "null".toList
  | .FAL, _ => pure "false".toList
  | .TRU, _ => pure "true".toList
  | .NUM val, _ => pure (put_double val).toList
  | .STR val, _ => Json.print_str val
  | .ARR val, level => do
    let body ← Json.print_arr put_double indent val level true
    pure ('[' :: body ++ sep indent level ++ [']'])
  | .OBJ val, level => do
    let body ← Json.print_obj put_double indent val level true
    pure ('{' :: body ++ sep indent level ++ ['}'])
/-- The loop over the elements in case `ARR` of `Json::print`. -/
def Json.print_arr (put_double : Rat → String) (indent : Int) :
    List Json → Nat → Bool → Except Exc (List Char)
  | [], _, _ => pure []
  | ent :: rest, level, first => do
    let comma := if first = true then [] else [',']
    let value ← Json.print put_double indent ent (level + 1)
    let tail ← Json.print_arr put_double indent rest level false
    pure (comma ++ sep indent (level + 1) ++ value ++ tail)
/-- The loop over the entries in case `OBJ` of `Json::print`; the name is
written by `Json(ent.first).print(os)`, the `STR` case. -/
def Json.print_obj (put_double : Rat → String) (indent : Int) :
    List (String × Json) → Nat → Bool → Except Exc (List Char)
  | [], _, _ => pure []
  | ent :: rest, level, first => do
    let comma := if first = true then [] else [',']
    let name ← Json.print_str ent.1
    let space := if indent ≠ FORMAT_MIN then [' '] else []
    let value ← Json.print put_double indent ent.2 (level + 1)
    let tail ← Json.print_obj put_double indent rest level false
    pure (comma ++ sep indent (level + 1) ++ name ++ ':' :: space ++ value ++ tail)
end

end json

namespace run

open json

/-- Member `Result::to_json`: `json[iter.first] = iter.second` for the entries
of `more_` in turn, on an empty `OBJ`. -/
def Result.to_json (self : Result) : Json :=
  Json.OBJ (self.foldl (fun obj iter => StdMap.insert iter.1 (Json.STR iter.2) obj) [])

end run

namespace json

/-- The characters that case `STR` of `Json::print` writes without failing: the
seven it escapes and the ones `isprint` accepts. -/
def Json.print_accepts (c : Char) : Bool :=
  c = '"' || c = '\\' || c = Char.ofNat 8 || c = Char.ofNat 12 || c = '\n' || c = '\r' ||
    c = '\t' || isprint c

end json

namespace json

/-- How a run of the parser ends when it returns no value: the exception
`ParseError` is thrown, an assertion fails, the character at `index` of the
text's `c_str()` is read with `index` beyond the terminating NUL (which is at
index `size()`), or, in this model only, the fuel given to the run is used
up. -/
inductive Fault where
  | ParseError
  | AssertionError (expr : String)
  | beyond (index : Nat)
  | fuel
  deriving DecidableEq, Repr

/-- The read `*p` for `p` at `index` of the `c_str()` of `text`: a character of
the text, the terminating NUL at index `size()`, and no defined value beyond
it. -/
def peek (text : List Char) (index : Nat) : Except Fault Char :=
  if index < text.length then .ok (text.getD index sys.NUL)
  else if index = text.length then .ok sys.NUL
  else .error (Fault.beyond index)

/-- The characters of the C string that starts at `index` of the `c_str()` of
`text`: up to the first NUL. -/
def c_str_from (text : List Char) (index : Nat) : List Char :=
  (text.drop index).takeWhile (fun c => c != sys.NUL)

/-- The predicate `isdigit`. -/
def isdigit (c : Char) : Bool :=
  decide (48 ≤ c.toNat) && decide (c.toNat ≤ 57)

/-- The function `_eat(json, c)`: whether the character was there, and the
position after the call. -/
def _eat (text : List Char) (json : Nat) (c : Char) : Except Fault (Bool × Nat) :=
  match peek text json with
  | .error e => .error e
  | .ok ch => if ch = c then .ok (true, json + 1) else .ok (false, json)

/-- The function `_skip_space(json)`: the position after the call. -/
def _skip_space (text : List Char) : Nat → Nat → Except Fault Nat
  | 0, _ => .error Fault.fuel
  | fuel + 1, json =>
    match peek text json with
    | .error e => .error e
    | .ok ch => if bin.isspace ch = true then _skip_space text fuel (json + 1) else .ok json

/-- The first loop of `_parse_str`, which counts the length of the string:
`c` is the position of the loop's pointer, and the result the final `length`. -/
def _parse_str_count (text : List Char) : Nat → Nat → Nat → Except Fault Nat
  | 0, _, _ => .error Fault.fuel
  | fuel + 1, c, length =>
    match peek text c with
    | .error e => .error e
    | .ok ch =>
      if ch = '"' then .ok length
      else if ch = sys.NUL then .error Fault.ParseError
      else
        match _eat text c '\\' with
        | .error e => .error e
        | .ok eaten => _parse_str_count text fuel (eaten.2 + 1) (length + 1)

/-- The `switch` of `_parse_str` on the character after an escape character:
the character stored. -/
def _parse_str_escape (ch : Char) : Except Fault Char :=
  if ch = '"' ∨ ch = '\\' ∨ ch = '/' then .ok ch
  else if ch = 'b' then .ok (Char.ofNat 8)
  else if ch = 'f' then .ok (Char.ofNat 12)
  else if ch = 'n' then .ok '\n'
  else if ch = 'r' then .ok '\r'
  else if ch = 't' then .ok '\t'
  else .error Fault.ParseError

/-- The second loop of `_parse_str`, which builds the string: `str` holds the
characters stored so far, so that `d - str` is its length; the result is the
characters stored and the position after the closing quote. -/
def _parse_str_build (text : List Char) : Nat → Nat → List Char → Except Fault (List Char × Nat)
  | 0, _, _ => .error Fault.fuel
  | fuel + 1, json, str =>
    match _eat text json '"' with
    | .error e => .error e
    | .ok quote =>
      if quote.1 = true then .ok (str, quote.2)
      else
        match _eat text quote.2 '\\' with
        | .error e => .error e
        | .ok escape =>
          match peek text escape.2 with
          | .error e => .error e
          | .ok ch =>
            if escape.1 = true then
              match _parse_str_escape ch with
              | .error e => .error e
              | .ok d => _parse_str_build text fuel (escape.2 + 1) (str ++ [d])
            else _parse_str_build text fuel (escape.2 + 1) (str ++ [ch])

/-- The function `_parse_str(json)`: the string and the position after it. -/
def _parse_str (text : List Char) (fuel : Nat) (json : Nat) : Except Fault (String × Nat) :=
  match _eat text json '"' with
  | .error e => .error e
  | .ok quote =>
    if quote.1 = false then .error Fault.ParseError
    else
      match _parse_str_count text fuel quote.2 0 with
      | .error e => .error e
      | .ok length =>
        match _parse_str_build text fuel quote.2 [] with
        | .error e => .error e
        | .ok built =>
          if built.1.length = length then .ok (String.mk built.1, built.2)
          else .error (Fault.AssertionError "d - str == (int) length")

/-- The function `_parse_num(json)`. `sscanf_lg s` stands for
`sscanf(s, "%lg%n", &num, &chars)` of the C library on the C string `s`: the
number read and the count of characters read, or none when no number is
read. -/
def _parse_num (sscanf_lg : List Char → Option (Rat × Nat)) (text : List Char) (json : Nat) :
    Except Fault (Json × Nat) :=
  match sscanf_lg (c_str_from text json) with
  | some scanned => .ok (Json.NUM scanned.1, json + scanned.2)
  | none => .error Fault.ParseError

/-- The test `strncmp(*json, word, n) == 0` for a `word` of `n` characters. -/
def strncmp_eq (text : List Char) (json : Nat) (word : String) : Bool :=
  (c_str_from text json).take word.length == word.toList

mutual
/-- The function `_parse_val(json)`: the value and the position after it. -/
def _parse_val (sscanf_lg : List Char → Option (Rat × Nat)) (text : List Char) :
    Nat → Nat → Except Fault (Json × Nat)
  | 0, _ => .error Fault.fuel
  | fuel + 1, json =>
    match _skip_space text fuel json with
    | .error e => .error e
    | .ok json =>
      match peek text json with
      | .error e => .error e
      | .ok ch =>
        if ch = '"' then
          match _parse_str text fuel json with
          | .error e => .error e
          | .ok s => .ok (Json.STR s.1, s.2)
        else if ch = '{' then _parse_obj sscanf_lg text fuel json
        else if ch = '[' then _parse_arr sscanf_lg text fuel json
        else if ch = '-' ∨ isdigit ch = true then _parse_num sscanf_lg text json
        else if strncmp_eq text json "true" = true then .ok (Json.TRU, json + 4)
        else if strncmp_eq text json "false" = true then .ok (Json.FAL, json + 5)
        else if strncmp_eq text json "null" = true then .ok (Json.NUL, json + 4)
        else .error Fault.ParseError
/-- The function `_parse_obj(json)`. -/
def _parse_obj (sscanf_lg : List Char → Option (Rat × Nat)) (text : List Char) :
    Nat → Nat → Except Fault (Json × Nat)
  | 0, _ => .error Fault.fuel
  | fuel + 1, json =>
    match _eat text json '{' with
    | .error e => .error e
    | .ok curly =>
      if curly.1 = false then .error Fault.ParseError
      else
        match _skip_space text fuel curly.2 with
        | .error e => .error e
        | .ok json =>
          match _eat text json '}' with
          | .error e => .error e
          | .ok close =>
            if close.1 = true then .ok (Json.OBJ [], close.2)
            else _parse_obj_loop sscanf_lg text fuel close.2 []
/-- The loop of `_parse_obj` over the elements, with the entries of `obj` so
far. -/
def _parse_obj_loop (sscanf_lg : List Char → Option (Rat × Nat)) (text : List Char) :
    Nat → Nat → List (String × Json) → Except Fault (Json × Nat)
  | 0, _, _ => .error Fault.fuel
  | fuel + 1, json, obj =>
    match _skip_space text fuel json with
    | .error e => .error e
    | .ok json =>
      match _parse_str text fuel json with
      | .error e => .error e
      | .ok name =>
        match _skip_space text fuel name.2 with
        | .error e => .error e
        | .ok json =>
          match _eat text json ':' with
          | .error e => .error e
          | .ok colon =>
            if colon.1 = false then .error Fault.ParseError
            else
              match _skip_space text fuel colon.2 with
              | .error e => .error e
              | .ok json =>
                match _parse_val sscanf_lg text fuel json with
                | .error e => .error e
                | .ok val =>
                  match _skip_space text fuel val.2 with
                  | .error e => .error e
                  | .ok json =>
                    match _eat text json ',' with
                    | .error e => .error e
                    | .ok comma =>
                      if comma.1 = true then
                        _parse_obj_loop sscanf_lg text fuel comma.2
                          (StdMap.insert name.1 val.1 obj)
                      else
                        match _eat text comma.2 '}' with
                        | .error e => .error e
                        | .ok close =>
                          if close.1 = true then
                            .ok (Json.OBJ (StdMap.insert name.1 val.1 obj), close.2)
                          else .error Fault.ParseError
/-- The function `_parse_arr(json)`. -/
def _parse_arr (sscanf_lg : List Char → Option (Rat × Nat)) (text : List Char) :
    Nat → Nat → Except Fault (Json × Nat)
  | 0, _ => .error Fault.fuel
  | fuel + 1, json =>
    match _eat text json '[' with
    | .error e => .error e
    | .ok bracket =>
      if bracket.1 = false then .error Fault.ParseError
      else
        match _skip_space text fuel bracket.2 with
        | .error e => .error e
        | .ok json =>
          match _eat text json ']' with
          | .error e => .error e
          | .ok close =>
            if close.1 = true then .ok (Json.ARR [], close.2)
            else _parse_arr_loop sscanf_lg text fuel close.2 []
/-- The loop of `_parse_arr` over the elements, with the elements of `arr` so
far. -/
def _parse_arr_loop (sscanf_lg : List Char → Option (Rat × Nat)) (text : List Char) :
    Nat → Nat → List Json → Except Fault (Json × Nat)
  | 0, _, _ => .error Fault.fuel
  | fuel + 1, json, arr =>
    match _skip_space text fuel json with
    | .error e => .error e
    | .ok json =>
      match _parse_val sscanf_lg text fuel json with
      | .error e => .error e
      | .ok val =>
        match _skip_space text fuel val.2 with
        | .error e => .error e
        | .ok json =>
          match _eat text json ',' with
          | .error e => .error e
          | .ok comma =>
            if comma.1 = true then _parse_arr_loop sscanf_lg text fuel comma.2 (arr ++ [val.1])
            else
              match _eat text comma.2 ']' with
              | .error e => .error e
              | .ok close =>
                if close.1 = true then .ok (Json.ARR (arr ++ [val.1]), close.2)
                else .error Fault.ParseError
end

/-- The function `parse(json, end)`: the value and `end`. The runs of its loops
and nested calls are bounded by `fuel`. -/
def parse_end (sscanf_lg : List Char → Option (Rat × Nat)) (fuel : Nat) (json : String) :
    Except Fault (Json × Nat) :=
  _parse_val sscanf_lg json.toList fuel 0

/-- The function `parse(json)`. The runs of its loops and nested calls are
bounded by `fuel`. -/
def parse (sscanf_lg : List Char → Option (Rat × Nat)) (fuel : Nat) (json : String) :
    Except Fault Json :=
  match _parse_val sscanf_lg json.toList fuel 0 with
  | .error e => .error e
  | .ok val => .ok val.1

/-- Example of `sscanf` for the texts of natural numbers: the digits at the
start of the text, read in base 10. -/
def sscanf_sample (s : List Char) : Option (Rat × Nat) :=
  let digits := s.takeWhile isdigit
  if digits = [] then none
  else some (((digits.foldl (fun n c => 10 * n + (c.toNat - 48)) 0 : Nat) : Rat), digits.length)

end json

namespace json

/-- How the text after an opening quote goes on. -/
inductive StrEnd where
  | closed
  | unclosed
  | escaped_end
  deriving DecidableEq, Repr

/-- The text `body` after an opening quote, read as `_parse_str` reads it, a
backslash taking the next character with it: `closed` when a closing quote is
met, `escaped_end` when no closing quote is met and the last character is a
backslash that takes the terminating NUL with it, and `unclosed` when the text
ends otherwise, at its end or at a NUL it contains. -/
def str_end : List Char → StrEnd
  | [] => StrEnd.unclosed
  | [c] =>
    if c = '"' then StrEnd.closed
    else if c = sys.NUL then StrEnd.unclosed
    else if c = '\\' then StrEnd.escaped_end
    else StrEnd.unclosed
  | c :: next :: rest =>
    if c = '"' then StrEnd.closed
    else if c = sys.NUL then StrEnd.unclosed
    else if c = '\\' then str_end rest
    else str_end (next :: rest)

end json

namespace sys

/-- The record `NAME=VALUE` followed by NUL of one entry of an environment. -/
def Environment.record (i : String × String) : List Char :=
  i.1.toList ++ '=' :: i.2.toList ++ [NUL]

/-- The records of the entries of an environment, one after the other. -/
def Environment.records : Environment → List Char
  | [] => []
  | i :: rest => Environment.record i ++ Environment.records rest

/-- The offsets of consecutive records of the entries when the first one is at
offset `var`. -/
def Environment.pointers : Nat → Environment → List (Option Nat)
  | _, [] => []
  | var, i :: rest =>
    some var :: Environment.pointers (var + (Environment.record i).length) rest

/-- Example: an environment of two variables. -/
def env_two : Environment := [("A", "1"), ("HOME", "/")]

end sys

namespace run

/-- What one round of the loop of `wait` observes: what `is_done()` returns or
throws, and how the calls of `nanosleep` in the `sleep` that follows end. -/
structure WaitObs where
  is_done : Except Exc Bool
  nanosleep : Except Exc Unit

/-- The function `sleep(time)`: its assertion, then the calls of `nanosleep`,
which end as `nanosleep` says. The type `double` is taken as the rationals. -/
def sleep (time : Rat) (nanosleep : Except Exc Unit) : Except Exc Unit :=
  if time ≥ 0 then nanosleep else .error (Exc.AssertionError "time >= 0")

/-- The constant `wait_time_max` of `wait`. -/
def wait_time_max : Rat := 1 / 10

/-- The loop of `wait(prog)`, one element of the list per round, entered with
the current `wait_time`: the arguments of the calls of `sleep`, in order, and
the outcome, `none` when the observations end while the program is not done.
The type `double` is taken as the rationals, its arithmetic as exact. -/
def wait_loop : List WaitObs → Rat → List Rat × Option (Except Exc Unit)
  | [], _ => ([], none)
  | obs :: later, wait_time =>
    match obs.is_done with
    | .error e => ([], some (.error e))
    | .ok done =>
      if done = true then ([], some (.ok ()))
      else
        let wait_time := min wait_time_max (wait_time * (101 / 100))
        match sleep wait_time obs.nanosleep with
        | .error e => ([wait_time], some (.error e))
        | .ok _ =>
          let out := wait_loop later wait_time
          (wait_time :: out.1, out.2)

/-- The function `wait(prog)`. -/
def wait (rounds : List WaitObs) : List Rat × Option (Except Exc Unit) :=
  wait_loop rounds (1 / 1000)

/-- The arguments of the next `n` calls of `sleep` made by `wait` when the
variable `wait_time` holds `wait_time`. -/
def wait_times : Nat → Rat → List Rat
  | 0, _ => []
  | n + 1, wait_time =>
    min wait_time_max (wait_time * (101 / 100)) ::
      wait_times n (min wait_time_max (wait_time * (101 / 100)))

/-- A round of `wait` in which the program is not done and the sleep ends
normally. -/
def round_busy : WaitObs := { is_done := .ok false, nanosleep := .ok () }

end run

namespace param

/-- The typedef `Param`. -/
abbrev Param := String

/-- The typedef `Arg`. -/
abbrev Arg := String

/-- The class `Params`, a `std::vector<Param>`. -/
abbrev Params := List Param

/-- The class `Args`, a `std::map<Param, Arg>`. -/
abbrev Args := List (Param × Arg)

/-- How `bind` ends when it returns no value: one of its two exceptions, each
with the parameter it names, or a failed assertion. -/
inductive BindExc where
  | MissingArgError (param : Param)
  | ExtraArgError (param : Param)
  | AssertionError (expr : String)
  deriving DecidableEq, Repr

/-- The first loop of `bind`, over the parameters still to match, with the
arguments bound so far. -/
def bind_params (args : Args) : List Param → Args → Except BindExc Args
  | [], bound => .ok bound
  | param :: rest, bound =>
    match StdMap.find args param with
    | none => .error (BindExc.MissingArgError param)
    | some arg => bind_params args rest (StdMap.insert param arg bound)

/-- The second loop of `bind`, over the arguments still to check, with the
`assert(false)` that follows it: how the branch for a length mismatch ends. -/
def bind_extra (params : Params) : List (Param × Arg) → BindExc
  | [] => BindExc.AssertionError "false"
  | entry :: rest =>
    if entry.1 ∉ params then BindExc.ExtraArgError entry.1 else bind_extra params rest

/-- The function `bind(params, args)`. -/
def bind (params : Params) (args : Args) : Except BindExc Args :=
  match bind_params args params [] with
  | .error e => .error e
  | .ok bound =>
    if args.length ≠ params.length then .error (bind_extra params args) else .ok bound

end param

namespace evt

/-- Example: a reactor whose three timers are in deadline order, the second
with a null callback, and whose two waits are for children 5 and 7, the second
with a null callback; no signal flag is raised. -/
def reactor_null_sample : Reactor Nat :=
  { timers_ := [⟨5, some 1⟩, ⟨10, none⟩, ⟨30, some 3⟩],
    waits_ := [(5, some 50), (7, none)],
    signals_ := fun _ => { callback_ := none, raised_ := false },
    signal_handler_ := dispatcher_sample }

/-- Example: `waitid` reports the children 5 and 6 as exited and no other. -/
def waitid_sample (pid : Int) : Except Exc Bool :=
  .ok (decide (pid = 5 ∨ pid = 6))

end evt

namespace evt

/-- Example: what the example program does after it has registered its
callback for signal 10. -/
def ops_later_sample : List (Reactor.Op Nat) :=
  [.set_wait 5 (some 50), .add_timer (fun i => i) 99 20 (some 2), .deliver 17, .deliver 10,
   .run false { delivered := [], now := 25, waitid := fun pid => .ok (decide (pid = 5)) } []]

end evt

namespace json

/-- What follows a number in a printed document: the end of the text, or one of
the characters comma, space, newline, closing bracket and closing brace. -/
def ends_number (tail : List Char) : Prop :=
  ∀ c, tail.head? = some c → c = ',' ∨ c = ' ' ∨ c = '\n' ∨ c = ']' ∨ c = '}'

/-- The library writes the number `x` and reads it back: `os << x` writes a
text without NUL that starts with a digit or a minus sign, and `sscanf` with
`%lg%n` on that text, followed by the end of the text or by a character that
can follow a number in a printed document, reads `x` and counts the characters
of the text. -/
def Scans (put_double : Rat → String) (sscanf_lg : List Char → Option (Rat × Nat))
    (x : Rat) : Prop :=
  (∃ c rest, (put_double x).toList = c :: rest ∧ (c = '-' ∨ isdigit c = true)) ∧
  sys.NUL ∉ (put_double x).toList ∧
  ∀ tail, ends_number tail →
    sscanf_lg ((put_double x).toList ++ tail) = some (x, (put_double x).length)

/-- The first character of a printed value. -/
def value_start (c : Char) : Prop :=
  c = '"' ∨ c = '[' ∨ c = '{' ∨ c = '-' ∨ isdigit c = true ∨ c = 't' ∨ c = 'f' ∨ c = 'n'

mutual
/-- The value trees of the round trip: every string and every object key
consists of printable characters and the seven characters that `Json::print`
escapes, every number is an integer of at most six digits, and every object is
a `std::map`, its keys in strictly ascending order. -/
def Json.Printable : Json → Prop
  | .NUL => True
  | .FAL => True
  | .TRU => True
  | .NUM val => ∃ n : Int, -999999 ≤ n ∧ n ≤ 999999 ∧ val = (n : Rat)
  | .STR val => val.toList.all Json.print_accepts = true
  | .ARR val => Json.PrintableArr val
  | .OBJ val => StdMap.WF val ∧ Json.PrintableObj val
/-- The elements of an array are value trees of the round trip. -/
def Json.PrintableArr : List Json → Prop
  | [] => True
  | ent :: rest => Json.Printable ent ∧ Json.PrintableArr rest
/-- The keys and values of an object are keys and value trees of the round
trip. -/
def Json.PrintableObj : List (String × Json) → Prop
  | [] => True
  | ent :: rest =>
    ent.1.toList.all Json.print_accepts = true ∧ Json.Printable ent.2 ∧
      Json.PrintableObj rest
end

/-- What is printed for the value `v` is read back as `v`: at every level the
text printed starts with the first character of a value, and with enough fuel
`_parse_val`, started at the text with any text before it and a text after it
that can follow a number, returns `v` and the position after the text. -/
def ParsesBack (put_double : Rat → String) (sscanf_lg : List Char → Option (Rat × Nat))
    (indent : Int) (v : Json) : Prop :=
  ∀ level out, Json.print put_double indent v level = .ok out →
    (∃ c rest, out = c :: rest ∧ value_start c) ∧
    ∃ N, ∀ fuel, N ≤ fuel → ∀ pre post, ends_number post →
      _parse_val sscanf_lg (pre ++ (out ++ post)) fuel pre.length =
        .ok (v, pre.length + out.length)

end json

namespace json

/-- Example of `os << double` on a natural number: its decimal digits, the
calls nested at most `fuel` deep. -/
def put_nat_sample : Nat → Nat → List Char
  | 0, _ => ['0']
  | fuel + 1, n =>
    if n < 10 then [Char.ofNat (48 + n)]
    else put_nat_sample fuel (n / 10) ++ [Char.ofNat (48 + n % 10)]

/-- Example of `os << double` on the integers: a minus sign for a negative
number, then the decimal digits of the absolute value. -/
def put_double_sample (x : Rat) : String :=
  String.mk ((if x.num < 0 then ['-'] else []) ++ put_nat_sample x.num.natAbs x.num.natAbs)

/-- Example of `sscanf` for the texts of integers: a minus sign if there is
one, then what `sscanf_sample` reads. -/
def sscanf_int_sample (s : List Char) : Option (Rat × Nat) :=
  if s.head? = some '-' then
    match sscanf_sample s.tail with
    | some r => some (-r.1, r.2 + 1)
    | none => none
  else sscanf_sample s

/-- Example of a value tree of the round trip. -/
def doc_round_trip : Json :=
  Json.OBJ [("a", Json.ARR [Json.NUM (-12), Json.STR "x\n", Json.TRU, Json.ARR []]),
    ("b", Json.OBJ [("c", Json.NUL), ("d", Json.NUM 999999)])]

end json

namespace evt

/-- Example: a reactor with two timers, due at 10 and at 20, and nothing else. -/
def reactor_double_sample : Reactor (Double Nat) :=
  { timers_ := [⟨Double.num 10, some 1⟩, ⟨Double.num 20, some 2⟩],
    waits_ := [],
    signals_ := fun _ => { callback_ := none, raised_ := false },
    signal_handler_ := dispatcher_sample }

end evt

namespace evt

/-- Example: a program that registers a callback for signal 10 and adds timers
due at 10, at NaN, at 5 and at 20, in this order. -/
def ops_nan_sample : List (Reactor.Op (Double Nat)) :=
  [.set_signal 10 (some 100), .add_timer (fun i => i) 99 (Double.num 10) (some 1),
   .add_timer (fun i => i) 99 Double.nan (some 2),
   .add_timer (fun i => i) 99 (Double.num 5) (some 3),
   .add_timer (fun i => i) 99 (Double.num 20) (some 4)]

/-- Example: signal 10 has been delivered, the clock reads 25 and no child has
exited. -/
def obs_double_sample : Obs (Double Nat) :=
  { delivered := [10], now := Double.num 25, waitid := fun _ => .ok false }

end evt

namespace run

/-- Example: the scenario of C1 without the assignment of `A`: keep `[A, B]`,
unset `[B]`, set `{D: 4}`. -/
def env_copy_scenario : EnvSpec :=
  { keep_all_ := false, keep_ := ["A", "B"], unset_ := ["B"], set_ := [("D", "4")] }

end run

/-! # Theorems -/

/-! ## Lemmas on `std::map` -/

namespace StdMap

variable {K V : Type} [LinearOrder K]

theorem find_insert (k : K) (v : V) (m : List (K × V)) (n : K) :
    find (insert k v m) n = if n = k then some v else find m n := by
  induction m with
  | nil => simp [insert, find]
  | cons e rest ih =>
    obtain ⟨k', v'⟩ := e
    unfold insert
    by_cases h1 : k < k'
    · simp [h1, find]
    · by_cases h2 : k = k'
      · subst h2
        simp only [h1, if_false, if_true, find]
        by_cases h3 : n = k <;> simp [h3]
      · simp only [h1, h2, if_false, find, ih]
        by_cases h3 : n = k'
        · have : n ≠ k := fun h => h2 (h ▸ h3)
          simp [h3, this, Ne.symm h2]
        · simp [h3]

theorem find_erase (k : K) (m : List (K × V)) (n : K) :
    find (erase k m) n = if n = k then none else find m n := by
  induction m with
  | nil => simp [erase, find]
  | cons e rest ih =>
    obtain ⟨k', v'⟩ := e
    unfold erase at ih ⊢
    by_cases h1 : k' = k
    · subst h1
      simp only [List.filter, ne_eq, not_true_eq_false, decide_False, ih, find]
      by_cases h3 : n = k' <;> simp [h3]
    · simp only [List.filter, ne_eq, h1, not_false_eq_true, decide_True, find, ih]
      by_cases h3 : n = k'
      · have : n ≠ k := fun h => h1 (h3 ▸ h)
        simp [h3, h1]
      · simp [h3]

theorem find_foldl_erase (names : List K) (m : List (K × V)) (n : K) :
    find (names.foldl (fun env name => erase name env) m) n =
      if n ∈ names then none else find m n := by
  induction names generalizing m with
  | nil => simp
  | cons a rest ih =>
    simp only [List.foldl_cons, ih, find_erase, List.mem_cons]
    by_cases h1 : n ∈ rest
    · simp [h1]
    · by_cases h2 : n = a <;> simp [h1, h2]

theorem find_eq_none_of_lt (m : List (K × V)) (n : K)
    (h : ∀ e ∈ m, n < e.1) : find m n = none := by
  induction m with
  | nil => rfl
  | cons e rest ih =>
    obtain ⟨k', v'⟩ := e
    have h1 : n < k' := h (k', v') (List.mem_cons_self _ _)
    simp only [find, ne_of_lt h1, if_false]
    exact ih (fun e he => h e (List.mem_cons_of_mem _ he))

theorem find_foldl_insert (s : List (K × V)) (hs : WF s) (m : List (K × V)) (n : K) :
    find (s.foldl (fun env ent => insert ent.1 ent.2 env) m) n =
      match find s n with
      | some v => some v
      | none => find m n := by
  induction s generalizing m with
  | nil => simp [find]
  | cons e rest ih =>
    obtain ⟨k', v'⟩ := e
    have hs' := List.pairwise_cons.mp hs
    simp only [List.foldl_cons, ih hs'.2, find_insert, find]
    by_cases h1 : n = k'
    · subst h1
      have : find rest n = none := find_eq_none_of_lt rest n (fun e he => hs'.1 e he)
      simp [this]
    · simp [h1]

theorem find_foldl_keep (proc : List (K × V)) (f : List (K × V) → K → List (K × V))
    (hf : ∀ env name, f env name = (find proc name).elim env (fun v => insert name v env))
    (keep : List K) (m : List (K × V)) (n : K) :
    find (keep.foldl f m) n =
      if n ∈ keep then (find proc n).elim (find m n) some else find m n := by
  induction keep generalizing m with
  | nil => simp
  | cons a rest ih =>
    simp only [List.foldl_cons, ih, List.mem_cons, hf]
    by_cases h2 : n = a
    · subst h2
      cases hp : find proc n with
      | none => simp
      | some v => simp [find_insert]
    · cases hp : find proc a with
      | none => simp [h2]
      | some v => simp [h2, find_insert]

end StdMap

/-! ## Lookup in the environment that `EnvSpec::build` returns -/

namespace run

/-- Lookup in the environment built by `EnvSpec::build`, by cases on the name. -/
theorem EnvSpec.find_build (E : EnvSpec) (environ : List String)
    (hset : StdMap.WF E.set_) (n : String) :
    StdMap.find (E.build environ) n =
      match StdMap.find E.set_ n with
      | some v => some v
      | none =>
        if n ∈ E.unset_ then none
        else if E.keep_all_ = true ∨ n ∈ E.keep_ then
          StdMap.find (sys.Environment.get_proc_env [] environ) n
        else none := by
  unfold EnvSpec.build
  simp only [StdMap.find_foldl_insert _ hset, StdMap.find_foldl_erase]
  cases hs : StdMap.find E.set_ n with
  | some v => rfl
  | none =>
    simp only
    by_cases hu : n ∈ E.unset_
    · simp [hu]
    · simp only [hu, if_false]
      cases hk : E.keep_all_ with
      | true => simp
      | false =>
        by_cases hl : E.keep_.length > 0
        · simp only [hl, if_true, Bool.false_eq_true, if_false, false_or]
          refine (StdMap.find_foldl_keep (sys.Environment.get_proc_env [] environ) _
            (fun env name => ?_) E.keep_ [] n).trans ?_
          · cases StdMap.find (sys.Environment.get_proc_env [] environ) name <;> rfl
          by_cases hm : n ∈ E.keep_
          · simp only [hm, if_true, StdMap.find]
            cases StdMap.find (sys.Environment.get_proc_env [] environ) n <;> rfl
          · simp [hm, StdMap.find]
        · have : E.keep_ = [] := by
            cases hke : E.keep_ with
            | nil => rfl
            | cons a l => simp [hke] at hl
          simp [this, StdMap.find]

end run

/-! ## Serialization round trip -/

namespace StdMap
variable {K V : Type} [LinearOrder K]

theorem insert_append (k : K) (v : V) (acc : List (K × V)) (h : ∀ e ∈ acc, e.1 < k) :
    insert k v acc = acc ++ [(k, v)] := by
  induction acc with
  | nil => rfl
  | cons e rest ih =>
    obtain ⟨k', v'⟩ := e
    have h1 : k' < k := h (k', v') (List.mem_cons_self _ _)
    have h2 : ¬ k < k' := not_lt.mpr (le_of_lt h1)
    have h3 : k ≠ k' := ne_of_gt h1
    simp only [insert, h2, h3, if_false, List.cons_append]
    rw [ih (fun e he => h e (List.mem_cons_of_mem _ he))]

theorem foldl_insert_sorted {W : Type} (g : W → V) (s : List (K × W)) (hs : s.Pairwise (fun a b => a.1 < b.1))
    (acc : List (K × V)) (hacc : ∀ a ∈ acc, ∀ e ∈ s, a.1 < e.1) :
    s.foldl (fun o e => insert e.1 (g e.2) o) acc = acc ++ s.map (fun e => (e.1, g e.2)) := by
  induction s generalizing acc with
  | nil => simp
  | cons e rest ih =>
    have hs' := List.pairwise_cons.mp hs
    simp only [List.foldl_cons, List.map_cons]
    rw [insert_append _ _ _ (fun a ha => hacc a ha e (List.mem_cons_self _ _))]
    rw [ih hs'.2]
    · simp
    · intro a ha e' he'
      rcases List.mem_append.mp ha with h | h
      · exact hacc a h e' (List.mem_cons_of_mem _ he')
      · simp only [List.mem_singleton] at h
        subst h
        exact hs'.1 e' he'

end StdMap

namespace json

theorem foldl_append_STR (l : List String) (acc : List Json) :
    l.foldl (fun arr x => arr ++ [Json.STR x]) acc = acc ++ l.map Json.STR := by
  induction l generalizing acc with
  | nil => simp
  | cons a rest ih => simp [ih]

theorem get_strs_map_STR (l : List String) : Json.get_strs (l.map Json.STR) = .ok l := by
  induction l with
  | nil => rfl
  | cons a rest ih =>
    simp only [List.map_cons, Json.get_strs, Json.get_str, ih]
    rfl

end json

namespace run
open json

theorem EnvSpec.from_json_set_map (s : List (String × String)) (hs : StdMap.WF s)
    (acc : List (String × String)) (hacc : ∀ a ∈ acc, ∀ e ∈ s, a.1 < e.1) :
    EnvSpec.from_json_set acc (s.map (fun e => (e.1, Json.STR e.2))) = .ok (acc ++ s) := by
  induction s generalizing acc with
  | nil => simp [EnvSpec.from_json_set]; rfl
  | cons e rest ih =>
    have hs' := List.pairwise_cons.mp hs
    simp only [List.map_cons, EnvSpec.from_json_set, Json.get_str]
    show EnvSpec.from_json_set (StdMap.insert e.1 e.2 acc) _ = _
    rw [StdMap.insert_append _ _ _ (fun a ha => hacc a ha e (List.mem_cons_self _ _))]
    rw [ih hs'.2]
    · simp
    · intro a ha e' he'
      rcases List.mem_append.mp ha with h | h
      · exact hacc a h e' (List.mem_cons_of_mem _ he')
      · simp only [List.mem_singleton] at h
        subst h
        exact hs'.1 e' he'

theorem EnvSpec.env_round_trip (E : EnvSpec) (hs : StdMap.WF E.set_) :
    EnvSpec.from_json E.to_json = .ok { E with keep_ := if E.keep_all_ then [] else E.keep_ } := by
  obtain ⟨ka, keep, unset, set⟩ := E
  simp only at hs
  have h1 := StdMap.foldl_insert_sorted Json.STR set hs [] (by simp)
  have h2 := EnvSpec.from_json_set_map set hs [] (by simp)
  simp only [List.nil_append] at h1 h2
  cases ka with
  | true =>
    simp +decide [EnvSpec.to_json, EnvSpec.from_json, StdMap.insert, StdMap.find, Json.has,
      Json.subscript, Json.get_obj, Json.get_arr, Json.get_type, Json.get_bool, EnvSpec.new,
      foldl_append_STR, get_strs_map_STR, h1, h2, bind, Except.bind, pure, Except.pure]
  | false =>
    cases keep with
    | nil =>
      simp +decide [EnvSpec.to_json, EnvSpec.from_json, StdMap.insert, StdMap.find, Json.has,
        Json.subscript, Json.get_obj, Json.get_arr, Json.get_type, Json.get_bool, EnvSpec.new,
        foldl_append_STR, get_strs_map_STR, h1, h2, bind, Except.bind, pure, Except.pure]
    | cons a l =>
      have h3 := get_strs_map_STR (a :: l)
      simp only [List.map_cons] at h3
      simp +decide [EnvSpec.to_json, EnvSpec.from_json, StdMap.insert, StdMap.find, Json.has,
        Json.subscript, Json.get_obj, Json.get_arr, Json.get_type, Json.get_bool, EnvSpec.new,
        foldl_append_STR, get_strs_map_STR, h1, h2, h3, bind, Except.bind, pure, Except.pure]

end run

/-! ## C2, C3: serialization of program specs -/

namespace run

open json

theorem Json.get_int_intCast (n : Int) (hn : Json.is_int n = true) :
    Json.get_int (Json.NUM n) = .ok n := by
  simp [Json.get_int, Json.get_num, hn, bind, Except.bind, pure, Except.pure]

theorem FdHandlerSpec.fd_round_trip (lib : fs.FsLib) (h : FdHandlerSpec)
    (hv : h.valid lib) :
    ∃ h', FdHandlerSpec.from_json lib (h.to_json lib) = .ok h' ∧ h.agrees h' ∧
      h'.unused_default lib := by
  obtain ⟨ty, fd, fn, md⟩ := h
  obtain ⟨hk, hd, hf⟩ := hv
  simp only at hk hd hf
  rcases hk with h | h | h | h | h | h <;> subst h
  all_goals
    simp +decide [FdHandlerSpec.to_json, FdHandlerSpec.from_json, FdHandlerSpec.new,
      StdMap.insert, StdMap.find, Json.has, Json.subscript, Json.get_obj, Json.get_str,
      Json.get_type, bind, Except.bind, pure, Except.pure, FdHandlerSpec.agrees,
      FdHandlerSpec.unused_default]
  · rw [Json.get_int_intCast fd (hd rfl)]
    exact ⟨_, rfl, by simp⟩
  · obtain ⟨h1, h2⟩ := hf rfl
    rw [h2, h1]
    exact ⟨_, rfl, by simp⟩

theorem FdHandlerSpec.eq_of_agrees (lib : fs.FsLib) (a b : FdHandlerSpec)
    (hab : a.agrees b) (ha : a.unused_default lib) (hb : b.unused_default lib) : b = a := by
  obtain ⟨ty, fd, fn, md⟩ := a
  obtain ⟨ty', fd', fn', md'⟩ := b
  obtain ⟨h1, h2, h3⟩ := hab
  obtain ⟨h4, h5⟩ := ha
  obtain ⟨h6, h7⟩ := hb
  simp only at h1 h2 h3 h4 h5 h6 h7
  subst h1
  by_cases hd : ty = "dup"
  · have hf : ty ≠ "file" := by rw [hd]; decide
    simp [h2 hd, (h5 hf).1, (h5 hf).2, (h7 hf).1, (h7 hf).2]
  · by_cases hf : ty = "file"
    · simp [h4 hd, h6 hd, (h3 hf).1, (h3 hf).2]
    · simp [h4 hd, h6 hd, (h5 hf).1, (h5 hf).2, (h7 hf).1, (h7 hf).2]

/-- C2 (amended): for every valid ProcessProgramSpec `S` (each fd-handler type
one of the six kinds), `from_json(S.to_json())` succeeds and returns a spec with
the same executable, the same args in order, the same `keep_all_`, `unset_` and
`set_`, the `keep_` list of `S` when `keep_all_` is false and an empty one when
it is true, and three fd-handler specs that agree with those of `S` on their
type and on the fields that type uses; it is equal to `S` when `keep_` is empty
under `keep_all_` and the fields a handler's type does not use hold the
constructor's defaults. -/
theorem ProcessProgramSpec.from_json_to_json (lib : fs.FsLib) (S : ProcessProgramSpec)
    (hv : S.valid lib) :
    ∃ S', ProcessProgramSpec.from_json lib (S.to_json lib) = .ok S' ∧
      S'.executable_ = S.executable_ ∧ S'.args_ = S.args_ ∧
      S'.env_.keep_all_ = S.env_.keep_all_ ∧
      S'.env_.keep_ = (if S.env_.keep_all_ then [] else S.env_.keep_) ∧
      S'.env_.unset_ = S.env_.unset_ ∧ S'.env_.set_ = S.env_.set_ ∧
      S.stdin_.agrees S'.stdin_ ∧ S.stdout_.agrees S'.stdout_ ∧ S.stderr_.agrees S'.stderr_ ∧
      ((S.env_.keep_all_ = true → S.env_.keep_ = []) → S.stdin_.unused_default lib →
        S.stdout_.unused_default lib → S.stderr_.unused_default lib → S' = S) := by
  obtain ⟨exe, args, env, sin, sout, serr⟩ := S
  obtain ⟨hs, h0, h1, h2⟩ := hv
  simp only at hs h0 h1 h2
  obtain ⟨a0, e0, g0, d0⟩ := FdHandlerSpec.fd_round_trip lib sin h0
  obtain ⟨a1, e1, g1, d1⟩ := FdHandlerSpec.fd_round_trip lib sout h1
  obtain ⟨a2, e2, g2, d2⟩ := FdHandlerSpec.fd_round_trip lib serr h2
  have he := EnvSpec.env_round_trip env hs
  refine ⟨{ executable_ := exe, args_ := args,
            env_ := { env with keep_ := if env.keep_all_ then [] else env.keep_ },
            stdin_ := a0, stdout_ := a1, stderr_ := a2 }, ?_, rfl, rfl, rfl, rfl, rfl, rfl,
          g0, g1, g2, ?_⟩
  · simp +decide [ProcessProgramSpec.to_json, ProcessProgramSpec.from_json,
      ProcessProgramSpec.new, ProcessProgramSpec.JSON_TYPE_NAME,
      StdMap.insert, StdMap.find, Json.has, Json.subscript, Json.get_obj, Json.get_str,
      Json.get_arr, foldl_append_STR, get_strs_map_STR, he, e0, e1, e2,
      bind, Except.bind, pure, Except.pure]
  · intro hk u0 u1 u2
    simp only at hk u0 u1 u2
    have k0 := FdHandlerSpec.eq_of_agrees lib sin a0 g0 u0 d0
    have k1 := FdHandlerSpec.eq_of_agrees lib sout a1 g1 u1 d1
    have k2 := FdHandlerSpec.eq_of_agrees lib serr a2 g2 u2 d2
    subst k0 k1 k2
    obtain ⟨ka, keep, unset, set⟩ := env
    cases ka with
    | true => simp only at hk; simp [hk]
    | false => simp

end run

namespace run

open json

theorem FdHandlerSpec.fd_doc_round_trip (lib : fs.FsLib) (j : Json)
    (hj : FdHandlerSpec.canonical_json lib j) :
    ∃ h, FdHandlerSpec.from_json lib j = .ok h ∧ h.to_json lib = j := by
  rcases hj with ⟨k, hk, rfl⟩ | ⟨n, hn, rfl⟩ | ⟨f, m, md, h1, h2, h3, rfl⟩
  · rcases hk with h | h | h | h <;> subst h <;>
    simp +decide [FdHandlerSpec.to_json, FdHandlerSpec.from_json, FdHandlerSpec.new,
      StdMap.insert, StdMap.find, Json.has, Json.subscript, Json.get_obj, Json.get_str,
      Json.get_type, bind, Except.bind, pure, Except.pure]
  · simp +decide [FdHandlerSpec.to_json, FdHandlerSpec.from_json, FdHandlerSpec.new,
      StdMap.insert, StdMap.find, Json.has, Json.subscript, Json.get_obj, Json.get_str,
      Json.get_type, Json.get_int_intCast n hn, bind, Except.bind, pure, Except.pure]
  · simp +decide [FdHandlerSpec.to_json, FdHandlerSpec.from_json, FdHandlerSpec.new,
      StdMap.insert, StdMap.find, Json.has, Json.subscript, Json.get_obj, Json.get_str,
      Json.get_type, h1, h2, h3, bind, Except.bind, pure, Except.pure]

theorem EnvSpec.env_doc_round_trip (j : Json) (hj : EnvSpec.canonical_json j) :
    ∃ E, EnvSpec.from_json j = .ok E ∧ E.to_json = j := by
  obtain ⟨keep, unset, set, hs, hk, rfl⟩ := hj
  have h1 := StdMap.foldl_insert_sorted Json.STR set hs [] (by simp)
  have h2 := EnvSpec.from_json_set_map set hs [] (by simp)
  simp only [List.nil_append] at h1 h2
  rcases hk with rfl | rfl | ⟨a, l, rfl⟩
  · simp +decide [EnvSpec.to_json, EnvSpec.from_json, StdMap.insert, StdMap.find, Json.has,
      Json.subscript, Json.get_obj, Json.get_arr, Json.get_type, Json.get_bool, EnvSpec.new,
      foldl_append_STR, get_strs_map_STR, h1, h2, bind, Except.bind, pure, Except.pure]
  · simp +decide [EnvSpec.to_json, EnvSpec.from_json, StdMap.insert, StdMap.find, Json.has,
      Json.subscript, Json.get_obj, Json.get_arr, Json.get_type, Json.get_bool, EnvSpec.new,
      foldl_append_STR, get_strs_map_STR, h1, h2, bind, Except.bind, pure, Except.pure]
  · have h3 := get_strs_map_STR (a :: l)
    simp only [List.map_cons] at h3
    simp +decide [EnvSpec.to_json, EnvSpec.from_json, StdMap.insert, StdMap.find, Json.has,
      Json.subscript, Json.get_obj, Json.get_arr, Json.get_type, Json.get_bool, EnvSpec.new,
      foldl_append_STR, get_strs_map_STR, h1, h2, h3, bind, Except.bind, pure, Except.pure]

/-- C3 (amended): for every spec document `D` in the form the serializer
writes (all seven members present, every fd handler an object holding `type`
and exactly the members of its kind, `env` holding `keep`, `set` and `unset`
with `keep` true, false or a non-empty list of names), loading `D` succeeds
and serializing the loaded spec gives back a value tree equal to `D`. -/
theorem ProcessProgramSpec.to_json_from_json (lib : fs.FsLib) (D : Json)
    (hD : ProcessProgramSpec.canonical_json lib D) :
    (ProcessProgramSpec.from_json lib D).map (ProcessProgramSpec.to_json lib) = .ok D := by
  obtain ⟨exe, args, env, sin, sout, serr, he, h0, h1, h2, rfl⟩ := hD
  obtain ⟨E, e1, e2⟩ := EnvSpec.env_doc_round_trip env he
  obtain ⟨a0, f0, g0⟩ := FdHandlerSpec.fd_doc_round_trip lib sin h0
  obtain ⟨a1, f1, g1⟩ := FdHandlerSpec.fd_doc_round_trip lib sout h1
  obtain ⟨a2, f2, g2⟩ := FdHandlerSpec.fd_doc_round_trip lib serr h2
  simp +decide [ProcessProgramSpec.to_json, ProcessProgramSpec.from_json,
      ProcessProgramSpec.new, ProcessProgramSpec.JSON_TYPE_NAME,
      StdMap.insert, StdMap.find, Json.has, Json.subscript, Json.get_obj, Json.get_str,
      Json.get_arr, foldl_append_STR, get_strs_map_STR, e1, e2, f0, g0, f1, g1, f2, g2,
      bind, Except.bind, pure, Except.pure, Except.map]

end run

namespace run

open json

theorem spec_keep_all_valid : spec_keep_all.valid sample_lib := by
  simp +decide [ProcessProgramSpec.valid, FdHandlerSpec.valid, spec_keep_all,
    ProcessProgramSpec.new, FdHandlerSpec.new, StdMap.WF]

/-- Counterexample to C2 as stated: the spec produced by `run --keep-env A` is
valid, yet loading its serialization does not give it back (the `keep_` list is
not written when `keep_all_` is true). -/
theorem ProcessProgramSpec.from_json_to_json_counterexample :
    spec_keep_all.valid sample_lib ∧
    ProcessProgramSpec.from_json sample_lib (spec_keep_all.to_json sample_lib)
      ≠ .ok spec_keep_all := by
  refine ⟨spec_keep_all_valid, ?_⟩
  simp +decide [ProcessProgramSpec.from_json, ProcessProgramSpec.to_json, spec_keep_all,
    ProcessProgramSpec.new, EnvSpec.new, EnvSpec.to_json, EnvSpec.from_json,
    FdHandlerSpec.to_json, FdHandlerSpec.from_json, FdHandlerSpec.new, StdMap.insert,
    StdMap.find, Json.has, Json.subscript, Json.get_obj, Json.get_str, Json.get_arr,
    Json.get_strs, Json.get_type, Json.get_bool, EnvSpec.from_json_set,
    ProcessProgramSpec.JSON_TYPE_NAME, sample_lib, bind, Except.bind, pure, Except.pure]

theorem spec_sample_valid : spec_sample.valid sample_lib := by
  simp +decide [ProcessProgramSpec.valid, FdHandlerSpec.valid, spec_sample, env_scenario,
    FdHandlerSpec.new, StdMap.WF, sample_lib, Json.is_int, pure, Except.pure]

/-- Witness of C2 (amended) at a spec with a `file`, a `capture` and a `dup`
handler. -/
theorem ProcessProgramSpec.from_json_to_json_witness :
    spec_sample.valid sample_lib ∧
    ProcessProgramSpec.from_json sample_lib (spec_sample.to_json sample_lib)
      = .ok spec_sample := by
  refine ⟨spec_sample_valid, ?_⟩
  obtain ⟨S', h, -, -, -, -, -, -, -, -, -, heq⟩ :=
    ProcessProgramSpec.from_json_to_json sample_lib spec_sample spec_sample_valid
  rw [h, heq]
  · simp [spec_sample, env_scenario]
  all_goals
    simp +decide [FdHandlerSpec.unused_default, spec_sample, FdHandlerSpec.new, sample_lib,
      fs.O_RDONLY]

/-- Counterexample to C3 as stated: a schema document whose handlers are bare
kind strings is not given back by load-then-serialize, which writes each
handler as an object. -/
theorem ProcessProgramSpec.to_json_from_json_counterexample :
    (ProcessProgramSpec.from_json sample_lib doc_bare).map
      (ProcessProgramSpec.to_json sample_lib) ≠ .ok doc_bare := by
  simp +decide [ProcessProgramSpec.from_json, ProcessProgramSpec.to_json, doc_bare,
    ProcessProgramSpec.new, EnvSpec.new, EnvSpec.to_json, EnvSpec.from_json,
    FdHandlerSpec.to_json, FdHandlerSpec.from_json, FdHandlerSpec.new, StdMap.insert,
    StdMap.find, Json.has, Json.subscript, Json.get_obj, Json.get_str, Json.get_arr,
    Json.get_strs, Json.get_type, Json.get_bool, EnvSpec.from_json_set,
    ProcessProgramSpec.JSON_TYPE_NAME, sample_lib, bind, Except.bind, pure, Except.pure,
    Except.map]

theorem doc_sample_canonical : ProcessProgramSpec.canonical_json sample_lib doc_sample := by
  refine ⟨"/bin/echo", ["hello"], _, _, _, _, ?_, ?_, ?_, ?_, rfl⟩
  · exact ⟨Json.ARR [Json.STR "A"], ["B"], [("D", "4")], by simp [StdMap.WF],
      Or.inr (Or.inr ⟨"A", [], rfl⟩), rfl⟩
  · exact Or.inr (Or.inr ⟨"/tmp/in", "", 0, rfl, rfl, rfl, rfl⟩)
  · exact Or.inl ⟨"capture", by simp, rfl⟩
  · exact Or.inr (Or.inl ⟨1, by decide, by simp⟩)

/-- Witness of C3 (amended) at a document with a `file`, a `capture` and a
`dup` handler and a list of kept names. -/
theorem ProcessProgramSpec.to_json_from_json_witness :
    ProcessProgramSpec.canonical_json sample_lib doc_sample ∧
    (ProcessProgramSpec.from_json sample_lib doc_sample).map
      (ProcessProgramSpec.to_json sample_lib) = .ok doc_sample := by
  refine ⟨doc_sample_canonical, ?_⟩
  exact ProcessProgramSpec.to_json_from_json sample_lib doc_sample doc_sample_canonical

end run

/-! ## C8: SignalHandler install and uninstall -/

namespace evt

end evt

namespace evt

end evt

/-! ## Reactor::add_timer, deadlines in a linear order -/

namespace evt

theorem lower_bound_loop_spec {Time : Type} [LinearOrder Time] (timers : List (Timer Time))
    (hs : timers_sorted timers) (T : Time) (less : Nat → Bool)
    (hless : ∀ i t, timers[i]? = some t →
      (less i = true → t.time_ ≤ T) ∧ (less i = false → T ≤ t.time_))
    (fuel first len : Nat) (hf : len ≤ fuel) (hlen : first + len ≤ timers.length)
    (hlo : ∀ i t, i < first → timers[i]? = some t → t.time_ ≤ T)
    (hhi : ∀ i t, first + len ≤ i → timers[i]? = some t → T ≤ t.time_) :
    lower_bound_loop less fuel first len ≤ timers.length ∧
    (∀ i t, i < lower_bound_loop less fuel first len → timers[i]? = some t → t.time_ ≤ T) ∧
    (∀ i t, lower_bound_loop less fuel first len ≤ i → timers[i]? = some t → T ≤ t.time_) := by
  induction fuel generalizing first len with
  | zero =>
    have : len = 0 := by omega
    subst this
    simp only [lower_bound_loop]
    exact ⟨by omega, hlo, fun i t hi => hhi i t (by omega)⟩
  | succ fuel ih =>
    unfold lower_bound_loop
    by_cases h0 : len = 0
    · subst h0
      simp only [if_true]
      exact ⟨by omega, hlo, fun i t hi => hhi i t (by omega)⟩
    · simp only [h0, if_false]
      have hmid : first + len / 2 < timers.length := by
        have : len / 2 < len := Nat.div_lt_self (by omega) (by decide)
        omega
      obtain ⟨tm, htm⟩ : ∃ tm, timers[first + len / 2]? = some tm :=
        ⟨timers[first + len / 2], List.getElem?_eq_getElem hmid⟩
      have hsorted : ∀ (i j : Nat) (a b : Timer Time), i ≤ j → timers[i]? = some a →
          timers[j]? = some b → a.time_ ≤ b.time_ := by
        intro i j a b hij ha hb
        obtain ⟨hi, rfl⟩ := List.getElem?_eq_some_iff.mp ha
        obtain ⟨hj, rfl⟩ := List.getElem?_eq_some_iff.mp hb
        rcases Nat.lt_or_eq_of_le hij with h | h
        · exact List.pairwise_iff_getElem.mp hs i j hi hj h
        · subst h
          exact le_refl _
      cases hl : less (first + len / 2) with
      | true =>
        simp only [if_true]
        have hle := (hless _ tm htm).1 hl
        refine ih (first + len / 2 + 1) (len - len / 2 - 1) (by omega) (by omega) ?_ ?_
        · intro i t hi ht
          exact (hsorted i (first + len / 2) t tm (by omega) ht htm).trans hle
        · intro i t hi ht
          exact hhi i t (by omega) ht
      | false =>
        simp only [Bool.false_eq_true, if_false]
        have hle := (hless _ tm htm).2 hl
        refine ih first (len / 2) (by omega) (by omega) hlo ?_
        intro i t hi ht
        exact hle.trans (hsorted (first + len / 2) i tm t hi htm ht)

theorem TimeOps.lt_linear {Time : Type} [LinearOrder Time] (a b : Time) :
    (TimeOps.lt a b = true) = (a < b) := by
  simp [TimeOps.lt]

theorem TimeOps.ne_linear {Time : Type} [LinearOrder Time] (a b : Time) :
    (TimeOps.ne a b = true) = (a ≠ b) := by
  simp [TimeOps.ne]

theorem Timer.lt_spec {Time : Type} [LinearOrder Time] (a b : Timer Time) (x y : Nat) :
    (a.lt b x y = true → a.time_ ≤ b.time_) ∧ (a.lt b x y = false → b.time_ ≤ a.time_) := by
  unfold Timer.lt
  simp only [TimeOps.ne_linear]
  rw [show TimeOps.lt a.time_ b.time_ = decide (a.time_ < b.time_) from rfl]
  by_cases h : a.time_ = b.time_
  · simp [h]
  · simp only [ne_eq, h, not_false_eq_true, if_true, decide_eq_true_eq, decide_eq_false_iff_not,
      not_lt]
    exact ⟨le_of_lt, id⟩

/-- The insertion of `add_timer` when the deadlines are of a linearly ordered
type, as the doubles other than NaN are: for every timer sequence sorted by
non-decreasing deadline and every (deadline, callback), whatever the addresses
compared by the tie-break of `Timer::operator<` are, the sequence after
`add_timer` is again sorted by non-decreasing deadline, has exactly one more
element, and is the previous sequence with the new timer put in at one
position. -/
theorem Reactor.add_timer_sorted_linear {Time : Type} [LinearOrder Time] (slot_addr : Nat → Nat)
    (local_addr : Nat) (r : Reactor Time) (time : Time) (callback : Callback)
    (hs : timers_sorted r.timers_) :
    timers_sorted (r.add_timer slot_addr local_addr time callback).timers_ ∧
    (r.add_timer slot_addr local_addr time callback).timers_.length = r.timers_.length + 1 ∧
    (∃ p, p ≤ r.timers_.length ∧
      (r.add_timer slot_addr local_addr time callback).timers_ =
        r.timers_.take p ++ { time_ := time, callback_ := callback } :: r.timers_.drop p) ∧
    r.timers_.Sublist (r.add_timer slot_addr local_addr time callback).timers_ := by
  have hless : ∀ (i : Nat) (t : Timer Time), r.timers_[i]? = some t →
      ((match r.timers_[i]? with
        | some t => t.lt { time_ := time, callback_ := callback } (slot_addr i) local_addr
        | none => false) = true → t.time_ ≤ time) ∧
      ((match r.timers_[i]? with
        | some t => t.lt { time_ := time, callback_ := callback } (slot_addr i) local_addr
        | none => false) = false → time ≤ t.time_) := by
    intro i t ht
    rw [ht]
    exact Timer.lt_spec t { time_ := time, callback_ := callback } (slot_addr i) local_addr
  obtain ⟨hp, hlo, hhi⟩ := lower_bound_loop_spec r.timers_ hs time _ hless
    r.timers_.length 0 r.timers_.length (le_refl _) (by omega)
    (fun i t hi => absurd hi (Nat.not_lt_zero i)) (fun i t hi ht => by
      have := (List.getElem?_eq_some_iff.mp ht).1
      omega)
  simp only [Reactor.add_timer, lower_bound]
  generalize lower_bound_loop _ r.timers_.length 0 r.timers_.length = p at hp hlo hhi
  refine ⟨?_, ?_, ⟨p, hp, rfl⟩, ?_⟩
  · unfold timers_sorted at hs ⊢
    rw [List.pairwise_append]
    refine ⟨hs.sublist (List.take_sublist _ _), ?_, ?_⟩
    · rw [List.pairwise_cons]
      refine ⟨?_, hs.sublist (List.drop_sublist _ _)⟩
      intro b hb
      obtain ⟨j, hj⟩ := List.mem_iff_getElem?.mp hb
      rw [List.getElem?_drop] at hj
      exact hhi (p + j) b (by omega) hj
    · intro a ha b hb
      have ha' : a.time_ ≤ time := by
        obtain ⟨i, hi⟩ := List.mem_iff_getElem?.mp ha
        have hip : i < p := by
          by_contra k
          rw [List.getElem?_take_eq_none (by omega)] at hi
          cases hi
        rw [List.getElem?_take_of_lt hip] at hi
        exact hlo i a hip hi
      rcases List.mem_cons.mp hb with rfl | hb'
      · exact ha'
      · obtain ⟨j, hj⟩ := List.mem_iff_getElem?.mp hb'
        rw [List.getElem?_drop] at hj
        exact ha'.trans (hhi (p + j) b (by omega) hj)
  · simp only [List.length_append, List.length_take, List.length_cons, List.length_drop]
    omega
  · conv_lhs => rw [← List.take_append_drop p r.timers_]
    exact List.Sublist.append (List.Sublist.refl _) (List.sublist_cons_self _ _)

/-- Example: a second timer with the deadline 20 already present is added to a
sorted sequence, with addresses that put it between the two timers due at 20;
the result is sorted and one longer. -/
theorem reactor_sample_add_timer :
    timers_sorted reactor_sample.timers_ ∧
    timers_sorted (reactor_sample.add_timer (fun i => i) 2 20 (some 9)).timers_ ∧
    (reactor_sample.add_timer (fun i => i) 2 20 (some 9)).timers_.length = 5 := by
  have hs : timers_sorted reactor_sample.timers_ := by
    simp [timers_sorted, reactor_sample]
  obtain ⟨h1, h2, _⟩ :=
    Reactor.add_timer_sorted_linear (fun i => i) 2 reactor_sample 20 (some 9) hs
  exact ⟨hs, h1, h2⟩

end evt

/-! ## Order of callbacks in Reactor::run, deadlines in a linear order -/

namespace evt

theorem Reactor.handle_sigchld_loop_spec {Time : Type} (waitid : Int → Except Exc Bool)
    (ws : List (Int × Callback)) :
    (∀ e ∈ (@Reactor.handle_sigchld_loop Time waitid ws).1, e.is_child = true) ∧
    (∀ n kept, (@Reactor.handle_sigchld_loop Time waitid ws).2 = .ok (n, kept) →
      (@Reactor.handle_sigchld_loop Time waitid ws).1.length = n) := by
  induction ws with
  | nil => simp [Reactor.handle_sigchld_loop]
  | cons a rest ih =>
    obtain ⟨ih1, ih2⟩ := ih
    unfold Reactor.handle_sigchld_loop
    cases hw : waitid a.1 with
    | error e => simp
    | ok b =>
      cases b with
      | true =>
        cases hc : a.2 with
        | none => simp
        | some c =>
          simp only [if_true, List.mem_cons, forall_eq_or_imp, Event.is_child, true_and,
            List.length_cons]
          refine ⟨ih1, ?_⟩
          intro n kept h
          cases hr : (@Reactor.handle_sigchld_loop Time waitid rest).2 with
          | error e => simp [hr, Except.map] at h
          | ok p =>
            simp only [hr, Except.map, Except.ok.injEq, Prod.mk.injEq] at h
            have := ih2 p.1 p.2 hr
            omega
      | false =>
        simp only [Bool.false_eq_true, if_false]
        refine ⟨ih1, ?_⟩
        intro n kept h
        cases hr : (@Reactor.handle_sigchld_loop Time waitid rest).2 with
        | error e => simp [hr, Except.map] at h
        | ok p =>
          simp only [hr, Except.map, Except.ok.injEq, Prod.mk.injEq] at h
          have := ih2 p.1 p.2 hr
          omega

theorem except_map_eq_ok {α β : Type} (f : α → β) (x : Except Exc α) (y : β)
    (h : x.map f = .ok y) : ∃ p, x = .ok p ∧ f p = y := by
  cases x with
  | error e => simp [Except.map] at h
  | ok p =>
    simp only [Except.map, Except.ok.injEq] at h
    exact ⟨p, rfl, h⟩

theorem pairwise_of_all_child {Time : Type} (SIGCHLD : Nat) (tr : List (Event Time))
    (h : ∀ e ∈ tr, e.is_child = true) : tr.Pairwise (sig_before SIGCHLD) :=
  List.Pairwise.imp_of_mem (fun {a b} ha hb _ => Or.inr ⟨h a ha, h b hb⟩)
    (List.pairwise_of_forall (R := fun _ _ => True) (fun _ _ => trivial))

theorem Reactor.handle_signals_loop_spec {Time : Type} (SIGCHLD : Nat)
    (waitid : Int → Except Exc Bool) (l : List Nat) (hl : l.Pairwise (fun a b => a < b))
    (r : Reactor Time) :
    (∀ e ∈ (Reactor.handle_signals_loop SIGCHLD waitid l r).1,
      ∃ s ∈ l, e.signum SIGCHLD = some s) ∧
    (Reactor.handle_signals_loop SIGCHLD waitid l r).1.Pairwise (sig_before SIGCHLD) ∧
    (∀ n r', (Reactor.handle_signals_loop SIGCHLD waitid l r).2 = .ok (n, r') →
      (Reactor.handle_signals_loop SIGCHLD waitid l r).1.length = n ∧
      r'.timers_ = r.timers_) := by
  induction l generalizing r with
  | nil => simp [Reactor.handle_signals_loop]
  | cons a rest ih =>
    obtain ⟨hlt, hl'⟩ := List.pairwise_cons.mp hl
    have key := ih hl'
    unfold Reactor.handle_signals_loop
    by_cases hr : (r.signals_ a).raised_ = true
    · simp only [hr, if_true]
      by_cases hc : a = SIGCHLD
      · simp only [hc, if_true]
        unfold Reactor.handle_sigchld
        obtain ⟨c1, c2⟩ := @Reactor.handle_sigchld_loop_spec Time waitid r.waits_
        rcases hloop : @Reactor.handle_sigchld_loop Time waitid r.waits_ with ⟨tr, out⟩
        rw [hloop] at c1 c2
        simp only at c1 c2
        have hchild : ∀ e ∈ tr, e.signum SIGCHLD = some SIGCHLD := by
          intro e he
          have := c1 e he
          cases e <;> simp_all [Event.is_child, Event.signum]
        cases out with
        | error e =>
          simp only
          exact ⟨fun e he => ⟨SIGCHLD, by simp, hchild e he⟩,
            pairwise_of_all_child SIGCHLD tr c1, by simp⟩
        | ok p =>
          simp only
          refine ⟨?_, ?_, ?_⟩
          · intro e he
            rcases List.mem_append.mp he with h | h
            · exact ⟨SIGCHLD, by simp, hchild e h⟩
            · obtain ⟨s, hs, hes⟩ := (key _).1 e h
              exact ⟨s, List.mem_cons_of_mem _ hs, hes⟩
          · rw [List.pairwise_append]
            refine ⟨pairwise_of_all_child SIGCHLD tr c1, (key _).2.1, ?_⟩
            intro x hx y hy
            obtain ⟨s, hs, hes⟩ := (key _).1 y hy
            exact Or.inl ⟨SIGCHLD, s, hchild x hx, hes, hc ▸ hlt s hs⟩
          · intro n r' h
            obtain ⟨q, hq, hf⟩ := except_map_eq_ok _ _ _ h
            obtain ⟨j1, j2⟩ := (key _).2.2 q.1 q.2 hq
            have := c2 p.1 p.2 rfl
            simp only [Prod.mk.injEq] at hf
            refine ⟨?_, ?_⟩
            · simp only [List.length_append]
              omega
            · rw [← hf.2]
              exact j2
      · simp only [hc, if_false, Function.update_same]
        cases hcb : (r.signals_ a).callback_ with
        | none => simp
        | some c =>
          simp only
          refine ⟨?_, ?_, ?_⟩
          · intro e he
            rcases List.mem_cons.mp he with h | h
            · exact ⟨a, by simp, by rw [h]; rfl⟩
            · obtain ⟨s, hs, hes⟩ := (key _).1 e h
              exact ⟨s, List.mem_cons_of_mem _ hs, hes⟩
          · rw [List.pairwise_cons]
            refine ⟨?_, (key _).2.1⟩
            intro y hy
            obtain ⟨s, hs, hes⟩ := (key _).1 y hy
            exact Or.inl ⟨a, s, rfl, hes, hlt s hs⟩
          · intro n r' h
            obtain ⟨q, hq, hf⟩ := except_map_eq_ok _ _ _ h
            obtain ⟨j1, j2⟩ := (key _).2.2 q.1 q.2 hq
            simp only [Prod.mk.injEq] at hf
            refine ⟨?_, ?_⟩
            · simp only [List.length_cons]
              omega
            · rw [← hf.2]
              exact j2
    · simp only [hr, if_false]
      obtain ⟨i1, i2, i3⟩ := key r
      refine ⟨?_, i2, i3⟩
      intro e he
      obtain ⟨s, hs, hes⟩ := i1 e he
      exact ⟨s, List.mem_cons_of_mem _ hs, hes⟩

theorem Reactor.handle_timers_spec {Time : Type} [LinearOrder Time] (now : Time)
    (ts : List (Timer Time)) (hs : timers_sorted ts) :
    (∀ e ∈ (Reactor.handle_timers now ts).1, ∃ t ∈ ts, e.deadline = some t.time_) ∧
    (Reactor.handle_timers now ts).1.Pairwise deadline_le ∧
    (∀ n left, (Reactor.handle_timers now ts).2 = .ok (n, left) →
      (Reactor.handle_timers now ts).1.length = n ∧ timers_sorted left) := by
  induction ts with
  | nil => simp [Reactor.handle_timers, timers_sorted]
  | cons t rest ih =>
    obtain ⟨hle, hs'⟩ := List.pairwise_cons.mp hs
    obtain ⟨i1, i2, i3⟩ := ih hs'
    unfold Reactor.handle_timers
    simp only [TimeOps.lt_linear]
    by_cases hlt : t.time_ < now
    · simp only [hlt, if_true]
      cases hcb : t.callback_ with
      | none => simp
      | some c =>
        simp only
        refine ⟨?_, ?_, ?_⟩
        · intro e he
          rcases List.mem_cons.mp he with h | h
          · exact ⟨t, by simp, by rw [h]; rfl⟩
          · obtain ⟨t', ht', he'⟩ := i1 e h
            exact ⟨t', List.mem_cons_of_mem _ ht', he'⟩
        · rw [List.pairwise_cons]
          refine ⟨?_, i2⟩
          intro y hy ta tb ha hb
          obtain ⟨t', ht', he'⟩ := i1 y hy
          simp only [Event.deadline, Option.some.injEq] at ha
          rw [he'] at hb
          simp only [Option.some.injEq] at hb
          rw [← ha, ← hb]
          exact hle t' ht'
        · intro n left h
          obtain ⟨q, hq, hf⟩ := except_map_eq_ok _ _ _ h
          obtain ⟨j1, j2⟩ := i3 q.1 q.2 hq
          simp only [Prod.mk.injEq] at hf
          refine ⟨?_, ?_⟩
          · simp only [List.length_cons]
            omega
          · rw [← hf.2]
            exact j2
    · simp only [hlt, if_false]
      refine ⟨by simp, by simp, ?_⟩
      intro n left h
      simp only [Except.ok.injEq, Prod.mk.injEq] at h
      refine ⟨by simp [h.1], ?_⟩
      rw [← h.2]
      exact hs

theorem Reactor.handle_current_spec {Time : Type} [LinearOrder Time] (SIG_MAX SIGCHLD : Nat)
    (r : Reactor Time) (obs : Obs Time) (hs : timers_sorted r.timers_) :
    run_order SIGCHLD (Reactor.handle_current SIG_MAX SIGCHLD r obs).1 ∧
    (∀ n r', (Reactor.handle_current SIG_MAX SIGCHLD r obs).2 = .ok (n, r') →
      (Reactor.handle_current SIG_MAX SIGCHLD r obs).1.length = n ∧
      timers_sorted r'.timers_) := by
  unfold Reactor.handle_current Reactor.handle_signals
  obtain ⟨s1, s2, s3⟩ := Reactor.handle_signals_loop_spec SIGCHLD obs.waitid
    (List.range' 1 (SIG_MAX - 1)) (List.pairwise_lt_range' 1 (SIG_MAX - 1)) r
  rcases hsig : Reactor.handle_signals_loop SIGCHLD obs.waitid (List.range' 1 (SIG_MAX - 1)) r
    with ⟨tr, out⟩
  rw [hsig] at s1 s2 s3
  simp only at s1 s2 s3
  have hsome : ∀ e ∈ tr, (e.signum SIGCHLD).isSome = true := by
    intro e he
    obtain ⟨s, _, hes⟩ := s1 e he
    simp [hes]
  cases out with
  | error e =>
    simp only
    exact ⟨⟨tr, [], by simp, hsome, s2, by simp, by simp⟩, by simp⟩
  | ok p =>
    obtain ⟨n, r1⟩ := p
    obtain ⟨k1, k2⟩ := s3 n r1 rfl
    have hs1 : timers_sorted r1.timers_ := by rw [k2]; exact hs
    obtain ⟨t1, t2, t3⟩ := Reactor.handle_timers_spec obs.now r1.timers_ hs1
    simp only
    rcases htm : Reactor.handle_timers obs.now r1.timers_ with ⟨tr', out'⟩
    rw [htm] at t1 t2 t3
    simp only at t1 t2 t3
    have hdl : ∀ e ∈ tr', e.deadline.isSome = true := by
      intro e he
      obtain ⟨t, _, het⟩ := t1 e he
      simp [het]
    cases out' with
    | error e =>
      simp only
      exact ⟨⟨tr, tr', rfl, hsome, s2, hdl, t2⟩, by simp⟩
    | ok q =>
      obtain ⟨k, left⟩ := q
      simp only
      refine ⟨⟨tr, tr', rfl, hsome, s2, hdl, t2⟩, ?_⟩
      intro n' r' h
      simp only [Except.ok.injEq, Prod.mk.injEq] at h
      obtain ⟨u1, u2⟩ := t3 k left rfl
      refine ⟨?_, ?_⟩
      · simp only [List.length_append]
        omega
      · rw [← h.2]
        exact u2

theorem Reactor.deliver_timers {Time : Type} (l : List Nat) (r : Reactor Time) :
    (l.foldl Reactor.deliver r).timers_ = r.timers_ := by
  induction l generalizing r with
  | nil => rfl
  | cons a rest ih =>
    simp only [List.foldl_cons, ih]
    unfold Reactor.deliver
    cases (r.signal_handler_.signals_ a).callback_ <;> rfl

theorem run_order_nil {Time : Type} [LinearOrder Time] (SIGCHLD : Nat) :
    run_order SIGCHLD ([] : List (Event Time)) :=
  ⟨[], [], rfl, by simp, by simp, by simp, by simp⟩

theorem Reactor.run_loop_done {Time : Type} [LinearOrder Time] (SIG_MAX SIGCHLD : Nat)
    (later : List (SleepResult × Obs Time)) (r : Reactor Time) (num_done : Nat)
    (h : num_done ≠ 0) : (Reactor.run_loop SIG_MAX SIGCHLD later r num_done).1 = [] := by
  cases later <;> simp [Reactor.run_loop, h]

theorem Reactor.run_loop_spec {Time : Type} [LinearOrder Time] (SIG_MAX SIGCHLD : Nat)
    (later : List (SleepResult × Obs Time)) (r : Reactor Time) (num_done : Nat)
    (hs : timers_sorted r.timers_) :
    run_order SIGCHLD (Reactor.run_loop SIG_MAX SIGCHLD later r num_done).1 := by
  induction later generalizing r num_done with
  | nil =>
    unfold Reactor.run_loop
    split <;> exact run_order_nil SIGCHLD
  | cons step later ih =>
    unfold Reactor.run_loop
    by_cases h0 : num_done = 0
    · simp only [h0, if_true]
      by_cases hf : step.1 = SleepResult.failed
      · simp only [hf, if_true]
        exact run_order_nil SIGCHLD
      · simp only [hf, if_false]
        have hs' : timers_sorted (step.2.delivered.foldl Reactor.deliver r).timers_ := by
          rw [Reactor.deliver_timers]
          exact hs
        obtain ⟨c1, c2⟩ := Reactor.handle_current_spec SIG_MAX SIGCHLD _ step.2 hs'
        rcases hcur : Reactor.handle_current SIG_MAX SIGCHLD
          (step.2.delivered.foldl Reactor.deliver r) step.2 with ⟨tr, out⟩
        rw [hcur] at c1 c2
        simp only at c1 c2
        cases out with
        | error e => exact c1
        | ok p =>
          obtain ⟨n, r1⟩ := p
          obtain ⟨d1, d2⟩ := c2 n r1 rfl
          simp only
          by_cases hn : n = 0
          · have : tr = [] := List.length_eq_zero.mp (by omega)
            subst this
            simp only [List.nil_append]
            exact ih r1 (0 + n) d2
          · rw [Reactor.run_loop_done SIG_MAX SIGCHLD later r1 (0 + n) (by omega)]
            simpa using c1
    · simp only [h0, if_false]
      exact run_order_nil SIGCHLD

/-- The order of the callbacks of one `Reactor::run` call when the deadlines
are of a linearly ordered type and the timer sequence is in non-decreasing
deadline order: first the signal-driven ones in ascending signal number (child
completions taking the place of `SIGCHLD`), then the timer callbacks in
non-decreasing deadline order. -/
theorem Reactor.run_callback_order_linear {Time : Type} [LinearOrder Time]
    (SIG_MAX SIGCHLD : Nat)
    (r : Reactor Time) (sleep : Bool) (first : Obs Time)
    (later : List (SleepResult × Obs Time)) (hs : timers_sorted r.timers_) :
    run_order SIGCHLD (r.run SIG_MAX SIGCHLD sleep first later).1 := by
  unfold Reactor.run
  by_cases he : r.is_empty SIG_MAX = true
  · simp only [he, if_true]
    exact run_order_nil SIGCHLD
  · simp only [he, if_false]
    have hs' : timers_sorted (first.delivered.foldl Reactor.deliver r).timers_ := by
      rw [Reactor.deliver_timers]
      exact hs
    obtain ⟨c1, c2⟩ := Reactor.handle_current_spec SIG_MAX SIGCHLD _ first hs'
    rcases hcur : Reactor.handle_current SIG_MAX SIGCHLD
      (first.delivered.foldl Reactor.deliver r) first with ⟨tr, out⟩
    rw [hcur] at c1 c2
    simp only at c1 c2
    cases out with
    | error e => exact c1
    | ok p =>
      obtain ⟨n, r1⟩ := p
      obtain ⟨d1, d2⟩ := c2 n r1 rfl
      simp only
      cases sleep with
      | false => simpa using c1
      | true =>
        simp only [if_true]
        by_cases hn : n = 0
        · have : tr = [] := List.length_eq_zero.mp (by omega)
          subst this
          simp only [List.nil_append]
          exact Reactor.run_loop_spec SIG_MAX SIGCHLD later r1 n d2
        · rw [Reactor.run_loop_done SIG_MAX SIGCHLD later r1 n hn]
          simpa using c1

end evt

namespace evt

/-- Example: with `SIGCHLD` and signal 10 delivered, child 5 exited and the
clock at 25, one `run` call invokes the callback of signal 10, then the
child's, then the timers due at 10, 20 and 20. -/
theorem reactor_sample_run_order :
    timers_sorted reactor_sample.timers_ ∧
    (reactor_sample.run 34 17 true obs_sample []).1 =
      [Event.signal 10 100, Event.child 5 50, Event.timer 10 1, Event.timer 20 2,
        Event.timer 20 3] ∧
    run_order 17 (reactor_sample.run 34 17 true obs_sample []).1 := by
  have hs : timers_sorted reactor_sample.timers_ := by
    simp [timers_sorted, reactor_sample]
  exact ⟨hs, rfl, Reactor.run_callback_order_linear 34 17 reactor_sample true obs_sample [] hs⟩

end evt

/-! ## C10: start(false) followed by restore() -/

namespace run

theorem lowest_free_closed (os : sys.Os) (fd : Nat) (h : os.lowest_free = some fd) :
    os.fds fd = none := by
  unfold sys.Os.lowest_free at h
  have := List.find?_some h
  simpa using this

theorem xdup_spec (os os1 : sys.Os) (fd new_fd : Nat)
    (h : sys.xdup os fd = .ok (new_fd, os1)) :
    os.fds new_fd = none ∧ os.fds fd ≠ none ∧
    os1.fds = Function.update os.fds new_fd (os.fds fd) := by
  unfold sys.xdup at h
  cases hd : os.fds fd with
  | none => simp [hd] at h
  | some d =>
    cases hl : os.lowest_free with
    | none => simp [hd, hl] at h
    | some n =>
      simp only [hd, hl, Except.ok.injEq, Prod.mk.injEq] at h
      obtain ⟨rfl, rfl⟩ := h
      exact ⟨lowest_free_closed os n hl, by simp, rfl⟩

theorem xdup2_spec (os os1 : sys.Os) (old_fd : Int) (new_fd : Nat)
    (h : sys.xdup2 os old_fd new_fd = .ok os1) :
    os.fds old_fd.toNat ≠ none ∧
    os1.fds = Function.update os.fds new_fd (os.fds old_fd.toNat) := by
  unfold sys.xdup2 at h
  by_cases hneg : old_fd < 0
  · simp [hneg] at h
  · cases hd : os.fds old_fd.toNat with
    | none => simp [hneg, hd] at h
    | some d =>
      simp only [hneg, if_false, hd, Except.ok.injEq] at h
      subst h
      exact ⟨by simp, rfl⟩

theorem xdup2_open (os : sys.Os) (old_fd new_fd : Nat) (d : Nat)
    (h : os.fds old_fd = some d) :
    sys.xdup2 os old_fd new_fd = .ok { os with fds := Function.update os.fds new_fd (some d) } := by
  simp [sys.xdup2, h]

theorem xclose_open (os : sys.Os) (fd : Nat) (d : Nat) (h : os.fds fd = some d) :
    sys.xclose os fd = .ok { os with fds := Function.update os.fds fd none } := by
  simp [sys.xclose, h]

theorem xclose_spec (os os1 : sys.Os) (fd : Nat) (h : sys.xclose os fd = .ok os1) :
    os.fds fd ≠ none ∧ os1.fds = Function.update os.fds fd none := by
  unfold sys.xclose at h
  cases hd : os.fds fd with
  | none => simp [hd] at h
  | some d =>
    simp only [hd, Except.ok.injEq] at h
    subst h
    exact ⟨by simp, rfl⟩

theorem xopen_spec (os os1 : sys.Os) (path : String) (flags fd : Nat)
    (h : sys.xopen os path flags = .ok (fd, os1)) :
    os.fds fd = none ∧ os1.fds = Function.update os.fds fd (some os.next_ofd) := by
  unfold sys.xopen at h
  cases hp : os.path_file path flags with
  | none => simp [hp] at h
  | some f =>
    cases hl : os.lowest_free with
    | none => simp [hp, hl] at h
    | some n =>
      simp only [hp, hl, Except.ok.injEq, Prod.mk.injEq] at h
      obtain ⟨rfl, rfl⟩ := h
      exact ⟨lowest_free_closed os n hl, rfl⟩

/-- After a successful base `start(false)` and any change of the descriptor
table that leaves the saved descriptor as it is, the inherited `restore`
succeeds and puts the target back on its previous open file description. -/
theorem restore_after_save (h : FdHandler) (os osA osX : sys.Os) (h1 : FdHandler)
    (hk : h.kind ≠ FdHandler.Kind.LeaveFdHandler)
    (hb : h.base_start os false = .ok (h1, osA))
    (hx : ∀ o, h1.old_fd_ = some o → osX.fds o = osA.fds o) :
    ∃ h2 os2, FdHandler.restore h1 osX = .ok (h2, os2) ∧ os2.fds h.fd_ = os.fds h.fd_ := by
  unfold FdHandler.base_start at hb
  simp only [if_true] at hb
  cases hd : sys.xdup os h.fd_ with
  | error e => simp [hd] at hb
  | ok p =>
    obtain ⟨o, osA'⟩ := p
    simp only [hd, Except.ok.injEq, Prod.mk.injEq] at hb
    obtain ⟨rfl, rfl⟩ := hb
    obtain ⟨k1, k2, k3⟩ := xdup_spec os osA' h.fd_ o hd
    have hne : o ≠ h.fd_ := by
      intro e
      rw [e] at k1
      exact k2 k1
    obtain ⟨d, hdd⟩ := Option.ne_none_iff_exists'.mp k2
    have hxo : osX.fds o = some d := by
      rw [hx o rfl, k3, hdd]
      simp
    have hkind : ({ h with old_fd_ := some o } : FdHandler).kind = h.kind := rfl
    unfold FdHandler.restore
    cases hkk : h.kind with
    | LeaveFdHandler => exact absurd hkk hk
    | _ =>
      simp only [hkind, hkk, xdup2_open osX o h.fd_ d hxo]
      rw [xclose_open _ o d (by simp [Function.update, hne, hxo])]
      refine ⟨_, _, rfl, ?_⟩
      simp [Function.update, hne.symm, hdd]

end run

namespace run

theorem base_start_spec (h : FdHandler) (os osA : sys.Os) (h1 : FdHandler)
    (hb : h.base_start os false = .ok (h1, osA)) :
    h1.fd_ = h.fd_ ∧ h1.kind = h.kind ∧
    ∃ o, h1.old_fd_ = some o ∧ o ≠ h.fd_ ∧ osA.fds o ≠ none ∧ os.fds o = none := by
  unfold FdHandler.base_start at hb
  simp only [if_true] at hb
  cases hd : sys.xdup os h.fd_ with
  | error e => simp [hd] at hb
  | ok p =>
    obtain ⟨o, osA'⟩ := p
    simp only [hd, Except.ok.injEq, Prod.mk.injEq] at hb
    obtain ⟨rfl, rfl⟩ := hb
    obtain ⟨k1, k2, k3⟩ := xdup_spec os osA' h.fd_ o hd
    refine ⟨rfl, rfl, o, rfl, ?_, ?_, k1⟩
    · intro e
      rw [e] at k1
      exact k2 k1
    · rw [k3]
      simpa using k2

/-- For the handlers other than `file`: when `start(false)` succeeds, the
following `restore()` succeeds and leaves the target descriptor on the open
file description it referred to before `start`. -/
theorem FdHandler.start_restore (h : FdHandler) (os os1 : sys.Os) (h1 : FdHandler)
    (hk : ∀ f m, h.kind ≠ FdHandler.Kind.FileFdHandler f m)
    (hs : h.start os false = .ok (h1, os1)) :
    ∃ h2 os2, h1.restore os1 = .ok (h2, os2) ∧ os2.fds h.fd_ = os.fds h.fd_ := by
  unfold FdHandler.start at hs
  cases hkind : h.kind with
  | LeaveFdHandler =>
    simp only [hkind, Except.ok.injEq, Prod.mk.injEq] at hs
    obtain ⟨rfl, rfl⟩ := hs
    exact ⟨h, os, by simp [FdHandler.restore, hkind], rfl⟩
  | FileFdHandler f m => exact absurd hkind (hk f m)
  | CloseFdHandler =>
    simp only [hkind] at hs
    cases hb : h.base_start os false with
    | error e => simp [hb] at hs
    | ok p =>
      obtain ⟨hA, osA⟩ := p
      obtain ⟨b1, b2, o, b3, b4, b5, b6⟩ := base_start_spec h os osA hA hb
      simp only [hb] at hs
      cases hc : sys.xclose osA hA.fd_ with
      | error e => simp [hc] at hs
      | ok osB =>
        simp only [hc, Except.ok.injEq, Prod.mk.injEq] at hs
        obtain ⟨rfl, rfl⟩ := hs
        obtain ⟨c1, c2⟩ := xclose_spec osA osB hA.fd_ hc
        refine restore_after_save h os osA osB hA (by simp [hkind]) hb ?_
        intro o' ho'
        rw [b3] at ho'
        cases ho'
        rw [c2, b1]
        simp [Function.update, b4]
  | NullFdHandler =>
    simp only [hkind] at hs
    cases hb : h.base_start os false with
    | error e => simp [hb] at hs
    | ok p =>
      obtain ⟨hA, osA⟩ := p
      obtain ⟨b1, b2, o, b3, b4, b5, b6⟩ := base_start_spec h os osA hA hb
      simp only [hb] at hs
      cases ho : sys.xopen osA "/dev/null" fs.O_RDONLY with
      | error e => simp [ho] at hs
      | ok q =>
        obtain ⟨nf, osB⟩ := q
        simp only [ho] at hs
        obtain ⟨o1, o2⟩ := xopen_spec osA osB _ _ nf ho
        cases hd : sys.xdup2 osB nf hA.fd_ with
        | error e => simp [hd] at hs
        | ok osC =>
          simp only [hd, Except.ok.injEq, Prod.mk.injEq] at hs
          obtain ⟨rfl, rfl⟩ := hs
          obtain ⟨d1, d2⟩ := xdup2_spec osB osC nf hA.fd_ hd
          refine restore_after_save h os osA osC hA (by simp [hkind]) hb ?_
          intro o' ho'
          rw [b3] at ho'
          cases ho'
          have hne : o ≠ nf := by
            intro e
            rw [e] at b5
            exact b5 o1
          rw [d2, b1, o2]
          simp [Function.update, b4, hne]
  | CaptureFdHandler tmp =>
    simp only [hkind] at hs
    cases hb : h.base_start os false with
    | error e => simp [hb] at hs
    | ok p =>
      obtain ⟨hA, osA⟩ := p
      obtain ⟨b1, b2, o, b3, b4, b5, b6⟩ := base_start_spec h os osA hA hb
      simp only [hb] at hs
      cases tmp with
      | none => simp at hs
      | some t =>
        simp only [AnonymousTempFile.dup_fd] at hs
        cases ht : t.fd_ with
        | none => simp [ht] at hs
        | some tf =>
          simp only [ht] at hs
          cases hd : sys.xdup2 osA tf hA.fd_ with
          | error e => simp [hd] at hs
          | ok osC =>
            simp only [hd, Except.ok.injEq, Prod.mk.injEq] at hs
            obtain ⟨rfl, rfl⟩ := hs
            obtain ⟨d1, d2⟩ := xdup2_spec osA osC tf hA.fd_ hd
            refine restore_after_save h os osA osC hA (by simp [hkind]) hb ?_
            intro o' ho'
            rw [b3] at ho'
            cases ho'
            rw [d2, b1]
            simp [Function.update, b4]
  | DupFdHandler from_fd =>
    simp only [hkind] at hs
    cases hb : h.base_start os false with
    | error e => simp [hb] at hs
    | ok p =>
      obtain ⟨hA, osA⟩ := p
      obtain ⟨b1, b2, o, b3, b4, b5, b6⟩ := base_start_spec h os osA hA hb
      simp only [hb] at hs
      cases hd : sys.xdup2 osA from_fd hA.fd_ with
      | error e => simp [hd] at hs
      | ok osC =>
        simp only [hd, Except.ok.injEq, Prod.mk.injEq] at hs
        obtain ⟨rfl, rfl⟩ := hs
        obtain ⟨d1, d2⟩ := xdup2_spec osA osC from_fd hA.fd_ hd
        refine restore_after_save h os osA osC hA (by simp [hkind]) hb ?_
        intro o' ho'
        rw [b3] at ho'
        cases ho'
        rw [d2, b1]
        simp [Function.update, b4]

/-- C10 at the failing input: for a `file` handler bound to the open descriptor
1, `start(false)` succeeds without saving the previous descriptor, the
following `restore()` fails its assertion `old_fd_ >= 0`, and descriptor 1 no
longer refers to the open file it referred to before `start`. -/
theorem FdHandler.file_start_restore_fails :
    ∃ os1, file_handler_sample.start os_sample false = .ok (file_handler_sample, os1) ∧
      file_handler_sample.restore os1 = .error (Exc.AssertionError "old_fd_ >= 0") ∧
      os_sample.fds 1 = some 0 ∧ os1.fds 1 = some 1 := by
  refine ⟨_, rfl, rfl, rfl, rfl⟩

end run

/-! ## C9: staging of the standard descriptors in the child -/

namespace run

/-- What `FdHandlerSpec::build` does to the descriptor table: descriptors that
were open are left as they were, and a capture handler owns a descriptor that
was free before and is open after. -/
theorem FdHandlerSpec.build_spec (s : FdHandlerSpec) (os os1 : sys.Os) (fd : Nat)
    (h : FdHandler) (hb : s.build os fd = .ok (h, os1)) :
    h.fd_ = fd ∧ (∀ x, os.fds x ≠ none → os1.fds x = os.fds x) ∧
    (∀ tmp, h.kind = .CaptureFdHandler tmp →
      ∃ t, tmp = some { fd_ := some t } ∧ os.fds t = none ∧
        os1.fds = Function.update os.fds t (some os.next_ofd)) ∧
    ((∀ tmp, h.kind ≠ .CaptureFdHandler tmp) → os1 = os) ∧
    (s.type_ = "capture" → ∃ tmp, h.kind = .CaptureFdHandler tmp) ∧
    (s.type_ = "dup" → h.kind = .DupFdHandler s.from_fd_) := by
  unfold FdHandlerSpec.build at hb
  by_cases h1 : s.type_ = "leave"
  · simp only [h1, if_true, Except.ok.injEq, Prod.mk.injEq] at hb
    obtain ⟨rfl, rfl⟩ := hb
    simp [h1]
  by_cases h2 : s.type_ = "close"
  · simp only [h2, if_true, Except.ok.injEq, Prod.mk.injEq] at hb
    simp only [show ¬ ("close" = "leave") by decide, if_false] at hb
    obtain ⟨rfl, rfl⟩ := hb
    simp [h2]
  by_cases h3 : s.type_ = "null"
  · simp only [h3, if_true, Except.ok.injEq, Prod.mk.injEq] at hb
    simp only [show ¬ ("null" = "leave") by decide, show ¬ ("null" = "close") by decide,
      if_false] at hb
    obtain ⟨rfl, rfl⟩ := hb
    simp [h3]
  by_cases h4 : s.type_ = "capture"
  · simp only [h1, h2, h3, h4, if_true, if_false] at hb
    simp only [show ¬ ("capture" = "leave") by decide, show ¬ ("capture" = "close") by decide,
      show ¬ ("capture" = "null") by decide, if_false, AnonymousTempFile.new,
      AnonymousTempFile.open, sys.xmkstemp, sys.xunlink] at hb
    by_cases ht : os.tmp_ok = false
    · simp [ht] at hb
    · cases hl : os.lowest_free with
      | none => simp [ht, hl] at hb
      | some t =>
        simp only [ht, if_false, hl, Except.ok.injEq, Prod.mk.injEq] at hb
        obtain ⟨rfl, rfl⟩ := hb
        have hfree := lowest_free_closed os t hl
        refine ⟨rfl, ?_, ?_, ?_, ?_, ?_⟩
        · intro x hx
          have : x ≠ t := fun e => hx (e ▸ hfree)
          simp [Function.update, this]
        · intro tmp htmp
          simp only [FdHandler.Kind.CaptureFdHandler.injEq] at htmp
          exact ⟨t, htmp.symm, hfree, rfl⟩
        · intro hno
          exact absurd rfl (hno _)
        · intro _
          exact ⟨_, rfl⟩
        · intro hd
          rw [h4] at hd
          exact absurd hd (by decide)
  by_cases h5 : s.type_ = "dup"
  · simp only [h1, h2, h3, h4, h5, if_true, if_false, Except.ok.injEq, Prod.mk.injEq] at hb
    simp only [show ¬ ("dup" = "leave") by decide, show ¬ ("dup" = "close") by decide,
      show ¬ ("dup" = "null") by decide, show ¬ ("dup" = "capture") by decide, if_false] at hb
    obtain ⟨rfl, rfl⟩ := hb
    simp [h5]
  by_cases h6 : s.type_ = "file"
  · simp only [h1, h2, h3, h4, h5, h6, if_true, if_false, Except.ok.injEq, Prod.mk.injEq] at hb
    simp only [show ¬ ("file" = "leave") by decide, show ¬ ("file" = "close") by decide,
      show ¬ ("file" = "null") by decide, show ¬ ("file" = "capture") by decide,
      show ¬ ("file" = "dup") by decide, if_false] at hb
    obtain ⟨rfl, rfl⟩ := hb
    simp [h6]
  · simp [h1, h2, h3, h4, h5, h6] at hb

end run

namespace run

/-- Frame of `start(true); close()`: a descriptor that was open, is not the
handler's target and is not the descriptor of the handler's own temporary file
refers to the same open file description afterwards. -/
theorem FdHandler.stage_frame (h h1 : FdHandler) (os os1 : sys.Os)
    (hs : h.stage os = .ok (h1, os1)) (x : Nat) (hx : x ≠ h.fd_) (hopen : os.fds x ≠ none)
    (hown : ∀ t, h.kind = .CaptureFdHandler (some { fd_ := some t }) → x ≠ t) :
    os1.fds x = os.fds x := by
  unfold FdHandler.stage FdHandler.start at hs
  cases hkind : h.kind with
  | LeaveFdHandler =>
    simp only [hkind, FdHandler.close, Except.ok.injEq, Prod.mk.injEq] at hs
    rw [← hs.2]
  | CloseFdHandler =>
    simp only [hkind, FdHandler.base_start, if_false, Bool.true_eq_false] at hs
    cases hc : sys.xclose os h.fd_ with
    | error e => simp [hc] at hs
    | ok osB =>
      simp only [hc, FdHandler.close, hkind, Except.ok.injEq, Prod.mk.injEq] at hs
      obtain ⟨c1, c2⟩ := xclose_spec os osB h.fd_ hc
      rw [← hs.2, c2]
      simp [Function.update, hx]
  | NullFdHandler =>
    simp only [hkind, FdHandler.base_start, if_false, Bool.true_eq_false] at hs
    cases ho : sys.xopen os "/dev/null" fs.O_RDONLY with
    | error e => simp [ho] at hs
    | ok q =>
      obtain ⟨nf, osB⟩ := q
      simp only [ho] at hs
      obtain ⟨o1, o2⟩ := xopen_spec os osB _ _ nf ho
      cases hd : sys.xdup2 osB nf h.fd_ with
      | error e => simp [hd] at hs
      | ok osC =>
        simp only [hd, FdHandler.close, hkind, Except.ok.injEq, Prod.mk.injEq] at hs
        obtain ⟨d1, d2⟩ := xdup2_spec osB osC nf h.fd_ hd
        have hne : x ≠ nf := fun e => hopen (e ▸ o1)
        rw [← hs.2, d2, o2]
        simp [Function.update, hx, hne]
  | CaptureFdHandler tmp =>
    simp only [hkind, FdHandler.base_start, if_false, Bool.true_eq_false] at hs
    cases tmp with
    | none => simp at hs
    | some t =>
      obtain ⟨tfd⟩ := t
      cases tfd with
      | none => simp [AnonymousTempFile.dup_fd] at hs
      | some tf =>
        simp only [AnonymousTempFile.dup_fd] at hs
        cases hd : sys.xdup2 os tf h.fd_ with
        | error e => simp [hd] at hs
        | ok osC =>
          simp only [hd, FdHandler.close, hkind, AnonymousTempFile.close] at hs
          obtain ⟨d1, d2⟩ := xdup2_spec os osC tf h.fd_ hd
          cases hc : sys.xclose osC tf with
          | error e => simp [hc] at hs
          | ok osD =>
            simp only [hc, Except.ok.injEq, Prod.mk.injEq] at hs
            obtain ⟨c1, c2⟩ := xclose_spec osC osD tf hc
            have hne : x ≠ tf := hown tf (by rw [hkind])
            rw [← hs.2, c2, d2]
            simp [Function.update, hx, hne]
  | DupFdHandler from_fd =>
    simp only [hkind, FdHandler.base_start, if_false, Bool.true_eq_false] at hs
    cases hd : sys.xdup2 os from_fd h.fd_ with
    | error e => simp [hd] at hs
    | ok osC =>
      simp only [hd, FdHandler.close, hkind, Except.ok.injEq, Prod.mk.injEq] at hs
      obtain ⟨d1, d2⟩ := xdup2_spec os osC from_fd h.fd_ hd
      rw [← hs.2, d2]
      simp [Function.update, hx]
  | FileFdHandler f m =>
    simp only [hkind] at hs
    cases ho : sys.xopen os f m with
    | error e => simp [ho] at hs
    | ok q =>
      obtain ⟨nf, osB⟩ := q
      simp only [ho] at hs
      obtain ⟨o1, o2⟩ := xopen_spec os osB _ _ nf ho
      cases hd : sys.xdup2 osB nf h.fd_ with
      | error e => simp [hd] at hs
      | ok osC =>
        simp only [hd] at hs
        obtain ⟨d1, d2⟩ := xdup2_spec osB osC nf h.fd_ hd
        cases hc : sys.xclose osC nf with
        | error e => simp [hc] at hs
        | ok osD =>
          simp only [hc, FdHandler.close, hkind, Except.ok.injEq, Prod.mk.injEq] at hs
          obtain ⟨c1, c2⟩ := xclose_spec osC osD nf hc
          have hne : x ≠ nf := fun e => hopen (e ▸ o1)
          rw [← hs.2, c2, d2, o2]
          simp [Function.update, hx, hne]

end run

namespace run

theorem FdHandler.stage_capture (h : FdHandler) (os : sys.Os) (t d : Nat)
    (hk : h.kind = .CaptureFdHandler (some { fd_ := some t })) (ht : os.fds t = some d)
    (hne : t ≠ h.fd_) :
    h.stage os = .ok ({ h with kind := .CaptureFdHandler none },
      { os with fds := Function.update (Function.update os.fds h.fd_ (some d)) t none }) := by
  unfold FdHandler.stage FdHandler.start
  simp only [hk, FdHandler.base_start, Bool.true_eq_false, if_false, AnonymousTempFile.dup_fd,
    xdup2_open os t h.fd_ d ht, FdHandler.close, AnonymousTempFile.close]
  rw [xclose_open _ t d (by simp [Function.update, hne, ht])]

theorem FdHandler.stage_dup (h : FdHandler) (os : sys.Os) (src d : Nat)
    (hk : h.kind = .DupFdHandler src) (hs : os.fds src = some d) :
    h.stage os = .ok (h, { os with fds := Function.update os.fds h.fd_ (some d) }) := by
  unfold FdHandler.stage FdHandler.start
  simp only [hk, FdHandler.base_start, Bool.true_eq_false, if_false,
    xdup2_open os src h.fd_ d hs, FdHandler.close]

/-- C9 (amended): for every descriptor table in which descriptors 0, 1 and 2
are open when the program is started, every stdin handler, stdout = capture and
stderr = dup from 1: when the handlers are built and the child's staging
sequence completes, descriptors 1 and 2 both refer to the open file description
of the stdout capture temp file, and the capture file's own descriptor is
closed in the child. -/
theorem ProcessProgram.child_staging_capture_dup (spec : ProcessProgramSpec)
    (os osB osC : sys.Os) (hin hout herr hin1 hout1 herr1 : FdHandler)
    (hcap : spec.stdout_.type_ = "capture") (hdup : spec.stderr_.type_ = "dup")
    (hfrom : spec.stderr_.from_fd_ = 1)
    (h0 : os.fds 0 ≠ none) (h1 : os.fds 1 ≠ none) (h2 : os.fds 2 ≠ none)
    (hb : ProcessProgram.build_handlers spec os = .ok ((hin, hout, herr), osB))
    (hs : ProcessProgram.child_staging hin hout herr osB = .ok ((hin1, hout1, herr1), osC)) :
    ∃ t d, hout.kind = .CaptureFdHandler (some { fd_ := some t }) ∧ osB.fds t = some d ∧
      osC.fds 1 = some d ∧ osC.fds 2 = some d ∧ osC.fds t = none ∧
      hout1.kind = .CaptureFdHandler none := by
  unfold ProcessProgram.build_handlers at hb
  cases hb0 : spec.stdin_.build os 0 with
  | error e => simp [hb0] at hb
  | ok p0 =>
    obtain ⟨hin', os1⟩ := p0
    simp only [hb0] at hb
    cases hb1 : spec.stdout_.build os1 1 with
    | error e => simp [hb1] at hb
    | ok p1 =>
      obtain ⟨hout', os2⟩ := p1
      simp only [hb1] at hb
      cases hb2 : spec.stderr_.build os2 2 with
      | error e => simp [hb2] at hb
      | ok p2 =>
        obtain ⟨herr', os3⟩ := p2
        simp only [hb2, Except.ok.injEq, Prod.mk.injEq] at hb
        obtain ⟨⟨rfl, rfl, rfl⟩, rfl⟩ := hb
        obtain ⟨a1, a2, a3, _, _, _⟩ := FdHandlerSpec.build_spec _ os os1 0 hin' hb0
        obtain ⟨b1, b2, b3, _, b5, _⟩ := FdHandlerSpec.build_spec _ os1 os2 1 hout' hb1
        obtain ⟨c1, c2, _, c4, _, c6⟩ := FdHandlerSpec.build_spec _ os2 os3 2 herr' hb2
        obtain ⟨tmp, htmp⟩ := b5 hcap
        obtain ⟨t, rfl, ht1, ht2⟩ := b3 tmp htmp
        have hderr : herr'.kind = .DupFdHandler 1 := by rw [c6 hdup, hfrom]
        have hos3 : os3 = os2 := c4 (fun tmp' => by rw [hderr]; simp)
        subst hos3
        have o0 : os1.fds 0 ≠ none := by rw [a2 0 h0]; exact h0
        have o1 : os1.fds 1 ≠ none := by rw [a2 1 h1]; exact h1
        have o2 : os1.fds 2 ≠ none := by rw [a2 2 h2]; exact h2
        have t0 : t ≠ 0 := fun e => o0 (e ▸ ht1)
        have t1 : t ≠ 1 := fun e => o1 (e ▸ ht1)
        have t2 : t ≠ 2 := fun e => o2 (e ▸ ht1)
        have hBt : os3.fds t = some os1.next_ofd := by rw [ht2]; simp
        have hB1 : os3.fds 1 ≠ none := by
          rw [ht2]; simpa [Function.update, Ne.symm t1] using o1
        have hB2 : os3.fds 2 ≠ none := by
          rw [ht2]; simpa [Function.update, Ne.symm t2] using o2
        have hown : ∀ x, os3.fds x ≠ none → x ≠ 0 →
            (x = t ∨ os.fds x ≠ none) →
            ∀ t', hin'.kind = .CaptureFdHandler (some { fd_ := some t' }) → x ≠ t' := by
          intro x _ _ hx t' hk'
          obtain ⟨t'', e1, e2, e3⟩ := a3 _ hk'
          simp only [Option.some.injEq, AnonymousTempFile.mk.injEq] at e1
          subst e1
          rcases hx with rfl | hx
          · intro e
            subst e
            rw [e3] at ht1
            simp at ht1
          · intro e
            exact hx (e ▸ e2)
        unfold ProcessProgram.child_staging at hs
        cases hs0 : hin'.stage os3 with
        | error e => simp [hs0] at hs
        | ok q0 =>
          obtain ⟨hinS, osS⟩ := q0
          simp only [hs0] at hs
          have fS1 := FdHandler.stage_frame hin' hinS os3 osS hs0 1 (by rw [a1]; decide) hB1
            (hown 1 hB1 (by decide) (Or.inr h1))
          have fS2 := FdHandler.stage_frame hin' hinS os3 osS hs0 2 (by rw [a1]; decide) hB2
            (hown 2 hB2 (by decide) (Or.inr h2))
          have fSt := FdHandler.stage_frame hin' hinS os3 osS hs0 t (by rw [a1]; exact t0)
            (by rw [hBt]; simp) (hown t (by rw [hBt]; simp) t0 (Or.inl rfl))
          rw [FdHandler.stage_capture hout' osS t os1.next_ofd htmp (by rw [fSt, hBt])
            (by rw [b1]; exact t1)] at hs
          simp only at hs
          rw [FdHandler.stage_dup herr' _ 1 os1.next_ofd hderr
            (by simp [Function.update, b1, Ne.symm t1])] at hs
          simp only [Except.ok.injEq, Prod.mk.injEq] at hs
          obtain ⟨⟨_, rfl, _⟩, rfl⟩ := hs
          refine ⟨t, os1.next_ofd, htmp, hBt, ?_, ?_, ?_, rfl⟩
          · simp [Function.update, b1, c1, Ne.symm t1]
          · simp [Function.update, c1]
          · simp [Function.update, b1, c1, t1, t2]

end run

namespace run

/-- Counterexample to C9 as stated: in a process started with descriptor 1
closed, the capture temp file is created on descriptor 1 itself, so staging
stdout duplicates it onto itself and then closes it, and staging stderr fails
in `dup2(1, 2)`: the child ends before `execve` with nothing captured. -/
theorem ProcessProgram.child_staging_capture_dup_counterexample :
    ∃ hs osB,
      ProcessProgram.build_handlers spec_capture_dup os_stdout_closed = .ok (hs, osB) ∧
      hs.2.1.kind = .CaptureFdHandler (some { fd_ := some 1 }) ∧
      ProcessProgram.child_staging hs.1 hs.2.1 hs.2.2 osB
        = .error (Exc.SystemError "dup2") := by
  exact ⟨_, _, rfl, rfl, rfl⟩

/-- Witness of C9 (amended): with descriptors 0, 1 and 2 open, the handlers are
built, the staging completes, and descriptors 1 and 2 end on the capture
file's open file description while its own descriptor, 3, is closed. -/
theorem ProcessProgram.child_staging_capture_dup_witness :
    ∃ (hin hout herr hin1 hout1 herr1 : FdHandler) (osB osC : sys.Os),
      ProcessProgram.build_handlers spec_capture_dup os_sample
        = .ok ((hin, hout, herr), osB) ∧
      ProcessProgram.child_staging hin hout herr osB = .ok ((hin1, hout1, herr1), osC) ∧
      hout.kind = .CaptureFdHandler (some { fd_ := some 3 }) ∧
      osC.fds 3 = none ∧
      ∃ t d, hout.kind = .CaptureFdHandler (some { fd_ := some t }) ∧ osB.fds t = some d ∧
        osC.fds 1 = some d ∧ osC.fds 2 = some d ∧ osC.fds t = none ∧
        hout1.kind = .CaptureFdHandler none := by
  refine ⟨_, _, _, _, _, _, _, _, rfl, rfl, rfl, rfl, ?_⟩
  exact ProcessProgram.child_staging_capture_dup spec_capture_dup os_sample _ _ _ _ _ _ _ _
    rfl rfl rfl (by decide) (by decide) (by decide) rfl rfl

end run

/-! ## C6, C7: ProcessProgram::get_result -/

namespace StdMap

theorem mem_keys_insert {K V : Type} [LinearOrder K] (a : K) (v : V) (m : List (K × V))
    (k : K) : k ∈ keys (insert a v m) ↔ k = a ∨ k ∈ keys m := by
  induction m with
  | nil => simp [insert, keys]
  | cons e rest ih =>
    unfold insert
    by_cases h1 : a < e.1
    · simp [h1, keys]
    · by_cases h2 : a = e.1
      · simp [h1, h2, keys]
      · simp only [h1, h2, if_false]
        simp only [keys, List.map_cons, List.mem_cons] at ih ⊢
        rw [ih]
        tauto

end StdMap

namespace run

theorem AnonymousTempFile.read_eq (tmp : AnonymousTempFile) (os : sys.Os) (fd d : Nat)
    (hf : tmp.fd_ = some fd) (hd : os.fds fd = some d) :
    tmp.read os = .ok (os.data (os.ofds d).file,
      { os with
        ofds := Function.update os.ofds d
          { os.ofds d with offset := (os.data (os.ofds d).file).length } }) := by
  have htake : ∀ t : String, String.mk (List.take t.length (List.drop 0 t.toList)) = t := by
    intro t
    have : t.length = t.toList.length := rfl
    rw [List.drop_zero, this, List.take_length]
    rfl
  unfold AnonymousTempFile.read AnonymousTempFile.rewind sys.xfstat_size sys.xlseek sys.xread
  simp only [hf, hd, Function.update_same, htake, if_true, Function.update_idem, Nat.zero_add]

theorem AnonymousTempFile.read_spec (tmp : AnonymousTempFile) (os os1 : sys.Os) (s : String)
    (h : tmp.read os = .ok (s, os1)) :
    ∃ fd d, tmp.fd_ = some fd ∧ os.fds fd = some d ∧ s = os.data (os.ofds d).file ∧
      os1.fds = os.fds ∧ os1.data = os.data ∧
      os1.ofds = Function.update os.ofds d { os.ofds d with offset := s.length } := by
  cases hf : tmp.fd_ with
  | none => simp [AnonymousTempFile.read, sys.xfstat_size, hf] at h
  | some fd =>
    cases hd : os.fds fd with
    | none => simp [AnonymousTempFile.read, sys.xfstat_size, hf, hd] at h
    | some d =>
      rw [AnonymousTempFile.read_eq tmp os fd d hf hd] at h
      simp only [Except.ok.injEq, Prod.mk.injEq] at h
      obtain ⟨rfl, rfl⟩ := h
      exact ⟨fd, d, rfl, hd, rfl, rfl, rfl, rfl⟩

theorem AnonymousTempFile.read_settled (tmp : AnonymousTempFile) (os : sys.Os) (fd d : Nat)
    (hf : tmp.fd_ = some fd) (hd : os.fds fd = some d)
    (ho : (os.ofds d).offset = (os.data (os.ofds d).file).length) :
    tmp.read os = .ok (os.data (os.ofds d).file, os) := by
  rw [AnonymousTempFile.read_eq tmp os fd d hf hd, ← ho]
  have h1 : ({ os.ofds d with offset := (os.ofds d).offset } : sys.OpenFile) = os.ofds d := rfl
  rw [h1, Function.update_eq_self]

/-- Reading a temp file a second time gives the same text and leaves the state
reached by the first read, also when another temp file was read in between. -/
theorem AnonymousTempFile.read_again (tmp : AnonymousTempFile) (os os1 os2 : sys.Os)
    (s : String) (h : tmp.read os = .ok (s, os1))
    (h12 : os2 = os1 ∨ ∃ (other : AnonymousTempFile) (s' : String),
      other.read os1 = .ok (s', os2)) :
    tmp.read os2 = .ok (s, os2) := by
  obtain ⟨fd, d, hf, hd, hs, e1, e2, e3⟩ := AnonymousTempFile.read_spec tmp os os1 s h
  have key : os2.fds fd = some d ∧ os2.data (os2.ofds d).file = s ∧
      (os2.ofds d).offset = s.length := by
    rcases h12 with rfl | ⟨other, s', ho⟩
    · refine ⟨by rw [e1]; exact hd, ?_, ?_⟩
      · rw [e2, e3]; simp [hs]
      · rw [e3]; simp
    · obtain ⟨fd', d', hf', hd', hs', g1, g2, g3⟩ :=
        AnonymousTempFile.read_spec other os1 os2 s' ho
      refine ⟨by rw [g1, e1]; exact hd, ?_, ?_⟩
      · rw [g2, e2, g3, e3]
        by_cases hdd : d = d'
        · subst hdd; simp [hs]
        · simp [Function.update, hdd, hs]
      · rw [g3]
        by_cases hdd : d = d'
        · subst hdd
          rw [hs', e2, e3]
          simp [hs]
        · rw [Function.update_noteq hdd, e3]
          simp
  have := AnonymousTempFile.read_settled tmp os2 fd d hf key.1 (by rw [key.2.2, key.2.1])
  rw [key.2.1] at this
  exact this

theorem ProcessProgram.add_capture_keys (h : FdHandler) (name : String) (r r1 : Result)
    (os os1 : sys.Os) (ha : ProcessProgram.add_capture h name r os = .ok (r1, os1)) (k : String) :
    k ∈ StdMap.keys r1 ↔ (k ∈ StdMap.keys r ∨ (k = name ∧ h.is_capture = true)) := by
  unfold ProcessProgram.add_capture at ha
  unfold FdHandler.is_capture
  cases hk : h.kind with
  | CaptureFdHandler tmp =>
    simp only [hk] at ha
    cases hg : CaptureFdHandler.get tmp os with
    | error e => simp [hg] at ha
    | ok p =>
      simp only [hg, Except.ok.injEq, Prod.mk.injEq] at ha
      rw [← ha.1, Result.set, StdMap.mem_keys_insert]
      simp only [and_true]
      tauto
  | _ =>
    simp only [hk, Except.ok.injEq, Prod.mk.injEq] at ha
    rw [← ha.1]
    simp

theorem ProcessProgram.reap_spec (self self1 : ProcessProgram) (os os1 : sys.Os)
    (h : self.reap os = .ok (self1, os1)) :
    self1.waited_ = true ∧ self1.stdin_ = self.stdin_ ∧ self1.stdout_ = self.stdout_ ∧
    self1.stderr_ = self.stderr_ ∧ self1.pid_ = self.pid_ := by
  unfold ProcessProgram.reap at h
  cases hw : self.waited_ with
  | true =>
    simp only [hw, Bool.true_eq_false, if_false, Except.ok.injEq, Prod.mk.injEq] at h
    rw [← h.1]
    exact ⟨hw, rfl, rfl, rfl, rfl⟩
  | false =>
    simp only [hw, if_true] at h
    cases hd : self.is_done os with
    | error e => simp [hd] at h
    | ok done =>
      cases done with
      | false => simp [hd] at h
      | true =>
        simp only [hd, Bool.true_eq_false, if_false] at h
        cases hx : sys.xwait4 os self.pid_ self.status_ { self.usage_ with ru_maxrss := 0 } with
        | error e => simp [hx] at h
        | ok q =>
          simp only [hx, Except.ok.injEq, Prod.mk.injEq] at h
          rw [← h.1]
          exact ⟨rfl, rfl, rfl, rfl, rfl⟩

end run

namespace run

theorem ProcessProgram.add_capture_step (h : FdHandler) (name : String) (r r1 : Result)
    (os os1 : sys.Os) (ha : ProcessProgram.add_capture h name r os = .ok (r1, os1)) :
    os1 = os ∨ ∃ (tmp : AnonymousTempFile) (s : String), tmp.read os = .ok (s, os1) := by
  unfold ProcessProgram.add_capture at ha
  cases hk : h.kind with
  | CaptureFdHandler tmp =>
    simp only [hk] at ha
    cases tmp with
    | none => simp [CaptureFdHandler.get] at ha
    | some t =>
      simp only [CaptureFdHandler.get] at ha
      cases hr : t.read os with
      | error e => simp [hr] at ha
      | ok p =>
        simp only [hr, Except.ok.injEq, Prod.mk.injEq] at ha
        exact Or.inr ⟨t, p.1, by rw [hr, ← ha.2]⟩
  | _ =>
    simp only [hk, Except.ok.injEq, Prod.mk.injEq] at ha
    exact Or.inl ha.2.symm

theorem ProcessProgram.add_capture_again (h : FdHandler) (name : String) (r r1 : Result)
    (os os1 os2 : sys.Os) (ha : ProcessProgram.add_capture h name r os = .ok (r1, os1))
    (h12 : os2 = os1 ∨ ∃ (other : AnonymousTempFile) (s' : String),
      other.read os1 = .ok (s', os2)) :
    ProcessProgram.add_capture h name r os2 = .ok (r1, os2) := by
  unfold ProcessProgram.add_capture at ha ⊢
  cases hk : h.kind with
  | CaptureFdHandler tmp =>
    simp only [hk] at ha ⊢
    cases tmp with
    | none => simp [CaptureFdHandler.get] at ha
    | some t =>
      simp only [CaptureFdHandler.get] at ha ⊢
      cases hr : t.read os with
      | error e => simp [hr] at ha
      | ok p =>
        obtain ⟨s, os1'⟩ := p
        simp only [hr, Except.ok.injEq, Prod.mk.injEq] at ha
        obtain ⟨rfl, rfl⟩ := ha
        rw [AnonymousTempFile.read_again t os os1' os2 s hr h12]
  | _ =>
    simp only [hk, Except.ok.injEq, Prod.mk.injEq] at ha ⊢
    exact ⟨ha.1, trivial⟩

/-- C6: once a call of `get_result` has succeeded, a later call on the program
and system state it left returns an equal Result and leaves the program
(`waited_`, `status_`, `usage_`) and the system state, with its count of
`wait4` calls, exactly as they were: the call is a fixed point, so every later
call behaves the same. -/
theorem ProcessProgram.get_result_idempotent (str : StringLib) (p p1 : ProcessProgram)
    (os os1 : sys.Os) (r : Result)
    (h : p.get_result str os = .ok (r, p1, os1)) :
    p1.get_result str os1 = .ok (r, p1, os1) := by
  unfold ProcessProgram.get_result at h
  cases hr : p.reap os with
  | error e => simp [hr] at h
  | ok q =>
    obtain ⟨pA, osA⟩ := q
    simp only [hr] at h
    obtain ⟨w1, _, _, _, _⟩ := ProcessProgram.reap_spec p pA os osA hr
    cases ha : ProcessProgram.add_capture pA.stdout_ "stdout"
        (Result.set (Result.set [] "status" (str.to_string_int pA.status_)) "pid"
          (str.to_string_int pA.pid_)) osA with
    | error e => simp [ha] at h
    | ok q1 =>
      obtain ⟨rB, osB⟩ := q1
      simp only [ha] at h
      cases hb : ProcessProgram.add_capture pA.stderr_ "stderr" rB osB with
      | error e => simp [hb] at h
      | ok q2 =>
        obtain ⟨rC, osC⟩ := q2
        simp only [hb, Except.ok.injEq, Prod.mk.injEq] at h
        obtain ⟨rfl, rfl, rfl⟩ := h
        have hreap : pA.reap osC = .ok (pA, osC) := by
          simp [ProcessProgram.reap, w1]
        have hB := ProcessProgram.add_capture_step _ _ _ _ _ _ hb
        have ha2 := ProcessProgram.add_capture_again _ _ _ _ osA osB osC ha hB
        have hb2 := ProcessProgram.add_capture_again _ _ _ _ osB osC osC hb (Or.inl rfl)
        unfold ProcessProgram.get_result
        simp only [hreap, ha2, hb2]

end run

namespace run

theorem program_sample_result :
    ∃ r p1 os1, program_sample.get_result sample_str os_parent_sample = .ok (r, p1, os1) ∧
      StdMap.find r "stdout" = some "out\nerr\n" ∧ p1.waited_ = true ∧
      os1.wait4_calls = 1 := by
  cases h : program_sample.get_result sample_str os_parent_sample with
  | error e =>
    simp +decide [ProcessProgram.get_result, ProcessProgram.reap, ProcessProgram.is_done,
      sys.xwaitid, sys.xwait4, program_sample, os_parent_sample, os_sample,
      ProcessProgram.add_capture, CaptureFdHandler.get, AnonymousTempFile.read,
      AnonymousTempFile.rewind, sys.xfstat_size, sys.xlseek, sys.xread, Result.set,
      StdMap.insert, sample_str] at h
  | ok v =>
    obtain ⟨r, p, os⟩ := v
    simp +decide [ProcessProgram.get_result, ProcessProgram.reap, ProcessProgram.is_done,
      sys.xwaitid, sys.xwait4, program_sample, os_parent_sample, os_sample,
      ProcessProgram.add_capture, CaptureFdHandler.get, AnonymousTempFile.read,
      AnonymousTempFile.rewind, sys.xfstat_size, sys.xlseek, sys.xread, Result.set,
      StdMap.insert, sample_str] at h
    obtain ⟨rfl, rfl, rfl⟩ := h
    exact ⟨_, _, _, rfl, by simp +decide [StdMap.find], rfl, rfl⟩

/-- Witness of C6: on the parent of scenario 3 the first `get_result` succeeds,
reaping the child with one `wait4` call, and a second call returns the same
Result and leaves the same state, the count of `wait4` calls still 1. -/
theorem ProcessProgram.get_result_idempotent_witness :
    ∃ r p1 os1, program_sample.get_result sample_str os_parent_sample = .ok (r, p1, os1) ∧
      p1.waited_ = true ∧ os1.wait4_calls = 1 ∧
      p1.get_result sample_str os1 = .ok (r, p1, os1) := by
  obtain ⟨r, p1, os1, h, _, hw, hc⟩ := program_sample_result
  exact ⟨r, p1, os1, h, hw, hc,
    ProcessProgram.get_result_idempotent sample_str program_sample p1 os_parent_sample os1 r h⟩

/-- C7: the Result returned by `get_result` has exactly the keys `status`,
`pid`, `user_cpu_time`, `system_cpu_time` and `max_rss`, plus `stdout` if and
only if the stdout handler is a capture handler, plus `stderr` if and only if
the stderr handler is a capture handler. -/
theorem ProcessProgram.get_result_keys (str : StringLib) (p p1 : ProcessProgram)
    (os os1 : sys.Os) (r : Result) (h : p.get_result str os = .ok (r, p1, os1))
    (k : String) :
    k ∈ StdMap.keys r ↔
      (k = "status" ∨ k = "pid" ∨ k = "user_cpu_time" ∨ k = "system_cpu_time" ∨
        k = "max_rss" ∨ (k = "stdout" ∧ p.stdout_.is_capture = true) ∨
        (k = "stderr" ∧ p.stderr_.is_capture = true)) := by
  unfold ProcessProgram.get_result at h
  cases hr : p.reap os with
  | error e => simp [hr] at h
  | ok q =>
    obtain ⟨pA, osA⟩ := q
    simp only [hr] at h
    obtain ⟨_, _, e1, e2, _⟩ := ProcessProgram.reap_spec p pA os osA hr
    cases ha : ProcessProgram.add_capture pA.stdout_ "stdout"
        (Result.set (Result.set [] "status" (str.to_string_int pA.status_)) "pid"
          (str.to_string_int pA.pid_)) osA with
    | error e => simp [ha] at h
    | ok q1 =>
      obtain ⟨rB, osB⟩ := q1
      simp only [ha] at h
      cases hb : ProcessProgram.add_capture pA.stderr_ "stderr" rB osB with
      | error e => simp [hb] at h
      | ok q2 =>
        obtain ⟨rC, osC⟩ := q2
        simp only [hb, Except.ok.injEq, Prod.mk.injEq] at h
        have ka := ProcessProgram.add_capture_keys _ _ _ _ _ _ ha k
        have kb := ProcessProgram.add_capture_keys _ _ _ _ _ _ hb k
        rw [← h.1]
        simp only [Result.set, StdMap.mem_keys_insert] at ka ⊢
        rw [kb, ka, e1, e2]
        simp only [StdMap.keys, List.map_nil, List.not_mem_nil, or_false]
        generalize (k = "status") = a1
        generalize (k = "pid") = a2
        generalize (k = "user_cpu_time") = a3
        generalize (k = "system_cpu_time") = a4
        generalize (k = "max_rss") = a5
        generalize (k = "stdout") = a6
        generalize (k = "stderr") = a7
        generalize (p.stdout_.is_capture = true) = a8
        generalize (p.stderr_.is_capture = true) = a9
        clear * -
        tauto

/-- Witness of C7: with stdout = capture and stderr = dup from 1 the Result has
a `stdout` key and no `stderr` key. -/
theorem ProcessProgram.get_result_keys_witness :
    ∃ r p1 os1, program_sample.get_result sample_str os_parent_sample = .ok (r, p1, os1) ∧
      "stdout" ∈ StdMap.keys r ∧ "stderr" ∉ StdMap.keys r ∧
      StdMap.keys r =
        ["max_rss", "pid", "status", "stdout", "system_cpu_time", "user_cpu_time"] := by
  obtain ⟨r, p1, os1, h, _, _, _⟩ := program_sample_result
  have hk := ProcessProgram.get_result_keys sample_str program_sample p1 os_parent_sample os1 r h
  refine ⟨r, p1, os1, h, ?_, ?_, ?_⟩
  · rw [hk]
    simp +decide [program_sample, FdHandler.is_capture]
  · rw [hk]
    simp +decide [program_sample, FdHandler.is_capture]
  · simp +decide [ProcessProgram.get_result, ProcessProgram.reap, ProcessProgram.is_done,
      sys.xwaitid, sys.xwait4, program_sample, os_parent_sample, os_sample,
      ProcessProgram.add_capture, CaptureFdHandler.get, AnonymousTempFile.read,
      AnonymousTempFile.rewind, sys.xfstat_size, sys.xlseek, sys.xread, Result.set,
      StdMap.insert, sample_str] at h
    rw [← h.1]
    simp [StdMap.keys]

end run

/-! ## C11: NullFdHandler::start leaves the opened descriptor open -/

namespace run

/-- On the success path of `NullFdHandler::start` the descriptor opened for
`/dev/null` stays open: whenever the call succeeds from a state whose lowest
free descriptor is not the target, that descriptor, closed before the call, is
open after it. -/
theorem FdHandler.null_start_leaks (h h1 : FdHandler) (os os1 : sys.Os) (n : Nat)
    (hk : h.kind = .NullFdHandler) (hn : os.lowest_free = some n) (hT : n ≠ h.fd_)
    (hs : h.start os true = .ok (h1, os1)) :
    os.fds n = none ∧ os1.fds n = some os.next_ofd ∧ os1.fds h.fd_ = some os.next_ofd := by
  have hc := lowest_free_closed os n hn
  simp only [FdHandler.start, hk, FdHandler.base_start, sys.xopen] at hs
  cases hp : os.path_file "/dev/null" fs.O_RDONLY with
  | none => simp [hp] at hs
  | some file =>
    simp [hp, hn, sys.xdup2] at hs
    obtain ⟨-, rfl⟩ := hs
    refine ⟨hc, ?_, ?_⟩
    · simp [Function.update, hT]
    · simp [Function.update]

/-- C11: `NullFdHandler::start(final = true)` on target descriptor 0, in a
process whose descriptors 0, 1 and 2 are open, succeeds and leaves descriptor 0
on `/dev/null`, but the descriptor it opened, 3, is still open afterwards: the
descriptor table differs from the one before the call at 3 as well as at 0. -/
theorem FdHandler.null_start_leaves_fd_open :
    ∃ os1, null_handler_sample.start os_sample true = .ok (null_handler_sample, os1) ∧
      os1.fds 0 = some 1 ∧ (os1.ofds 1).file = 1 ∧ (os1.ofds 1).flags = fs.O_RDONLY ∧
      os_sample.fds 3 = none ∧ os1.fds 3 = some 1 := by
  refine ⟨_, rfl, ?_, ?_, ?_, ?_, ?_⟩ <;> rfl

end run

/-! ## C13 to C17: the command line of run (run.cc) -/

namespace bin

open run json

theorem substr_head (arg : String) (n : Nat) :
    substr arg 0 (some n) = .ok (String.mk (arg.toList.take n)) := by
  simp [substr]

/-- The test `arg.substr(0, 4) == "dup"` holds for the argument `dup` alone. -/
theorem head_eq_dup (arg : String) :
    String.mk (arg.toList.take 4) = "dup" ↔ arg = "dup" := by
  obtain ⟨l⟩ := arg
  constructor
  · intro h
    have h1 : l.take 4 = ['d', 'u', 'p'] := by
      have := congrArg String.toList h
      simpa using this
    have h2 : l = ['d', 'u', 'p'] := by
      rcases l with _ | ⟨a, _ | ⟨b, _ | ⟨c, _ | ⟨d, r⟩⟩⟩⟩ <;> simp at h1 ⊢
      exact h1
    exact String.ext h2
  · intro h
    rw [h]
    rfl

/-- What `parse_fd_handler` does with an argument outside its seven names: the
chain of tests ends without a match and the default spec is returned. -/
theorem parse_fd_handler_other (lib : fs.FsLib) (arg : String)
    (h : arg ∉ ["leave", "null", "close", "capture", "dup", "stdout", "stderr"]) :
    parse_fd_handler lib arg = .ok (FdHandlerSpec.new lib "leave") := by
  simp only [List.mem_cons, List.mem_singleton, List.not_mem_nil, or_false, not_or] at h
  obtain ⟨h1, h2, h3, h4, h5, h6, h7⟩ := h
  have hd : ¬ String.mk (arg.toList.take 4) = "dup" := fun hh => h5 ((head_eq_dup arg).1 hh)
  simp only [parse_fd_handler, substr_head, h1, h2, h3, h4, h6, h7, hd, if_false]

end bin

namespace bin

open run json

/-- C13: `parse_fd_handler` applied to `dup1` does not return a `dup` spec with
`from_fd` 1: the test `arg.substr(0, 4) == "dup"` fails for every argument
longer than `dup`, no later test matches, and the default spec of type `leave`
is returned without an error; the argument `dup` alone passes the test and is
then rejected, `arg.substr(4)` being out of range. The arguments `stdout` and
`stderr` do give `dup` from 1 and from 2. -/
theorem parse_fd_handler_dup_digits (lib : fs.FsLib) :
    parse_fd_handler lib "dup1" = .ok (FdHandlerSpec.new lib "leave") ∧
    parse_fd_handler lib "dup" = usage_error "Invalid file descriptor: dup" ∧
    parse_fd_handler lib "stdout" =
      .ok { FdHandlerSpec.new lib "leave" with type_ := "dup", from_fd_ := 1 } ∧
    parse_fd_handler lib "stderr" =
      .ok { FdHandlerSpec.new lib "leave" with type_ := "dup", from_fd_ := 2 } := by
  refine ⟨parse_fd_handler_other lib "dup1" (by decide), ?_, ?_, ?_⟩
  · simp +decide [parse_fd_handler, substr, Except.bind]
  · simp +decide [parse_fd_handler, substr, STDOUT_FILENO]
  · simp +decide [parse_fd_handler, substr, STDERR_FILENO]

/-- C14: `parse_fd_handler` applied to `bogus`, which is none of the accepted
forms, reports nothing: it returns the default spec, of type `leave`. -/
theorem parse_fd_handler_unknown (lib : fs.FsLib) :
    parse_fd_handler lib "bogus" = .ok (FdHandlerSpec.new lib "leave") :=
  parse_fd_handler_other lib "bogus" (by decide)

end bin

namespace bin

open run json

theorem find_first_append (c : Char) (pre post : List Char) (h : c ∉ pre) :
    find_first c (pre ++ c :: post) = some pre.length := by
  induction pre with
  | nil => simp [find_first]
  | cons x rest ih =>
    have hx : x ≠ c := fun e => h (by simp [e])
    have hr : c ∉ rest := fun e => h (by simp [e])
    simp [find_first, hx, ih hr]

theorem find_first_none (c : Char) (l : List Char) (h : c ∉ l) : find_first c l = none := by
  induction l with
  | nil => rfl
  | cons x rest ih =>
    have hx : x ≠ c := fun e => h (by simp [e])
    have hr : c ∉ rest := fun e => h (by simp [e])
    simp [find_first, hx, ih hr]

theorem mem_remove_all_of (vec : List String) (val n : String) :
    n ∈ remove_all_of vec val ↔ n ∈ vec ∧ n ≠ val := by
  simp [remove_all_of]

theorem mem_keys_erase (k : String) (m : List (String × String)) (n : String) :
    n ∈ StdMap.keys (StdMap.erase k m) ↔ n ∈ StdMap.keys m ∧ n ≠ k := by
  simp only [StdMap.keys, StdMap.erase, List.mem_map, List.mem_filter, decide_eq_true_eq]
  constructor
  · rintro ⟨e, ⟨he, hk⟩, rfl⟩
    exact ⟨⟨e, he, rfl⟩, hk⟩
  · rintro ⟨⟨e, he, rfl⟩, hk⟩
    exact ⟨e, ⟨he, hk⟩, rfl⟩

/-- What the case `'e'` does with an argument `VAR=VAL`. -/
theorem set_env_case (lib : fs.FsLib) (load_json : String → Except Exc Json) (cl : CmdLine)
    (var val : String) (hv : '=' ∉ var.toList) :
    parse_cmd_line_case lib load_json cl (chr 'e') (some (var ++ "=" ++ val)) =
      .ok { cl with
        spec_ := { cl.spec_ with
          env_ := { cl.spec_.env_ with
            keep_ := remove_all_of cl.spec_.env_.keep_ var,
            unset_ := remove_all_of cl.spec_.env_.unset_ var,
            set_ := StdMap.insert var val cl.spec_.env_.set_ } } } := by
  obtain ⟨a⟩ := var
  obtain ⟨b⟩ := val
  have hl : (String.mk a ++ "=" ++ String.mk b).toList = a ++ '=' :: b := by
    simp [String.toList]
  have hf : find (String.mk a ++ "=" ++ String.mk b) '=' = some a.length := by
    unfold find
    rw [hl]
    exact find_first_append '=' a b hv
  have hlen : (String.mk a ++ "=" ++ String.mk b).length = a.length + 1 + b.length := by
    rw [show (String.mk a ++ "=" ++ String.mk b).length
      = (String.mk a ++ "=" ++ String.mk b).toList.length from rfl, hl]
    simp only [List.length_append, List.length_cons]
    omega
  have h1 : substr (String.mk a ++ "=" ++ String.mk b) 0 (some a.length) = .ok (String.mk a) := by
    simp only [substr, hl]
    simp
  have h2 : substr (String.mk a ++ "=" ++ String.mk b) (a.length + 1) none = .ok (String.mk b) := by
    simp only [substr, hl, hlen]
    have hlt : ¬ a.length + 1 + b.length < a.length + 1 := by omega
    have hd : List.drop (a.length + 1) (a ++ '=' :: b) = b := by
      have e : a ++ '=' :: b = (a ++ ['=']) ++ b := by simp
      rw [e]
      exact List.drop_left' (by simp)
    rw [if_neg hlt, hd]
  simp only [parse_cmd_line_case, Option.getD_some, if_true, hf, h1, h2]

/-- What the case `'e'` does with an argument without `=`. -/
theorem set_env_case_bad (lib : fs.FsLib) (load_json : String → Except Exc Json) (cl : CmdLine)
    (arg : String) (h : '=' ∉ arg.toList) :
    parse_cmd_line_case lib load_json cl (chr 'e') (some arg) =
      usage_error ("bad --env option: " ++ arg) := by
  have hf : find arg '=' = none := find_first_none '=' arg.toList h
  simp only [parse_cmd_line_case, Option.getD_some, if_true, hf]

end bin

namespace bin

open run json

theorem split_first (c : Char) (l : List Char) (h : c ∈ l) :
    ∃ pre post, l = pre ++ c :: post ∧ c ∉ pre := by
  induction l with
  | nil => simp at h
  | cons x rest ih =>
    by_cases hx : x = c
    · exact ⟨[], rest, by simp [hx], by simp⟩
    · have hr : c ∈ rest := by
        rcases List.mem_cons.1 h with e | e
        · exact absurd e.symm hx
        · exact e
      obtain ⟨pre, post, e, hp⟩ := ih hr
      refine ⟨x :: pre, post, by simp [e], ?_⟩
      intro hm
      rcases List.mem_cons.1 hm with e' | e'
      · exact hx e'.symm
      · exact hp e'

/-- An argument that contains `=` is `VAR=VAL` with no `=` in `VAR`. -/
theorem split_arg (arg : String) (h : '=' ∈ arg.toList) :
    ∃ var val : String, '=' ∉ var.toList ∧ arg = var ++ "=" ++ val := by
  obtain ⟨pre, post, e, hp⟩ := split_first '=' arg.toList h
  refine ⟨String.mk pre, String.mk post, hp, ?_⟩
  apply String.ext
  rw [show arg.data = arg.toList from rfl, e]
  simp [String.toList]

/-- Each of the four environment options keeps the three name collections
pairwise disjoint. -/
theorem parse_cmd_line_case_disjoint (lib : fs.FsLib) (load_json : String → Except Exc Json)
    (cl next : CmdLine) (c : Int) (optarg : Option String) (hc : is_env_option c)
    (hd : env_disjoint cl.spec_.env_)
    (h : parse_cmd_line_case lib load_json cl c optarg = .ok next) :
    env_disjoint next.spec_.env_ := by
  obtain ⟨d1, d2, d3⟩ := hd
  rcases hc with rfl | rfl | rfl | rfl
  · simp +decide only [parse_cmd_line_case, CMD_CLEAR_ENV, chr, if_false, if_true,
      Except.ok.injEq] at h
    subst h
    exact ⟨by simp, by simp, d3⟩
  · simp +decide only [parse_cmd_line_case, CMD_KEEP_ENV, CMD_CLEAR_ENV, chr, if_false, if_true,
      Except.ok.injEq] at h
    subst h
    refine ⟨?_, ?_, ?_⟩
    · intro n hn hu
      simp only [List.mem_append, List.mem_singleton, mem_remove_all_of] at hn hu
      rcases hn with ⟨hk, -⟩ | rfl
      · exact d1 n hk hu.1
      · exact hu.2 rfl
    · intro n hn hs
      simp only [List.mem_append, List.mem_singleton, mem_remove_all_of, mem_keys_erase] at hn hs
      rcases hn with ⟨hk, -⟩ | rfl
      · exact d2 n hk hs.1
      · exact hs.2 rfl
    · intro n hn hs
      simp only [mem_remove_all_of, mem_keys_erase] at hn hs
      exact d3 n hn.1 hs.1
  · simp +decide only [parse_cmd_line_case, chr, if_false, if_true, Except.ok.injEq] at h
    subst h
    refine ⟨?_, ?_, ?_⟩
    · intro n hn hu
      simp only [List.mem_append, List.mem_singleton, mem_remove_all_of] at hn hu
      rcases hu with hu | rfl
      · exact d1 n hn.1 hu
      · exact hn.2 rfl
    · intro n hn hs
      simp only [mem_remove_all_of, mem_keys_erase] at hn hs
      exact d2 n hn.1 hs.1
    · intro n hn hs
      simp only [List.mem_append, List.mem_singleton, mem_keys_erase] at hn hs
      rcases hn with hu | rfl
      · exact d3 n hu hs.1
      · exact hs.2 rfl
  · simp only [parse_cmd_line_case, if_true] at h
    cases hf : find (optarg.getD "") '=' with
    | none => simp [hf, usage_error] at h
    | some eq =>
      simp only [hf] at h
      cases h1 : substr (optarg.getD "") 0 (some eq) with
      | error e => simp [h1] at h
      | ok var =>
        cases h2 : substr (optarg.getD "") (eq + 1) none with
        | error e => simp [h1, h2] at h
        | ok val =>
          simp only [h1, h2, Except.ok.injEq] at h
          subst h
          refine ⟨?_, ?_, ?_⟩
          · intro n hn hu
            simp only [mem_remove_all_of] at hn hu
            exact d1 n hn.1 hu.1
          · intro n hn hs
            simp only [mem_remove_all_of, StdMap.mem_keys_insert] at hn hs
            rcases hs with rfl | hs
            · exact hn.2 rfl
            · exact d2 n hn.1 hs
          · intro n hn hs
            simp only [mem_remove_all_of, StdMap.mem_keys_insert] at hn hs
            rcases hs with rfl | hs
            · exact hn.2 rfl
            · exact d3 n hn.1 hs

theorem parse_cmd_line_loop_disjoint (lib : fs.FsLib) (load_json : String → Except Exc Json)
    (options : List (Int × Option String)) (cl next : CmdLine)
    (hopts : ∀ o ∈ options, is_env_option o.1) (hd : env_disjoint cl.spec_.env_)
    (h : parse_cmd_line_loop lib load_json cl options = .ok next) :
    env_disjoint next.spec_.env_ := by
  induction options generalizing cl with
  | nil =>
    simp only [parse_cmd_line_loop, Except.ok.injEq] at h
    subst h
    exact hd
  | cons o rest ih =>
    simp only [parse_cmd_line_loop] at h
    cases hc : parse_cmd_line_case lib load_json cl o.1 o.2 with
    | error e => simp [hc] at h
    | ok mid =>
      simp only [hc] at h
      exact ih mid (fun o' ho' => hopts o' (List.mem_cons_of_mem _ ho'))
        (parse_cmd_line_case_disjoint lib load_json cl mid o.1 o.2
          (hopts o (List.mem_cons_self _ _)) hd hc) h

/-- Each of the four environment options is carried out, `-e` provided its
argument contains `=`. -/
theorem parse_cmd_line_case_ok (lib : fs.FsLib) (load_json : String → Except Exc Json)
    (cl : CmdLine) (c : Int) (optarg : Option String) (hc : is_env_option c)
    (he : c = chr 'e' → ∃ a, optarg = some a ∧ '=' ∈ a.toList) :
    ∃ next, parse_cmd_line_case lib load_json cl c optarg = .ok next := by
  rcases hc with rfl | rfl | rfl | rfl
  · cases h : parse_cmd_line_case lib load_json cl CMD_CLEAR_ENV optarg with
    | ok next => exact ⟨next, rfl⟩
    | error e =>
      simp +decide only [parse_cmd_line_case, CMD_CLEAR_ENV, chr, if_false, if_true] at h
      cases h
  · cases h : parse_cmd_line_case lib load_json cl CMD_KEEP_ENV optarg with
    | ok next => exact ⟨next, rfl⟩
    | error e =>
      simp +decide only [parse_cmd_line_case, CMD_KEEP_ENV, CMD_CLEAR_ENV, chr, if_false,
        if_true] at h
      cases h
  · cases h : parse_cmd_line_case lib load_json cl (chr 'u') optarg with
    | ok next => exact ⟨next, rfl⟩
    | error e =>
      simp +decide only [parse_cmd_line_case, chr, if_false, if_true] at h
      cases h
  · obtain ⟨a, rfl, ha⟩ := he rfl
    obtain ⟨var, val, hv, rfl⟩ := split_arg a ha
    exact ⟨_, set_env_case lib load_json cl var val hv⟩

theorem parse_cmd_line_loop_ok (lib : fs.FsLib) (load_json : String → Except Exc Json)
    (options : List (Int × Option String)) (cl : CmdLine)
    (hopts : ∀ o ∈ options, is_env_option o.1)
    (he : ∀ o ∈ options, o.1 = chr 'e' → ∃ a, o.2 = some a ∧ '=' ∈ a.toList) :
    ∃ next, parse_cmd_line_loop lib load_json cl options = .ok next := by
  induction options generalizing cl with
  | nil => exact ⟨cl, rfl⟩
  | cons o rest ih =>
    obtain ⟨mid, hm⟩ := parse_cmd_line_case_ok lib load_json cl o.1 o.2
      (hopts o (List.mem_cons_self _ _)) (he o (List.mem_cons_self _ _))
    obtain ⟨next, hn⟩ := ih mid (fun o' ho' => hopts o' (List.mem_cons_of_mem _ ho'))
      (fun o' ho' => he o' (List.mem_cons_of_mem _ ho'))
    exact ⟨next, by simp only [parse_cmd_line_loop, hm, hn]⟩

end bin

namespace bin

open run json

/-- C15: for every sequence of the options `--clear-env`, `--keep-env NAME`,
`-u NAME` and `-e VAR=VAL` given to `parse_cmd_line`, which starts from the
default spec, the names in `env.keep`, the names in `env.unset` and the keys of
`env.set` of the spec it returns are pairwise disjoint; and it does return a
spec when every `-e` argument contains `=`. -/
theorem parse_cmd_line_env_disjoint (lib : fs.FsLib) (load_json : String → Except Exc Json)
    (options : List (Int × Option String)) (operands : List String)
    (hopts : ∀ o ∈ options, is_env_option o.1) :
    (∀ cl, parse_cmd_line lib load_json options operands = .ok cl →
      env_disjoint cl.spec_.env_) ∧
    ((∀ o ∈ options, o.1 = chr 'e' → ∃ a, o.2 = some a ∧ '=' ∈ a.toList) →
      ∃ cl, parse_cmd_line lib load_json options operands = .ok cl) := by
  have h0 : env_disjoint
      ({ spec_ := ProcessProgramSpec.new lib, write_ := "", run_ := true, print_ := true,
         output_ := "" } : CmdLine).spec_.env_ := by
    simp [env_disjoint, ProcessProgramSpec.new, EnvSpec.new]
  constructor
  · intro cl h
    simp only [parse_cmd_line] at h
    cases hl : parse_cmd_line_loop lib load_json
        { spec_ := ProcessProgramSpec.new lib, write_ := "", run_ := true, print_ := true,
          output_ := "" } options with
    | error e => simp [hl] at h
    | ok mid =>
      have hm := parse_cmd_line_loop_disjoint lib load_json options _ mid hopts h0 hl
      simp only [hl] at h
      cases operands with
      | nil =>
        simp only [Except.ok.injEq] at h
        subst h
        exact hm
      | cons e rest =>
        simp only [Except.ok.injEq] at h
        subst h
        exact hm
  · intro he
    obtain ⟨mid, hm⟩ := parse_cmd_line_loop_ok lib load_json options
      { spec_ := ProcessProgramSpec.new lib, write_ := "", run_ := true, print_ := true,
        output_ := "" } hopts he
    simp only [parse_cmd_line, hm]
    cases operands with
    | nil => exact ⟨_, rfl⟩
    | cons e rest => exact ⟨_, rfl⟩

theorem options_sample_env (o : Int × Option String) (ho : o ∈ options_sample) :
    is_env_option o.1 ∧ (o.1 = chr 'e' → ∃ a, o.2 = some a ∧ '=' ∈ a.toList) := by
  simp only [options_sample, List.mem_cons, List.mem_singleton, List.not_mem_nil, or_false] at ho
  rcases ho with rfl | rfl | rfl | rfl | rfl | rfl | rfl <;>
    simp +decide [is_env_option]

/-- Witness for C15: a command line with all four options, one of them `-e C=`. -/
theorem parse_cmd_line_env_disjoint_witness :
    (∀ o ∈ options_sample, is_env_option o.1) ∧
    ∃ cl, parse_cmd_line sample_lib load_none options_sample ["/bin/ls"] = .ok cl ∧
      env_disjoint cl.spec_.env_ ∧
      cl.spec_.env_ = { keep_all_ := false, keep_ := ["B"], unset_ := ["A"], set_ := [("C", "")] } := by
  have hopts : ∀ o ∈ options_sample, is_env_option o.1 := fun o ho => (options_sample_env o ho).1
  have T := parse_cmd_line_env_disjoint sample_lib load_none options_sample ["/bin/ls"] hopts
  obtain ⟨cl, h⟩ := T.2 (fun o ho => (options_sample_env o ho).2)
  refine ⟨hopts, cl, h, T.1 cl h, ?_⟩
  have e : parse_cmd_line sample_lib load_none options_sample ["/bin/ls"] =
      .ok { spec_ := { ProcessProgramSpec.new sample_lib with
                executable_ := "/bin/ls",
                env_ := { keep_all_ := false, keep_ := ["B"], unset_ := ["A"],
                          set_ := [("C", "")] } },
            write_ := "", run_ := true, print_ := true, output_ := "" } := by
    simp +decide [parse_cmd_line, parse_cmd_line_loop, parse_cmd_line_case, options_sample,
      find, find_first, substr, remove_all_of, StdMap.insert, StdMap.erase, chr,
      CMD_KEEP_ENV, CMD_CLEAR_ENV, ProcessProgramSpec.new, EnvSpec.new]
  rw [e] at h
  simp only [Except.ok.injEq] at h
  rw [← h]

end bin

namespace bin

open run json

/-- C16: the option `-e ARG`. When `ARG` is `VAR=VAL`, with no `=` in `VAR`
(so `VAR` is the text before the first `=`, and `VAL`, possibly empty, the text
after it), the editor assigns `env.set[VAR] = VAL` and removes `VAR` from
`env.keep` and `env.unset`, which otherwise stay as they are. When `ARG`
contains no `=`, the call ends in a usage error, with exit status
`EXIT_FAILURE`, and no command line is returned. -/
theorem parse_cmd_line_set_env (lib : fs.FsLib) (load_json : String → Except Exc Json)
    (cl : CmdLine) (arg : String) :
    (∀ var val : String, '=' ∉ var.toList → arg = var ++ "=" ++ val →
      ∃ next, parse_cmd_line_case lib load_json cl (chr 'e') (some arg) = .ok next ∧
        next.spec_.env_.set_ = StdMap.insert var val cl.spec_.env_.set_ ∧
        StdMap.find next.spec_.env_.set_ var = some val ∧
        next.spec_.env_.keep_ = cl.spec_.env_.keep_.filter (fun n => decide (n ≠ var)) ∧
        next.spec_.env_.unset_ = cl.spec_.env_.unset_.filter (fun n => decide (n ≠ var)) ∧
        var ∉ next.spec_.env_.keep_ ∧ var ∉ next.spec_.env_.unset_) ∧
    ('=' ∉ arg.toList →
      parse_cmd_line_case lib load_json cl (chr 'e') (some arg) =
        .error (Stop.exit EXIT_FAILURE ("bad --env option: " ++ arg))) := by
  constructor
  · rintro var val hv rfl
    refine ⟨_, set_env_case lib load_json cl var val hv, rfl, ?_, ?_, ?_, ?_, ?_⟩
    · simp [StdMap.find_insert]
    · simp [remove_all_of]
    · simp [remove_all_of]
    · simp [mem_remove_all_of]
    · simp [mem_remove_all_of]
  · intro h
    exact set_env_case_bad lib load_json cl arg h

/-- Witness for C16: `-e A=` on a command line whose spec keeps and unsets `A`
assigns the empty string to `A` and drops `A` from both lists. -/
theorem parse_cmd_line_set_env_witness :
    '=' ∉ "A".toList ∧ "A=" = "A" ++ "=" ++ "" ∧
    ∃ next, parse_cmd_line_case sample_lib load_none cmd_line_sample (chr 'e') (some "A=")
        = .ok next ∧
      next.spec_.env_.set_ = [("A", ""), ("D", "4")] ∧
      StdMap.find next.spec_.env_.set_ "A" = some "" ∧
      next.spec_.env_.keep_ = ["B"] ∧ next.spec_.env_.unset_ = ["C"] := by
  refine ⟨by decide, by decide, ?_⟩
  obtain ⟨next, h, h1, h2, h3, h4, -, -⟩ :=
    (parse_cmd_line_set_env sample_lib load_none cmd_line_sample "A=").1 "A" ""
      (by decide) (by decide)
  refine ⟨next, h, ?_, h2, ?_, ?_⟩
  · rw [h1]
    simp +decide [cmd_line_sample, StdMap.insert]
  · rw [h3]
    simp +decide [cmd_line_sample]
  · rw [h4]
    simp +decide [cmd_line_sample]

/-- C17: the option `--clear-env` sets `env.keep_all` to false and empties
`env.keep`, and leaves `env.set`, `env.unset`, the executable, the args and the
three fd-handler specs as they are. -/
theorem parse_cmd_line_clear_env (lib : fs.FsLib) (load_json : String → Except Exc Json)
    (cl : CmdLine) (optarg : Option String) :
    ∃ next, parse_cmd_line_case lib load_json cl CMD_CLEAR_ENV optarg = .ok next ∧
      next.spec_.env_.keep_all_ = false ∧ next.spec_.env_.keep_ = [] ∧
      next.spec_.env_.set_ = cl.spec_.env_.set_ ∧
      next.spec_.env_.unset_ = cl.spec_.env_.unset_ ∧
      next.spec_.executable_ = cl.spec_.executable_ ∧ next.spec_.args_ = cl.spec_.args_ ∧
      next.spec_.stdin_ = cl.spec_.stdin_ ∧ next.spec_.stdout_ = cl.spec_.stdout_ ∧
      next.spec_.stderr_ = cl.spec_.stderr_ ∧
      next.write_ = cl.write_ ∧ next.run_ = cl.run_ ∧ next.print_ = cl.print_ ∧
      next.output_ = cl.output_ := by
  refine ⟨{ cl with spec_ := { cl.spec_ with
      env_ := { cl.spec_.env_ with keep_all_ := false, keep_ := [] } } }, ?_, ?_⟩
  · simp +decide only [parse_cmd_line_case, CMD_CLEAR_ENV, chr, if_false, if_true]
  · simp

end bin

/-! ## C18: EnvSpec::build and the order of its lists -/

namespace StdMap

variable {K V : Type} [LinearOrder K]

theorem mem_insert (k : K) (v : V) (m : List (K × V)) (e : K × V)
    (h : e ∈ insert k v m) : e = (k, v) ∨ e ∈ m := by
  induction m with
  | nil => simpa [insert] using h
  | cons x rest ih =>
    obtain ⟨k', v'⟩ := x
    unfold insert at h
    by_cases h1 : k < k'
    · simp only [h1, if_true, List.mem_cons] at h
      rcases h with h | h | h
      · exact Or.inl h
      · exact Or.inr (by simp [h])
      · exact Or.inr (by simp [h])
    · by_cases h2 : k = k'
      · subst h2
        simp only [lt_irrefl, if_false, if_true, List.mem_cons] at h
        rcases h with h | h
        · exact Or.inl h
        · exact Or.inr (by simp [h])
      · simp only [h1, h2, if_false, List.mem_cons] at h
        rcases h with h | h
        · exact Or.inr (by simp [h])
        · rcases ih h with h | h
          · exact Or.inl h
          · exact Or.inr (by simp [h])

/-- Assignment keeps the keys strictly ascending. -/
theorem WF_insert (k : K) (v : V) (m : List (K × V)) (h : WF m) : WF (insert k v m) := by
  induction m with
  | nil => simp [insert, WF]
  | cons x rest ih =>
    obtain ⟨k', v'⟩ := x
    have hx := List.pairwise_cons.mp h
    unfold insert
    by_cases h1 : k < k'
    · simp only [h1, if_true]
      refine List.pairwise_cons.mpr ⟨?_, h⟩
      intro e he
      rcases List.mem_cons.1 he with rfl | he
      · exact h1
      · exact lt_trans h1 (hx.1 e he)
    · by_cases h2 : k = k'
      · subst h2
        simp only [lt_irrefl, if_false, if_true]
        exact List.pairwise_cons.mpr ⟨fun e he => hx.1 e he, hx.2⟩
      · simp only [h1, h2, if_false]
        refine List.pairwise_cons.mpr ⟨?_, ih hx.2⟩
        intro e he
        rcases mem_insert k v rest e he with rfl | he
        · exact lt_of_le_of_ne (not_lt.mp h1) (Ne.symm h2)
        · exact hx.1 e he

/-- Erasing a key keeps the keys strictly ascending. -/
theorem WF_erase (k : K) (m : List (K × V)) (h : WF m) : WF (erase k m) :=
  List.Pairwise.filter _ h

theorem WF_foldl {X : Type} (f : List (K × V) → X → List (K × V))
    (hf : ∀ m x, WF m → WF (f m x)) (l : List X) (m : List (K × V)) (h : WF m) :
    WF (l.foldl f m) := by
  induction l generalizing m with
  | nil => exact h
  | cons x rest ih => exact ih (f m x) (hf m x h)

/-- Two maps that answer every lookup alike are the same map. -/
theorem ext_find (m1 m2 : List (K × V)) (h1 : WF m1) (h2 : WF m2)
    (h : ∀ n, find m1 n = find m2 n) : m1 = m2 := by
  induction m1 generalizing m2 with
  | nil =>
    cases m2 with
    | nil => rfl
    | cons y r2 =>
      have := h y.1
      simp [find] at this
  | cons x r1 ih =>
    cases m2 with
    | nil =>
      have := h x.1
      simp [find] at this
    | cons y r2 =>
      obtain ⟨k1, v1⟩ := x
      obtain ⟨k2, v2⟩ := y
      have hx := List.pairwise_cons.mp h1
      have hy := List.pairwise_cons.mp h2
      have hk : k1 = k2 := by
        rcases lt_trichotomy k1 k2 with hlt | heq | hgt
        · have e := h k1
          rw [find_eq_none_of_lt ((k2, v2) :: r2) k1 (by
            intro e he
            rcases List.mem_cons.1 he with rfl | he
            · exact hlt
            · exact lt_trans hlt (hy.1 e he))] at e
          simp [find] at e
        · exact heq
        · have e := h k2
          rw [find_eq_none_of_lt ((k1, v1) :: r1) k2 (by
            intro e he
            rcases List.mem_cons.1 he with rfl | he
            · exact hgt
            · exact lt_trans hgt (hx.1 e he))] at e
          simp [find] at e
      subst hk
      have hv : v1 = v2 := by
        have e := h k1
        simpa [find] using e
      subst hv
      have ht : r1 = r2 := by
        apply ih r2 hx.2 hy.2
        intro n
        by_cases hn : n = k1
        · subst hn
          rw [find_eq_none_of_lt r1 n (fun e he => hx.1 e he),
            find_eq_none_of_lt r2 n (fun e he => hy.1 e he)]
        · have e := h n
          simpa [find, hn] using e
      rw [ht]

end StdMap

namespace run

/-- The process environment read by `get_proc_env` into an empty map is a map. -/
theorem get_proc_env_WF (environ : List String) :
    StdMap.WF (sys.Environment.get_proc_env [] environ) := by
  unfold sys.Environment.get_proc_env
  apply StdMap.WF_foldl
  · intro m x hm
    cases sys.split_entry x with
    | none => exact hm
    | some p => exact StdMap.WF_insert _ _ _ hm
  · exact List.Pairwise.nil

/-- The environment built by `EnvSpec::build` is a map. -/
theorem EnvSpec.build_WF (E : EnvSpec) (environ : List String) :
    StdMap.WF (E.build environ) := by
  unfold EnvSpec.build
  apply StdMap.WF_foldl
  · intro m x hm
    exact StdMap.WF_insert _ _ _ hm
  apply StdMap.WF_foldl
  · intro m x hm
    exact StdMap.WF_erase _ _ hm
  by_cases hk : E.keep_all_ = true
  · simp only [hk, if_true]
    exact get_proc_env_WF environ
  · simp only [hk, if_false]
    by_cases hl : E.keep_.length > 0
    · simp only [hl, if_true]
      apply StdMap.WF_foldl
      · intro m x hm
        cases StdMap.find (sys.Environment.get_proc_env [] environ) x with
        | none => exact hm
        | some v => exact StdMap.WF_insert _ _ _ hm
      · exact List.Pairwise.nil
    · simp only [hl, if_false]
      exact List.Pairwise.nil

end run

namespace run

/-- C18: `EnvSpec::build` does not depend on the order of its lists: two specs
with the same `keep_all_` and the same `set_` map, whose `unset_` lists are
permutations of each other and whose `keep_` lists are permutations of each
other, build the same environment from every process environment. -/
theorem EnvSpec.build_perm (E F : EnvSpec) (environ : List String)
    (hset : StdMap.WF E.set_) (hall : E.keep_all_ = F.keep_all_) (hs : E.set_ = F.set_)
    (hu : E.unset_.Perm F.unset_) (hk : E.keep_.Perm F.keep_) :
    E.build environ = F.build environ := by
  apply StdMap.ext_find _ _ (EnvSpec.build_WF E environ) (EnvSpec.build_WF F environ)
  intro n
  rw [EnvSpec.find_build E environ hset n, EnvSpec.find_build F environ (hs ▸ hset) n,
    ← hs, ← hall]
  have e1 : n ∈ E.unset_ ↔ n ∈ F.unset_ := hu.mem_iff
  have e2 : n ∈ E.keep_ ↔ n ∈ F.keep_ := hk.mem_iff
  simp only [e1, e2]

/-- Witness for C18: the scenario of C1 with `keep` reversed builds the same
environment from the parent `A=1, B=2, C=3`. -/
theorem EnvSpec.build_perm_witness :
    StdMap.WF env_scenario.set_ ∧ env_scenario.keep_.Perm env_scenario_permuted.keep_ ∧
    env_scenario.build ["A=1", "B=2", "C=3"] =
      env_scenario_permuted.build ["A=1", "B=2", "C=3"] := by
  have hwf : StdMap.WF env_scenario.set_ := by
    simp +decide [StdMap.WF, env_scenario]
  have hk : env_scenario.keep_.Perm env_scenario_permuted.keep_ := List.Perm.swap _ _ _
  exact ⟨hwf, hk, EnvSpec.build_perm env_scenario env_scenario_permuted _ hwf rfl rfl
    (List.Perm.refl _) hk⟩

end run

/-! ## C20: FdHandlerSpec::from_json and the kind of a document -/

namespace run

open json

/-- C20: for a document whose kind is `kind`, given as the bare string or as
an object whose member `type` is that string: when `kind` is none of `leave`,
`close`, `null`, `capture`, `dup` and `file`, `FdHandlerSpec::from_json` throws
`TypeError`; when it is one of the four kinds without arguments, it returns a
spec of that type, its other members at their defaults. -/
theorem FdHandlerSpec.from_json_kind (lib : fs.FsLib) (kind : String)
    (obj : List (String × Json)) (hobj : StdMap.find obj "type" = some (Json.STR kind)) :
    (kind ∉ ["leave", "close", "null", "capture", "dup", "file"] →
      FdHandlerSpec.from_json lib (Json.STR kind) = .error (Exc.TypeError kind) ∧
      FdHandlerSpec.from_json lib (Json.OBJ obj) = .error (Exc.TypeError kind)) ∧
    (kind ∈ ["leave", "close", "null", "capture"] →
      FdHandlerSpec.from_json lib (Json.STR kind) = .ok (FdHandlerSpec.new lib kind) ∧
      FdHandlerSpec.from_json lib (Json.OBJ obj) = .ok (FdHandlerSpec.new lib kind)) := by
  constructor
  · intro h
    simp only [List.mem_cons, List.mem_singleton, List.not_mem_nil, or_false, not_or] at h
    obtain ⟨h1, h2, h3, h4, h5, h6⟩ := h
    constructor
    · simp [FdHandlerSpec.from_json, Json.get_type, Json.get_str, h1, h2, h3, h4, h5, h6,
        bind, Except.bind, pure, Except.pure, throw, throwThe, MonadExceptOf.throw]
    · simp [FdHandlerSpec.from_json, Json.get_type, Json.get_str, Json.subscript, Json.get_obj,
        hobj, h1, h2, h3, h4, h5, h6,
        bind, Except.bind, pure, Except.pure, throw, throwThe, MonadExceptOf.throw]
  · intro h
    simp only [List.mem_cons, List.mem_singleton, List.not_mem_nil, or_false] at h
    have h' : kind = "leave" ∨ kind = "close" ∨ kind = "null" ∨ kind = "capture" := h
    constructor
    · simp [FdHandlerSpec.from_json, Json.get_type, Json.get_str, h', FdHandlerSpec.new,
        bind, Except.bind, pure, Except.pure]
    · simp [FdHandlerSpec.from_json, Json.get_type, Json.get_str, Json.subscript, Json.get_obj,
        hobj, h', FdHandlerSpec.new, bind, Except.bind, pure, Except.pure]

/-- Witness for C20: the kind `bogus` is refused in both forms, and the kind
`null` is accepted in both. -/
theorem FdHandlerSpec.from_json_kind_witness :
    (FdHandlerSpec.from_json sample_lib (Json.STR "bogus") = .error (Exc.TypeError "bogus") ∧
      FdHandlerSpec.from_json sample_lib (Json.OBJ [("type", Json.STR "bogus")])
        = .error (Exc.TypeError "bogus")) ∧
    (FdHandlerSpec.from_json sample_lib (Json.STR "null")
        = .ok (FdHandlerSpec.new sample_lib "null") ∧
      FdHandlerSpec.from_json sample_lib (Json.OBJ [("type", Json.STR "null")])
        = .ok (FdHandlerSpec.new sample_lib "null")) :=
  ⟨(FdHandlerSpec.from_json_kind sample_lib "bogus" [("type", Json.STR "bogus")]
      (by simp [StdMap.find])).1 (by decide),
   (FdHandlerSpec.from_json_kind sample_lib "null" [("type", Json.STR "null")]
      (by simp [StdMap.find])).2 (by decide)⟩

end run

/-! ## C19: Environment::Buffer::build checks no names -/

namespace sys

theorem Environment.Buffer.build_loop_spec (base : Nat) (env : List (String × String))
    (st : Environment.Buffer.Fill) :
    (Environment.Buffer.build_loop base env st).var =
      env.foldl (fun alloc i => alloc + (i.1.length + 1 + i.2.length + 1)) st.var ∧
    (Environment.Buffer.build_loop base env st).vars.length = st.vars.length + env.length := by
  induction env generalizing st with
  | nil => simp [Environment.Buffer.build_loop]
  | cons i rest ih =>
    simp only [Environment.Buffer.build_loop, List.foldl_cons, List.length_cons]
    obtain ⟨h1, h2⟩ := ih
      { vars := st.vars ++ [some st.var],
        chars := Environment.Buffer.store
          (Environment.Buffer.store
            (Environment.Buffer.store st.chars (st.var - base) (strncpy i.1.toList i.1.length))
            (st.var - base + i.1.length) ['='])
          (st.var - base + i.1.length + 1) (strcpy i.2.toList),
        var := st.var + (i.1.length + 1 + i.2.length + 1) }
    refine ⟨h1, ?_⟩
    rw [h2]
    simp only [List.length_append, List.length_singleton]
    omega

/-- The member `Environment::Buffer::build` returns a buffer for every
environment: its assertion holds, and the pointer array has one entry for each
variable and one more. -/
theorem Environment.Buffer.build_ok (ptr_size : Nat) (env : Environment) :
    ∃ buf, Environment.Buffer.build ptr_size env = .ok buf ∧
      buf.vars.length = env.length + 1 ∧ buf.vars.getLast? = some none := by
  obtain ⟨h1, h2⟩ := Environment.Buffer.build_loop_spec ((env.length + 1) * ptr_size) env
    { vars := [],
      chars := List.replicate
        (env.foldl (fun alloc i => alloc + (i.1.length + 1 + i.2.length + 1))
          ((env.length + 1) * ptr_size) - (env.length + 1) * ptr_size) none,
      var := (env.length + 1) * ptr_size }
  have hb : Environment.Buffer.build ptr_size env =
      .ok { alloc := env.foldl (fun alloc i => alloc + (i.1.length + 1 + i.2.length + 1))
              ((env.length + 1) * ptr_size),
            vars := (Environment.Buffer.build_loop ((env.length + 1) * ptr_size) env
              { vars := [],
                chars := List.replicate
                  (env.foldl (fun alloc i => alloc + (i.1.length + 1 + i.2.length + 1))
                    ((env.length + 1) * ptr_size) - (env.length + 1) * ptr_size) none,
                var := (env.length + 1) * ptr_size }).vars ++ [none],
            chars := (Environment.Buffer.build_loop ((env.length + 1) * ptr_size) env
              { vars := [],
                chars := List.replicate
                  (env.foldl (fun alloc i => alloc + (i.1.length + 1 + i.2.length + 1))
                    ((env.length + 1) * ptr_size) - (env.length + 1) * ptr_size) none,
                var := (env.length + 1) * ptr_size }).chars } := by
    simp only [Environment.Buffer.build]
    rw [if_pos h1]
  refine ⟨_, hb, ?_, ?_⟩
  · simp only [List.length_append, List.length_singleton, h2, List.length_nil]
    omega
  · simp

end sys

namespace run

/-- C19: materializing an environment (`EnvSpec::build` followed by
`Environment::Buffer::build`) rejects nothing: for every spec and every process
environment the exec buffer is produced, with one pointer for each variable of
the built environment and the closing null pointer, whatever characters the
names hold. -/
theorem EnvSpec.build_buffer (ptr_size : Nat) (E : EnvSpec) (environ : List String) :
    ∃ buf, sys.Environment.Buffer.build ptr_size (E.build environ) = .ok buf ∧
      buf.vars.length = (E.build environ).length + 1 ∧ buf.vars.getLast? = some none :=
  sys.Environment.Buffer.build_ok ptr_size (E.build environ)

/-- Counterexample to C19 as stated: the spec that sets `A=B` to `c` builds an
environment with the name `A=B`, which contains `=`, and
`Environment::Buffer::build` returns its buffer, with the record `A=B=c`,
instead of throwing `ValueError`. -/
theorem EnvSpec.build_buffer_counterexample :
    (∃ n ∈ StdMap.keys (env_eq_name.build []), '=' ∈ n.toList) ∧
    sys.Environment.Buffer.build 8 (env_eq_name.build []) =
      .ok { alloc := 22, vars := [some 16, none],
            chars := [some 'A', some '=', some 'B', some '=', some 'c', some sys.NUL] } := by
  constructor
  · exact ⟨"A=B", by simp [env_eq_name, EnvSpec.build, StdMap.keys, StdMap.insert], by decide⟩
  · rfl

end run

/-! ## C12: what CaptureFdHandler::get returns -/

namespace sys

theorem mk_append_toList (s t : String) : String.mk (s.toList ++ t.toList) = s ++ t := by
  obtain ⟨a⟩ := s
  obtain ⟨b⟩ := t
  rfl

/-- A write at the end of a file appends to it. -/
theorem write_at_end (old text : String) :
    String.mk (old.toList.take old.length ++ List.replicate (old.length - old.toList.length) NUL
      ++ text.toList ++ old.toList.drop (old.length + text.length)) = old ++ text := by
  have h1 : old.length = old.toList.length := rfl
  rw [h1, List.take_length, Nat.sub_self, List.replicate_zero, List.append_nil,
    List.drop_eq_nil_of_le (by omega), List.append_nil]
  exact mk_append_toList old text

theorem step_captures (d f : Nat) (os os1 : Os) (a : Act) (P : List Nat)
    (hinv : Os.Captures d f os) (hP : ∀ p ∈ P, os.fds p ≠ none)
    (ht : ∀ fd, a.target = some fd → fd ∉ P) (hs : os.step a = .ok os1) :
    Os.Captures d f os1 ∧ (∀ p ∈ P, os1.fds p = os.fds p) ∧
    os1.data f = os.data f ++ Os.written_by d os a := by
  obtain ⟨c1, c2, c3, c4, c5, c6, c7⟩ := hinv
  cases a with
  | write fd text =>
    simp only [Os.step, write] at hs
    cases hd : os.fds fd with
    | none => simp [hd] at hs
    | some d1 =>
      simp only [hd] at hs
      by_cases hfl : (os.ofds d1).flags % 4 = fs.O_RDONLY
      · simp [hfl] at hs
      · simp only [hfl, if_false, Except.ok.injEq] at hs
        subst hs
        by_cases hdd : d1 = d
        · subst hdd
          subst c1
          simp only [Os.written_by, hd, if_true]
          rw [c2, write_at_end]
          refine ⟨⟨?_, ?_, ?_, c4, c5, ?_, c7⟩, (by intro p _; first | rfl | trivial), ?_⟩
          · simp
          · simp [String.length_append]
          · simpa using c3
          · intro d2 h2 hne
            simp only [Function.update_noteq hne]
            exact c6 d2 h2 hne
          · simp
        · have hlt : d1 < os.next_ofd := c5 fd d1 hd
          have hf : (os.ofds d1).file ≠ f := c6 d1 hlt hdd
          have hne : ¬ (some d1 = some d) := by simpa using hdd
          simp only [Os.written_by, hd, hne, if_false, String.append_empty]
          refine ⟨⟨?_, ?_, ?_, c4, c5, ?_, c7⟩, (by intro p _; first | rfl | trivial), ?_⟩
          · simpa [Function.update_noteq (Ne.symm hdd)] using c1
          · simp only [Function.update_noteq (Ne.symm hdd), Function.update_noteq (Ne.symm hf)]
            exact c2
          · simpa [Function.update_noteq (Ne.symm hdd)] using c3
          · intro d2 h2 hn2
            by_cases e : d2 = d1
            · subst e
              simpa using hf
            · simp only [Function.update_noteq e]
              exact c6 d2 h2 hn2
          · simp [Function.update_noteq (Ne.symm hf)]
  | dup fd =>
    simp only [Os.step, xdup] at hs
    cases hd : os.fds fd with
    | none => simp [hd, Except.map] at hs
    | some d1 =>
      cases hl : os.lowest_free with
      | none => simp [hd, hl, Except.map] at hs
      | some n =>
        simp only [hd, hl, Except.map, Except.ok.injEq] at hs
        subst hs
        have hn : os.fds n = none := by
          unfold Os.lowest_free at hl
          have := List.find?_some hl
          simpa using this
        refine ⟨⟨c1, c2, c3, c4, ?_, c6, c7⟩, ?_, ?_⟩
        · intro x d2 hx
          by_cases e : x = n
          · subst e
            simp only [Function.update_same, Option.some.injEq] at hx
            subst hx
            exact c5 fd d1 hd
          · simp only [Function.update_noteq e] at hx
            exact c5 x d2 hx
        · intro p hp
          have : p ≠ n := fun e => hP p hp (e ▸ hn)
          simp [Function.update_noteq this]
        · simp [Os.written_by]
  | dup2 old_fd new_fd =>
    simp only [Os.step, xdup2] at hs
    by_cases hneg : (old_fd : Int) < 0
    · simp [hneg] at hs
    · simp only [hneg, if_false, Int.toNat_ofNat] at hs
      cases hd : os.fds old_fd with
      | none => simp [hd] at hs
      | some d1 =>
        simp only [hd, Except.ok.injEq] at hs
        subst hs
        refine ⟨⟨c1, c2, c3, c4, ?_, c6, c7⟩, ?_, ?_⟩
        · intro x d2 hx
          by_cases e : x = new_fd
          · subst e
            simp only [Function.update_same, Option.some.injEq] at hx
            subst hx
            exact c5 old_fd d1 hd
          · simp only [Function.update_noteq e] at hx
            exact c5 x d2 hx
        · intro p hp
          have : p ≠ new_fd := fun e => ht new_fd rfl (e ▸ hp)
          simp [Function.update_noteq this]
        · simp [Os.written_by]
  | close fd =>
    simp only [Os.step, xclose] at hs
    cases hd : os.fds fd with
    | none => simp [hd] at hs
    | some d1 =>
      simp only [hd, Except.ok.injEq] at hs
      subst hs
      refine ⟨⟨c1, c2, c3, c4, ?_, c6, c7⟩, ?_, ?_⟩
      · intro x d2 hx
        by_cases e : x = fd
        · subst e
          simp at hx
        · simp only [Function.update_noteq e] at hx
          exact c5 x d2 hx
      · intro p hp
        have : p ≠ fd := fun e => ht fd rfl (e ▸ hp)
        simp [Function.update_noteq this]
      · simp [Os.written_by]
  | open_file path flags =>
    simp only [Os.step, xopen] at hs
    cases hp : os.path_file path flags with
    | none => simp [hp, Except.map] at hs
    | some f1 =>
      cases hl : os.lowest_free with
      | none => simp [hp, hl, Except.map] at hs
      | some n =>
        simp only [hp, hl, Except.map, Except.ok.injEq] at hs
        subst hs
        have hn : os.fds n = none := by
          unfold Os.lowest_free at hl
          have := List.find?_some hl
          simpa using this
        have hdn : d ≠ os.next_ofd := Nat.ne_of_lt c4
        refine ⟨⟨?_, ?_, ?_, Nat.lt_succ_of_lt c4, ?_, ?_, c7⟩, ?_, ?_⟩
        · simpa [Function.update_noteq hdn] using c1
        · simpa [Function.update_noteq hdn] using c2
        · simpa [Function.update_noteq hdn] using c3
        · intro x d2 hx
          by_cases e : x = n
          · subst e
            simp only [Function.update_same, Option.some.injEq] at hx
            subst hx
            exact Nat.lt_succ_self _
          · simp only [Function.update_noteq e] at hx
            exact Nat.lt_succ_of_lt (c5 x d2 hx)
        · intro d2 h2 hne
          by_cases e : d2 = os.next_ofd
          · subst e
            simpa using c7 path flags f1 hp
          · simp only [Function.update_noteq e]
            have h2' : d2 < os.next_ofd + 1 := h2
            exact c6 d2 (by omega) hne
        · intro p hp'
          have : p ≠ n := fun e => hP p hp' (e ▸ hn)
          simp [Function.update_noteq this]
        · simp [Os.written_by]

/-- A run of actions that leave the descriptors `P` alone keeps them as they
are and appends to the captured file exactly what is written through `d`. -/
theorem run_captures (d f : Nat) (acts : List Act) (os os1 : Os) (P : List Nat)
    (hinv : Os.Captures d f os) (hP : ∀ p ∈ P, os.fds p ≠ none)
    (ht : ∀ a ∈ acts, ∀ fd, a.target = some fd → fd ∉ P) (hr : os.run acts = .ok os1) :
    Os.Captures d f os1 ∧ (∀ p ∈ P, os1.fds p = os.fds p) ∧
    os1.data f = os.data f ++ Os.written d os acts := by
  induction acts generalizing os with
  | nil =>
    simp only [Os.run, Except.ok.injEq] at hr
    subst hr
    exact ⟨hinv, fun _ _ => rfl, by simp [Os.written]⟩
  | cons a rest ih =>
    simp only [Os.run] at hr
    cases hs : os.step a with
    | error e => simp [hs] at hr
    | ok mid =>
      simp only [hs] at hr
      obtain ⟨i1, p1, d1⟩ := step_captures d f os mid a P hinv hP
        (ht a (List.mem_cons_self _ _)) hs
      obtain ⟨i2, p2, d2⟩ := ih mid i1 (fun p hp => by rw [p1 p hp]; exact hP p hp)
        (fun a' ha' => ht a' (List.mem_cons_of_mem _ ha')) hr
      refine ⟨i2, fun p hp => by rw [p2 p hp, p1 p hp], ?_⟩
      rw [d2, d1]
      simp only [Os.written, hs, String.append_assoc]

end sys

namespace run

open sys

theorem Captures_fds (d f : Nat) (os : Os) (fds : Nat → Option Nat)
    (hinv : Os.Captures d f os) (hf : ∀ fd d1, fds fd = some d1 → d1 < os.next_ofd) :
    Os.Captures d f { os with fds := fds } := by
  obtain ⟨c1, c2, c3, c4, -, c6, c7⟩ := hinv
  exact ⟨c1, c2, c3, c4, hf, c6, c7⟩

/-- The constructor of `CaptureFdHandler`, in a consistent state: the temporary
file is a new, empty file on a new open file description, on the lowest free
descriptor. -/
theorem CaptureFdHandler.new_spec (os os0 : Os) (T : Nat) (h : FdHandler) (hwf : os.WF)
    (hb : CaptureFdHandler.new os T = .ok (h, os0)) :
    ∃ t, h = { fd_ := T, old_fd_ := none, kind := .CaptureFdHandler (some { fd_ := some t }) } ∧
      os.fds t = none ∧ os0.fds = Function.update os.fds t (some os.next_ofd) ∧
      os0.next_ofd = os.next_ofd + 1 ∧
      Os.Captures os.next_ofd os.next_file os0 ∧ os0.data os.next_file = "" := by
  obtain ⟨w1, w2, w3⟩ := hwf
  simp only [CaptureFdHandler.new, AnonymousTempFile.new, AnonymousTempFile.open, xmkstemp,
    xunlink] at hb
  by_cases ht : os.tmp_ok = false
  · simp [ht] at hb
  · cases hl : os.lowest_free with
    | none => simp [ht, hl] at hb
    | some t =>
      simp only [ht, if_false, hl, Except.ok.injEq, Prod.mk.injEq] at hb
      obtain ⟨rfl, rfl⟩ := hb
      refine ⟨t, rfl, lowest_free_closed os t hl, rfl, rfl, ?_, by simp⟩
      refine ⟨by simp, by simp, by simp, Nat.lt_succ_self _, ?_, ?_, ?_⟩
      · intro fd d1 hfd
        by_cases e : fd = t
        · subst e
          simp only [Function.update_same, Option.some.injEq] at hfd
          subst hfd
          exact Nat.lt_succ_self _
        · simp only [Function.update_noteq e] at hfd
          exact Nat.lt_succ_of_lt (w1 fd d1 hfd)
      · intro d1 h1 hne
        have h1' : d1 < os.next_ofd + 1 := h1
        have hlt : d1 < os.next_ofd := by omega
        simp only [Function.update_noteq hne]
        exact Nat.ne_of_lt (w2 d1 hlt)
      · intro path flags f1 hp
        exact Nat.ne_of_lt (w3 path flags f1 hp)

/-- What `CaptureFdHandler::start(false)` does to the descriptor table: the
target is saved on the lowest free descriptor and then put on the temporary
file. -/
theorem CaptureFdHandler.start_spec (T t d : Nat) (os0 os1 : Os) (h1 : FdHandler)
    (ht : os0.fds t = some d)
    (hs : FdHandler.start
      { fd_ := T, old_fd_ := none, kind := .CaptureFdHandler (some { fd_ := some t }) }
      os0 false = .ok (h1, os1)) :
    ∃ o dT, os0.fds o = none ∧ os0.fds T = some dT ∧
      h1 = { fd_ := T, old_fd_ := some o,
             kind := .CaptureFdHandler (some { fd_ := some t }) } ∧
      os1 = { os0 with
        fds := Function.update (Function.update os0.fds o (some dT)) T (some d) } := by
  simp only [FdHandler.start, FdHandler.base_start, if_true, xdup] at hs
  cases hT : os0.fds T with
  | none => simp [hT] at hs
  | some dT =>
    cases hl : os0.lowest_free with
    | none => simp [hT, hl] at hs
    | some o =>
      have ho := lowest_free_closed os0 o hl
      have e : t ≠ o := fun e => by rw [e, ho] at ht; cases ht
      simp only [hT, hl, AnonymousTempFile.dup_fd, xdup2] at hs
      have hneg : ¬ ((t : Int) < 0) := by omega
      simp only [hneg, if_false, Int.toNat_ofNat, Function.update_noteq e, ht,
        Except.ok.injEq, Prod.mk.injEq] at hs
      obtain ⟨rfl, rfl⟩ := hs
      exact ⟨o, dT, ho, rfl, rfl, rfl⟩

/-- What the inherited `restore()` does to the descriptor table. -/
theorem CaptureFdHandler.restore_spec (T t o dT : Nat) (os2 os3 : Os) (h2 : FdHandler)
    (ho : os2.fds o = some dT)
    (hr : FdHandler.restore
      { fd_ := T, old_fd_ := some o, kind := .CaptureFdHandler (some { fd_ := some t }) }
      os2 = .ok (h2, os3)) :
    h2 = { fd_ := T, old_fd_ := none, kind := .CaptureFdHandler (some { fd_ := some t }) } ∧
    os3 = { os2 with
      fds := Function.update (Function.update os2.fds T (some dT)) o none } := by
  simp only [FdHandler.restore, xdup2] at hr
  have hneg : ¬ ((o : Int) < 0) := by omega
  simp only [hneg, if_false, Int.toNat_ofNat, ho, xclose] at hr
  cases hx : Function.update os2.fds T (some dT) o with
  | none => simp [hx] at hr
  | some x =>
    simp only [hx, Except.ok.injEq, Prod.mk.injEq] at hr
    obtain ⟨rfl, rfl⟩ := hr
    exact ⟨rfl, rfl⟩

/-- Writes through a descriptor that refers to another open file description
write nothing through `d`. -/
theorem written_elsewhere (d T dT : Nat) (hne : dT ≠ d) (texts : List String) (os : Os)
    (hT : os.fds T = some dT) :
    Os.written d os (texts.map (Act.write T)) = "" := by
  induction texts generalizing os with
  | nil => rfl
  | cons x rest ih =>
    have hn : ¬ (some dT = some d) := by simpa using hne
    simp only [List.map_cons, Os.written, Os.written_by, hT, hn, if_false]
    cases hs : os.step (Act.write T x) with
    | error e => rfl
    | ok os1 =>
      have hfds : os1.fds = os.fds := by
        simp only [Os.step, write, hT] at hs
        by_cases hfl : (os.ofds dT).flags % 4 = fs.O_RDONLY
        · simp [hfl] at hs
        · simp only [hfl, if_false, Except.ok.injEq] at hs
          subst hs
          rfl
      simp only []
      rw [ih os1 (by rw [hfds]; exact hT)]
      rfl

/-- Actions that are not writes write nothing. -/
theorem written_no_write (d : Nat) (acts : List Act) (os : Os)
    (h : ∀ a ∈ acts, ∀ fd text, a ≠ Act.write fd text) : Os.written d os acts = "" := by
  induction acts generalizing os with
  | nil => rfl
  | cons a rest ih =>
    have ha : Os.written_by d os a = "" := by
      cases a with
      | write fd text => exact absurd rfl (h _ (List.mem_cons_self _ _) fd text)
      | _ => rfl
    simp only [Os.written, ha]
    cases hs : os.step a with
    | error e => rfl
    | ok os1 =>
      simp only []
      rw [ih os1 (fun a' ha' => h a' (List.mem_cons_of_mem _ ha'))]
      rfl

end run

namespace run

open sys

theorem CaptureFdHandler.get_eq (T t d f : Nat) (old : Option Nat) (os : Os)
    (hinv : Os.Captures d f os) (ht : os.fds t = some d) :
    (FdHandler.get
      { fd_ := T, old_fd_ := old, kind := .CaptureFdHandler (some { fd_ := some t }) } os).map
        (Except.map Prod.fst) = some (.ok (os.data f)) := by
  simp only [FdHandler.get, CaptureFdHandler.get, Option.map_some']
  rw [AnonymousTempFile.read_eq { fd_ := some t } os t d rfl ht, hinv.1]
  rfl

/-- C12: a `CaptureFdHandler` is constructed for a target descriptor `T` that
is open, in a consistent system state, and started with `start(false)`. The
program then performs any actions (writes, `dup`, `dup2`, `close`, `open`) that
do not close or redirect the two descriptors the handler keeps for itself.
Then `get` returns exactly the text written, in order, through the descriptors
that referred to the open file description installed on `T` (`T` itself and
the descriptors duplicated from it), and the empty string when there was no
write. After `restore()` and further writes to `T`, `get` still returns
that same text: what is written to `T` after `restore()` is not included. -/
theorem CaptureFdHandler.get_written (os os0 os1 os2 os3 os4 : Os) (T : Nat)
    (h h1 h2 : FdHandler) (acts : List Act) (after : List String)
    (hwf : os.WF) (hT : os.fds T ≠ none)
    (hb : CaptureFdHandler.new os T = .ok (h, os0))
    (hs : h.start os0 false = .ok (h1, os1))
    (hacts : ∀ a ∈ acts, ∀ fd, a.target = some fd → fd ∉ h1.private_fds)
    (hr : os1.run acts = .ok os2)
    (hres : h1.restore os2 = .ok (h2, os3))
    (hw : os3.run (after.map (Act.write T)) = .ok os4) :
    ∃ d, os1.fds T = some d ∧
      (h1.get os2).map (Except.map Prod.fst) = some (.ok (Os.written d os1 acts)) ∧
      (h2.get os4).map (Except.map Prod.fst) = some (.ok (Os.written d os1 acts)) ∧
      ((∀ a ∈ acts, ∀ fd text, a ≠ Act.write fd text) → Os.written d os1 acts = "") := by
  obtain ⟨t, rfl, ht0, hfds0, hn0, inv0, hdata0⟩ := CaptureFdHandler.new_spec os os0 T h hwf hb
  have htT : t ≠ T := fun e => hT (e ▸ ht0)
  have ht1 : os0.fds t = some os.next_ofd := by rw [hfds0]; simp
  obtain ⟨o, dT, ho, hT0, rfl, hos1⟩ :=
    CaptureFdHandler.start_spec T t os.next_ofd os0 os1 h1 ht1 hs
  have hot : o ≠ t := fun e => by rw [e, ht1] at ho; cases ho
  have hoT : o ≠ T := fun e => by rw [e, hT0] at ho; cases ho
  have hTos : os.fds T = some dT := by
    rw [hfds0, Function.update_noteq (Ne.symm htT)] at hT0
    exact hT0
  have hdT : dT ≠ os.next_ofd := Nat.ne_of_lt (hwf.1 T dT hTos)
  -- the state after `start`
  have inv1 : Os.Captures os.next_ofd os.next_file os1 := by
    rw [hos1]
    apply Captures_fds _ _ _ _ inv0
    intro fd d1 hfd
    by_cases e1 : fd = T
    · subst e1
      simp only [Function.update_same, Option.some.injEq] at hfd
      subst hfd
      exact inv0.2.2.2.1
    · simp only [Function.update_noteq e1] at hfd
      by_cases e2 : fd = o
      · subst e2
        simp only [Function.update_same, Option.some.injEq] at hfd
        subst hfd
        exact inv0.2.2.2.2.1 T dT hT0
      · simp only [Function.update_noteq e2] at hfd
        exact inv0.2.2.2.2.1 fd d1 hfd
  have hT1 : os1.fds T = some os.next_ofd := by rw [hos1]; simp
  have ho1 : os1.fds o = some dT := by rw [hos1]; simp [Function.update_noteq hoT]
  have ht1' : os1.fds t = some os.next_ofd := by
    rw [hos1]
    simp [Function.update_noteq htT, Function.update_noteq (Ne.symm hot), ht1]
  have hdata1 : os1.data os.next_file = "" := by rw [hos1]; exact hdata0
  have hpriv : ∀ p ∈ [o, t], os1.fds p ≠ none := by
    intro p hp
    simp only [List.mem_cons, List.mem_singleton, List.not_mem_nil, or_false] at hp
    rcases hp with rfl | rfl
    · rw [ho1]; simp
    · rw [ht1']; simp
  obtain ⟨inv2, p2, d2⟩ := run_captures os.next_ofd os.next_file acts os1 os2 [o, t] inv1 hpriv
    (fun a ha fd hfd => by simpa [FdHandler.private_fds] using hacts a ha fd hfd) hr
  have ho2 : os2.fds o = some dT := by rw [p2 o (by simp), ho1]
  have ht2 : os2.fds t = some os.next_ofd := by rw [p2 t (by simp), ht1']
  have hd2 : os2.data os.next_file = Os.written os.next_ofd os1 acts := by
    rw [d2, hdata1]
    exact String.empty_append _
  -- the state after `restore` and the later writes
  obtain ⟨rfl, hos3⟩ := CaptureFdHandler.restore_spec T t o dT os2 os3 h2 ho2 hres
  have inv3 : Os.Captures os.next_ofd os.next_file os3 := by
    rw [hos3]
    apply Captures_fds _ _ _ _ inv2
    intro fd d1 hfd
    by_cases e1 : fd = o
    · subst e1
      simp at hfd
    · simp only [Function.update_noteq e1] at hfd
      by_cases e2 : fd = T
      · subst e2
        simp only [Function.update_same, Option.some.injEq] at hfd
        subst hfd
        exact inv2.2.2.2.2.1 o dT ho2
      · simp only [Function.update_noteq e2] at hfd
        exact inv2.2.2.2.2.1 fd d1 hfd
  have hT3 : os3.fds T = some dT := by
    rw [hos3]
    simp [Function.update_noteq (Ne.symm hoT)]
  have ht3 : os3.fds t = some os.next_ofd := by
    rw [hos3]
    simp [Function.update_noteq (Ne.symm hot), Function.update_noteq htT, ht2]
  have hdata3 : os3.data os.next_file = os2.data os.next_file := by rw [hos3]
  obtain ⟨inv4, p4, d4⟩ := run_captures os.next_ofd os.next_file (after.map (Act.write T))
    os3 os4 [t] inv3
    (fun p hp => by
      simp only [List.mem_singleton] at hp
      subst hp
      rw [ht3]
      simp)
    (fun a ha fd hfd => by
      simp only [List.mem_map] at ha
      obtain ⟨x, -, rfl⟩ := ha
      simp [Act.target] at hfd) hw
  have ht4 : os4.fds t = some os.next_ofd := by rw [p4 t (by simp), ht3]
  have hd4 : os4.data os.next_file = os2.data os.next_file := by
    rw [d4, written_elsewhere os.next_ofd T dT hdT after os3 hT3, hdata3]
    exact String.append_empty _
  refine ⟨os.next_ofd, hT1, ?_, ?_, ?_⟩
  · rw [CaptureFdHandler.get_eq T t os.next_ofd os.next_file (some o) os2 inv2 ht2, hd2]
  · rw [CaptureFdHandler.get_eq T t os.next_ofd os.next_file none os4 inv4 ht4, hd4, hd2]
  · exact written_no_write os.next_ofd acts os1

end run

namespace run

open sys

theorem os_sample_WF : os_sample.WF := by
  refine ⟨?_, ?_, ?_⟩
  · intro fd d h
    simp only [os_sample] at h
    by_cases hfd : fd < 3
    · simp only [hfd, if_true, Option.some.injEq] at h
      subst h
      decide
    · simp [hfd] at h
  · intro d _
    simp [os_sample]
  · intro path flags f h
    simp only [os_sample] at h
    by_cases h1 : path = "/dev/null"
    · simp only [h1, if_true, Option.some.injEq] at h
      subst h
      decide
    · by_cases h2 : path = "/tmp/in"
      · simp only [h1, if_false] at h
        simp only [h2, if_true, Option.some.injEq] at h
        subst h
        decide
      · simp [h1, h2] at h

end run

namespace run

open sys

/-- The run of `work/fd_handler0.cc` on the example system: the states it goes
through, the descriptors the capture handler keeps, and the text written
through the open file description of the temporary file. -/
theorem fd_handler0_run :
    ∃ h os0 h1 os1 os2 h2 os3 os4,
      CaptureFdHandler.new os_sample 1 = .ok (h, os0) ∧
      h.start os0 false = .ok (h1, os1) ∧
      os1.run fd_handler0_acts = .ok os2 ∧
      h1.restore os2 = .ok (h2, os3) ∧
      os3.run (["STANDARD OUTPUT:\n"].map (Act.write 1)) = .ok os4 ∧
      os1.fds 1 = some 1 ∧ h1.private_fds = [4, 3] ∧
      Os.written 1 os1 fd_handler0_acts =
        "Hello, world!\nerr0\nThis is a test.\nerr1\nThe end.\nReally, the end.\n" := by
  refine ⟨_, _, _, _, _, _, _, _, rfl, rfl, rfl, rfl, rfl, rfl, rfl, rfl⟩

/-- Witness for C12: the program `work/fd_handler0.cc`. Descriptor 1 is
captured and 2 duplicated from it; what is written to either while they are
redirected is returned by `get`, in the order written, and what is written
after each `restore()` is not. -/
theorem CaptureFdHandler.get_written_witness :
    os_sample.WF ∧ os_sample.fds 1 ≠ none ∧
    ∃ h os0 h1 os1 os2 h2 os3 os4,
      CaptureFdHandler.new os_sample 1 = .ok (h, os0) ∧
      h.start os0 false = .ok (h1, os1) ∧
      os1.run fd_handler0_acts = .ok os2 ∧
      h1.restore os2 = .ok (h2, os3) ∧
      os3.run (["STANDARD OUTPUT:\n"].map (Act.write 1)) = .ok os4 ∧
      (h2.get os4).map (Except.map Prod.fst) = some (.ok
        "Hello, world!\nerr0\nThis is a test.\nerr1\nThe end.\nReally, the end.\n") := by
  have hopen : os_sample.fds 1 ≠ none := by decide
  obtain ⟨h, os0, h1, os1, os2, h2, os3, os4, hb, hs, hr, hres, hw, hfd, hpriv, htext⟩ :=
    fd_handler0_run
  have hacts : ∀ a ∈ fd_handler0_acts, ∀ fd, a.target = some fd → fd ∉ h1.private_fds := by
    intro a ha fd hfd
    rw [hpriv]
    simp only [fd_handler0_acts, List.mem_cons, List.mem_singleton, List.not_mem_nil,
      or_false] at ha
    rcases ha with rfl | rfl | rfl | rfl | rfl | rfl | rfl | rfl | rfl | rfl | rfl <;>
      simp [Act.target] at hfd <;> subst hfd <;> decide
  obtain ⟨d, hd, -, hget, -⟩ := CaptureFdHandler.get_written os_sample os0 os1 os2 os3 os4 1
    h h1 h2 fd_handler0_acts ["STANDARD OUTPUT:\n"] os_sample_WF hopen hb hs hacts hr hres hw
  have hd1 : d = 1 := by
    rw [hfd] at hd
    exact (Option.some.inj hd).symm
  subst hd1
  rw [htext] at hget
  exact ⟨os_sample_WF, hopen, h, os0, h1, os1, os2, h2, os3, os4, hb, hs, hr, hres, hw, hget⟩

end run

namespace run

open sys

/-- Counterexample to C12 as stated: in a process started with descriptor 1
closed, the temporary file of a capture handler for descriptor 1 is created on
descriptor 1 itself. After `start(false)` and `restore()`, with nothing written
in between, descriptor 1 still refers to the temporary file, so a text written
to it after `restore()` is returned by `get`. -/
theorem CaptureFdHandler.get_written_counterexample :
    os_stdout_closed.fds 1 = none ∧
    ∃ h os0 h1 os1 h2 os3 os4,
      CaptureFdHandler.new os_stdout_closed 1 = .ok (h, os0) ∧
      h.start os0 false = .ok (h1, os1) ∧
      (h1.get os1).map (Except.map Prod.fst) = some (.ok "") ∧
      h1.restore os1 = .ok (h2, os3) ∧
      write os3 1 "late" = .ok os4 ∧
      (h2.get os4).map (Except.map Prod.fst) = some (.ok "late") := by
  refine ⟨rfl, _, _, _, _, _, _, _, rfl, rfl, rfl, rfl, rfl, rfl⟩

end run

/-! ## C21, C22: loading a program document -/

namespace run

open json

/-- The members `ProcessProgramSpec::from_json` looks up are not `type`. -/
theorem ProcessProgramSpec.from_json_congr (lib : fs.FsLib) (a b : List (String × Json))
    (h : ∀ n, n ≠ "type" → StdMap.find a n = StdMap.find b n) :
    ProcessProgramSpec.from_json lib (Json.OBJ a) = ProcessProgramSpec.from_json lib (Json.OBJ b) := by
  have e1 := h "executable" (by decide)
  have e2 := h "args" (by decide)
  have e3 := h "env" (by decide)
  have e4 := h "stdin" (by decide)
  have e5 := h "stdout" (by decide)
  have e6 := h "stderr" (by decide)
  simp only [ProcessProgramSpec.from_json, Json.subscript, Json.has, Json.get_obj, e1, e2, e3,
    e4, e5, e6, bind, Except.bind, pure, Except.pure]

/-- What the two loaders do with a document whose member `type` is a string
other than `ProcessProgram`: `ProgramSpec::from_json` returns no spec, failing
its `assert(false)`; `ProcessProgramSpec::from_json` does not read the member
`type`, and loads the document as it loads the same document with `type` set
to `ProcessProgram`. -/
theorem ProgramSpec.from_json_other_type (lib : fs.FsLib) (obj : List (String × Json))
    (type : String) (ht : StdMap.find obj "type" = some (Json.STR type))
    (hne : type ≠ ProcessProgramSpec.JSON_TYPE_NAME) :
    ProgramSpec.from_json lib (Json.OBJ obj) = .error (Exc.AssertionError "false") ∧
    ProcessProgramSpec.from_json lib (Json.OBJ obj) =
      ProcessProgramSpec.from_json lib
        (Json.OBJ (StdMap.insert "type" (Json.STR ProcessProgramSpec.JSON_TYPE_NAME) obj)) := by
  constructor
  · simp [ProgramSpec.from_json, Json.subscript, Json.get_obj, ht, Json.get_str, hne,
      bind, Except.bind, pure, Except.pure, throw, throwThe, MonadExceptOf.throw]
  · apply ProcessProgramSpec.from_json_congr
    intro n hn
    rw [StdMap.find_insert]
    simp [hn]

/-- C21: the document of type `ShellProgram` with `executable` and `args` is
not refused with a type error: `ProcessProgramSpec::from_json`, which never
reads the member `type`, loads it and returns a spec, and
`ProgramSpec::from_json` reaches its branch `assert(false)` and fails the
assertion, where `FdHandlerSpec::from_json` throws `TypeError` for an unknown
type (the third conjunct, for the handler document of type `pipe`). -/
theorem ProgramSpec.from_json_shell_program :
    StdMap.find [("args", Json.ARR []), ("executable", Json.STR "/bin/true"),
      ("type", Json.STR "ShellProgram")] "type" = some (Json.STR "ShellProgram") ∧
    ProcessProgramSpec.from_json sample_lib doc_other_type =
      .ok (ProcessProgramSpec.new sample_lib) ∧
    ProgramSpec.from_json sample_lib doc_other_type = .error (Exc.AssertionError "false") ∧
    FdHandlerSpec.from_json sample_lib (Json.OBJ [("type", Json.STR "pipe")]) =
      .error (Exc.TypeError "pipe") := by
  refine ⟨by simp +decide [StdMap.find], ?_, ?_, ?_⟩
  · simp +decide [ProcessProgramSpec.from_json, doc_other_type, Json.subscript, Json.has,
      Json.get_obj, Json.get_str, Json.get_arr, Json.get_strs, StdMap.find,
      ProcessProgramSpec.new, bind, Except.bind, pure, Except.pure]
  · simp +decide [ProgramSpec.from_json, doc_other_type, Json.subscript, Json.get_obj,
      Json.get_str, StdMap.find, ProcessProgramSpec.JSON_TYPE_NAME,
      bind, Except.bind, pure, Except.pure, throw, throwThe, MonadExceptOf.throw]
  · simp +decide [FdHandlerSpec.from_json, Json.get_type, Json.subscript, Json.get_obj,
      Json.get_str, StdMap.find, FdHandlerSpec.new, bind, Except.bind, pure, Except.pure,
      throw, throwThe, MonadExceptOf.throw]

/-- Example: the document of type `ShellProgram`. -/
theorem ProgramSpec.from_json_other_type_sample :
    ProgramSpec.from_json sample_lib doc_other_type = .error (Exc.AssertionError "false") ∧
    ProcessProgramSpec.from_json sample_lib doc_other_type =
      ProcessProgramSpec.from_json sample_lib
        (Json.OBJ (StdMap.insert "type" (Json.STR ProcessProgramSpec.JSON_TYPE_NAME)
          [("args", Json.ARR []), ("executable", Json.STR "/bin/true"),
           ("type", Json.STR "ShellProgram")])) :=
  ProgramSpec.from_json_other_type sample_lib _ "ShellProgram"
    (by simp +decide [StdMap.find]) (by decide)

end run

namespace run

open json

/-- The env document without members loads as the default `EnvSpec`. -/
theorem EnvSpec.from_json_empty : EnvSpec.from_json (Json.OBJ []) = .ok EnvSpec.new := by
  simp [EnvSpec.from_json, Json.has, Json.subscript, Json.get_obj, StdMap.find,
    bind, Except.bind, pure, Except.pure]

end run

/-! ## C23 to C28: the operations of the reactor -/

namespace evt

/-- The state-tracking `set` agrees with `SignalHandler.set` on the outcome. -/
theorem SignalHandler.set_state_outcome (SIG_MAX : Nat) (self : SignalHandler) (w : SigWorld)
    (signum : Nat) (callback : Callback) :
    (SignalHandler.set_state SIG_MAX self w signum callback).mapError Prod.fst =
      SignalHandler.set SIG_MAX self w signum callback := by
  unfold SignalHandler.set_state SignalHandler.set
  by_cases h1 : ¬ (0 < signum ∧ signum < SIG_MAX)
  · rw [if_pos h1, if_pos h1]
    rfl
  · rw [if_neg h1, if_neg h1]
    by_cases h2 : callback = none
    · rw [if_pos h2, if_pos h2]
      rfl
    · rw [if_neg h2, if_neg h2]
      by_cases h3 : (self.signals_ signum).callback_ ≠ none
      · rw [if_pos h3, if_pos h3]
        rfl
      · rw [if_neg h3, if_neg h3]
        by_cases h4 : w.instance_ = some self.this
        · simp only [h4, if_true]
          cases SignalHandler.install_signum SIG_MAX _ w signum <;> rfl
        · simp only [h4, if_false]
          rfl

theorem Reactor.handle_signals_loop_idle {Time : Type} (SIGCHLD : Nat)
    (waitid : Int → Except Exc Bool) (l : List Nat) (r : Reactor Time)
    (h : ∀ s ∈ l, (r.signals_ s).raised_ = false) :
    Reactor.handle_signals_loop SIGCHLD waitid l r = ([], .ok (0, r)) := by
  induction l with
  | nil => rfl
  | cons s rest ih =>
    have hs : (r.signals_ s).raised_ = false := h s (List.mem_cons_self _ _)
    simp only [Reactor.handle_signals_loop, hs, Bool.false_eq_true, if_false]
    exact ih (fun s' hs' => h s' (List.mem_cons_of_mem _ hs'))

theorem Reactor.handle_timers_idle {Time : Type} [LinearOrder Time] (now : Time)
    (timers : List (Timer Time)) (h : ∀ t ∈ timers, ¬ t.time_ < now) :
    Reactor.handle_timers now timers = ([], .ok (0, timers)) := by
  cases timers with
  | nil => rfl
  | cons t rest =>
    have ht := h t (List.mem_cons_self _ _)
    simp only [Reactor.handle_timers, TimeOps.lt_linear, ht, if_false]

/-- C23 (amended): a call `run(false)` on a reactor that is not empty, made
when no signal flag is raised, no signal is delivered and no timer has a
deadline earlier than the current time, invokes no callback, returns 0 and
leaves the reactor as it was. -/
theorem Reactor.run_idle {Time : Type} [LinearOrder Time] (SIG_MAX SIGCHLD : Nat)
    (r : Reactor Time) (first : Obs Time) (later : List (SleepResult × Obs Time))
    (hne : r.is_empty SIG_MAX = false)
    (hraised : ∀ s, 0 < s → s < SIG_MAX → (r.signals_ s).raised_ = false)
    (hdel : first.delivered = [])
    (htimers : ∀ t ∈ r.timers_, ¬ t.time_ < first.now) :
    r.run SIG_MAX SIGCHLD false first later = ([], some (.ok (0, r))) := by
  have hs : Reactor.handle_signals SIG_MAX SIGCHLD r first.waitid = ([], .ok (0, r)) := by
    unfold Reactor.handle_signals
    apply Reactor.handle_signals_loop_idle
    intro s hs
    rw [List.mem_range'_1] at hs
    exact hraised s (by omega) (by omega)
  have ht := Reactor.handle_timers_idle first.now r.timers_ htimers
  simp only [Reactor.run, hne, Bool.false_eq_true, if_false, hdel, List.foldl_nil,
    Reactor.handle_current, hs, ht, List.append_nil, Nat.add_zero]

/-- Counterexample to C23 as stated: on a freshly constructed reactor, with no
flag raised and no timer, `run(false)` does not return 0: it fails the
assertion `! is_empty()`. -/
theorem Reactor.run_idle_counterexample :
    ∃ (r : Reactor Nat) (w : SigWorld),
      Reactor.new 34 17 1 world_sample = .ok (r, w) ∧
      (∀ s, (r.signals_ s).raised_ = false) ∧ r.timers_ = [] ∧
      r.run 34 17 false obs_idle [] =
        ([], some (.error (Exc.AssertionError "! is_empty()"))) := by
  refine ⟨_, _, rfl, ?_, rfl, rfl⟩
  intro s
  by_cases h : s = 17
  · subst h
    rfl
  · simp [Function.update, h]

/-- Witness for C23 (amended): the example reactor, whose earliest deadline is
10, polled at time 5. -/
theorem Reactor.run_idle_witness :
    reactor_sample.is_empty 34 = false ∧
    reactor_sample.run 34 17 false { obs_idle with now := 5 } [] =
      ([], some (.ok (0, reactor_sample))) :=
  ⟨by decide, Reactor.run_idle 34 17 reactor_sample { obs_idle with now := 5 } []
    (by decide)
    (by intro s _ _; simp only [reactor_sample]; split <;> rfl)
    rfl
    (by
      intro t ht
      simp only [reactor_sample, List.mem_cons, List.mem_singleton, List.not_mem_nil,
        or_false] at ht
      rcases ht with rfl | rfl | rfl | rfl <;> decide)⟩

/-- C24: `set_wait(pid, cb)` on a reactor with no entry for `pid` returns with
the waits map holding `pid -> cb` in addition to its entries, and everything
else as before; when `pid` has an entry it throws `Error`, and the reactor at
the throw is the one before the call, the entry of `pid` included. -/
theorem Reactor.set_wait_spec {Time : Type} (r : Reactor Time) (pid : Int) (cb : Callback) :
    (StdMap.find r.waits_ pid = none →
      ∃ r1, r.set_wait pid cb = .ok r1 ∧
        StdMap.find r1.waits_ pid = some cb ∧
        (∀ q, q ≠ pid → StdMap.find r1.waits_ q = StdMap.find r.waits_ q) ∧
        r1.timers_ = r.timers_ ∧ r1.signals_ = r.signals_ ∧
        r1.signal_handler_ = r.signal_handler_) ∧
    (∀ cb0, StdMap.find r.waits_ pid = some cb0 →
      r.set_wait pid cb = .error (Exc.Error "callback for pid already set", r) ∧
      StdMap.find r.waits_ pid = some cb0) := by
  constructor
  · intro h
    refine ⟨{ r with waits_ := StdMap.insert pid cb r.waits_ }, ?_, ?_, ?_, rfl, rfl, rfl⟩
    · simp only [Reactor.set_wait, h]
    · simp [StdMap.find_insert]
    · intro q hq
      simp [StdMap.find_insert, hq]
  · intro cb0 h
    exact ⟨by simp only [Reactor.set_wait, h], h⟩

/-- Witness for C24: on the example reactor, which waits for the children 5 and
7, `set_wait(6, cb)` adds the entry and `set_wait(5, cb)` throws. -/
theorem Reactor.set_wait_spec_witness :
    (∃ r1, reactor_sample.set_wait 6 (some 60) = .ok r1 ∧
      r1.waits_ = [(5, some 50), (6, some 60), (7, some 70)]) ∧
    reactor_sample.set_wait 5 (some 60) =
      .error (Exc.Error "callback for pid already set", reactor_sample) := by
  constructor
  · obtain ⟨r1, h, -⟩ := (Reactor.set_wait_spec reactor_sample 6 (some 60)).1 (by decide)
    refine ⟨r1, h, ?_⟩
    have e : reactor_sample.set_wait 6 (some 60) =
        .ok { reactor_sample with waits_ := [(5, some 50), (6, some 60), (7, some 70)] } := by
      rfl
    rw [e] at h
    simp only [Except.ok.injEq] at h
    rw [← h]
  · exact ((Reactor.set_wait_spec reactor_sample 5 (some 60)).2 (some 50) (by decide)).1

/-- C25: `set_signal(SIGCHLD, cb)` fails one of its two assertions for every
callback, and the reactor with its dispatcher, and the signal state, are at
that point the ones before the call. -/
theorem Reactor.set_signal_sigchld {Time : Type} (SIG_MAX SIGCHLD : Nat) (r : Reactor Time)
    (w : SigWorld) (cb : Callback) :
    ∃ expr, r.set_signal SIG_MAX SIGCHLD w SIGCHLD cb =
      .error (Exc.AssertionError expr, r, w) := by
  by_cases h : SIGCHLD > 0 ∧ SIGCHLD < SIG_MAX
  · refine ⟨"signum != SIGCHLD", ?_⟩
    unfold Reactor.set_signal
    rw [if_neg (not_not.mpr h), if_pos rfl]
  · refine ⟨"signum > 0 && signum < SIG_MAX", ?_⟩
    unfold Reactor.set_signal
    rw [if_pos h]

end evt

namespace evt

theorem Reactor.handle_sigchld_handler {Time : Type} (r : Reactor Time)
    (waitid : Int → Except Exc Bool) (n : Nat) (r1 : Reactor Time)
    (h : (r.handle_sigchld waitid).2 = .ok (n, r1)) :
    r1.signal_handler_ = r.signal_handler_ := by
  unfold Reactor.handle_sigchld at h
  rcases hl : @Reactor.handle_sigchld_loop Time waitid r.waits_ with ⟨tr, out⟩
  rw [hl] at h
  cases out with
  | error e => simp at h
  | ok p =>
    simp only [Except.ok.injEq, Prod.mk.injEq] at h
    rw [← h.2]

theorem Reactor.handle_signals_loop_handler {Time : Type} (SIGCHLD : Nat)
    (waitid : Int → Except Exc Bool) (l : List Nat) (r : Reactor Time) (n : Nat)
    (r1 : Reactor Time)
    (h : (Reactor.handle_signals_loop SIGCHLD waitid l r).2 = .ok (n, r1)) :
    r1.signal_handler_ = r.signal_handler_ := by
  induction l generalizing r n with
  | nil =>
    simp only [Reactor.handle_signals_loop, Except.ok.injEq, Prod.mk.injEq] at h
    rw [← h.2]
  | cons a rest ih =>
    unfold Reactor.handle_signals_loop at h
    by_cases hr : (r.signals_ a).raised_ = true
    · simp only [hr, if_true] at h
      by_cases hc : a = SIGCHLD
      · subst hc
        simp only [if_true] at h
        rcases hsc : Reactor.handle_sigchld ({ r with signals_ := Function.update r.signals_ a { r.signals_ a with raised_ := false } } : Reactor Time) waitid with ⟨tr, out⟩
        rw [hsc] at h
        cases out with
        | error e => simp at h
        | ok p =>
          simp only at h
          obtain ⟨q, hq, hf⟩ := except_map_eq_ok _ _ _ h
          simp only [Prod.mk.injEq] at hf
          obtain ⟨-, rfl⟩ := hf
          have e1 := ih p.2 q.1 hq
          have e2 := Reactor.handle_sigchld_handler _ waitid p.1 p.2 (by rw [hsc])
          rw [e1, e2]
      · simp only [hc, if_false, Function.update_same] at h
        cases hcb : (r.signals_ a).callback_ with
        | none => simp [hcb] at h
        | some c =>
          simp only [hcb] at h
          obtain ⟨q, hq, hf⟩ := except_map_eq_ok _ _ _ h
          simp only [Prod.mk.injEq] at hf
          obtain ⟨-, rfl⟩ := hf
          have e1 := ih _ q.1 hq
          exact e1
    · simp only [hr, if_false] at h
      exact ih r n h

theorem Reactor.handle_current_handler {Time : Type} [LinearOrder Time]
    (SIG_MAX SIGCHLD : Nat) (r : Reactor Time) (obs : Obs Time) (n : Nat) (r1 : Reactor Time)
    (h : (Reactor.handle_current SIG_MAX SIGCHLD r obs).2 = .ok (n, r1)) :
    r1.signal_handler_ = r.signal_handler_ := by
  unfold Reactor.handle_current Reactor.handle_signals at h
  rcases hs : Reactor.handle_signals_loop SIGCHLD obs.waitid (List.range' 1 (SIG_MAX - 1)) r
    with ⟨tr, out⟩
  rw [hs] at h
  cases out with
  | error e => simp at h
  | ok p =>
    have e1 := Reactor.handle_signals_loop_handler SIGCHLD obs.waitid _ r p.1 p.2 (by rw [hs])
    simp only at h
    rcases ht : Reactor.handle_timers obs.now p.2.timers_ with ⟨tr', out'⟩
    rw [ht] at h
    cases out' with
    | error e => simp at h
    | ok q =>
      simp only [Except.ok.injEq, Prod.mk.injEq] at h
      rw [← h.2]
      exact e1

theorem Reactor.deliver_handler {Time : Type} (l : List Nat) (r : Reactor Time) :
    (l.foldl Reactor.deliver r).signal_handler_ = r.signal_handler_ := by
  induction l generalizing r with
  | nil => rfl
  | cons s rest ih =>
    rw [List.foldl_cons, ih]
    unfold Reactor.deliver
    cases (r.signal_handler_.signals_ s).callback_ <;> rfl

theorem Reactor.run_loop_handler {Time : Type} [LinearOrder Time] (SIG_MAX SIGCHLD : Nat)
    (later : List (SleepResult × Obs Time)) (r : Reactor Time) (num_done n : Nat)
    (r1 : Reactor Time)
    (h : (Reactor.run_loop SIG_MAX SIGCHLD later r num_done).2 = some (.ok (n, r1))) :
    r1.signal_handler_ = r.signal_handler_ := by
  induction later generalizing r num_done with
  | nil =>
    unfold Reactor.run_loop at h
    by_cases h0 : num_done = 0
    · simp [h0] at h
    · simp only [h0, if_false, Option.some.injEq, Except.ok.injEq, Prod.mk.injEq] at h
      rw [← h.2]
  | cons step later ih =>
    unfold Reactor.run_loop at h
    by_cases h0 : num_done = 0
    · simp only [h0, if_true] at h
      by_cases hf : step.1 = SleepResult.failed
      · simp [hf] at h
      · simp only [hf, if_false] at h
        rcases hc : Reactor.handle_current SIG_MAX SIGCHLD
          (step.2.delivered.foldl Reactor.deliver r) step.2 with ⟨tr, out⟩
        rw [hc] at h
        cases out with
        | error e => simp at h
        | ok p =>
          simp only at h
          have e1 := ih p.2 (0 + p.1) h
          have e2 := Reactor.handle_current_handler SIG_MAX SIGCHLD _ step.2 p.1 p.2
            (by rw [hc])
          rw [e1, e2, Reactor.deliver_handler]
    · simp only [h0, if_false, Option.some.injEq, Except.ok.injEq, Prod.mk.injEq] at h
      rw [← h.2]

/-- A `run` call that returns leaves the dispatcher of the reactor as it was. -/
theorem Reactor.run_handler {Time : Type} [LinearOrder Time] (SIG_MAX SIGCHLD : Nat)
    (r : Reactor Time) (sleep : Bool) (first : Obs Time)
    (later : List (SleepResult × Obs Time)) (n : Nat) (r1 : Reactor Time)
    (h : (r.run SIG_MAX SIGCHLD sleep first later).2 = some (.ok (n, r1))) :
    r1.signal_handler_ = r.signal_handler_ := by
  unfold Reactor.run at h
  cases he : r.is_empty SIG_MAX with
  | true => simp [he] at h
  | false =>
    simp only [he, Bool.false_eq_true, if_false] at h
    rcases hc : Reactor.handle_current SIG_MAX SIGCHLD
      (first.delivered.foldl Reactor.deliver r) first with ⟨tr, out⟩
    rw [hc] at h
    cases out with
    | error e => simp at h
    | ok p =>
      have e2 := Reactor.handle_current_handler SIG_MAX SIGCHLD _ first p.1 p.2 (by rw [hc])
      simp only at h
      cases sleep with
      | true =>
        simp only [if_true] at h
        rw [Reactor.run_loop_handler SIG_MAX SIGCHLD later p.2 p.1 n r1 h, e2,
          Reactor.deliver_handler]
      | false =>
        simp only [Bool.false_eq_true, if_false, Option.some.injEq, Except.ok.injEq,
          Prod.mk.injEq] at h
        rw [← h.2, e2, Reactor.deliver_handler]

end evt

namespace evt

/-- What a successful `set_signal` leaves in the reactor's table. -/
theorem Reactor.set_signal_ok {Time : Type} (SIG_MAX SIGCHLD : Nat) (r r1 : Reactor Time)
    (w w1 : SigWorld) (signum : Nat) (cb : Callback)
    (h : r.set_signal SIG_MAX SIGCHLD w signum cb = .ok (r1, w1)) :
    0 < signum ∧ signum < SIG_MAX ∧ signum ≠ SIGCHLD ∧
    (r.signals_ signum).callback_ = none ∧
    r1.signals_ = Function.update r.signals_ signum { callback_ := cb, raised_ := false } ∧
    r1.timers_ = r.timers_ ∧ r1.waits_ = r.waits_ := by
  unfold Reactor.set_signal at h
  by_cases h1 : ¬ (signum > 0 ∧ signum < SIG_MAX)
  · rw [if_pos h1] at h
    cases h
  · rw [if_neg h1] at h
    by_cases h2 : signum = SIGCHLD
    · rw [if_pos h2] at h
      cases h
    · rw [if_neg h2] at h
      by_cases h3 : (r.signals_ signum).callback_ = none
      · rw [if_pos h3] at h
        simp only at h
        split at h
        · simp only [Except.ok.injEq, Prod.mk.injEq] at h
          obtain ⟨rfl, -⟩ := h
          have h1' := not_not.mp h1
          exact ⟨h1'.1, h1'.2, h2, h3, rfl, rfl, rfl⟩
        · cases h
      · rw [if_neg h3] at h
        cases h

/-- C26 (amended): `SignalHandler::set(signum, cb)` with a non-null `cb`, for a
signal number in range that already has a callback, throws `Error("signal
already set")`, and the dispatcher (the callback recorded earlier and the saved
disposition included) and the OS dispositions are at the throw the ones before
the call. A `Reactor::set_signal` on a signal number registered earlier with a
non-null callback throws `Error("callback for signal already set")`, and the
reactor, its dispatcher and the OS dispositions are the ones before the call. -/
theorem SignalHandler.set_already_set {Time : Type} (SIG_MAX SIGCHLD : Nat) :
    (∀ (h : SignalHandler) (w : SigWorld) (signum : Nat) (cb : Callback),
      0 < signum → signum < SIG_MAX → cb ≠ none → (h.signals_ signum).callback_ ≠ none →
      SignalHandler.set_state SIG_MAX h w signum cb =
        .error (Exc.Error "signal already set", h, w)) ∧
    (∀ (r r1 : Reactor Time) (w w1 : SigWorld) (signum : Nat) (cb0 cb : Callback),
      cb0 ≠ none → r.set_signal SIG_MAX SIGCHLD w signum cb0 = .ok (r1, w1) →
      r1.set_signal SIG_MAX SIGCHLD w1 signum cb =
        .error (Exc.Error "callback for signal already set", r1, w1)) := by
  constructor
  · intro h w signum cb h1 h2 h3 h4
    unfold SignalHandler.set_state
    rw [if_neg (not_not.mpr ⟨h1, h2⟩), if_neg h3, if_pos h4]
  · intro r r1 w w1 signum cb0 cb hcb h
    obtain ⟨h1, h2, h3, -, h5, -, -⟩ := Reactor.set_signal_ok SIG_MAX SIGCHLD r r1 w w1 signum cb0 h
    have hc : (r1.signals_ signum).callback_ ≠ none := by
      rw [h5]
      simpa using hcb
    unfold Reactor.set_signal
    rw [if_neg (not_not.mpr ⟨h1, h2⟩), if_neg h3, if_neg hc]

/-- A freshly constructed reactor on the example signal state, after
`set_signal(10, cb)` with a null and with a non-null callback. -/
theorem reactor_new_runs :
    ∃ (r0 : Reactor Nat) (w0 : SigWorld) (r1 : Reactor Nat) (w1 : SigWorld)
      (r2 : Reactor Nat) (w2 : SigWorld),
      Reactor.new 34 17 1 world_sample = .ok (r0, w0) ∧
      r0.set_signal 34 17 w0 10 none = .ok (r1, w1) ∧
      r0.set_signal 34 17 w0 10 (some 100) = .ok (r2, w2) ∧
      (r1.signals_ 10).callback_ = none ∧ r1.is_empty 34 = true ∧
      (r1.signal_handler_.signals_ 10).callback_ = some 10 ∧
      w1.disposition 10 = sighandler_t.handler ∧ r2.is_empty 34 = false :=
  ⟨_, _, _, _, _, _, rfl, rfl, rfl, rfl, by decide, rfl, rfl, by decide⟩

/-- Counterexample to C26 as stated: on a reactor where signal 10 was
registered with a null callback, a second `set_signal(10, cb)` fails, with the
dispatcher's `Error("signal already set")`, after it has stored `cb` in the
reactor's table: the callback recorded for signal 10 is not the one before the
call. -/
theorem SignalHandler.set_already_set_counterexample :
    ∃ (r0 : Reactor Nat) (w0 : SigWorld) (r1 : Reactor Nat) (w1 : SigWorld)
      (r2 : Reactor Nat) (w2 : SigWorld),
      Reactor.new 34 17 1 world_sample = .ok (r0, w0) ∧
      r0.set_signal 34 17 w0 10 none = .ok (r1, w1) ∧
      r1.set_signal 34 17 w1 10 (some 5) = .error (Exc.Error "signal already set", r2, w2) ∧
      (r1.signals_ 10).callback_ = none ∧ (r2.signals_ 10).callback_ = some 5 :=
  ⟨_, _, _, _, _, _, rfl, rfl, rfl, rfl, rfl⟩

/-- Witness for C26 (amended): the example dispatcher, which has a callback for
signal 17, and a reactor on which signal 10 was registered. -/
theorem SignalHandler.set_already_set_witness :
    SignalHandler.set_state 34 handler_sample world_sample 17 (some 3) =
      .error (Exc.Error "signal already set", handler_sample, world_sample) ∧
    ∃ (r0 : Reactor Nat) (w0 : SigWorld) (r2 : Reactor Nat) (w2 : SigWorld),
      Reactor.new 34 17 1 world_sample = .ok (r0, w0) ∧
      r0.set_signal 34 17 w0 10 (some 100) = .ok (r2, w2) ∧
      r2.set_signal 34 17 w2 10 (some 5) =
        .error (Exc.Error "callback for signal already set", r2, w2) := by
  obtain ⟨r0, w0, r1, w1, r2, w2, h0, -, h2, -⟩ := reactor_new_runs
  have T := @SignalHandler.set_already_set Nat 34 17
  exact ⟨T.1 handler_sample world_sample 17 (some 3) (by decide) (by decide) (by decide)
      (by decide),
    r0, w0, r2, w2, h0, h2, T.2 r0 r2 w0 w2 10 (some 100) (some 5) (by decide) h2⟩

end evt

namespace evt

/-- The value of `is_empty`, entry by entry. -/
theorem Reactor.is_empty_iff {Time : Type} (SIG_MAX : Nat) (r : Reactor Time) :
    r.is_empty SIG_MAX = true ↔
      r.timers_ = [] ∧ r.waits_ = [] ∧ ∀ s, s < SIG_MAX → (r.signals_ s).callback_ = none := by
  unfold Reactor.is_empty
  simp only [decide_eq_true_eq, List.length_eq_zero, List.filter_eq_nil_iff, List.mem_range,
    ne_eq, decide_not, Bool.not_eq_true', decide_eq_false_iff_not, not_not]

/-- The constructor leaves the reactor's tables empty and registers the closure
of `SIGCHLD` with the dispatcher. -/
theorem Reactor.new_tables {Time : Type} (SIG_MAX SIGCHLD this : Nat) (w w0 : SigWorld)
    (r0 : Reactor Time) (h : Reactor.new SIG_MAX SIGCHLD this w = .ok (r0, w0)) :
    r0.timers_ = [] ∧ r0.waits_ = [] ∧
    (∀ s, r0.signals_ s = { callback_ := none, raised_ := false }) ∧
    ∃ h1 w1, SignalHandler.set SIG_MAX (SignalHandler.new this) w SIGCHLD (some SIGCHLD)
        = .ok (h1, w1) ∧
      SignalHandler.install SIG_MAX h1 w1 = .ok (r0.signal_handler_, w0) := by
  unfold Reactor.new at h
  cases hs : SignalHandler.set SIG_MAX (SignalHandler.new this) w SIGCHLD (some SIGCHLD) with
  | error e => simp [hs] at h
  | ok p =>
    simp only [hs] at h
    cases hi : SignalHandler.install SIG_MAX p.1 p.2 with
    | error e => simp [hi] at h
    | ok q =>
      simp only [hi, Except.ok.injEq, Prod.mk.injEq] at h
      obtain ⟨rfl, rfl⟩ := h
      refine ⟨rfl, rfl, ?_, p.1, p.2, rfl, hi⟩
      intro s
      by_cases e : s = SIGCHLD
      · subst e
        simp
      · simp [Function.update_noteq e]

end evt

namespace evt

theorem SignalHandler.install_signum_callbacks (SIG_MAX : Nat) (h h1 : SignalHandler)
    (w w1 : SigWorld) (s : Nat)
    (hi : SignalHandler.install_signum SIG_MAX h w s = .ok (h1, w1)) (t : Nat) :
    (h1.signals_ t).callback_ = (h.signals_ t).callback_ := by
  unfold SignalHandler.install_signum at hi
  by_cases c1 : ¬ (0 < s ∧ s < SIG_MAX)
  · rw [if_pos c1] at hi
    cases hi
  · rw [if_neg c1] at hi
    by_cases c2 : (h.signals_ s).callback_ = none
    · rw [if_pos c2] at hi
      cases hi
    · rw [if_neg c2] at hi
      simp only at hi
      by_cases c3 : (os_signal w s sighandler_t.handler).1 = sighandler_t.handler
      · rw [if_pos c3] at hi
        cases hi
      · rw [if_neg c3] at hi
        simp only [pure, Except.pure, Except.ok.injEq, Prod.mk.injEq] at hi
        obtain ⟨rfl, -⟩ := hi
        by_cases e : t = s
        · subst e
          simp
        · simp [Function.update_noteq e]

theorem SignalHandler.install_loop_callbacks (SIG_MAX : Nat) (l : List Nat)
    (h h1 : SignalHandler) (w w1 : SigWorld)
    (hi : SignalHandler.install_loop SIG_MAX l h w = .ok (h1, w1)) (t : Nat) :
    (h1.signals_ t).callback_ = (h.signals_ t).callback_ := by
  induction l generalizing h w with
  | nil =>
    simp only [SignalHandler.install_loop, pure, Except.pure, Except.ok.injEq,
      Prod.mk.injEq] at hi
    rw [← hi.1]
  | cons s rest ih =>
    unfold SignalHandler.install_loop at hi
    by_cases c : (h.signals_ s).callback_ ≠ none
    · rw [if_pos c] at hi
      cases hs : SignalHandler.install_signum SIG_MAX h w s with
      | error e =>
        rw [hs] at hi
        cases hi
      | ok p =>
        rw [hs] at hi
        rw [ih p.1 p.2 hi, SignalHandler.install_signum_callbacks SIG_MAX h p.1 w p.2 s hs t]
    · rw [if_neg c] at hi
      exact ih h w hi

theorem SignalHandler.install_callbacks (SIG_MAX : Nat) (h h1 : SignalHandler)
    (w w1 : SigWorld) (hi : SignalHandler.install SIG_MAX h w = .ok (h1, w1)) (t : Nat) :
    (h1.signals_ t).callback_ = (h.signals_ t).callback_ := by
  unfold SignalHandler.install at hi
  by_cases c : w.instance_ ≠ none
  · rw [if_pos c] at hi
    cases hi
  · rw [if_neg c] at hi
    exact SignalHandler.install_loop_callbacks SIG_MAX _ h h1 _ w1 hi t

/-- The callbacks in the dispatcher after `set`, however the call ends: the
entry of `signum` holds the new callback or the old one, the others are the
ones before. -/
theorem SignalHandler.set_state_callbacks (SIG_MAX : Nat) (h : SignalHandler) (w : SigWorld)
    (signum : Nat) (cb : Callback) :
    (∀ h1 w1, SignalHandler.set_state SIG_MAX h w signum cb = .ok (h1, w1) →
      ∀ t, (h1.signals_ t).callback_ = if t = signum then cb else (h.signals_ t).callback_) ∧
    (∀ e h1 w1, SignalHandler.set_state SIG_MAX h w signum cb = .error (e, h1, w1) →
      ∀ t, (h1.signals_ t).callback_ = (h.signals_ t).callback_ ∨
        (t = signum ∧ (h1.signals_ t).callback_ = cb)) := by
  unfold SignalHandler.set_state
  by_cases c1 : ¬ (0 < signum ∧ signum < SIG_MAX)
  · rw [if_pos c1]
    refine ⟨fun h1 w1 hh => (by cases hh), fun e h1 w1 hh t => ?_⟩
    simp only [Except.error.injEq, Prod.mk.injEq] at hh
    rw [← hh.2.1]
    exact Or.inl rfl
  · rw [if_neg c1]
    by_cases c2 : cb = none
    · rw [if_pos c2]
      refine ⟨fun h1 w1 hh => (by cases hh), fun e h1 w1 hh t => ?_⟩
      simp only [Except.error.injEq, Prod.mk.injEq] at hh
      rw [← hh.2.1]
      exact Or.inl rfl
    · rw [if_neg c2]
      by_cases c3 : (h.signals_ signum).callback_ ≠ none
      · rw [if_pos c3]
        refine ⟨fun h1 w1 hh => (by cases hh), fun e h1 w1 hh t => ?_⟩
        simp only [Except.error.injEq, Prod.mk.injEq] at hh
        rw [← hh.2.1]
        exact Or.inl rfl
      · rw [if_neg c3]
        have hup : ∀ t, ((Function.update h.signals_ signum
            { h.signals_ signum with callback_ := cb }) t).callback_ =
            if t = signum then cb else (h.signals_ t).callback_ := by
          intro t
          by_cases e : t = signum
          · subst e
            simp
          · simp [Function.update_noteq e, e]
        simp only
        by_cases c4 : w.instance_ = some h.this
        · rw [if_pos c4]
          constructor
          · intro h1 w1 hh t
            split at hh
            · rename_i s hs
              simp only [Except.ok.injEq] at hh
              subst hh
              rw [SignalHandler.install_signum_callbacks SIG_MAX _ h1 w w1 signum hs t]
              exact hup t
            · cases hh
          · intro e h1 w1 hh t
            split at hh
            · cases hh
            · simp only [Except.error.injEq, Prod.mk.injEq] at hh
              rw [← hh.2.1]
              by_cases e' : t = signum
              · right
                refine ⟨e', ?_⟩
                rw [hup t, if_pos e']
              · left
                rw [hup t, if_neg e']
        · rw [if_neg c4]
          refine ⟨fun h1 w1 hh t => ?_, fun e h1 w1 hh => by cases hh⟩
          simp only [Except.ok.injEq, Prod.mk.injEq] at hh
          rw [← hh.1]
          exact hup t

/-- The dispatcher of a freshly constructed reactor holds the closure of
`SIGCHLD` and nothing else. -/
theorem Reactor.new_callbacks {Time : Type} (SIG_MAX SIGCHLD this : Nat) (w w0 : SigWorld)
    (r0 : Reactor Time) (h : Reactor.new SIG_MAX SIGCHLD this w = .ok (r0, w0)) (t : Nat) :
    (r0.signal_handler_.signals_ t).callback_ = if t = SIGCHLD then some SIGCHLD else none := by
  obtain ⟨-, -, -, h1, w1, hs, hi⟩ := Reactor.new_tables SIG_MAX SIGCHLD this w w0 r0 h
  rw [SignalHandler.install_callbacks SIG_MAX h1 r0.signal_handler_ w1 w0 hi t]
  rw [← SignalHandler.set_state_outcome] at hs
  cases hst : SignalHandler.set_state SIG_MAX (SignalHandler.new this) w SIGCHLD
      (some SIGCHLD) with
  | error e =>
    rw [hst] at hs
    cases hs
  | ok p =>
    rw [hst] at hs
    simp only [Except.mapError, Except.ok.injEq] at hs
    subst hs
    rw [(SignalHandler.set_state_callbacks SIG_MAX _ w SIGCHLD (some SIGCHLD)).1 h1 w1 hst t]
    rfl

end evt

namespace evt

/-- C27 (amended): `Reactor::is_empty()` returns true exactly when the timer
sequence is empty, the waits map is empty and no signal has a non-null callback
in the reactor's table; a freshly constructed reactor is empty although its
dispatcher holds the closure for `SIGCHLD`; and a `set_signal(signum, cb)` that
succeeds records `cb` for `signum` in that table, so that with a non-null `cb`
the reactor is not empty afterwards. -/
theorem Reactor.is_empty_spec {Time : Type} (SIG_MAX SIGCHLD : Nat) :
    (∀ r : Reactor Time, r.is_empty SIG_MAX = true ↔
      r.timers_ = [] ∧ r.waits_ = [] ∧ ∀ s, s < SIG_MAX → (r.signals_ s).callback_ = none) ∧
    (∀ (this : Nat) (w w0 : SigWorld) (r0 : Reactor Time),
      Reactor.new SIG_MAX SIGCHLD this w = .ok (r0, w0) →
      r0.is_empty SIG_MAX = true ∧
      (r0.signal_handler_.signals_ SIGCHLD).callback_ = some SIGCHLD) ∧
    (∀ (r r1 : Reactor Time) (w w1 : SigWorld) (signum : Nat) (cb : Callback),
      r.set_signal SIG_MAX SIGCHLD w signum cb = .ok (r1, w1) →
      (r1.signals_ signum).callback_ = cb ∧ (cb ≠ none → r1.is_empty SIG_MAX = false)) := by
  refine ⟨Reactor.is_empty_iff SIG_MAX, ?_, ?_⟩
  · intro this w w0 r0 h
    obtain ⟨h1, h2, h3, -⟩ := Reactor.new_tables SIG_MAX SIGCHLD this w w0 r0 h
    refine ⟨(Reactor.is_empty_iff SIG_MAX r0).2 ⟨h1, h2, fun s _ => ?_⟩, ?_⟩
    · rw [h3 s]
    · rw [Reactor.new_callbacks SIG_MAX SIGCHLD this w w0 r0 h SIGCHLD, if_pos rfl]
  · intro r r1 w w1 signum cb h
    obtain ⟨-, h2, -, -, h5, -, -⟩ := Reactor.set_signal_ok SIG_MAX SIGCHLD r r1 w w1 signum cb h
    have hcb : (r1.signals_ signum).callback_ = cb := by
      rw [h5]
      simp
    refine ⟨hcb, fun hne => ?_⟩
    cases he : r1.is_empty SIG_MAX with
    | false => rfl
    | true =>
      have := ((Reactor.is_empty_iff SIG_MAX r1).1 he).2.2 signum h2
      rw [hcb] at this
      exact absurd this hne

/-- Counterexample to C27 as stated: on a fresh reactor `set_signal(10, cb)`
with a null `cb` succeeds, the dispatcher then holds the closure for signal 10
and the thunk is the disposition of signal 10, yet `is_empty()` returns
true. -/
theorem Reactor.is_empty_spec_counterexample :
    ∃ (r0 : Reactor Nat) (w0 : SigWorld) (r1 : Reactor Nat) (w1 : SigWorld),
      Reactor.new 34 17 1 world_sample = .ok (r0, w0) ∧
      r0.set_signal 34 17 w0 10 none = .ok (r1, w1) ∧
      (r1.signal_handler_.signals_ 10).callback_ = some 10 ∧
      w1.disposition 10 = sighandler_t.handler ∧
      r1.is_empty 34 = true := by
  obtain ⟨r0, w0, r1, w1, -, -, h0, h1, -, -, h4, h5, h6, -⟩ := reactor_new_runs
  exact ⟨r0, w0, r1, w1, h0, h1, h5, h6, h4⟩

/-- Witness for C27 (amended): a fresh reactor, and the one after
`set_signal(10, cb)` with callback 100. -/
theorem Reactor.is_empty_spec_witness :
    ∃ (r0 : Reactor Nat) (w0 : SigWorld) (r2 : Reactor Nat) (w2 : SigWorld),
      Reactor.new 34 17 1 world_sample = .ok (r0, w0) ∧
      r0.set_signal 34 17 w0 10 (some 100) = .ok (r2, w2) ∧
      (r0.is_empty 34 = true ∧ (r0.signal_handler_.signals_ 17).callback_ = some 17) ∧
      ((r2.signals_ 10).callback_ = some 100 ∧ r2.is_empty 34 = false) := by
  obtain ⟨r0, w0, -, -, r2, w2, h0, -, h2, -⟩ := reactor_new_runs
  have T := @Reactor.is_empty_spec Nat 34 17
  exact ⟨r0, w0, r2, w2, h0, h2, T.2.1 1 world_sample w0 r0 h0,
    (T.2.2 r0 r2 w0 w2 10 (some 100) h2).1,
    (T.2.2 r0 r2 w0 w2 10 (some 100) h2).2 (by decide)⟩

theorem Reactor.new_wired {Time : Type} (SIG_MAX SIGCHLD this : Nat) (w w0 : SigWorld)
    (r0 : Reactor Time) (h : Reactor.new SIG_MAX SIGCHLD this w = .ok (r0, w0)) :
    r0.signal_handler_.Wired := by
  intro s
  rw [Reactor.new_callbacks SIG_MAX SIGCHLD this w w0 r0 h s]
  by_cases e : s = SIGCHLD
  · rw [if_pos e, e]
    exact Or.inr rfl
  · rw [if_neg e]
    exact Or.inl rfl

theorem Reactor.deliver_fields {Time : Type} (r : Reactor Time) (signum : Nat) :
    (r.deliver signum).timers_ = r.timers_ ∧ (r.deliver signum).waits_ = r.waits_ ∧
    (r.deliver signum).signal_handler_ = r.signal_handler_ := by
  unfold Reactor.deliver
  cases (r.signal_handler_.signals_ signum).callback_ <;> exact ⟨rfl, rfl, rfl⟩

/-- The closure that `set_signal` hands to the dispatcher is the flag-setting
closure, so the dispatcher stays wired however the call ends. -/
theorem Reactor.set_signal_wired {Time : Type} (SIG_MAX SIGCHLD : Nat) (r : Reactor Time)
    (w : SigWorld) (signum : Nat) (cb : Callback) (hw : r.signal_handler_.Wired) :
    (∀ r1 w1, r.set_signal SIG_MAX SIGCHLD w signum cb = .ok (r1, w1) →
      r1.signal_handler_.Wired) ∧
    (∀ e r1 w1, r.set_signal SIG_MAX SIGCHLD w signum cb = .error (e, r1, w1) →
      r1.signal_handler_.Wired) := by
  unfold Reactor.set_signal
  by_cases h1 : ¬ (signum > 0 ∧ signum < SIG_MAX)
  · rw [if_pos h1]
    refine ⟨fun r1 w1 hh => (by cases hh), fun e r1 w1 hh => ?_⟩
    simp only [Except.error.injEq, Prod.mk.injEq] at hh
    rw [← hh.2.1]
    exact hw
  · rw [if_neg h1]
    by_cases h2 : signum = SIGCHLD
    · rw [if_pos h2]
      refine ⟨fun r1 w1 hh => (by cases hh), fun e r1 w1 hh => ?_⟩
      simp only [Except.error.injEq, Prod.mk.injEq] at hh
      rw [← hh.2.1]
      exact hw
    · rw [if_neg h2]
      by_cases h3 : (r.signals_ signum).callback_ = none
      · rw [if_pos h3]
        simp only
        have C := SignalHandler.set_state_callbacks SIG_MAX r.signal_handler_ w signum
          (some signum)
        cases hs : SignalHandler.set_state SIG_MAX r.signal_handler_ w signum
            (some signum) with
        | ok p =>
          refine ⟨fun r1 w1 hh => ?_, fun e r1 w1 hh => (by cases hh)⟩
          simp only [Except.ok.injEq, Prod.mk.injEq] at hh
          rw [← hh.1]
          intro s
          show (p.1.signals_ s).callback_ = none ∨ (p.1.signals_ s).callback_ = some s
          rw [C.1 p.1 p.2 hs s]
          by_cases e : s = signum
          · rw [if_pos e, e]
            exact Or.inr rfl
          · rw [if_neg e]
            exact hw s
        | error p =>
          refine ⟨fun r1 w1 hh => (by cases hh), fun e r1 w1 hh => ?_⟩
          simp only [Except.error.injEq, Prod.mk.injEq] at hh
          rw [← hh.2.1]
          intro s
          show (p.2.1.signals_ s).callback_ = none ∨ (p.2.1.signals_ s).callback_ = some s
          rcases C.2 p.1 p.2.1 p.2.2 hs s with c | ⟨c1, c2⟩
          · rw [c]
            exact hw s
          · rw [c2, c1]
            exact Or.inr rfl
      · rw [if_neg h3]
        refine ⟨fun r1 w1 hh => (by cases hh), fun e r1 w1 hh => ?_⟩
        simp only [Except.error.injEq, Prod.mk.injEq] at hh
        rw [← hh.2.1]
        exact hw

theorem Reactor.step_wired {Time : Type} [LinearOrder Time] (SIG_MAX SIGCHLD : Nat)
    (st st1 : Reactor Time × SigWorld) (op : Reactor.Op Time)
    (hw : st.1.signal_handler_.Wired)
    (h : (Reactor.step SIG_MAX SIGCHLD st op).2 = some st1) :
    st1.1.signal_handler_.Wired := by
  cases op with
  | deliver signum =>
    dsimp only [Reactor.step] at h
    by_cases c : st.2.disposition signum = sighandler_t.handler
    · rw [if_pos c] at h
      simp only [Option.some.injEq] at h
      rw [← h]
      show (st.1.deliver signum).signal_handler_.Wired
      rw [(Reactor.deliver_fields st.1 signum).2.2]
      exact hw
    · rw [if_neg c] at h
      simp only [Option.some.injEq] at h
      rw [← h]
      exact hw
  | add_timer slot_addr local_addr time callback =>
    simp only [Reactor.step, Option.some.injEq] at h
    rw [← h]
    exact hw
  | set_signal signum callback =>
    have W := Reactor.set_signal_wired SIG_MAX SIGCHLD st.1 st.2 signum callback hw
    dsimp only [Reactor.step] at h
    cases hs : st.1.set_signal SIG_MAX SIGCHLD st.2 signum callback with
    | ok p =>
      rw [hs] at h
      simp only [Option.some.injEq] at h
      rw [← h]
      exact W.1 p.1 p.2 hs
    | error p =>
      rw [hs] at h
      obtain ⟨e, r1, w1⟩ := p
      cases e <;> simp only [Option.some.injEq] at h <;> first | (cases h; done) | skip
      rw [← h]
      exact W.2 _ r1 w1 hs
  | set_wait pid callback =>
    dsimp only [Reactor.step] at h
    unfold Reactor.set_wait at h
    cases hf : StdMap.find st.1.waits_ pid with
    | none =>
      rw [hf] at h
      simp only [Option.some.injEq] at h
      rw [← h]
      exact hw
    | some v =>
      rw [hf] at h
      simp only [Option.some.injEq] at h
      rw [← h]
      exact hw
  | run sleep first later =>
    dsimp only [Reactor.step] at h
    rcases hr : st.1.run SIG_MAX SIGCHLD sleep first later with ⟨trace, out⟩
    rw [hr] at h
    cases out with
    | none => cases h
    | some res =>
      cases res with
      | error e => cases h
      | ok p =>
        simp only [Option.some.injEq] at h
        rw [← h]
        show p.2.signal_handler_.Wired
        rw [Reactor.run_handler SIG_MAX SIGCHLD st.1 sleep first later p.1 p.2 (by rw [hr])]
        exact hw

theorem Reactor.exec_wired {Time : Type} [LinearOrder Time] (SIG_MAX SIGCHLD : Nat)
    (ops : List (Reactor.Op Time)) (st st1 : Reactor Time × SigWorld)
    (hw : st.1.signal_handler_.Wired)
    (h : (Reactor.exec SIG_MAX SIGCHLD st ops).2 = some st1) :
    st1.1.signal_handler_.Wired := by
  induction ops generalizing st with
  | nil =>
    simp only [Reactor.exec, Option.some.injEq] at h
    rw [← h]
    exact hw
  | cons op rest ih =>
    unfold Reactor.exec at h
    cases hs : (Reactor.step SIG_MAX SIGCHLD st op).2 with
    | none =>
      rw [hs] at h
      cases h
    | some st2 =>
      rw [hs] at h
      exact ih st2 (Reactor.step_wired SIG_MAX SIGCHLD st st2 op hw hs) h

/-- With a wired dispatcher, the delivery of `signum` changes nothing or sets
the raised flag of `signum` in the reactor's table. -/
theorem Reactor.deliver_wired {Time : Type} (r : Reactor Time) (signum : Nat)
    (hw : r.signal_handler_.Wired) :
    r.deliver signum = r ∨
    r.deliver signum = { r with
      signals_ := Function.update r.signals_ signum { callback_ := (r.signals_ signum).callback_, raised_ := true } } := by
  unfold Reactor.deliver
  rcases hw signum with c | c
  · rw [c]
    exact Or.inl rfl
  · rw [c]
    exact Or.inr rfl

/-- C28: in every state that a program reaches from a freshly constructed
reactor by deliveries of signals and calls of `add_timer`, `set_signal`,
`set_wait` and `run`, the delivery of a signal invokes no callback registered
with the reactor: it leaves the state as it is or sets the raised flag of that
signum in the reactor's table, and nothing else; and a step that invokes a
registered callback is a call of `run`. -/
theorem Reactor.delivery_only_raises {Time : Type} [LinearOrder Time]
    (SIG_MAX SIGCHLD this : Nat) (w w0 : SigWorld) (r0 : Reactor Time)
    (hnew : Reactor.new SIG_MAX SIGCHLD this w = .ok (r0, w0))
    (ops : List (Reactor.Op Time)) (st : Reactor Time × SigWorld)
    (hexec : (Reactor.exec SIG_MAX SIGCHLD (r0, w0) ops).2 = some st) :
    (∀ signum, ∃ r1,
      Reactor.step SIG_MAX SIGCHLD st (.deliver signum) = ([], some (r1, st.2)) ∧
      (r1 = st.1 ∨
        r1 = { st.1 with
          signals_ := Function.update st.1.signals_ signum { callback_ := (st.1.signals_ signum).callback_, raised_ := true } })) ∧
    (∀ op, (Reactor.step SIG_MAX SIGCHLD st op).1 ≠ [] →
      ∃ sleep first later, op = .run sleep first later) := by
  have hw : st.1.signal_handler_.Wired :=
    Reactor.exec_wired SIG_MAX SIGCHLD ops (r0, w0) st
      (Reactor.new_wired SIG_MAX SIGCHLD this w w0 r0 hnew) hexec
  constructor
  · intro signum
    dsimp only [Reactor.step]
    by_cases c : st.2.disposition signum = sighandler_t.handler
    · rw [if_pos c]
      exact ⟨_, rfl, Reactor.deliver_wired st.1 signum hw⟩
    · rw [if_neg c]
      exact ⟨st.1, rfl, Or.inl rfl⟩
  · intro op hop
    cases op with
    | deliver signum =>
      exfalso
      apply hop
      dsimp only [Reactor.step]
      split <;> rfl
    | add_timer slot_addr local_addr time callback => exact absurd rfl hop
    | set_signal signum callback =>
      exfalso
      apply hop
      dsimp only [Reactor.step]
      split <;> rfl
    | set_wait pid callback =>
      exfalso
      apply hop
      dsimp only [Reactor.step]
      split <;> rfl
    | run sleep first later => exact ⟨sleep, first, later, rfl⟩

end evt

namespace evt

/-- The example program on a fresh reactor: it runs to the end, and its `run`
invokes the callbacks of signal 10, of child 5 and of the timer due at 20. -/
theorem ops_sample_runs :
    ∃ (r0 : Reactor Nat) (w0 : SigWorld) (st : Reactor Nat × SigWorld),
      Reactor.new 34 17 1 world_sample = .ok (r0, w0) ∧
      (Reactor.exec 34 17 (r0, w0) ops_sample).2 = some st ∧
      (Reactor.exec 34 17 (r0, w0) ops_sample).1 =
        [Event.signal 10 100, Event.child 5 50, Event.timer 20 2] ∧
      st.1.is_empty 34 = false :=
  ⟨_, _, _, rfl, rfl, rfl, by decide⟩

/-- Witness for C28: the state that the example program reaches from a fresh
reactor. -/
theorem Reactor.delivery_only_raises_witness :
    ∃ (r0 : Reactor Nat) (w0 : SigWorld) (st : Reactor Nat × SigWorld),
      Reactor.new 34 17 1 world_sample = .ok (r0, w0) ∧
      (Reactor.exec 34 17 (r0, w0) ops_sample).2 = some st ∧
      (∀ signum, ∃ r1,
        Reactor.step 34 17 st (.deliver signum) = ([], some (r1, st.2)) ∧
        (r1 = st.1 ∨
          r1 = { st.1 with
            signals_ := Function.update st.1.signals_ signum { callback_ := (st.1.signals_ signum).callback_, raised_ := true } })) ∧
      (∀ op, (Reactor.step 34 17 st op).1 ≠ [] →
        ∃ sleep first later, op = .run sleep first later) := by
  obtain ⟨r0, w0, st, h0, h1, -, -⟩ := ops_sample_runs
  exact ⟨r0, w0, st, h0, h1,
    Reactor.delivery_only_raises 34 17 1 world_sample w0 r0 h0 ops_sample st h1⟩

end evt

/-! ## C30: printing the result document -/

namespace StdMap

/-- Assignment of a key beyond all the keys of the map appends the entry. -/
theorem insert_last {K V : Type} [LinearOrder K] (k : K) (v : V) (m : List (K × V))
    (h : ∀ e ∈ m, e.1 < k) : insert k v m = m ++ [(k, v)] := by
  induction m with
  | nil => rfl
  | cons x rest ih =>
    have hx : x.1 < k := h x (List.mem_cons_self _ _)
    unfold insert
    rw [if_neg (not_lt.mpr (le_of_lt hx)), if_neg (ne_of_gt hx)]
    rw [ih (fun e he => h e (List.mem_cons_of_mem _ he))]
    rfl

end StdMap

namespace json

theorem Json.print_char_spec (c : Char) :
    (Json.print_accepts c = true → ∃ out, Json.print_char c = .ok out) ∧
    (Json.print_accepts c = false →
      Json.print_char c = .error (Exc.AssertionError "isprint(c)")) := by
  unfold Json.print_accepts Json.print_char
  by_cases h1 : c = '"'
  · simp [h1, pure, Except.pure]
  by_cases h2 : c = '\\'
  · simp [h2, pure, Except.pure]
  by_cases h3 : c = Char.ofNat 8
  · simp [h3, pure, Except.pure]
  by_cases h4 : c = Char.ofNat 12
  · simp [h4, pure, Except.pure]
  by_cases h5 : c = '\n'
  · simp [h5, pure, Except.pure]
  by_cases h6 : c = '\r'
  · simp [h6, pure, Except.pure]
  by_cases h7 : c = '\t'
  · simp [h7, pure, Except.pure]
  cases h8 : isprint c <;>
    simp [h1, h2, h3, h4, h5, h6, h7, h8, pure, Except.pure, throw, throwThe,
      MonadExceptOf.throw]

/-- The loop over the characters of a string either writes them all or fails
the assertion `isprint(c)`, according to whether every character is accepted. -/
theorem Json.print_chars_spec (l : List Char) :
    (l.all Json.print_accepts = true → ∃ out, Json.print_chars l = .ok out) ∧
    (l.all Json.print_accepts = false →
      Json.print_chars l = .error (Exc.AssertionError "isprint(c)")) := by
  induction l with
  | nil =>
    constructor
    · intro _
      exact ⟨[], rfl⟩
    · intro h
      simp at h
  | cons c rest ih =>
    have hc := Json.print_char_spec c
    unfold Json.print_chars
    cases ha : Json.print_accepts c with
    | false =>
      constructor
      · intro h
        simp [ha] at h
      · intro _
        rw [hc.2 ha]
        rfl
    | true =>
      obtain ⟨o1, e1⟩ := hc.1 ha
      rw [e1]
      cases hr : rest.all Json.print_accepts with
      | false =>
        constructor
        · intro h
          simp only [List.all_cons, ha, hr, Bool.and_false] at h
          cases h
        · intro _
          rw [ih.2 hr]
          rfl
      | true =>
        obtain ⟨o2, e2⟩ := ih.1 hr
        constructor
        · intro _
          rw [e2]
          exact ⟨o1 ++ o2, rfl⟩
        · intro h
          simp only [List.all_cons, ha, hr, Bool.and_true] at h
          cases h

theorem Json.print_str_spec (s : String) :
    (s.toList.all Json.print_accepts = true → ∃ out, Json.print_str s = .ok out) ∧
    (s.toList.all Json.print_accepts = false →
      Json.print_str s = .error (Exc.AssertionError "isprint(c)")) := by
  unfold Json.print_str
  constructor
  · intro h
    obtain ⟨o, e⟩ := (Json.print_chars_spec s.toList).1 h
    rw [e]
    exact ⟨_, rfl⟩
  · intro h
    rw [(Json.print_chars_spec s.toList).2 h]
    rfl

end json

namespace run

open json

end run

/-! ## C29: a string literal cut off by the end of the text -/

namespace json

theorem peek_at_end (pre : List Char) : peek pre pre.length = .ok sys.NUL := by
  unfold peek
  rw [if_neg (lt_irrefl _), if_pos rfl]

theorem peek_at_cons (pre : List Char) (c : Char) (rest : List Char) :
    peek (pre ++ c :: rest) pre.length = .ok c := by
  unfold peek
  rw [if_pos (by simp)]
  congr 1
  induction pre with
  | nil => rfl
  | cons x pre ih => simpa [List.getD] using ih

theorem peek_beyond (text : List Char) (k : Nat) :
    peek text (text.length + 1 + k) = .error (Fault.beyond (text.length + 1 + k)) := by
  unfold peek
  rw [if_neg (by omega), if_neg (by omega)]

/-- The counting loop of `_parse_str` on a text that goes on with `body` from
the loop's pointer: with fuel for the length of `body`, it throws `ParseError`
when `body` is unclosed, and reads the character one beyond the terminating NUL
when `body` ends with a backslash that takes the NUL with it. -/
theorem _parse_str_count_unclosed (n : Nat) :
    ∀ (pre body : List Char) (fuel length : Nat), body.length ≤ n → body.length < fuel →
      (str_end body = StrEnd.unclosed →
        _parse_str_count (pre ++ body) fuel pre.length length = .error Fault.ParseError) ∧
      (str_end body = StrEnd.escaped_end →
        _parse_str_count (pre ++ body) fuel pre.length length =
          .error (Fault.beyond (pre.length + body.length + 1))) := by
  induction n using Nat.strong_induction_on with
  | _ n ih =>
    intro pre body fuel length hn hf
    cases fuel with
    | zero => omega
    | succ fuel =>
      cases body with
      | nil =>
        refine ⟨fun _ => ?_, fun h => by simp [str_end] at h⟩
        rw [List.append_nil, _parse_str_count, peek_at_end]
        simp +decide [sys.NUL]
      | cons c rest =>
        have hp : peek (pre ++ c :: rest) pre.length = .ok c := peek_at_cons pre c rest
        by_cases h1 : c = '"'
        · subst h1
          cases rest <;> constructor <;> intro h <;> simp [str_end] at h
        by_cases h2 : c = sys.NUL
        · subst h2
          refine ⟨fun _ => ?_, fun h => ?_⟩
          · rw [_parse_str_count, hp]
            simp +decide [sys.NUL]
          · cases rest <;> simp +decide [str_end, sys.NUL] at h
        by_cases h3 : c = '\\'
        · subst h3
          have he : _eat (pre ++ '\\' :: rest) pre.length '\\' = .ok (true, pre.length + 1) := by
            unfold _eat
            rw [hp]
            simp
          cases rest with
          | nil =>
            refine ⟨fun h => by simp +decide [str_end, sys.NUL] at h, fun _ => ?_⟩
            rw [_parse_str_count, hp]
            simp only [h1, h2, if_false, he]
            cases fuel with
            | zero => simp at hf
            | succ fuel =>
              rw [_parse_str_count]
              have hb := peek_beyond (pre ++ ['\\']) 0
              simp only [List.length_append, List.length_singleton, Nat.add_zero] at hb
              rw [hb]
              simp
          | cons next rest2 =>
            have hs : str_end ('\\' :: next :: rest2) = str_end rest2 := by
              rw [str_end]
              simp only [h1, h2, if_false, if_true]
            have hrec := ih rest2.length (by simp at hn; omega) (pre ++ ['\\', next]) rest2 fuel
              (length + 1) (le_refl _) (by simp at hf; omega)
            have e1 : pre ++ ['\\', next] ++ rest2 = pre ++ '\\' :: next :: rest2 := by simp
            have e2 : (pre ++ ['\\', next]).length = pre.length + 1 + 1 := by simp
            rw [e1, e2] at hrec
            rw [hs, _parse_str_count, hp]
            simp only [h1, h2, if_false, he]
            refine ⟨hrec.1, fun h => ?_⟩
            rw [hrec.2 h]
            simp only [List.length_cons]
            congr 2
            omega
        · have he : _eat (pre ++ c :: rest) pre.length '\\' = .ok (false, pre.length) := by
            unfold _eat
            rw [hp]
            simp [h3]
          have hs : str_end (c :: rest) = str_end rest := by
            cases rest with
            | nil => simp [str_end, h1, h2, h3]
            | cons next rest2 =>
              rw [str_end]
              simp only [h1, h2, h3, if_false]
          have hrec := ih rest.length (by simp at hn; omega) (pre ++ [c]) rest fuel
            (length + 1) (le_refl _) (by simp at hf; omega)
          have e1 : pre ++ [c] ++ rest = pre ++ c :: rest := by simp
          have e2 : (pre ++ [c]).length = pre.length + 1 := by simp
          rw [e1, e2] at hrec
          rw [hs, _parse_str_count, hp]
          simp only [h1, h2, if_false, he]
          refine ⟨hrec.1, fun h => ?_⟩
          rw [hrec.2 h]
          simp only [List.length_cons]
          congr 2
          omega

/-- The behaviour of `parse` on a text that is an opening quote followed by
`body`, given fuel for the length of the text: `ParseError` when `body` is
unclosed, and a read one beyond the terminating NUL when `body` ends with a
backslash that takes the NUL with it. -/
theorem parse_unclosed (sscanf_lg : List Char → Option (Rat × Nat)) (body : List Char)
    (fuel : Nat) (hf : body.length < fuel) :
    (str_end body = StrEnd.unclosed →
      parse sscanf_lg (fuel + 1) (String.mk ('"' :: body)) = .error Fault.ParseError) ∧
    (str_end body = StrEnd.escaped_end →
      parse sscanf_lg (fuel + 1) (String.mk ('"' :: body)) =
        .error (Fault.beyond (body.length + 2))) := by
  have hc := _parse_str_count_unclosed body.length ['"'] body fuel 0 (le_refl _) hf
  have hp : peek ('"' :: body) 0 = .ok '"' := peek_at_cons [] '"' body
  have hsk : _skip_space ('"' :: body) fuel 0 = .ok 0 := by
    cases fuel with
    | zero => omega
    | succ fuel =>
      rw [_skip_space, hp]
      simp +decide
  have he : _eat ('"' :: body) 0 '"' = .ok (true, 1) := by
    unfold _eat
    rw [hp]
    simp
  have hstr : ∀ e, _parse_str_count ('"' :: body) fuel 1 0 = .error e →
      parse sscanf_lg (fuel + 1) (String.mk ('"' :: body)) = .error e := by
    intro e h
    unfold parse
    rw [show (String.mk ('"' :: body)).toList = '"' :: body from rfl, _parse_val]
    simp only [hsk, hp, if_true]
    unfold _parse_str
    simp only [he, h]
    simp
  constructor
  · intro h
    exact hstr _ (hc.1 h)
  · intro h
    have := hc.2 h
    simp only [List.length_singleton] at this
    rw [show body.length + 2 = 1 + body.length + 1 by omega]
    exact hstr _ this

/-- C29: on the text of the two characters quote and backslash, a string
literal cut off after a backslash, `json::parse` does not throw `ParseError`:
the counting loop of `_parse_str` steps over the terminating NUL, which is at
index 2, and reads the character at index 3, beyond the end of the text. A
literal cut off elsewhere, as in the text quote `a`, does give `ParseError`. -/
theorem parse_unclosed_backslash (sscanf_lg : List Char → Option (Rat × Nat)) (fuel : Nat) :
    parse sscanf_lg (fuel + 3) "\"\\" = .error (Fault.beyond 3) ∧
    parse sscanf_lg (fuel + 3) "\"a" = .error Fault.ParseError :=
  ⟨(parse_unclosed sscanf_lg ['\\'] (fuel + 2) (by simp)).2 (by decide),
   (parse_unclosed sscanf_lg ['a'] (fuel + 2) (by simp)).1 (by decide)⟩

end json

/-! ## C33: the layout of the exec buffer -/

namespace sys

theorem Environment.Buffer.store_fresh (A cs : List Char) (m : Nat) :
    Environment.Buffer.store (A.map some ++ List.replicate m none) A.length cs =
      (A ++ cs).map some ++ List.replicate (m - cs.length) none := by
  unfold Environment.Buffer.store
  have hl : (A.map some).length = A.length := List.length_map _ _
  rw [List.take_left' hl]
  have hd : List.drop (A.length + cs.length) (A.map some ++ List.replicate m none) =
      List.replicate (m - cs.length) none := by
    rw [← hl, List.drop_append, List.drop_replicate]
  rw [hd, List.map_append]

theorem strncpy_no_nul (name : String) (h : NUL ∉ name.toList) :
    strncpy name.toList name.length = name.toList := by
  unfold strncpy
  have ht : name.toList.takeWhile (fun c => c != NUL) = name.toList := by
    rw [List.takeWhile_eq_self_iff]
    intro c hc
    simp only [bne_iff_ne, ne_eq]
    intro e
    exact h (e ▸ hc)
  simp only [ht]
  rw [show name.length = name.toList.length from rfl, Nat.sub_self, List.replicate_zero,
    List.append_nil, List.take_length]

theorem strcpy_no_nul (val : String) (h : NUL ∉ val.toList) :
    strcpy val.toList = val.toList ++ [NUL] := by
  unfold strcpy
  have ht : val.toList.takeWhile (fun c => c != NUL) = val.toList := by
    rw [List.takeWhile_eq_self_iff]
    intro c hc
    simp only [bne_iff_ne, ne_eq]
    intro e
    exact h (e ▸ hc)
  rw [ht]

theorem Environment.record_length (i : String × String) :
    (Environment.record i).length = i.1.length + 1 + i.2.length + 1 := by
  unfold Environment.record
  simp only [List.length_append, List.length_cons, List.length_nil]
  rw [show i.1.length = i.1.toList.length from rfl, show i.2.length = i.2.toList.length from rfl]
  omega

theorem Environment.alloc_records (env : Environment) (b : Nat) :
    env.foldl (fun alloc i => alloc + (i.1.length + 1 + i.2.length + 1)) b =
      b + (Environment.records env).length := by
  induction env generalizing b with
  | nil => rfl
  | cons i rest ih =>
    rw [List.foldl_cons, ih, Environment.records, List.length_append,
      Environment.record_length]
    omega

/-- The second loop of `build` on entries without NUL, entered with `written`
stored after the pointer array and room for the records of the entries and
`k` more bytes: it stores the records after `written` and their offsets after
the pointers. -/
theorem Environment.Buffer.build_loop_layout (base : Nat) (env : Environment)
    (hnul : ∀ i ∈ env, NUL ∉ i.1.toList ∧ NUL ∉ i.2.toList)
    (st : Environment.Buffer.Fill) (written : List Char) (k : Nat)
    (hvar : st.var = base + written.length)
    (hchars : st.chars =
      written.map some ++ List.replicate ((Environment.records env).length + k) none) :
    (Environment.Buffer.build_loop base env st).chars =
      (written ++ Environment.records env).map some ++ List.replicate k none ∧
    (Environment.Buffer.build_loop base env st).vars =
      st.vars ++ Environment.pointers st.var env := by
  induction env generalizing st written with
  | nil =>
    simp only [Environment.Buffer.build_loop, Environment.records, List.append_nil,
      Environment.pointers, List.length_nil, Nat.zero_add] at hchars ⊢
    exact ⟨hchars, trivial⟩
  | cons i rest ih =>
    obtain ⟨n1, n2⟩ := hnul i (List.mem_cons_self _ _)
    have hrl := Environment.record_length i
    rw [Environment.Buffer.build_loop]
    rw [strncpy_no_nul i.1 n1, strcpy_no_nul i.2 n2, hchars, hvar, Nat.add_sub_cancel_left]
    have hlen : (Environment.records (i :: rest)).length =
        (Environment.record i).length + (Environment.records rest).length := by
      rw [Environment.records, List.length_append]
    rw [Environment.Buffer.store_fresh written i.1.toList]
    have e2 := Environment.Buffer.store_fresh (written ++ i.1.toList) ['=']
      ((Environment.records (i :: rest)).length + k - i.1.toList.length)
    simp only [List.length_append, List.length_singleton] at e2
    rw [show written.length + i.1.length = written.length + i.1.toList.length from rfl, e2]
    have e3 := Environment.Buffer.store_fresh (written ++ i.1.toList ++ ['='])
      (i.2.toList ++ [NUL])
      ((Environment.records (i :: rest)).length + k - i.1.toList.length - ['='].length)
    simp only [List.length_append, List.length_singleton] at e3
    rw [e3]
    have hw : written ++ i.1.toList ++ ['='] ++ (i.2.toList ++ [NUL]) =
        written ++ Environment.record i := by
      simp [Environment.record]
    have hk : (Environment.records (i :: rest)).length + k - i.1.toList.length - 1 -
        (i.2.toList.length + 1) = (Environment.records rest).length + k := by
      rw [hlen, hrl]
      rw [show i.1.length = i.1.toList.length from rfl,
        show i.2.length = i.2.toList.length from rfl]
      omega
    rw [hw, hk]
    obtain ⟨i1, i2⟩ := ih (fun j hj => hnul j (List.mem_cons_of_mem _ hj))
      { vars := st.vars ++ [some (base + written.length)],
        chars := (written ++ Environment.record i).map some ++
          List.replicate ((Environment.records rest).length + k) none,
        var := base + written.length + (i.1.length + 1 + i.2.length + 1) }
      (written ++ Environment.record i)
      (by simp only [List.length_append, hrl]; omega) rfl
    constructor
    · rw [i1, Environment.records, List.append_assoc]
    · rw [i2]
      simp only [Environment.pointers, List.append_assoc, List.singleton_append, hrl]

theorem Environment.pointers_length (var : Nat) (env : Environment) :
    (Environment.pointers var env).length = env.length := by
  induction env generalizing var with
  | nil => rfl
  | cons i rest ih => simp [Environment.pointers, ih]

/-- The pointer of entry `k` is the offset of its record, which starts where
the records of the entries before it end. -/
theorem Environment.pointers_at (var : Nat) (env : Environment) (k : Nat)
    (hk : k < env.length) :
    (Environment.pointers var env)[k]? =
      some (some (var + (Environment.records (env.take k)).length)) ∧
    ((Environment.records env).drop (Environment.records (env.take k)).length).take
      (Environment.record (env.get ⟨k, hk⟩)).length = Environment.record (env.get ⟨k, hk⟩) := by
  induction env generalizing var k with
  | nil => simp at hk
  | cons i rest ih =>
    cases k with
    | zero =>
      simp [Environment.pointers, Environment.records]
    | succ k =>
      have hk' : k < rest.length := by simpa using hk
      obtain ⟨i1, i2⟩ := ih (var + (Environment.record i).length) k hk'
      constructor
      · simp only [Environment.pointers, List.getElem?_cons_succ, List.take_succ_cons,
          Environment.records, List.length_append]
        rw [i1, Nat.add_assoc]
      · simp only [List.take_succ_cons, Environment.records, List.length_append,
          List.get_eq_getElem, List.getElem_cons_succ]
        rw [List.drop_append]
        simpa using i2

/-- C33: for every environment whose names and values contain no NUL,
`Environment::Buffer::build` returns the allocation, its assertion holding: the
allocation holds `N + 1` pointers followed by exactly the records
`NAME=VALUE` NUL of the entries, in the order of the entries and one right
after the other; the last pointer is null, and pointer `k` is the offset of
the record of entry `k`. -/
theorem Environment.Buffer.build_layout (ptr_size : Nat) (env : Environment)
    (hnul : ∀ i ∈ env, NUL ∉ i.1.toList ∧ NUL ∉ i.2.toList) :
    ∃ buf, Environment.Buffer.build ptr_size env = .ok buf ∧
      buf.alloc = (env.length + 1) * ptr_size + (Environment.records env).length ∧
      buf.vars.length = env.length + 1 ∧
      buf.vars[env.length]? = some none ∧
      buf.chars = (Environment.records env).map some ∧
      ∀ k (hk : k < env.length),
        buf.vars[k]? =
          some (some ((env.length + 1) * ptr_size +
            (Environment.records (env.take k)).length)) ∧
        ((Environment.records env).drop (Environment.records (env.take k)).length).take
          (Environment.record (env.get ⟨k, hk⟩)).length =
          Environment.record (env.get ⟨k, hk⟩) := by
  have ha := Environment.alloc_records env ((env.length + 1) * ptr_size)
  obtain ⟨v1, _⟩ := Environment.Buffer.build_loop_spec ((env.length + 1) * ptr_size) env
    { vars := [],
      chars := List.replicate
        (env.foldl (fun alloc i => alloc + (i.1.length + 1 + i.2.length + 1))
          ((env.length + 1) * ptr_size) - (env.length + 1) * ptr_size) none,
      var := (env.length + 1) * ptr_size }
  obtain ⟨l1, l2⟩ := Environment.Buffer.build_loop_layout ((env.length + 1) * ptr_size) env hnul
    { vars := [],
      chars := List.replicate
        (env.foldl (fun alloc i => alloc + (i.1.length + 1 + i.2.length + 1))
          ((env.length + 1) * ptr_size) - (env.length + 1) * ptr_size) none,
      var := (env.length + 1) * ptr_size } [] 0 rfl
    (by rw [ha, Nat.add_sub_cancel_left]; rfl)
  simp only [List.nil_append, List.replicate_zero, List.append_nil] at l1 l2
  simp only [Environment.Buffer.build]
  rw [if_pos v1]
  refine ⟨_, rfl, ?_⟩
  simp only
  rw [l1, l2]
  refine ⟨ha, ?_, ?_, rfl, ?_⟩
  · simp [Environment.pointers_length]
  · rw [List.getElem?_append_right (by simp [Environment.pointers_length])]
    simp [Environment.pointers_length]
  · intro k hk
    obtain ⟨p1, p2⟩ := Environment.pointers_at ((env.length + 1) * ptr_size) env k hk
    refine ⟨?_, p2⟩
    rw [List.getElem?_append_left (by simp [Environment.pointers_length, hk])]
    exact p1

/-- Witness for C33: the environment of the two variables `A=1` and `HOME=/`,
with pointers of 8 bytes. -/
theorem Environment.Buffer.build_layout_witness :
    (∀ i ∈ env_two, NUL ∉ i.1.toList ∧ NUL ∉ i.2.toList) ∧
    Environment.Buffer.build 8 env_two =
      .ok { alloc := 35, vars := [some 24, some 28, none],
            chars := "A=1\x00HOME=/\x00".toList.map some } ∧
    ∃ buf, Environment.Buffer.build 8 env_two = .ok buf ∧
      buf.alloc = 24 + (Environment.records env_two).length ∧
      buf.chars = (Environment.records env_two).map some := by
  have hn : ∀ i ∈ env_two, NUL ∉ i.1.toList ∧ NUL ∉ i.2.toList := by decide
  refine ⟨hn, rfl, ?_⟩
  obtain ⟨buf, h1, h2, _, _, h5, _⟩ := Environment.Buffer.build_layout 8 env_two hn
  exact ⟨buf, h1, h2, h5⟩

end sys

/-! ## C34: the sleeps of wait -/

namespace run

theorem wait_times_spec (n : Nat) (w : Rat) (hw0 : 0 ≤ w) (hw1 : w ≤ wait_time_max) :
    (∀ d ∈ wait_times n w, w ≤ d ∧ d ≤ wait_time_max) ∧
    (wait_times n w).Chain' (fun a b => b = min wait_time_max (a * (101 / 100)) ∧ a ≤ b) := by
  induction n generalizing w with
  | zero => simp [wait_times]
  | succ n ih =>
    have h1 : w ≤ min wait_time_max (w * (101 / 100)) := by
      apply le_min hw1
      linarith
    have h2 : min wait_time_max (w * (101 / 100)) ≤ wait_time_max := min_le_left _ _
    obtain ⟨i1, i2⟩ := ih (min wait_time_max (w * (101 / 100))) (le_trans hw0 h1) h2
    constructor
    · intro d hd
      simp only [wait_times, List.mem_cons] at hd
      rcases hd with rfl | hd
      · exact ⟨h1, h2⟩
      · exact ⟨le_trans h1 (i1 d hd).1, (i1 d hd).2⟩
    · simp only [wait_times]
      cases n with
      | zero => simp [wait_times]
      | succ m =>
        simp only [wait_times] at i1 i2 ⊢
        refine List.Chain'.cons ⟨rfl, ?_⟩ i2
        exact (i1 _ (List.mem_cons_self _ _)).1

theorem wait_times_length (n : Nat) (w : Rat) : (wait_times n w).length = n := by
  induction n generalizing w with
  | zero => rfl
  | succ n ih => simp [wait_times, ih]

theorem wait_loop_busy (n : Nat) (w : Rat) (hw0 : 0 ≤ w) (last : WaitObs)
    (later : List WaitObs) (hdone : last.is_done = .ok true) :
    wait_loop (List.replicate n round_busy ++ last :: later) w =
      (wait_times n w, some (.ok ())) := by
  induction n generalizing w with
  | zero =>
    simp only [List.replicate_zero, List.nil_append, wait_loop, hdone, if_true, wait_times]
  | succ n ih =>
    have h1 : 0 ≤ min wait_time_max (w * (101 / 100)) := by
      apply le_min
      · norm_num [wait_time_max]
      · positivity
    have := ih (min wait_time_max (w * (101 / 100))) h1
    rw [List.replicate_succ, List.cons_append, wait_loop]
    simp only [round_busy, Bool.false_eq_true, if_false, sleep, ge_iff_le, h1, if_true,
      wait_times]
    simp only [round_busy] at this
    rw [this]

/-- C34 (amended): `wait(prog)` makes no sleep when the program is already
done; when `is_done()` is false at the first `n` checks and true at the next
one, it makes `n` sleeps and returns, the first sleep lasting 1.01 ms (1.01
times the initial 1 ms) and each later one `min(100 ms, 1.01 * d)` for the
sleep `d` before it; every sleep is at most 100 ms and the durations are
non-decreasing. -/
theorem wait_sleeps (n : Nat) (last : WaitObs) (later : List WaitObs)
    (hdone : last.is_done = .ok true) :
    wait (last :: later) = ([], some (.ok ())) ∧
    wait (List.replicate n round_busy ++ last :: later) =
      (wait_times n (1 / 1000), some (.ok ())) ∧
    (wait_times n (1 / 1000)).length = n ∧
    (wait_times n (1 / 1000)).head? = (if n = 0 then none else some (101 / 100000)) ∧
    (wait_times n (1 / 1000)).Chain'
      (fun a b => b = min (1 / 10) (a * (101 / 100)) ∧ a ≤ b) ∧
    (∀ d ∈ wait_times n (1 / 1000), d ≤ 1 / 10) := by
  have hs := wait_times_spec n (1 / 1000) (by norm_num) (by norm_num [wait_time_max])
  refine ⟨?_, wait_loop_busy n (1 / 1000) (by norm_num) last later hdone, ?_, ?_, hs.2, ?_⟩
  · simp only [wait, wait_loop, hdone, if_true]
  · exact wait_times_length n _
  · cases n with
    | zero => simp [wait_times]
    | succ n =>
      simp only [wait_times, List.head?_cons, Nat.add_one_ne_zero, if_false, Option.some.injEq,
        wait_time_max]
      norm_num
  · intro d hd
    exact (hs.1 d hd).2

/-- Counterexample to C34 as stated: when the program is not done at the first
check and done at the second, the one sleep made lasts 1.01 ms, not 1 ms. -/
theorem wait_sleeps_counterexample :
    wait [round_busy, { is_done := .ok true, nanosleep := .ok () }] =
      ([101 / 100000], some (.ok ())) ∧ (101 / 100000 : Rat) ≠ 1 / 1000 := by
  constructor
  · have := wait_loop_busy 1 (1 / 1000) (by norm_num)
      { is_done := .ok true, nanosleep := .ok () } [] rfl
    simp only [List.replicate_one, List.singleton_append] at this
    rw [wait, this]
    simp only [wait_times, wait_time_max]
    norm_num
  · norm_num

/-- Witness for C34 (amended): the program is done at the third check. -/
theorem wait_sleeps_witness :
    wait [round_busy, round_busy, { is_done := .ok true, nanosleep := .ok () }] =
      (wait_times 2 (1 / 1000), some (.ok ())) ∧
    wait_times 2 (1 / 1000) = [101 / 100000, 10201 / 10000000] := by
  have T := wait_sleeps 2 { is_done := .ok true, nanosleep := .ok () } [] rfl
  refine ⟨T.2.1, ?_⟩
  simp only [wait_times, wait_time_max]
  norm_num

end run

/-! ## C36: the branch of bind marked unreachable -/

namespace param

theorem bind_params_found (args : Args) (params : List Param) (bound out : Args)
    (h : bind_params args params bound = .ok out) :
    ∀ p ∈ params, p ∈ StdMap.keys args := by
  induction params generalizing bound with
  | nil => simp
  | cons p rest ih =>
    unfold bind_params at h
    cases hf : StdMap.find args p with
    | none =>
      rw [hf] at h
      cases h
    | some a =>
      rw [hf] at h
      intro q hq
      rcases List.mem_cons.mp hq with rfl | hq
      · clear ih h
        induction args with
        | nil => simp [StdMap.find] at hf
        | cons x xs ihx =>
          unfold StdMap.find at hf
          by_cases e : q = x.1
          · simp [StdMap.keys, e]
          · rw [if_neg e] at hf
            have := ihx hf
            simp only [StdMap.keys, List.map_cons, List.mem_cons] at this ⊢
            exact Or.inr this
      · exact ih _ h q hq

theorem bind_params_missing (args : Args) (params : List Param) (bound : Args) (e : BindExc)
    (h : bind_params args params bound = .error e) :
    ∃ p ∈ params, e = BindExc.MissingArgError p ∧ StdMap.find args p = none := by
  induction params generalizing bound with
  | nil => cases h
  | cons p rest ih =>
    unfold bind_params at h
    cases hf : StdMap.find args p with
    | none =>
      rw [hf] at h
      simp only [Except.error.injEq] at h
      exact ⟨p, List.mem_cons_self _ _, h.symm, hf⟩
    | some a =>
      rw [hf] at h
      obtain ⟨q, hq, he, hn⟩ := ih _ h
      exact ⟨q, List.mem_cons_of_mem _ hq, he, hn⟩

theorem bind_extra_spec (params : Params) (args : List (Param × Arg)) :
    (∃ p ∈ StdMap.keys args, p ∉ params ∧ bind_extra params args = BindExc.ExtraArgError p) ∨
    ((∀ p ∈ StdMap.keys args, p ∈ params) ∧
      bind_extra params args = BindExc.AssertionError "false") := by
  induction args with
  | nil => exact Or.inr ⟨by simp [StdMap.keys], rfl⟩
  | cons x rest ih =>
    unfold bind_extra
    by_cases hx : x.1 ∉ params
    · rw [if_pos hx]
      exact Or.inl ⟨x.1, by simp [StdMap.keys], hx, rfl⟩
    · rw [if_neg hx]
      rcases ih with ⟨p, hp, hn, he⟩ | ⟨hall, he⟩
      · have hp' : p ∈ StdMap.keys (x :: rest) := by
          simp only [StdMap.keys, List.map_cons, List.mem_cons] at hp ⊢
          exact Or.inr hp
        exact Or.inl ⟨p, hp', hn, he⟩
      · refine Or.inr ⟨?_, he⟩
        intro p hp
        simp only [StdMap.keys, List.map_cons, List.mem_cons] at hp
        rcases hp with rfl | hp
        · exact not_not.mp hx
        · exact hall p hp

/-- For a parameter list without a repeated name, `bind` ends in one of the
three ways of its contract and not in its `assert(false)`. -/
theorem bind_nodup (params : Params) (args : Args) (hp : params.Nodup)
    (ha : StdMap.WF args) :
    (∃ bound, bind params args = .ok bound) ∨
    (∃ p ∈ params, StdMap.find args p = none ∧
      bind params args = .error (BindExc.MissingArgError p)) ∨
    (∃ p ∈ StdMap.keys args, p ∉ params ∧
      bind params args = .error (BindExc.ExtraArgError p)) := by
  unfold bind
  cases hb : bind_params args params [] with
  | error e =>
    obtain ⟨p, hp1, he, hn⟩ := bind_params_missing args params [] e hb
    exact Or.inr (Or.inl ⟨p, hp1, hn, by rw [he]⟩)
  | ok bound =>
    simp only
    by_cases hl : args.length ≠ params.length
    · rw [if_pos hl]
      rcases bind_extra_spec params args with ⟨p, hp1, hn, he⟩ | ⟨hall, _⟩
      · exact Or.inr (Or.inr ⟨p, hp1, hn, by rw [he]⟩)
      · exfalso
        have hk : (StdMap.keys args).Nodup := by
          have : (StdMap.keys args).Pairwise (fun a b => a < b) := by
            unfold StdMap.keys
            rw [List.pairwise_map]
            exact ha
          exact this.imp (fun h => ne_of_lt h)
        have l1 := (hk.subperm (fun p hp => hall p hp)).length_le
        have l2 := (hp.subperm (fun p hp => bind_params_found args params [] bound hb p hp)).length_le
        simp only [StdMap.keys, List.length_map] at l1 l2
        omega
    · rw [if_neg hl]
      exact Or.inl ⟨bound, rfl⟩

/-- C36: for the parameter list `(a, a)` and the argument map `a = x`, `bind`
reaches the branch marked unreachable and fails its `assert(false)`: both
parameters find the argument, the sizes 1 and 2 differ, and the scan finds no
argument without a parameter. For the list `(a)` the same arguments are
bound. -/
theorem bind_repeated_param :
    bind ["a", "a"] [("a", "x")] = .error (BindExc.AssertionError "false") ∧
    bind ["a"] [("a", "x")] = .ok [("a", "x")] := by
  constructor <;> simp +decide [bind, bind_params, bind_extra, StdMap.find, StdMap.insert]

end param

/-! ## C38: the types of loaded and parsed handler specs -/

namespace bin

open run json

theorem from_json_type (lib : fs.FsLib) (json : Json) (spec : FdHandlerSpec)
    (h : FdHandlerSpec.from_json lib json = .ok spec) :
    spec.type_ ∈ ["leave", "close", "null", "capture", "dup", "file"] := by
  unfold FdHandlerSpec.from_json at h
  simp only [bind, Except.bind, pure, Except.pure, throw, throwThe, MonadExceptOf.throw] at h
  repeat' split at h
  all_goals first | (cases h; done) | skip
  all_goals
    simp only [Except.ok.injEq] at h
    rw [← h]
    simp only [List.mem_cons, List.mem_singleton, List.not_mem_nil, or_false]
    tauto

theorem parse_fd_handler_type (lib : fs.FsLib) (arg : String) (spec : FdHandlerSpec)
    (h : parse_fd_handler lib arg = .ok spec) :
    spec.type_ ∈ ["leave", "close", "null", "capture", "dup"] := by
  unfold parse_fd_handler at h
  simp only [FdHandlerSpec.new] at h
  repeat' split at h
  all_goals first | (cases h; done) | skip
  all_goals
    simp only [Except.ok.injEq] at h
    rw [← h]
    simp

/-- With a type among the six, `FdHandlerSpec::build` returns a handler, or, for
`capture`, fails as the creation of the temporary file fails. -/
theorem build_known_type (spec : FdHandlerSpec) (os : sys.Os) (fd : Nat)
    (h : spec.type_ ∈ ["leave", "close", "null", "capture", "dup", "file"]) :
    (∃ hd os1, spec.build os fd = .ok (hd, os1)) ∨
    (spec.type_ = "capture" ∧
      ∃ e, AnonymousTempFile.new os = .error e ∧ spec.build os fd = .error e) := by
  simp only [List.mem_cons, List.mem_singleton, List.not_mem_nil, or_false] at h
  unfold FdHandlerSpec.build
  by_cases h1 : spec.type_ = "leave"
  · rw [if_pos h1]
    exact Or.inl ⟨_, _, rfl⟩
  rw [if_neg h1]
  by_cases h2 : spec.type_ = "close"
  · rw [if_pos h2]
    exact Or.inl ⟨_, _, rfl⟩
  rw [if_neg h2]
  by_cases h3 : spec.type_ = "null"
  · rw [if_pos h3]
    exact Or.inl ⟨_, _, rfl⟩
  rw [if_neg h3]
  by_cases h4 : spec.type_ = "capture"
  · rw [if_pos h4]
    cases ht : AnonymousTempFile.new os with
    | error e => exact Or.inr ⟨h4, e, rfl, rfl⟩
    | ok p => exact Or.inl ⟨_, _, rfl⟩
  rw [if_neg h4]
  by_cases h5 : spec.type_ = "dup"
  · rw [if_pos h5]
    exact Or.inl ⟨_, _, rfl⟩
  rw [if_neg h5]
  by_cases h6 : spec.type_ = "file"
  · rw [if_pos h6]
    exact Or.inl ⟨_, _, rfl⟩
  exfalso
  tauto

/-- C38: a spec returned by `FdHandlerSpec::from_json` or by `parse_fd_handler`
has a type among `leave`, `close`, `null`, `capture`, `dup` and `file`, and
`FdHandlerSpec::build` does not reach its `assert(false)` for it: it returns a
handler, or, for `capture`, fails with the error of the creation of the
temporary file. -/
theorem build_never_asserts (lib : fs.FsLib) (spec : FdHandlerSpec)
    (h : (∃ json, FdHandlerSpec.from_json lib json = .ok spec) ∨
      (∃ arg, parse_fd_handler lib arg = .ok spec)) (os : sys.Os) (fd : Nat) :
    spec.type_ ∈ ["leave", "close", "null", "capture", "dup", "file"] ∧
    ((∃ hd os1, spec.build os fd = .ok (hd, os1)) ∨
      (spec.type_ = "capture" ∧
        ∃ e, AnonymousTempFile.new os = .error e ∧ spec.build os fd = .error e)) := by
  have ht : spec.type_ ∈ ["leave", "close", "null", "capture", "dup", "file"] := by
    rcases h with ⟨json, hj⟩ | ⟨arg, ha⟩
    · exact from_json_type lib json spec hj
    · have := parse_fd_handler_type lib arg spec ha
      simp only [List.mem_cons, List.mem_singleton, List.not_mem_nil, or_false] at this ⊢
      tauto
  exact ⟨ht, build_known_type spec os fd ht⟩

/-- Witness for C38: the spec loaded from the document `"null"` and the spec
parsed from the argument `stdout`, built for descriptor 1 of the example
process. -/
theorem build_never_asserts_witness :
    FdHandlerSpec.from_json sample_lib (Json.STR "null") =
      .ok (FdHandlerSpec.new sample_lib "null") ∧
    parse_fd_handler sample_lib "stdout" =
      .ok { FdHandlerSpec.new sample_lib "leave" with type_ := "dup", from_fd_ := 1 } ∧
    (∃ hd os1, (FdHandlerSpec.new sample_lib "null").build os_sample 1 = .ok (hd, os1)) ∧
    (∃ hd os1, FdHandlerSpec.build
      { FdHandlerSpec.new sample_lib "leave" with type_ := "dup", from_fd_ := 1 } os_sample 1 =
        .ok (hd, os1)) := by
  have e1 : FdHandlerSpec.from_json sample_lib (Json.STR "null") =
      .ok (FdHandlerSpec.new sample_lib "null") := by
    simp [FdHandlerSpec.from_json, Json.get_type, Json.get_str, FdHandlerSpec.new,
      bind, Except.bind, pure, Except.pure]
  have e2 : parse_fd_handler sample_lib "stdout" =
      .ok { FdHandlerSpec.new sample_lib "leave" with type_ := "dup", from_fd_ := 1 } := by
    simp +decide [parse_fd_handler, substr, STDOUT_FILENO]
  refine ⟨e1, e2, ?_, ?_⟩
  · rcases (build_never_asserts sample_lib _ (Or.inl ⟨_, e1⟩) os_sample 1).2 with h | h
    · exact h
    · exact absurd h.1 (by simp [FdHandlerSpec.new])
  · rcases (build_never_asserts sample_lib _ (Or.inr ⟨_, e2⟩) os_sample 1).2 with h | h
    · exact h
    · exact absurd h.1 (by simp)

end bin

/-! ## C31, C32: the timers due and the children exited -/

namespace evt

/-- The loop of `handle_sigchld` over entries for which `waitid` reports, with a
callback on every entry reported as exited: the callbacks of the exited ones
are invoked in the order of the entries and counted, and the other entries
stay. -/
theorem Reactor.handle_sigchld_loop_exited {Time : Type} (waitid : Int → Except Exc Bool)
    (D : Int → Bool) (ws : List (Int × Callback))
    (hrep : ∀ e ∈ ws, waitid e.1 = .ok (D e.1))
    (hcb : ∀ e ∈ ws, D e.1 = true → e.2 ≠ none) :
    ∃ calls : List (Event Time),
      Reactor.handle_sigchld_loop waitid ws =
        (calls, .ok (calls.length, ws.filter (fun e => !D e.1))) ∧
      List.Forall₂ (fun e ev => ∃ c, e.2 = some c ∧ ev = Event.child e.1 c)
        (ws.filter (fun e => D e.1)) calls := by
  induction ws with
  | nil => exact ⟨[], rfl, List.Forall₂.nil⟩
  | cons e rest ih =>
    obtain ⟨calls, hc, hf⟩ := ih (fun x hx => hrep x (List.mem_cons_of_mem _ hx))
      (fun x hx => hcb x (List.mem_cons_of_mem _ hx))
    have hw := hrep e (List.mem_cons_self _ _)
    rw [Reactor.handle_sigchld_loop, hw]
    cases hd : D e.1 with
    | true =>
      cases he : e.2 with
      | none => exact absurd he (hcb e (List.mem_cons_self _ _) hd)
      | some c =>
        refine ⟨Event.child e.1 c :: calls, ?_, ?_⟩
        · simp only [if_true, hc, Except.map, List.length_cons, List.filter_cons, hd,
            Bool.not_true, Bool.false_eq_true, if_false]
        · simp only [List.filter_cons, hd, if_true]
          exact List.Forall₂.cons ⟨c, he, rfl⟩ hf
    | false =>
      refine ⟨calls, ?_, ?_⟩
      · simp only [Bool.false_eq_true, if_false, hc, Except.map, List.filter_cons, hd,
          Bool.not_false, if_true]
      · simp only [List.filter_cons, hd, Bool.false_eq_true, if_false]
        exact hf

/-- C32 (amended): for a waits map `W`, when `waitid` reports for every pid of
`W` whether it has exited (`D`), and every entry of an exited pid has a
non-null callback, `handle_sigchld` invokes the callback of exactly the entries
of `W` whose pid is in `D`, once each and in ascending pid order, returns their
number, and leaves the waits map equal to `W` restricted to the pids not in
`D`. -/
theorem Reactor.handle_sigchld_exited {Time : Type} (r : Reactor Time)
    (waitid : Int → Except Exc Bool) (D : Int → Bool) (hwf : StdMap.WF r.waits_)
    (hrep : ∀ e ∈ r.waits_, waitid e.1 = .ok (D e.1))
    (hcb : ∀ e ∈ r.waits_, D e.1 = true → e.2 ≠ none) :
    ∃ calls : List (Event Time),
      r.handle_sigchld waitid =
        (calls, .ok (calls.length,
          { r with waits_ := r.waits_.filter (fun e => !D e.1) })) ∧
      List.Forall₂ (fun e ev => ∃ c, e.2 = some c ∧ ev = Event.child e.1 c)
        (r.waits_.filter (fun e => D e.1)) calls ∧
      ((r.waits_.filter (fun e => D e.1)).map Prod.fst).Pairwise (fun a b => a < b) := by
  obtain ⟨calls, hc, hf⟩ := @Reactor.handle_sigchld_loop_exited Time waitid D r.waits_ hrep hcb
  refine ⟨calls, ?_, hf, ?_⟩
  · unfold Reactor.handle_sigchld
    rw [hc]
  · rw [List.pairwise_map]
    exact List.Pairwise.sublist (List.filter_sublist _) hwf

/-- Counterexample to C32 as stated: the waits map holds the children 5, with a
callback, and 7, with a null callback, and `waitid` reports both as exited;
`handle_sigchld` invokes the callback of child 5 and then throws
`bad_function_call`: the callback of child 7 is not invoked and no number is
returned. -/
theorem Reactor.handle_sigchld_exited_counterexample :
    reactor_null_sample.waits_ = [(5, some 50), (7, none)] ∧
    @Reactor.handle_sigchld Nat reactor_null_sample (fun _ => .ok true) =
      ([Event.child 5 50], .error Exc.bad_function_call) :=
  ⟨rfl, rfl⟩

/-- Witness for C32 (amended): the example reactor waits for the children 5 and
7, and `waitid` reports child 5 as exited. -/
theorem Reactor.handle_sigchld_exited_witness :
    ∃ calls : List (Event Nat),
      reactor_sample.handle_sigchld waitid_sample =
        (calls, .ok (calls.length,
          { reactor_sample with
            waits_ := reactor_sample.waits_.filter
              (fun e => !(fun pid => decide (pid = 5 ∨ pid = 6)) e.1) })) ∧
      List.Forall₂ (fun e ev => ∃ c, e.2 = some c ∧ ev = Event.child e.1 c)
        (reactor_sample.waits_.filter (fun e => (fun pid => decide (pid = 5 ∨ pid = 6)) e.1))
        calls ∧
      ((reactor_sample.waits_.filter
        (fun e => (fun pid => decide (pid = 5 ∨ pid = 6)) e.1)).map Prod.fst).Pairwise
          (fun a b => a < b) :=
  Reactor.handle_sigchld_exited reactor_sample waitid_sample
    (fun pid => decide (pid = 5 ∨ pid = 6))
    (by simp [StdMap.WF, reactor_sample]) (fun e _ => rfl)
    (by simp [reactor_sample])

/-- The timer loop of `handle_current` on timers in deadline order, with a
callback on every timer whose deadline is earlier than `now`: the callbacks of
those timers are invoked in the order of the sequence and counted, and the
other timers stay. -/
theorem Reactor.handle_timers_due {Time : Type} [LinearOrder Time] (now : Time)
    (ts : List (Timer Time)) (hs : timers_sorted ts)
    (hcb : ∀ t ∈ ts, t.time_ < now → t.callback_ ≠ none) :
    ∃ calls : List (Event Time),
      Reactor.handle_timers now ts =
        (calls, .ok (calls.length, ts.filter (fun t => decide (¬ t.time_ < now)))) ∧
      List.Forall₂ (fun t ev => ∃ c, t.callback_ = some c ∧ ev = Event.timer t.time_ c)
        (ts.filter (fun t => decide (t.time_ < now))) calls := by
  induction ts with
  | nil => exact ⟨[], rfl, List.Forall₂.nil⟩
  | cons t rest ih =>
    obtain ⟨hle, hs'⟩ := List.pairwise_cons.mp hs
    rw [Reactor.handle_timers]
    simp only [TimeOps.lt_linear]
    by_cases hlt : t.time_ < now
    · obtain ⟨calls, hc, hf⟩ := ih hs' (fun x hx => hcb x (List.mem_cons_of_mem _ hx))
      rw [if_pos hlt]
      cases he : t.callback_ with
      | none => exact absurd he (hcb t (List.mem_cons_self _ _) hlt)
      | some c =>
        refine ⟨Event.timer t.time_ c :: calls, ?_, ?_⟩
        · simp only [hc, Except.map, List.length_cons, List.filter_cons, hlt, not_true_eq_false,
            decide_False, Bool.false_eq_true, if_false]
        · simp only [List.filter_cons, hlt, decide_True, if_true]
          exact List.Forall₂.cons ⟨c, he, rfl⟩ hf
    · rw [if_neg hlt]
      have hall : ∀ x ∈ t :: rest, ¬ x.time_ < now := by
        intro x hx
        rcases List.mem_cons.mp hx with rfl | hx
        · exact hlt
        · exact fun h => hlt (lt_of_le_of_lt (hle x hx) h)
      refine ⟨[], ?_, ?_⟩
      · rw [List.filter_eq_self.mpr (fun x hx => by simp [hall x hx])]
        rfl
      · rw [List.filter_eq_nil_iff.mpr (fun x hx => by simp [hall x hx])]
        exact List.Forall₂.nil

/-- C31 (amended): for a reactor whose timers are in deadline order, when the
handling of the raised signals that comes first returns, and every timer with
deadline earlier than `now` has a non-null callback, `handle_current` invokes
after the signal callbacks the callback of exactly the timers with deadline
`< now`, each once and in the order of the sequence, removes exactly those
timers, leaves the timers with deadline `>= now` in the sequence in their
order, and returns the number of callbacks invoked. -/
theorem Reactor.handle_current_due {Time : Type} [LinearOrder Time] (SIG_MAX SIGCHLD : Nat)
    (r : Reactor Time) (obs : Obs Time) (tr : List (Event Time)) (n : Nat)
    (r1 : Reactor Time) (hs : timers_sorted r.timers_)
    (hsig : Reactor.handle_signals SIG_MAX SIGCHLD r obs.waitid = (tr, .ok (n, r1)))
    (hcb : ∀ t ∈ r.timers_, t.time_ < obs.now → t.callback_ ≠ none) :
    ∃ calls : List (Event Time),
      Reactor.handle_current SIG_MAX SIGCHLD r obs =
        (tr ++ calls, .ok ((tr ++ calls).length,
          { r1 with timers_ := r.timers_.filter (fun t => decide (¬ t.time_ < obs.now)) })) ∧
      List.Forall₂ (fun t ev => ∃ c, t.callback_ = some c ∧ ev = Event.timer t.time_ c)
        (r.timers_.filter (fun t => decide (t.time_ < obs.now))) calls := by
  have hspec := Reactor.handle_signals_loop_spec SIGCHLD obs.waitid
    (List.range' 1 (SIG_MAX - 1)) (List.pairwise_lt_range' 1 (SIG_MAX - 1)) r
  unfold Reactor.handle_signals at hsig
  rw [hsig] at hspec
  obtain ⟨hlen, htm⟩ := hspec.2.2 n r1 rfl
  simp only at hlen
  obtain ⟨calls, hc, hf⟩ := Reactor.handle_timers_due obs.now r.timers_ hs hcb
  refine ⟨calls, ?_, hf⟩
  unfold Reactor.handle_current Reactor.handle_signals
  rw [hsig]
  simp only [htm, hc, List.length_append, hlen]

/-- Counterexample to C31 as stated: the timers due at 5, 10 and 30 are in
deadline order, the one due at 10 has a null callback, no signal flag is
raised and the time is 25; `handle_current` invokes the callback of the timer
due at 5 and then throws `bad_function_call`: the timer due at 10 is not
invoked, no timer is removed and no count is returned. -/
theorem Reactor.handle_current_due_counterexample :
    timers_sorted reactor_null_sample.timers_ ∧
    Reactor.handle_current 34 17 reactor_null_sample obs_idle =
      ([Event.timer 5 1], .error Exc.bad_function_call) := by
  constructor
  · simp [timers_sorted, reactor_null_sample]
  · rfl

/-- Witness for C31 (amended): the example reactor, whose timers are due at 10,
20, 20 and 30, with no signal flag raised, at time 25. -/
theorem Reactor.handle_current_due_witness :
    Reactor.handle_signals 34 17 reactor_sample obs_idle.waitid =
      ([], .ok (0, reactor_sample)) ∧
    Reactor.handle_current 34 17 reactor_sample obs_idle =
      ([Event.timer 10 1, Event.timer 20 2, Event.timer 20 3],
        .ok (3, { reactor_sample with timers_ := [⟨30, some 4⟩] })) ∧
    ∃ calls : List (Event Nat),
      Reactor.handle_current 34 17 reactor_sample obs_idle =
        ([] ++ calls, .ok (([] ++ calls).length,
          { reactor_sample with
            timers_ := reactor_sample.timers_.filter
              (fun t => decide (¬ t.time_ < obs_idle.now)) })) ∧
      List.Forall₂ (fun t ev => ∃ c, t.callback_ = some c ∧ ev = Event.timer t.time_ c)
        (reactor_sample.timers_.filter (fun t => decide (t.time_ < obs_idle.now))) calls := by
  have h0 : Reactor.handle_signals 34 17 reactor_sample obs_idle.waitid =
      ([], .ok (0, reactor_sample)) := rfl
  exact ⟨h0, rfl, Reactor.handle_current_due 34 17 reactor_sample obs_idle [] 0 reactor_sample
    (by simp [timers_sorted, reactor_sample]) h0 (by simp [reactor_sample])⟩

end evt

/-! ## C35, C39: a registered signal callback -/

namespace evt

theorem Reactor.handle_sigchld_signals {Time : Type} (r : Reactor Time)
    (waitid : Int → Except Exc Bool) (n : Nat) (r1 : Reactor Time)
    (h : (r.handle_sigchld waitid).2 = .ok (n, r1)) :
    r1.signals_ = r.signals_ := by
  unfold Reactor.handle_sigchld at h
  rcases hl : @Reactor.handle_sigchld_loop Time waitid r.waits_ with ⟨tr, out⟩
  rw [hl] at h
  cases out with
  | error e => simp at h
  | ok p =>
    simp only [Except.ok.injEq, Prod.mk.injEq] at h
    rw [← h.2]

/-- What a returning loop of `handle_signals` does to the signal table: the
callbacks stay, and the raised flag of every signal number visited is clear. -/
theorem Reactor.handle_signals_loop_signals {Time : Type} (SIGCHLD : Nat)
    (waitid : Int → Except Exc Bool) (l : List Nat) (r : Reactor Time) (n : Nat)
    (r1 : Reactor Time)
    (h : (Reactor.handle_signals_loop SIGCHLD waitid l r).2 = .ok (n, r1)) (t : Nat) :
    (r1.signals_ t).callback_ = (r.signals_ t).callback_ ∧
    (r1.signals_ t).raised_ = (if t ∈ l then false else (r.signals_ t).raised_) := by
  induction l generalizing r n with
  | nil =>
    simp only [Reactor.handle_signals_loop, Except.ok.injEq, Prod.mk.injEq] at h
    rw [← h.2]
    simp
  | cons a rest ih =>
    unfold Reactor.handle_signals_loop at h
    have hupd : ∀ (r' : Reactor Time) (x : Signal),
        r'.signals_ = Function.update r.signals_ a x →
        x.callback_ = (r.signals_ a).callback_ → x.raised_ = false →
        (r'.signals_ t).callback_ = (r.signals_ t).callback_ ∧
        (if t ∈ rest then false else (r'.signals_ t).raised_) =
          (if t ∈ a :: rest then false else (r.signals_ t).raised_) := by
      intro r' x hr' hx1 hx2
      rw [hr']
      by_cases e : t = a
      · subst e
        simp [hx1, hx2]
      · simp [Function.update_noteq e, e]
    by_cases hr : (r.signals_ a).raised_ = true
    · simp only [hr, if_true] at h
      by_cases hc : a = SIGCHLD
      · subst hc
        simp only [if_true] at h
        rcases hsc : Reactor.handle_sigchld ({ r with signals_ := Function.update r.signals_ a { r.signals_ a with raised_ := false } } : Reactor Time) waitid with ⟨tr, out⟩
        rw [hsc] at h
        cases out with
        | error e => simp at h
        | ok p =>
          simp only at h
          obtain ⟨q, hq, hf⟩ := except_map_eq_ok _ _ _ h
          simp only [Prod.mk.injEq] at hf
          obtain ⟨-, rfl⟩ := hf
          have e1 := ih p.2 q.1 hq
          have e2 := Reactor.handle_sigchld_signals _ waitid p.1 p.2 (by rw [hsc])
          have e3 := hupd p.2 _ e2 rfl rfl
          rw [e1.1, e1.2]
          exact e3
      · simp only [hc, if_false, Function.update_same] at h
        cases hcb : (r.signals_ a).callback_ with
        | none => simp [hcb] at h
        | some c =>
          simp only [hcb] at h
          obtain ⟨q, hq, hf⟩ := except_map_eq_ok _ _ _ h
          simp only [Prod.mk.injEq] at hf
          obtain ⟨-, rfl⟩ := hf
          have e1 := ih _ q.1 hq
          have e3 := hupd ({ r with signals_ := Function.update r.signals_ a { callback_ := some c, raised_ := false } } : Reactor Time) _ rfl hcb.symm rfl
          rw [e1.1, e1.2]
          exact e3
    · simp only [hr, if_false] at h
      have e1 := ih r n h
      rw [e1.1, e1.2]
      refine ⟨rfl, ?_⟩
      by_cases e : t = a
      · subst e
        simp only [List.mem_cons, true_or, if_true]
        have : (r.signals_ t).raised_ = false := by
          cases hb : (r.signals_ t).raised_
          · rfl
          · exact absurd hb hr
        rw [this]
        simp
      · simp [e]

theorem Reactor.handle_current_signals {Time : Type} [LinearOrder Time]
    (SIG_MAX SIGCHLD : Nat) (r : Reactor Time) (obs : Obs Time) (n : Nat) (r1 : Reactor Time)
    (h : (Reactor.handle_current SIG_MAX SIGCHLD r obs).2 = .ok (n, r1)) (t : Nat) :
    (r1.signals_ t).callback_ = (r.signals_ t).callback_ := by
  unfold Reactor.handle_current Reactor.handle_signals at h
  rcases hs : Reactor.handle_signals_loop SIGCHLD obs.waitid (List.range' 1 (SIG_MAX - 1)) r
    with ⟨tr, out⟩
  rw [hs] at h
  cases out with
  | error e => simp at h
  | ok p =>
    have e1 := Reactor.handle_signals_loop_signals SIGCHLD obs.waitid _ r p.1 p.2
      (by rw [hs]) t
    simp only at h
    rcases ht : Reactor.handle_timers obs.now p.2.timers_ with ⟨tr', out'⟩
    rw [ht] at h
    cases out' with
    | error e => simp at h
    | ok q =>
      simp only [Except.ok.injEq, Prod.mk.injEq] at h
      rw [← h.2]
      exact e1.1

theorem Reactor.deliver_callback {Time : Type} (r : Reactor Time) (s t : Nat) :
    ((r.deliver s).signals_ t).callback_ = (r.signals_ t).callback_ := by
  unfold Reactor.deliver
  cases (r.signal_handler_.signals_ s).callback_ with
  | none => rfl
  | some k =>
    simp only
    by_cases e : t = k
    · subst e
      simp
    · simp [Function.update_noteq e]

theorem Reactor.deliver_callbacks {Time : Type} (l : List Nat) (r : Reactor Time) (t : Nat) :
    ((l.foldl Reactor.deliver r).signals_ t).callback_ = (r.signals_ t).callback_ := by
  induction l generalizing r with
  | nil => rfl
  | cons s rest ih => rw [List.foldl_cons, ih, Reactor.deliver_callback]

theorem Reactor.run_loop_callbacks {Time : Type} [LinearOrder Time] (SIG_MAX SIGCHLD : Nat)
    (later : List (SleepResult × Obs Time)) (r : Reactor Time) (num_done n : Nat)
    (r1 : Reactor Time)
    (h : (Reactor.run_loop SIG_MAX SIGCHLD later r num_done).2 = some (.ok (n, r1)))
    (t : Nat) :
    (r1.signals_ t).callback_ = (r.signals_ t).callback_ := by
  induction later generalizing r num_done with
  | nil =>
    unfold Reactor.run_loop at h
    by_cases h0 : num_done = 0
    · simp [h0] at h
    · simp only [h0, if_false, Option.some.injEq, Except.ok.injEq, Prod.mk.injEq] at h
      rw [← h.2]
  | cons step later ih =>
    unfold Reactor.run_loop at h
    by_cases h0 : num_done = 0
    · simp only [h0, if_true] at h
      by_cases hf : step.1 = SleepResult.failed
      · simp [hf] at h
      · simp only [hf, if_false] at h
        rcases hc : Reactor.handle_current SIG_MAX SIGCHLD
          (step.2.delivered.foldl Reactor.deliver r) step.2 with ⟨tr, out⟩
        rw [hc] at h
        cases out with
        | error e => simp at h
        | ok p =>
          simp only at h
          have e1 := ih p.2 (0 + p.1) h
          have e2 := Reactor.handle_current_signals SIG_MAX SIGCHLD _ step.2 p.1 p.2
            (by rw [hc]) t
          rw [e1, e2, Reactor.deliver_callbacks]
    · simp only [h0, if_false, Option.some.injEq, Except.ok.injEq, Prod.mk.injEq] at h
      rw [← h.2]

/-- A `run` call that returns leaves the callbacks of the signal table as they
were. -/
theorem Reactor.run_callbacks {Time : Type} [LinearOrder Time] (SIG_MAX SIGCHLD : Nat)
    (r : Reactor Time) (sleep : Bool) (first : Obs Time)
    (later : List (SleepResult × Obs Time)) (n : Nat) (r1 : Reactor Time)
    (h : (r.run SIG_MAX SIGCHLD sleep first later).2 = some (.ok (n, r1))) (t : Nat) :
    (r1.signals_ t).callback_ = (r.signals_ t).callback_ := by
  unfold Reactor.run at h
  cases he : r.is_empty SIG_MAX with
  | true => simp [he] at h
  | false =>
    simp only [he, Bool.false_eq_true, if_false] at h
    rcases hc : Reactor.handle_current SIG_MAX SIGCHLD
      (first.delivered.foldl Reactor.deliver r) first with ⟨tr, out⟩
    rw [hc] at h
    cases out with
    | error e => simp at h
    | ok p =>
      have e2 := Reactor.handle_current_signals SIG_MAX SIGCHLD _ first p.1 p.2
        (by rw [hc]) t
      simp only at h
      cases sleep with
      | true =>
        simp only [if_true] at h
        rw [Reactor.run_loop_callbacks SIG_MAX SIGCHLD later p.2 p.1 n r1 h, e2,
          Reactor.deliver_callbacks]
      | false =>
        simp only [Bool.false_eq_true, if_false, Option.some.injEq, Except.ok.injEq,
          Prod.mk.injEq] at h
        rw [← h.2, e2, Reactor.deliver_callbacks]

/-- However `set_signal` ends, an entry of the signal table that holds a
callback is left as it was, and the dispatcher keeps the closures it holds. -/
theorem Reactor.set_signal_keeps {Time : Type} (SIG_MAX SIGCHLD : Nat) (r : Reactor Time)
    (w : SigWorld) (signum : Nat) (cb : Callback) (r1 : Reactor Time)
    (h : (∃ w1, r.set_signal SIG_MAX SIGCHLD w signum cb = .ok (r1, w1)) ∨
      (∃ e w1, r.set_signal SIG_MAX SIGCHLD w signum cb = .error (e, r1, w1))) (t : Nat) :
    ((r.signals_ t).callback_ ≠ none → r1.signals_ t = r.signals_ t) ∧
    ((r.signal_handler_.signals_ t).callback_ = some t →
      (r1.signal_handler_.signals_ t).callback_ = some t) := by
  unfold Reactor.set_signal at h
  by_cases h1 : ¬ (signum > 0 ∧ signum < SIG_MAX)
  · rw [if_pos h1] at h
    rcases h with ⟨w1, h⟩ | ⟨e, w1, h⟩
    · cases h
    · simp only [Except.error.injEq, Prod.mk.injEq] at h
      rw [← h.2.1]
      exact ⟨fun _ => rfl, id⟩
  rw [if_neg h1] at h
  by_cases h2 : signum = SIGCHLD
  · rw [if_pos h2] at h
    rcases h with ⟨w1, h⟩ | ⟨e, w1, h⟩
    · cases h
    · simp only [Except.error.injEq, Prod.mk.injEq] at h
      rw [← h.2.1]
      exact ⟨fun _ => rfl, id⟩
  rw [if_neg h2] at h
  by_cases h3 : (r.signals_ signum).callback_ = none
  · rw [if_pos h3] at h
    simp only at h
    have C := SignalHandler.set_state_callbacks SIG_MAX r.signal_handler_ w signum
      (some signum)
    have hsig : ∀ r' : Reactor Time,
        r'.signals_ = Function.update r.signals_ signum { callback_ := cb, raised_ := false } →
        (r.signals_ t).callback_ ≠ none → r'.signals_ t = r.signals_ t := by
      intro r' hr' hne
      have e : t ≠ signum := fun e => hne (e ▸ h3)
      rw [hr', Function.update_noteq e]
    cases hs : SignalHandler.set_state SIG_MAX r.signal_handler_ w signum (some signum) with
    | ok p =>
      rw [hs] at h
      rcases h with ⟨w1, h⟩ | ⟨e, w1, h⟩
      · simp only [Except.ok.injEq, Prod.mk.injEq] at h
        rw [← h.1]
        refine ⟨hsig _ rfl, fun hd => ?_⟩
        show (p.1.signals_ t).callback_ = some t
        rw [C.1 p.1 p.2 hs t]
        by_cases e : t = signum
        · rw [if_pos e, e]
        · rw [if_neg e]
          exact hd
      · cases h
    | error p =>
      rw [hs] at h
      rcases h with ⟨w1, h⟩ | ⟨e, w1, h⟩
      · cases h
      · simp only [Except.error.injEq, Prod.mk.injEq] at h
        rw [← h.2.1]
        refine ⟨hsig _ rfl, fun hd => ?_⟩
        show (p.2.1.signals_ t).callback_ = some t
        rcases C.2 p.1 p.2.1 p.2.2 hs t with c | ⟨c1, c2⟩
        · rw [c]
          exact hd
        · rw [c2, c1]
  · rw [if_neg h3] at h
    rcases h with ⟨w1, h⟩ | ⟨e, w1, h⟩
    · cases h
    · simp only [Except.error.injEq, Prod.mk.injEq] at h
      rw [← h.2.1]
      exact ⟨fun _ => rfl, id⟩

/-- No step of a program removes or replaces a callback of the signal table,
nor the closure that the dispatcher holds for its signal. -/
theorem Reactor.step_keeps {Time : Type} [LinearOrder Time] (SIG_MAX SIGCHLD : Nat)
    (st st1 : Reactor Time × SigWorld) (op : Reactor.Op Time)
    (h : (Reactor.step SIG_MAX SIGCHLD st op).2 = some st1) (s : Nat) :
    (∀ c, (st.1.signals_ s).callback_ = some c → (st1.1.signals_ s).callback_ = some c) ∧
    ((st.1.signal_handler_.signals_ s).callback_ = some s →
      (st1.1.signal_handler_.signals_ s).callback_ = some s) := by
  cases op with
  | deliver signum =>
    dsimp only [Reactor.step] at h
    by_cases c : st.2.disposition signum = sighandler_t.handler
    · rw [if_pos c] at h
      simp only [Option.some.injEq] at h
      rw [← h]
      constructor
      · intro c hc
        show ((st.1.deliver signum).signals_ s).callback_ = some c
        rw [Reactor.deliver_callback, hc]
      · intro hd
        show ((st.1.deliver signum).signal_handler_.signals_ s).callback_ = some s
        rw [(Reactor.deliver_fields st.1 signum).2.2]
        exact hd
    · rw [if_neg c] at h
      simp only [Option.some.injEq] at h
      rw [← h]
      exact ⟨fun _ hc => hc, id⟩
  | add_timer slot_addr local_addr time callback =>
    simp only [Reactor.step, Option.some.injEq] at h
    rw [← h]
    exact ⟨fun _ hc => hc, id⟩
  | set_signal signum callback =>
    dsimp only [Reactor.step] at h
    cases hs : st.1.set_signal SIG_MAX SIGCHLD st.2 signum callback with
    | ok p =>
      rw [hs] at h
      simp only [Option.some.injEq] at h
      rw [← h]
      have K := Reactor.set_signal_keeps SIG_MAX SIGCHLD st.1 st.2 signum callback p.1
        (Or.inl ⟨p.2, hs⟩) s
      refine ⟨fun c hc => ?_, K.2⟩
      rw [K.1 (by rw [hc]; simp), hc]
    | error p =>
      rw [hs] at h
      obtain ⟨e, r1, w1⟩ := p
      cases e <;> simp only [Option.some.injEq] at h <;> first | (cases h; done) | skip
      rw [← h]
      have K := Reactor.set_signal_keeps SIG_MAX SIGCHLD st.1 st.2 signum callback r1
        (Or.inr ⟨_, w1, hs⟩) s
      refine ⟨fun c hc => ?_, K.2⟩
      show (r1.signals_ s).callback_ = some c
      rw [K.1 (by rw [hc]; simp), hc]
  | set_wait pid callback =>
    dsimp only [Reactor.step] at h
    unfold Reactor.set_wait at h
    cases hf : StdMap.find st.1.waits_ pid with
    | none =>
      rw [hf] at h
      simp only [Option.some.injEq] at h
      rw [← h]
      exact ⟨fun _ hc => hc, id⟩
    | some v =>
      rw [hf] at h
      simp only [Option.some.injEq] at h
      rw [← h]
      exact ⟨fun _ hc => hc, id⟩
  | run sleep first later =>
    dsimp only [Reactor.step] at h
    rcases hr : st.1.run SIG_MAX SIGCHLD sleep first later with ⟨trace, out⟩
    rw [hr] at h
    cases out with
    | none => cases h
    | some res =>
      cases res with
      | error e => cases h
      | ok p =>
        simp only [Option.some.injEq] at h
        rw [← h]
        constructor
        · intro c hc
          show (p.2.signals_ s).callback_ = some c
          rw [Reactor.run_callbacks SIG_MAX SIGCHLD st.1 sleep first later p.1 p.2
            (by rw [hr]) s, hc]
        · intro hd
          show (p.2.signal_handler_.signals_ s).callback_ = some s
          rw [Reactor.run_handler SIG_MAX SIGCHLD st.1 sleep first later p.1 p.2 (by rw [hr])]
          exact hd

theorem Reactor.exec_keeps {Time : Type} [LinearOrder Time] (SIG_MAX SIGCHLD : Nat)
    (ops : List (Reactor.Op Time)) (st st1 : Reactor Time × SigWorld)
    (h : (Reactor.exec SIG_MAX SIGCHLD st ops).2 = some st1) (s : Nat) :
    (∀ c, (st.1.signals_ s).callback_ = some c → (st1.1.signals_ s).callback_ = some c) ∧
    ((st.1.signal_handler_.signals_ s).callback_ = some s →
      (st1.1.signal_handler_.signals_ s).callback_ = some s) := by
  induction ops generalizing st with
  | nil =>
    simp only [Reactor.exec, Option.some.injEq] at h
    rw [← h]
    exact ⟨fun _ hc => hc, id⟩
  | cons op rest ih =>
    unfold Reactor.exec at h
    cases hs : (Reactor.step SIG_MAX SIGCHLD st op).2 with
    | none =>
      rw [hs] at h
      cases h
    | some st2 =>
      rw [hs] at h
      have K := Reactor.step_keeps SIG_MAX SIGCHLD st st2 op hs s
      have I := ih st2 h
      exact ⟨fun c hc => I.1 c (K.1 c hc), fun hd => I.2 (K.2 hd)⟩

end evt

namespace evt

/-- C35 (amended): once `set_signal(signum, cb)` with a non-null `cb` has
succeeded, `is_empty()` is false in every later state of the reactor, whatever
deliveries of signals and calls of `add_timer`, `set_wait`, `set_signal` and
`run` lead to it: the callback recorded for `signum` is never removed. -/
theorem Reactor.registered_never_empty {Time : Type} [LinearOrder Time]
    (SIG_MAX SIGCHLD : Nat) (r0 : Reactor Time) (w0 : SigWorld) (signum : Nat)
    (cb : Callback) (hcb : cb ≠ none) (st1 : Reactor Time × SigWorld)
    (hreg : r0.set_signal SIG_MAX SIGCHLD w0 signum cb = .ok st1)
    (ops : List (Reactor.Op Time)) (st : Reactor Time × SigWorld)
    (hexec : (Reactor.exec SIG_MAX SIGCHLD st1 ops).2 = some st) :
    st.1.is_empty SIG_MAX = false ∧ (st.1.signals_ signum).callback_ = cb := by
  obtain ⟨-, h2, -, -, h5, -, -⟩ :=
    Reactor.set_signal_ok SIG_MAX SIGCHLD r0 st1.1 w0 st1.2 signum cb hreg
  have h1 : (st1.1.signals_ signum).callback_ = cb := by
    rw [h5]
    simp
  cases hc : cb with
  | none => exact absurd hc hcb
  | some c =>
    rw [hc] at h1
    have hk := (Reactor.exec_keeps SIG_MAX SIGCHLD ops st1 st hexec signum).1 c h1
    refine ⟨?_, hk⟩
    cases he : st.1.is_empty SIG_MAX with
    | false => rfl
    | true =>
      have := ((Reactor.is_empty_iff SIG_MAX st.1).1 he).2.2 signum h2
      rw [hk] at this
      cases this

theorem reactor_null_runs :
    ∃ (r0 : Reactor Nat) (w0 : SigWorld) (st1 st : Reactor Nat × SigWorld),
      Reactor.new 34 17 1 world_sample = .ok (r0, w0) ∧
      r0.set_signal 34 17 w0 10 none = .ok st1 ∧
      (Reactor.exec 34 17 st1 [.deliver 10]).2 = some st ∧
      st1.1.is_empty 34 = true ∧ st.1.is_empty 34 = true ∧
      (st.1.signals_ 10).raised_ = true ∧
      Reactor.handle_signals 34 17 st.1 (fun _ => .ok false) =
        ([], .error Exc.bad_function_call) :=
  ⟨_, _, _, _, rfl, rfl, rfl, by decide, by decide, rfl, rfl⟩

/-- Counterexample to C35 as stated: on a fresh reactor `set_signal(10, cb)`
with a null `cb` succeeds, and `is_empty()` is true right after it and after a
later delivery of signal 10. -/
theorem Reactor.registered_never_empty_counterexample :
    ∃ (r0 : Reactor Nat) (w0 : SigWorld) (st1 st : Reactor Nat × SigWorld),
      Reactor.new 34 17 1 world_sample = .ok (r0, w0) ∧
      r0.set_signal 34 17 w0 10 none = .ok st1 ∧
      (Reactor.exec 34 17 st1 [.deliver 10]).2 = some st ∧
      st1.1.is_empty 34 = true ∧ st.1.is_empty 34 = true := by
  obtain ⟨r0, w0, st1, st, h0, h1, h2, h3, h4, -⟩ := reactor_null_runs
  exact ⟨r0, w0, st1, st, h0, h1, h2, h3, h4⟩

theorem ops_later_sample_runs :
    ∃ (r0 : Reactor Nat) (w0 : SigWorld) (st1 st : Reactor Nat × SigWorld),
      Reactor.new 34 17 1 world_sample = .ok (r0, w0) ∧
      r0.set_signal 34 17 w0 10 (some 100) = .ok st1 ∧
      (Reactor.exec 34 17 st1 ops_later_sample).2 = some st ∧
      (Reactor.exec 34 17 st1 ops_later_sample).1 =
        [Event.signal 10 100, Event.child 5 50, Event.timer 20 2] ∧
      (st.1.signals_ 10).raised_ = false :=
  ⟨_, _, _, _, rfl, rfl, rfl, rfl, rfl⟩

/-- Witness for C35 (amended): the example program, which registers a callback
for signal 10 on a fresh reactor and goes on to a `run`. -/
theorem Reactor.registered_never_empty_witness :
    ∃ (r0 : Reactor Nat) (w0 : SigWorld) (st1 st : Reactor Nat × SigWorld),
      Reactor.new 34 17 1 world_sample = .ok (r0, w0) ∧
      r0.set_signal 34 17 w0 10 (some 100) = .ok st1 ∧
      (Reactor.exec 34 17 st1 ops_later_sample).2 = some st ∧
      st.1.is_empty 34 = false ∧ (st.1.signals_ 10).callback_ = some 100 := by
  obtain ⟨r0, w0, st1, st, h0, h1, h2, -⟩ := ops_later_sample_runs
  exact ⟨r0, w0, st1, st, h0, h1, h2,
    Reactor.registered_never_empty 34 17 r0 w0 10 (some 100) (by simp) st1 h1
      ops_later_sample st h2⟩

/-- With a wired dispatcher, deliveries raise the flag of a signal exactly when
it is among them and the dispatcher holds its closure. -/
theorem Reactor.deliver_raised {Time : Type} (l : List Nat) (r : Reactor Time)
    (hw : r.signal_handler_.Wired) (s : Nat) :
    ((l.foldl Reactor.deliver r).signals_ s).raised_ =
      ((r.signals_ s).raised_ ||
        (decide (s ∈ l) && (r.signal_handler_.signals_ s).callback_.isSome)) := by
  induction l generalizing r with
  | nil => simp
  | cons a rest ih =>
    have hh : (r.deliver a).signal_handler_ = r.signal_handler_ :=
      (Reactor.deliver_fields r a).2.2
    rw [List.foldl_cons, ih (r.deliver a) (by rw [hh]; exact hw), hh]
    have hd : ((r.deliver a).signals_ s).raised_ =
        ((r.signals_ s).raised_ ||
          (decide (s = a) && (r.signal_handler_.signals_ s).callback_.isSome)) := by
      unfold Reactor.deliver
      rcases hw a with c | c
      · rw [c]
        by_cases e : s = a
        · subst e
          simp [c]
        · simp [e]
      · rw [c]
        by_cases e : s = a
        · subst e
          simp [c]
        · simp [e, Function.update_noteq e]
    rw [hd]
    by_cases e : s = a
    · subst e
      cases (r.signals_ s).raised_ <;> cases (r.signal_handler_.signals_ s).callback_.isSome <;>
        simp
    · simp [e]

/-- The invocations that a returning loop of `handle_signals` makes for a user
signal `s` with callback `c`: one when `s` is visited with its flag raised,
none otherwise. -/
theorem Reactor.handle_signals_loop_calls {Time : Type} (SIGCHLD : Nat)
    (waitid : Int → Except Exc Bool) (l : List Nat) (hl : l.Nodup) (s c : Nat)
    (hne : s ≠ SIGCHLD) (r : Reactor Time) (hcb : (r.signals_ s).callback_ = some c)
    (n : Nat) (r1 : Reactor Time)
    (h : (Reactor.handle_signals_loop SIGCHLD waitid l r).2 = .ok (n, r1)) :
    (Reactor.handle_signals_loop SIGCHLD waitid l r).1.filter
        (fun e => decide (e.signum SIGCHLD = some s)) =
      (if s ∈ l ∧ (r.signals_ s).raised_ = true then [Event.signal s c] else []) := by
  induction l generalizing r n r1 with
  | nil => simp [Reactor.handle_signals_loop]
  | cons a rest ih =>
    obtain ⟨ha, hl'⟩ := List.nodup_cons.mp hl
    unfold Reactor.handle_signals_loop at h ⊢
    by_cases hr : (r.signals_ a).raised_ = true
    · simp only [hr, if_true] at h ⊢
      by_cases hc : a = SIGCHLD
      · subst hc
        simp only [if_true] at h ⊢
        rcases hsc : Reactor.handle_sigchld ({ r with signals_ := Function.update r.signals_ a { r.signals_ a with raised_ := false } } : Reactor Time) waitid with ⟨tr, out⟩
        rw [hsc] at h
        cases out with
        | error e => simp at h
        | ok p =>
          simp only at h ⊢
          obtain ⟨q, hq, hf⟩ := except_map_eq_ok _ _ _ h
          have e2 := Reactor.handle_sigchld_signals _ waitid p.1 p.2 (by rw [hsc])
          have hsa : s ≠ a := hne
          have hp : p.2.signals_ s = r.signals_ s := by
            rw [e2]
            exact Function.update_noteq hsa _ _
          have e1 := ih hl' p.2 (by rw [hp]; exact hcb) q.1 q.2 hq
          have hchild : ∀ e ∈ tr, e.is_child = true := by
            have := (@Reactor.handle_sigchld_loop_spec Time waitid r.waits_).1
            unfold Reactor.handle_sigchld at hsc
            rcases hlp : @Reactor.handle_sigchld_loop Time waitid r.waits_ with ⟨tr2, out2⟩
            rw [hlp] at hsc this
            cases out2 with
            | error e => simp at hsc
            | ok p2 =>
              simp only [Prod.mk.injEq] at hsc
              rw [← hsc.1]
              exact this
          have hfil : tr.filter (fun e => decide (e.signum a = some s)) = [] := by
            rw [List.filter_eq_nil_iff]
            intro e he
            have hce := hchild e he
            cases e with
            | child pid cbk => simp [Event.signum, Ne.symm hsa]
            | signal _ _ => simp [Event.is_child] at hce
            | timer _ _ => simp [Event.is_child] at hce
          rw [List.filter_append, hfil, List.nil_append, e1, hp]
          simp [hsa]
      · simp only [hc, if_false, Function.update_same] at h ⊢
        cases hcb' : (r.signals_ a).callback_ with
        | none => simp [hcb'] at h
        | some c' =>
          simp only [hcb'] at h ⊢
          obtain ⟨q, hq, hf⟩ := except_map_eq_ok _ _ _ h
          by_cases hsa : s = a
          · subst hsa
            rw [hcb] at hcb'
            simp only [Option.some.injEq] at hcb'
            subst hcb'
            have e1 := ih hl' _ (by simp) q.1 q.2 hq
            rw [List.filter_cons_of_pos (by simp [Event.signum]), e1]
            simp [ha, hr]
          · have e1 := ih hl' _ (by simp only [Function.update_noteq hsa]; exact hcb) q.1 q.2 hq
            rw [List.filter_cons_of_neg (by simp [Event.signum, Ne.symm hsa]), e1]
            simp [hsa, Function.update_noteq hsa]
    · simp only [hr, Bool.false_eq_true, if_false] at h ⊢
      have e1 := ih hl' r hcb n r1 h
      rw [e1]
      by_cases hsa : s = a
      · subst hsa
        have : (r.signals_ s).raised_ = false := by
          cases hb : (r.signals_ s).raised_
          · rfl
          · exact absurd hb hr
        simp [this]
      · simp [hsa]

end evt

namespace evt

/-- After a successful `set_signal(signum, cb)` the dispatcher holds the
closure of `signum`. -/
theorem Reactor.set_signal_closure {Time : Type} (SIG_MAX SIGCHLD : Nat) (r r1 : Reactor Time)
    (w w1 : SigWorld) (signum : Nat) (cb : Callback)
    (h : r.set_signal SIG_MAX SIGCHLD w signum cb = .ok (r1, w1)) :
    (r1.signal_handler_.signals_ signum).callback_ = some signum := by
  unfold Reactor.set_signal at h
  by_cases h1 : ¬ (signum > 0 ∧ signum < SIG_MAX)
  · rw [if_pos h1] at h
    cases h
  rw [if_neg h1] at h
  by_cases h2 : signum = SIGCHLD
  · rw [if_pos h2] at h
    cases h
  rw [if_neg h2] at h
  by_cases h3 : (r.signals_ signum).callback_ = none
  · rw [if_pos h3] at h
    simp only at h
    have C := SignalHandler.set_state_callbacks SIG_MAX r.signal_handler_ w signum
      (some signum)
    cases hs : SignalHandler.set_state SIG_MAX r.signal_handler_ w signum (some signum) with
    | ok p =>
      rw [hs] at h
      simp only [Except.ok.injEq, Prod.mk.injEq] at h
      rw [← h.1]
      show (p.1.signals_ signum).callback_ = some signum
      rw [C.1 p.1 p.2 hs signum, if_pos rfl]
    | error p =>
      rw [hs] at h
      cases h
  · rw [if_neg h3] at h
    cases h

/-- C39 (amended): for a signal registered with `set_signal(s, cb)` with a
non-null `cb`, in a later state of the reactor in which its raised flag is
clear: when signals are then delivered and the next call of `handle_signals`
returns, that call invokes the callback of `s` exactly once if `s` was
delivered, however many times, and not at all if it was not; each invocation
made is counted once in the number returned, and the raised flag of `s` is
clear after the call. -/
theorem Reactor.handle_signals_coalesce {Time : Type} [LinearOrder Time]
    (SIG_MAX SIGCHLD : Nat) (r0 : Reactor Time) (w0 : SigWorld) (s c : Nat)
    (hw0 : r0.signal_handler_.Wired) (st1 : Reactor Time × SigWorld)
    (hreg : r0.set_signal SIG_MAX SIGCHLD w0 s (some c) = .ok st1)
    (ops : List (Reactor.Op Time)) (st : Reactor Time × SigWorld)
    (hexec : (Reactor.exec SIG_MAX SIGCHLD st1 ops).2 = some st)
    (hclear : (st.1.signals_ s).raised_ = false)
    (delivered : List Nat) (waitid : Int → Except Exc Bool) (tr : List (Event Time))
    (n : Nat) (r2 : Reactor Time)
    (hret : Reactor.handle_signals SIG_MAX SIGCHLD (delivered.foldl Reactor.deliver st.1)
      waitid = (tr, .ok (n, r2))) :
    tr.filter (fun e => decide (e.signum SIGCHLD = some s)) =
      (if s ∈ delivered then [Event.signal s c] else []) ∧
    n = tr.length ∧ (r2.signals_ s).raised_ = false := by
  obtain ⟨h1, h2, h3, -, h5, -, -⟩ :=
    Reactor.set_signal_ok SIG_MAX SIGCHLD r0 st1.1 w0 st1.2 s (some c) hreg
  have hcb1 : (st1.1.signals_ s).callback_ = some c := by
    rw [h5]
    simp
  have hcl1 := Reactor.set_signal_closure SIG_MAX SIGCHLD r0 st1.1 w0 st1.2 s (some c) hreg
  have hw1 := (Reactor.set_signal_wired SIG_MAX SIGCHLD r0 w0 s (some c) hw0).1
    st1.1 st1.2 hreg
  have hw := Reactor.exec_wired SIG_MAX SIGCHLD ops st1 st hw1 hexec
  obtain ⟨k1, k2⟩ := Reactor.exec_keeps SIG_MAX SIGCHLD ops st1 st hexec s
  have hcb := k1 c hcb1
  have hcl := k2 hcl1
  have hraised := Reactor.deliver_raised delivered st.1 hw s
  rw [hclear, hcl] at hraised
  simp only [Option.isSome_some, Bool.and_true, Bool.false_or] at hraised
  have hcbd : ((delivered.foldl Reactor.deliver st.1).signals_ s).callback_ = some c := by
    rw [Reactor.deliver_callbacks, hcb]
  unfold Reactor.handle_signals at hret
  have hmem : s ∈ List.range' 1 (SIG_MAX - 1) := by
    rw [List.mem_range'_1]
    omega
  have hcalls := Reactor.handle_signals_loop_calls SIGCHLD waitid
    (List.range' 1 (SIG_MAX - 1)) (List.nodup_range' 1 (SIG_MAX - 1)) s c h3 _ hcbd n r2
    (by rw [hret])
  have hspec := (Reactor.handle_signals_loop_spec SIGCHLD waitid
    (List.range' 1 (SIG_MAX - 1)) (List.pairwise_lt_range' 1 (SIG_MAX - 1))
    (delivered.foldl Reactor.deliver st.1)).2.2 n r2 (by rw [hret])
  have hsig := Reactor.handle_signals_loop_signals SIGCHLD waitid
    (List.range' 1 (SIG_MAX - 1)) _ n r2 (by rw [hret]) s
  rw [hret] at hcalls hspec
  simp only at hcalls hspec
  refine ⟨?_, hspec.1.symm, ?_⟩
  · rw [hcalls, hraised]
    simp [hmem]
  · rw [hsig.2, if_pos hmem]

/-- Counterexample to C39 as stated: signal 10 is registered on a fresh reactor
with `set_signal(10, cb)` for a null `cb`, which succeeds, and is then
delivered once; the next `handle_signals` invokes no callback and returns no
number: it throws `bad_function_call`. -/
theorem Reactor.handle_signals_coalesce_counterexample :
    ∃ (r0 : Reactor Nat) (w0 : SigWorld) (st1 st : Reactor Nat × SigWorld),
      Reactor.new 34 17 1 world_sample = .ok (r0, w0) ∧
      r0.set_signal 34 17 w0 10 none = .ok st1 ∧
      (Reactor.exec 34 17 st1 [.deliver 10]).2 = some st ∧
      (st.1.signals_ 10).raised_ = true ∧
      Reactor.handle_signals 34 17 st.1 (fun _ => .ok false) =
        ([], .error Exc.bad_function_call) := by
  obtain ⟨r0, w0, st1, st, h0, h1, h2, -, -, h5, h6⟩ := reactor_null_runs
  exact ⟨r0, w0, st1, st, h0, h1, h2, h5, h6⟩

theorem reactor_coalesce_runs :
    ∃ (r0 : Reactor Nat) (w0 : SigWorld) (st1 : Reactor Nat × SigWorld) (r2 : Reactor Nat),
      Reactor.new 34 17 1 world_sample = .ok (r0, w0) ∧
      r0.set_signal 34 17 w0 10 (some 100) = .ok st1 ∧
      (Reactor.exec 34 17 st1 []).2 = some st1 ∧
      (st1.1.signals_ 10).raised_ = false ∧
      Reactor.handle_signals 34 17 ([10, 17, 10, 10].foldl Reactor.deliver st1.1)
        (fun _ => .ok false) = ([Event.signal 10 100], .ok (1, r2)) :=
  ⟨_, _, _, _, rfl, rfl, rfl, rfl, rfl⟩

/-- Witness for C39 (amended): signal 10 is registered on a fresh reactor and
delivered three times, with one `SIGCHLD` between, before `handle_signals`. -/
theorem Reactor.handle_signals_coalesce_witness :
    ∃ (r0 : Reactor Nat) (w0 : SigWorld) (st1 : Reactor Nat × SigWorld) (r2 : Reactor Nat),
      Reactor.new 34 17 1 world_sample = .ok (r0, w0) ∧
      r0.set_signal 34 17 w0 10 (some 100) = .ok st1 ∧
      Reactor.handle_signals 34 17 ([10, 17, 10, 10].foldl Reactor.deliver st1.1)
        (fun _ => .ok false) = ([Event.signal 10 100], .ok (1, r2)) ∧
      ([Event.signal 10 100] : List (Event Nat)).filter
          (fun e => decide (e.signum 17 = some 10)) =
        (if 10 ∈ [10, 17, 10, 10] then [Event.signal 10 100] else []) ∧
      1 = ([Event.signal 10 100] : List (Event Nat)).length ∧
      (r2.signals_ 10).raised_ = false := by
  obtain ⟨r0, w0, st1, r2, h0, h1, h2, h3, h4⟩ := reactor_coalesce_runs
  exact ⟨r0, w0, st1, r2, h0, h1, h4,
    Reactor.handle_signals_coalesce 34 17 r0 w0 10 100
      (Reactor.new_wired 34 17 1 world_sample w0 r0 h0) st1 h1 [] st1 h2 h3
      [10, 17, 10, 10] (fun _ => .ok false) [Event.signal 10 100] 1 r2 h4⟩

end evt

/-! ## C37: parse undoes print -/

namespace json

theorem _eat_hit (pre : List Char) (c : Char) (rest : List Char) :
    _eat (pre ++ c :: rest) pre.length c = .ok (true, pre.length + 1) := by
  unfold _eat
  rw [peek_at_cons]
  simp

theorem _eat_miss (pre : List Char) (d c : Char) (rest : List Char) (h : d ≠ c) :
    _eat (pre ++ d :: rest) pre.length c = .ok (false, pre.length) := by
  unfold _eat
  rw [peek_at_cons]
  simp [h]

/-- The loop of `_skip_space` passes over white space and stops at the first
other character, or at the end of the text. -/
theorem _skip_space_over (ws rest : List Char) (hws : ∀ c ∈ ws, bin.isspace c = true)
    (hrest : ∀ c, rest.head? = some c → bin.isspace c = false) (fuel : Nat)
    (hf : ws.length < fuel) (pre : List Char) :
    _skip_space (pre ++ (ws ++ rest)) fuel pre.length = .ok (pre.length + ws.length) := by
  induction ws generalizing pre fuel with
  | nil =>
    cases fuel with
    | zero => simp at hf
    | succ fuel =>
      rw [_skip_space, List.nil_append]
      cases rest with
      | nil =>
        rw [List.append_nil, peek_at_end]
        simp +decide [sys.NUL]
      | cons c r =>
        rw [peek_at_cons]
        simp [hrest c rfl]
  | cons w ws ih =>
    cases fuel with
    | zero => simp at hf
    | succ fuel =>
      rw [_skip_space, List.cons_append, peek_at_cons]
      simp only [hws w (List.mem_cons_self _ _), if_true]
      have := ih (fun c hc => hws c (List.mem_cons_of_mem _ hc)) fuel
        (by simp at hf; omega) (pre ++ [w])
      simp only [List.append_assoc, List.singleton_append, List.length_append,
        List.length_singleton] at this
      rw [this, List.length_cons]
      congr 1
      omega

/-- What `Json::print` writes for one character of a string: the character
itself, which is then no quote, backslash or NUL, or a backslash and the letter
that `_parse_str` reads back as the character. -/
theorem Json.print_char_cases (c : Char) (u : List Char) (h : Json.print_char c = .ok u) :
    (u = [c] ∧ c ≠ '"' ∧ c ≠ '\\' ∧ c ≠ sys.NUL) ∨
    (∃ x, u = ['\\', x] ∧ _parse_str_escape x = .ok c) := by
  unfold Json.print_char at h
  by_cases h1 : c = '"'
  · rw [if_pos h1] at h
    cases h
    exact Or.inr ⟨'"', rfl, by rw [h1]; rfl⟩
  rw [if_neg h1] at h
  by_cases h2 : c = '\\'
  · rw [if_pos h2] at h
    cases h
    exact Or.inr ⟨'\\', rfl, by rw [h2]; rfl⟩
  rw [if_neg h2] at h
  by_cases h3 : c = Char.ofNat 8
  · rw [if_pos h3] at h
    cases h
    exact Or.inr ⟨'b', rfl, by rw [h3]; rfl⟩
  rw [if_neg h3] at h
  by_cases h4 : c = Char.ofNat 12
  · rw [if_pos h4] at h
    cases h
    exact Or.inr ⟨'f', rfl, by rw [h4]; rfl⟩
  rw [if_neg h4] at h
  by_cases h5 : c = '\n'
  · rw [if_pos h5] at h
    cases h
    exact Or.inr ⟨'n', rfl, by rw [h5]; rfl⟩
  rw [if_neg h5] at h
  by_cases h6 : c = '\r'
  · rw [if_pos h6] at h
    cases h
    exact Or.inr ⟨'r', rfl, by rw [h6]; rfl⟩
  rw [if_neg h6] at h
  by_cases h7 : c = '\t'
  · rw [if_pos h7] at h
    cases h
    exact Or.inr ⟨'t', rfl, by rw [h7]; rfl⟩
  rw [if_neg h7] at h
  by_cases h8 : isprint c = true
  · rw [if_pos h8] at h
    cases h
    refine Or.inl ⟨rfl, h1, h2, ?_⟩
    intro e
    rw [e] at h8
    exact absurd h8 (by decide)
  · rw [if_neg h8] at h
    cases h

theorem Json.print_chars_cons (c : Char) (s body : List Char)
    (h : Json.print_chars (c :: s) = .ok body) :
    ∃ u body', Json.print_char c = .ok u ∧ Json.print_chars s = .ok body' ∧
      body = u ++ body' := by
  rw [Json.print_chars] at h
  cases h1 : Json.print_char c with
  | error e => simp [h1, bind, Except.bind] at h
  | ok u =>
    cases h2 : Json.print_chars s with
    | error e => simp [h1, h2, bind, Except.bind] at h
    | ok body' =>
      simp only [h1, h2, bind, Except.bind, pure, Except.pure, Except.ok.injEq] at h
      exact ⟨u, body', rfl, rfl, h.symm⟩

/-- The counting loop of `_parse_str` on what `Json::print` writes for the
characters `s`, followed by a quote: it counts the characters of `s`. -/
theorem _parse_str_count_printed (s : List Char) :
    ∀ (body : List Char), Json.print_chars s = .ok body →
    ∀ (pre post : List Char) (fuel length : Nat), s.length < fuel →
      _parse_str_count (pre ++ (body ++ '"' :: post)) fuel pre.length length =
        .ok (length + s.length) := by
  induction s with
  | nil =>
    intro body hb pre post fuel length hf
    simp only [Json.print_chars, pure, Except.pure, Except.ok.injEq] at hb
    subst hb
    cases fuel with
    | zero => simp at hf
    | succ fuel =>
      rw [_parse_str_count, List.nil_append, peek_at_cons]
      simp
  | cons c s ih =>
    intro body hb pre post fuel length hf
    obtain ⟨u, body', hu, hb', rfl⟩ := Json.print_chars_cons c s body hb
    cases fuel with
    | zero => simp at hf
    | succ fuel =>
      have hf' : s.length < fuel := by simp at hf; omega
      rcases Json.print_char_cases c u hu with ⟨rfl, n1, n2, n3⟩ | ⟨x, rfl, hx⟩
      · rw [_parse_str_count]
        simp only [List.singleton_append, List.cons_append, List.nil_append, peek_at_cons, n1,
          n3, if_false, _eat_miss pre c '\\' _ n2]
        have := ih body' hb' (pre ++ [c]) post fuel (length + 1) hf'
        simp only [List.append_assoc, List.singleton_append, List.length_append,
          List.length_singleton] at this
        rw [this, List.length_cons]
        congr 1
        omega
      · rw [_parse_str_count]
        have q1 : ('\\' : Char) ≠ '"' := by decide
        have q2 : ('\\' : Char) ≠ sys.NUL := by decide
        simp only [List.cons_append, List.nil_append, peek_at_cons, q1, q2, if_false,
          _eat_hit pre '\\' _]
        have := ih body' hb' (pre ++ ['\\', x]) post fuel (length + 1) hf'
        simp only [List.append_assoc, List.cons_append, List.nil_append, List.length_append,
          List.length_cons, List.length_nil] at this
        rw [this, List.length_cons]
        congr 1
        omega

/-- The building loop of `_parse_str` on what `Json::print` writes for the
characters `s`, followed by a quote: it stores the characters of `s` and stops
after the quote. -/
theorem _parse_str_build_printed (s : List Char) :
    ∀ (body : List Char), Json.print_chars s = .ok body →
    ∀ (pre post : List Char) (fuel : Nat) (str : List Char), s.length < fuel →
      _parse_str_build (pre ++ (body ++ '"' :: post)) fuel pre.length str =
        .ok (str ++ s, pre.length + body.length + 1) := by
  induction s with
  | nil =>
    intro body hb pre post fuel str hf
    simp only [Json.print_chars, pure, Except.pure, Except.ok.injEq] at hb
    subst hb
    cases fuel with
    | zero => simp at hf
    | succ fuel =>
      rw [_parse_str_build, List.nil_append, _eat_hit]
      simp
  | cons c s ih =>
    intro body hb pre post fuel str hf
    obtain ⟨u, body', hu, hb', rfl⟩ := Json.print_chars_cons c s body hb
    cases fuel with
    | zero => simp at hf
    | succ fuel =>
      have hf' : s.length < fuel := by simp at hf; omega
      rcases Json.print_char_cases c u hu with ⟨rfl, n1, n2, n3⟩ | ⟨x, rfl, hx⟩
      · rw [_parse_str_build]
        simp only [List.singleton_append, List.cons_append, List.nil_append,
          _eat_miss pre c '"' _ n1, Bool.false_eq_true, if_false, _eat_miss pre c '\\' _ n2,
          peek_at_cons]
        have := ih body' hb' (pre ++ [c]) post fuel (str ++ [c]) hf'
        simp only [List.append_assoc, List.singleton_append, List.length_append,
          List.length_singleton] at this
        rw [this, List.length_cons]
        congr 2
        omega
      · rw [_parse_str_build]
        have q1 : ('\\' : Char) ≠ '"' := by decide
        simp only [List.cons_append, List.nil_append, _eat_miss pre '\\' '"' _ q1,
          Bool.false_eq_true, if_false, _eat_hit pre '\\' _, if_true]
        have hpk : peek (pre ++ '\\' :: x :: (body' ++ '"' :: post)) (pre.length + 1) =
            .ok x := by
          have := peek_at_cons (pre ++ ['\\']) x (body' ++ '"' :: post)
          simpa using this
        rw [hpk]
        simp only [hx]
        have := ih body' hb' (pre ++ ['\\', x]) post fuel (str ++ [c]) hf'
        simp only [List.append_assoc, List.cons_append, List.nil_append, List.length_append,
          List.length_cons, List.length_nil] at this
        rw [this]
        simp only [List.length_cons, List.length_append]
        congr 2
        omega

/-- Reading back a printed string: `_parse_str` on what case `STR` of
`Json::print` writes returns the string and the position after it. -/
theorem _parse_str_printed (val : String) (out : List Char)
    (h : Json.print_str val = .ok out) (pre post : List Char) (fuel : Nat)
    (hf : val.length < fuel) :
    _parse_str (pre ++ (out ++ post)) fuel pre.length = .ok (val, pre.length + out.length) := by
  unfold Json.print_str at h
  cases hb : Json.print_chars val.toList with
  | error e =>
    rw [hb] at h
    cases h
  | ok body =>
    rw [hb] at h
    simp only [bind, Except.bind, pure, Except.pure, Except.ok.injEq] at h
    subst h
    have hf' : val.toList.length < fuel := hf
    have hc := _parse_str_count_printed val.toList body hb (pre ++ ['"']) post fuel 0 hf'
    have hd := _parse_str_build_printed val.toList body hb (pre ++ ['"']) post fuel [] hf'
    simp only [List.append_assoc, List.singleton_append, List.length_append,
      List.length_singleton, Nat.zero_add, List.nil_append] at hc hd
    unfold _parse_str
    simp only [List.cons_append, List.append_assoc, List.singleton_append, List.nil_append,
      _eat_hit, Bool.true_eq_false, if_false, hc, hd, if_true, List.length_cons,
      List.length_append, List.length_singleton, List.length_nil]
    refine congrArg Except.ok (Prod.ext rfl ?_)
    simp only
    omega

end json

namespace json

theorem value_start_spec (c : Char) (h : value_start c) :
    bin.isspace c = false ∧ c ≠ ']' ∧ c ≠ '}' ∧ c ≠ ',' := by
  have hd : isdigit c = true →
      bin.isspace c = false ∧ c ≠ ']' ∧ c ≠ '}' ∧ c ≠ ',' := by
    intro hc
    simp only [isdigit, Bool.and_eq_true, decide_eq_true_eq] at hc
    refine ⟨?_, ?_, ?_, ?_⟩
    · simp only [bin.isspace, Bool.or_eq_false_iff, decide_eq_false_iff_not,
        Bool.and_eq_false_iff]
      refine ⟨?_, ?_⟩
      · intro e
        rw [e] at hc
        exact absurd hc.1 (by decide)
      · right
        omega
    · intro e
      rw [e] at hc
      exact absurd hc.2 (by decide)
    · intro e
      rw [e] at hc
      exact absurd hc.2 (by decide)
    · intro e
      rw [e] at hc
      exact absurd hc.1 (by decide)
  rcases h with h | h | h | h | h | h | h | h
  · subst h; decide
  · subst h; decide
  · subst h; decide
  · subst h; decide
  · exact hd h
  · subst h; decide
  · subst h; decide
  · subst h; decide

theorem sep_chars (indent : Int) (level : Nat) :
    ∀ c ∈ sep indent level, c = ' ' ∨ c = '\n' := by
  intro c hc
  unfold sep at hc
  split at hc
  · simp at hc
  · split at hc
    · simp only [List.mem_singleton] at hc
      exact Or.inl hc
    · simp only [List.mem_cons] at hc
      rcases hc with h | h
      · exact Or.inr h
      · exact Or.inl (List.eq_of_mem_replicate h)

theorem sep_space (indent : Int) (level : Nat) :
    ∀ c ∈ sep indent level, bin.isspace c = true := by
  intro c hc
  rcases sep_chars indent level c hc with h | h <;> subst h <;> decide

theorem ends_number_sep (indent : Int) (level : Nat) (x : Char) (post : List Char)
    (hx : x = ']' ∨ x = '}') : ends_number (sep indent level ++ x :: post) := by
  intro c hc
  cases hs : sep indent level with
  | nil =>
    rw [hs] at hc
    simp only [List.nil_append, List.head?_cons, Option.some.injEq] at hc
    subst hc
    tauto
  | cons d rest =>
    rw [hs] at hc
    simp only [List.cons_append, List.head?_cons, Option.some.injEq] at hc
    subst hc
    rcases sep_chars indent level d (by rw [hs]; exact List.mem_cons_self _ _) with h | h <;>
      tauto

theorem ends_number_comma (rest : List Char) : ends_number (',' :: rest) := by
  intro c hc
  simp only [List.head?_cons, Option.some.injEq] at hc
  exact Or.inl hc.symm

theorem Json.print_arr_cons (put_double : Rat → String) (indent : Int) (ent : Json)
    (rest : List Json) (level : Nat) (first : Bool) (out : List Char)
    (h : Json.print_arr put_double indent (ent :: rest) level first = .ok out) :
    ∃ o t, Json.print put_double indent ent (level + 1) = .ok o ∧
      Json.print_arr put_double indent rest level false = .ok t ∧
      out = (if first = true then [] else [',']) ++ sep indent (level + 1) ++ o ++ t := by
  rw [Json.print_arr] at h
  cases h1 : Json.print put_double indent ent (level + 1) with
  | error e => simp [h1, bind, Except.bind] at h
  | ok o =>
    cases h2 : Json.print_arr put_double indent rest level false with
    | error e => simp [h1, h2, bind, Except.bind] at h
    | ok t =>
      simp only [h1, h2, bind, Except.bind, pure, Except.pure, Except.ok.injEq] at h
      exact ⟨o, t, rfl, rfl, h.symm⟩

/-- The loop of `_parse_arr` on the rest of a printed array: started at the
white space before the value `v0`, with the elements `acc` read so far, it
reads `v0` and the elements `l` printed after it, and stops after the closing
bracket. -/
theorem _parse_arr_loop_printed (put_double : Rat → String)
    (sscanf_lg : List Char → Option (Rat × Nat)) (indent : Int) (l : List Json) :
    ∀ (v0 : Json) (level : Nat) (o0 t : List Char),
      ParsesBack put_double sscanf_lg indent v0 →
      (∀ v ∈ l, ParsesBack put_double sscanf_lg indent v) →
      Json.print put_double indent v0 (level + 1) = .ok o0 →
      Json.print_arr put_double indent l level false = .ok t →
      ∃ N, ∀ fuel, N ≤ fuel → ∀ (pre ws post : List Char) (acc : List Json),
        (∀ c ∈ ws, bin.isspace c = true) → ws.length ≤ (sep indent (level + 1)).length →
        _parse_arr_loop sscanf_lg
            (pre ++ (ws ++ (o0 ++ (t ++ (sep indent level ++ ']' :: post))))) fuel
            pre.length acc =
          .ok (Json.ARR (acc ++ v0 :: l),
            pre.length + (ws.length + (o0.length + (t.length +
              ((sep indent level).length + 1))))) := by
  induction l with
  | nil =>
    intro v0 level o0 t hv0 _ ho0 ht
    simp only [Json.print_arr, pure, Except.pure, Except.ok.injEq] at ht
    subst ht
    obtain ⟨⟨c0, r0, hc0, hst⟩, N0, hN0⟩ := hv0 (level + 1) o0 ho0
    obtain ⟨sp0, -, -, -⟩ := value_start_spec c0 hst
    refine ⟨N0 + (sep indent (level + 1)).length + (sep indent level).length + 2, ?_⟩
    intro fuel hfuel pre ws post acc hws hwl
    cases fuel with
    | zero => omega
    | succ fuel =>
      rw [_parse_arr_loop]
      have e1 := _skip_space_over ws (o0 ++ ([] ++ (sep indent level ++ ']' :: post)))
        hws (by intro c hc; rw [hc0] at hc; simp at hc; rw [← hc]; exact sp0) fuel
        (by omega) pre
      rw [e1]
      simp only
      have e2 := hN0 fuel (by omega) (pre ++ ws) ([] ++ (sep indent level ++ ']' :: post))
        (by rw [List.nil_append]; exact ends_number_sep indent level ']' post (Or.inl rfl))
      simp only [List.append_assoc, List.length_append, Nat.add_assoc] at e2
      rw [e2]
      simp only
      have e3 := _skip_space_over (sep indent level) (']' :: post) (sep_space indent level)
        (by intro c hc; simp at hc; rw [← hc]; decide) fuel (by omega) (pre ++ ws ++ o0)
      simp only [List.append_assoc, List.length_append, List.nil_append, Nat.add_assoc] at e3 ⊢
      rw [e3]
      simp only
      have e4 := _eat_miss (pre ++ ws ++ o0 ++ sep indent level) ']' ',' post (by decide)
      have e5 := _eat_hit (pre ++ ws ++ o0 ++ sep indent level) ']' post
      simp only [List.append_assoc, List.length_append, Nat.add_assoc] at e4 e5
      rw [e4]
      simp only [Bool.false_eq_true, if_false]
      rw [e5]
      simp only [if_true, List.length_nil]
      refine congrArg Except.ok (Prod.ext rfl ?_)
      simp only
      omega
  | cons e rest ih =>
    intro v0 level o0 t hv0 hl ho0 ht
    obtain ⟨oe, t', hoe, ht', rfl⟩ := Json.print_arr_cons put_double indent e rest level false
      t ht
    obtain ⟨⟨c0, r0, hc0, hst⟩, N0, hN0⟩ := hv0 (level + 1) o0 ho0
    obtain ⟨sp0, -, -, -⟩ := value_start_spec c0 hst
    obtain ⟨N1, hN1⟩ := ih e level oe t' (hl e (List.mem_cons_self _ _))
      (fun v hv => hl v (List.mem_cons_of_mem _ hv)) hoe ht'
    refine ⟨N0 + N1 + (sep indent (level + 1)).length + (sep indent level).length + 2, ?_⟩
    intro fuel hfuel pre ws post acc hws hwl
    cases fuel with
    | zero => omega
    | succ fuel =>
      rw [_parse_arr_loop]
      simp only [Bool.false_eq_true, if_false, List.singleton_append, List.cons_append,
        List.append_assoc, List.nil_append]
      have e1 := _skip_space_over ws
        (o0 ++ (',' :: (sep indent (level + 1) ++ (oe ++ (t' ++
          (sep indent level ++ ']' :: post))))))
        hws (by intro c hc; rw [hc0] at hc; simp at hc; rw [← hc]; exact sp0) fuel
        (by omega) pre
      rw [e1]
      simp only
      have e2 := hN0 fuel (by omega) (pre ++ ws)
        (',' :: (sep indent (level + 1) ++ (oe ++ (t' ++ (sep indent level ++ ']' :: post)))))
        (ends_number_comma _)
      simp only [List.append_assoc, List.length_append, Nat.add_assoc] at e2
      rw [e2]
      simp only
      have e3 := _skip_space_over [] (',' :: (sep indent (level + 1) ++ (oe ++ (t' ++
          (sep indent level ++ ']' :: post)))))
        (by simp) (by intro c hc; simp at hc; rw [← hc]; decide) fuel
        (by simp only [List.length_nil]; omega) (pre ++ ws ++ o0)
      simp only [List.append_assoc, List.length_append, List.nil_append, List.length_nil,
        Nat.add_zero, Nat.add_assoc] at e3
      rw [e3]
      simp only
      have e4 := _eat_hit (pre ++ ws ++ o0) ','
        (sep indent (level + 1) ++ (oe ++ (t' ++ (sep indent level ++ ']' :: post))))
      simp only [List.append_assoc, List.length_append, Nat.add_assoc] at e4
      rw [e4]
      simp only [if_true]
      have e5 := hN1 fuel (by omega) (pre ++ ws ++ o0 ++ [',']) (sep indent (level + 1)) post
        (acc ++ [v0]) (sep_space indent (level + 1)) (le_refl _)
      simp only [List.append_assoc, List.length_append, List.singleton_append,
        List.length_singleton, Nat.add_assoc] at e5
      rw [e5]
      refine congrArg Except.ok (Prod.ext (by simp) ?_)
      simp only [List.length_cons, List.length_append]
      omega

end json

namespace json

theorem Json.print_str_quote (val : String) (out : List Char)
    (h : Json.print_str val = .ok out) : ∃ rest, out = '"' :: rest := by
  unfold Json.print_str at h
  cases hb : Json.print_chars val.toList with
  | error e =>
    rw [hb] at h
    cases h
  | ok body =>
    rw [hb] at h
    simp only [bind, Except.bind, pure, Except.pure, Except.ok.injEq] at h
    exact ⟨_, h.symm⟩

theorem Json.print_obj_cons (put_double : Rat → String) (indent : Int) (ent : String × Json)
    (rest : List (String × Json)) (level : Nat) (first : Bool) (out : List Char)
    (h : Json.print_obj put_double indent (ent :: rest) level first = .ok out) :
    ∃ nm o t, Json.print_str ent.1 = .ok nm ∧
      Json.print put_double indent ent.2 (level + 1) = .ok o ∧
      Json.print_obj put_double indent rest level false = .ok t ∧
      out = (if first = true then [] else [',']) ++ sep indent (level + 1) ++ nm ++
        ':' :: (if indent ≠ FORMAT_MIN then [' '] else []) ++ o ++ t := by
  rw [Json.print_obj] at h
  cases h0 : Json.print_str ent.1 with
  | error e => simp [h0, bind, Except.bind] at h
  | ok nm =>
    cases h1 : Json.print put_double indent ent.2 (level + 1) with
    | error e => simp [h0, h1, bind, Except.bind] at h
    | ok o =>
      cases h2 : Json.print_obj put_double indent rest level false with
      | error e => simp [h0, h1, h2, bind, Except.bind] at h
      | ok t =>
        simp only [h0, h1, h2, bind, Except.bind, pure, Except.pure, Except.ok.injEq] at h
        exact ⟨nm, o, t, rfl, rfl, rfl, h.symm⟩

/-- The loop of `_parse_obj` on the rest of a printed object: started at the
white space before the name `k0`, with the entries `acc` read so far, it reads
the entry of `k0` and the entries `l` printed after it, and stops after the
closing brace. -/
theorem _parse_obj_loop_printed (put_double : Rat → String)
    (sscanf_lg : List Char → Option (Rat × Nat)) (indent : Int) (l : List (String × Json)) :
    ∀ (k0 : String) (v0 : Json) (level : Nat) (nm o0 t : List Char),
      ParsesBack put_double sscanf_lg indent v0 →
      (∀ e ∈ l, ParsesBack put_double sscanf_lg indent e.2) →
      Json.print_str k0 = .ok nm →
      Json.print put_double indent v0 (level + 1) = .ok o0 →
      Json.print_obj put_double indent l level false = .ok t →
      ∃ N, ∀ fuel, N ≤ fuel → ∀ (pre ws sp post : List Char) (acc : List (String × Json)),
        (∀ c ∈ ws, bin.isspace c = true) → ws.length ≤ (sep indent (level + 1)).length →
        (∀ c ∈ sp, bin.isspace c = true) → sp.length ≤ 1 →
        sp = (if indent ≠ FORMAT_MIN then [' '] else []) →
        StdMap.WF (acc ++ (k0, v0) :: l) →
        _parse_obj_loop sscanf_lg
            (pre ++ (ws ++ (nm ++ (':' :: (sp ++ (o0 ++ (t ++
              (sep indent level ++ '}' :: post)))))))) fuel pre.length acc =
          .ok (Json.OBJ (acc ++ (k0, v0) :: l),
            pre.length + (ws.length + (nm.length + (1 + (sp.length + (o0.length +
              (t.length + ((sep indent level).length + 1)))))))) := by
  induction l with
  | nil =>
    intro k0 v0 level nm o0 t hv0 _ hnm ho0 ht
    simp only [Json.print_obj, pure, Except.pure, Except.ok.injEq] at ht
    subst ht
    obtain ⟨⟨c0, r0, hc0, hst⟩, N0, hN0⟩ := hv0 (level + 1) o0 ho0
    obtain ⟨sp0, -, -, -⟩ := value_start_spec c0 hst
    obtain ⟨nrest, hnq⟩ := Json.print_str_quote k0 nm hnm
    refine ⟨N0 + k0.length + (sep indent (level + 1)).length + (sep indent level).length + 3,
      ?_⟩
    intro fuel hfuel pre ws sp post acc hws hwl hsp hspl _ hwf
    cases fuel with
    | zero => omega
    | succ fuel =>
      rw [_parse_obj_loop]
      simp only [List.nil_append]
      have e1 := _skip_space_over ws
        (nm ++ (':' :: (sp ++ (o0 ++ (sep indent level ++ '}' :: post)))))
        hws (by intro c hc; rw [hnq] at hc; simp at hc; rw [← hc]; decide) fuel
        (by omega) pre
      rw [e1]
      simp only
      have e2 := _parse_str_printed k0 nm hnm (pre ++ ws)
        (':' :: (sp ++ (o0 ++ (sep indent level ++ '}' :: post)))) fuel (by omega)
      simp only [List.append_assoc, List.cons_append, List.nil_append, List.singleton_append,
        List.length_append, List.length_cons, List.length_nil, List.length_singleton,
        Nat.add_zero, Nat.add_assoc, Nat.add_comm, Nat.add_left_comm] at e2
      rw [e2]
      simp only
      have e3 := _skip_space_over [] (':' :: (sp ++ (o0 ++ (sep indent level ++ '}' :: post))))
        (by simp) (by intro c hc; simp at hc; rw [← hc]; decide) fuel
        (by simp only [List.length_nil]; omega) (pre ++ ws ++ nm)
      simp only [List.append_assoc, List.cons_append, List.nil_append, List.singleton_append,
        List.length_append, List.length_cons, List.length_nil, List.length_singleton,
        Nat.add_zero, Nat.add_assoc, Nat.add_comm, Nat.add_left_comm] at e3
      rw [e3]
      simp only
      have e4 := _eat_hit (pre ++ ws ++ nm) ':' (sp ++ (o0 ++ (sep indent level ++ '}' :: post)))
      simp only [List.append_assoc, List.cons_append, List.nil_append, List.singleton_append,
        List.length_append, List.length_cons, List.length_nil, List.length_singleton,
        Nat.add_zero, Nat.add_assoc, Nat.add_comm, Nat.add_left_comm] at e4
      rw [e4]
      simp only [Bool.true_eq_false, if_false]
      have e5 := _skip_space_over sp (o0 ++ (sep indent level ++ '}' :: post)) hsp
        (by intro c hc; rw [hc0] at hc; simp at hc; rw [← hc]; exact sp0) fuel (by omega)
        (pre ++ ws ++ nm ++ [':'])
      simp only [List.append_assoc, List.cons_append, List.nil_append, List.singleton_append,
        List.length_append, List.length_cons, List.length_nil, List.length_singleton,
        Nat.add_zero, Nat.add_assoc, Nat.add_comm, Nat.add_left_comm] at e5
      rw [e5]
      simp only
      have e6 := hN0 fuel (by omega) (pre ++ ws ++ nm ++ [':'] ++ sp)
        (sep indent level ++ '}' :: post)
        (ends_number_sep indent level '}' post (Or.inr rfl))
      simp only [List.append_assoc, List.cons_append, List.nil_append, List.singleton_append,
        List.length_append, List.length_cons, List.length_nil, List.length_singleton,
        Nat.add_zero, Nat.add_assoc, Nat.add_comm, Nat.add_left_comm] at e6
      rw [e6]
      simp only
      have e7 := _skip_space_over (sep indent level) ('}' :: post) (sep_space indent level)
        (by intro c hc; simp at hc; rw [← hc]; decide) fuel (by omega)
        (pre ++ ws ++ nm ++ [':'] ++ sp ++ o0)
      simp only [List.append_assoc, List.cons_append, List.nil_append, List.singleton_append,
        List.length_append, List.length_cons, List.length_nil, List.length_singleton,
        Nat.add_zero, Nat.add_assoc, Nat.add_comm, Nat.add_left_comm] at e7
      rw [e7]
      simp only
      have e8 := _eat_miss (pre ++ ws ++ nm ++ [':'] ++ sp ++ o0 ++ sep indent level) '}' ','
        post (by decide)
      have e9 := _eat_hit (pre ++ ws ++ nm ++ [':'] ++ sp ++ o0 ++ sep indent level) '}' post
      simp only [List.append_assoc, List.cons_append, List.nil_append, List.singleton_append,
        List.length_append, List.length_cons, List.length_nil, List.length_singleton,
        Nat.add_zero, Nat.add_assoc, Nat.add_comm, Nat.add_left_comm] at e8 e9
      rw [e8]
      simp only [Bool.false_eq_true, if_false]
      rw [e9]
      simp only [if_true, List.length_nil]
      have hins : StdMap.insert k0 v0 acc = acc ++ [(k0, v0)] := by
        apply StdMap.insert_last
        intro e he
        exact (List.pairwise_append.mp hwf).2.2 e he (k0, v0) (List.mem_cons_self _ _)
      rw [hins]
      refine congrArg Except.ok (Prod.ext rfl ?_)
      simp only
      omega
  | cons e rest ih =>
    intro k0 v0 level nm o0 t hv0 hl hnm ho0 ht
    obtain ⟨nme, oe, t', hnme, hoe, ht', rfl⟩ :=
      Json.print_obj_cons put_double indent e rest level false t ht
    obtain ⟨⟨c0, r0, hc0, hst⟩, N0, hN0⟩ := hv0 (level + 1) o0 ho0
    obtain ⟨sp0, -, -, -⟩ := value_start_spec c0 hst
    obtain ⟨nrest, hnq⟩ := Json.print_str_quote k0 nm hnm
    obtain ⟨N1, hN1⟩ := ih e.1 e.2 level nme oe t' (hl e (List.mem_cons_self _ _))
      (fun x hx => hl x (List.mem_cons_of_mem _ hx)) hnme hoe ht'
    refine ⟨N0 + N1 + k0.length + (sep indent (level + 1)).length +
      (sep indent level).length + 3, ?_⟩
    intro fuel hfuel pre ws sp post acc hws hwl hsp hspl hspe hwf
    cases fuel with
    | zero => omega
    | succ fuel =>
      rw [_parse_obj_loop]
      simp only [Bool.false_eq_true, if_false, List.singleton_append, List.cons_append,
        List.append_assoc, List.nil_append]
      rw [← hspe]
      have e1 := _skip_space_over ws
        (nm ++ (':' :: (sp ++ (o0 ++ (',' :: (sep indent (level + 1) ++ (nme ++ (':' ::
          (sp ++ (oe ++ (t' ++ (sep indent level ++ '}' :: post))))))))))))
        hws (by intro c hc; rw [hnq] at hc; simp at hc; rw [← hc]; decide) fuel
        (by omega) pre
      rw [e1]
      simp only
      have e2 := _parse_str_printed k0 nm hnm (pre ++ ws)
        (':' :: (sp ++ (o0 ++ (',' :: (sep indent (level + 1) ++ (nme ++ (':' ::
          (sp ++ (oe ++ (t' ++ (sep indent level ++ '}' :: post)))))))))))
        fuel (by omega)
      simp only [List.append_assoc, List.cons_append, List.nil_append, List.singleton_append,
        List.length_append, List.length_cons, List.length_nil, List.length_singleton,
        Nat.add_zero, Nat.add_assoc, Nat.add_comm, Nat.add_left_comm] at e2
      rw [e2]
      simp only
      have e3 := _skip_space_over []
        (':' :: (sp ++ (o0 ++ (',' :: (sep indent (level + 1) ++ (nme ++ (':' ::
          (sp ++ (oe ++ (t' ++ (sep indent level ++ '}' :: post)))))))))))
        (by simp) (by intro c hc; simp at hc; rw [← hc]; decide) fuel
        (by simp only [List.length_nil]; omega) (pre ++ ws ++ nm)
      simp only [List.append_assoc, List.cons_append, List.nil_append, List.singleton_append,
        List.length_append, List.length_cons, List.length_nil, List.length_singleton,
        Nat.add_zero, Nat.add_assoc, Nat.add_comm, Nat.add_left_comm] at e3
      rw [e3]
      simp only
      have e4 := _eat_hit (pre ++ ws ++ nm) ':'
        (sp ++ (o0 ++ (',' :: (sep indent (level + 1) ++ (nme ++ (':' ::
          (sp ++ (oe ++ (t' ++ (sep indent level ++ '}' :: post))))))))))
      simp only [List.append_assoc, List.cons_append, List.nil_append, List.singleton_append,
        List.length_append, List.length_cons, List.length_nil, List.length_singleton,
        Nat.add_zero, Nat.add_assoc, Nat.add_comm, Nat.add_left_comm] at e4
      rw [e4]
      simp only [Bool.true_eq_false, if_false]
      have e5 := _skip_space_over sp
        (o0 ++ (',' :: (sep indent (level + 1) ++ (nme ++ (':' ::
          (sp ++ (oe ++ (t' ++ (sep indent level ++ '}' :: post)))))))))
        hsp (by intro c hc; rw [hc0] at hc; simp at hc; rw [← hc]; exact sp0) fuel (by omega)
        (pre ++ ws ++ nm ++ [':'])
      simp only [List.append_assoc, List.cons_append, List.nil_append, List.singleton_append,
        List.length_append, List.length_cons, List.length_nil, List.length_singleton,
        Nat.add_zero, Nat.add_assoc, Nat.add_comm, Nat.add_left_comm] at e5
      rw [e5]
      simp only
      have e6 := hN0 fuel (by omega) (pre ++ ws ++ nm ++ [':'] ++ sp)
        (',' :: (sep indent (level + 1) ++ (nme ++ (':' ::
          (sp ++ (oe ++ (t' ++ (sep indent level ++ '}' :: post))))))))
        (ends_number_comma _)
      simp only [List.append_assoc, List.cons_append, List.nil_append, List.singleton_append,
        List.length_append, List.length_cons, List.length_nil, List.length_singleton,
        Nat.add_zero, Nat.add_assoc, Nat.add_comm, Nat.add_left_comm] at e6
      rw [e6]
      simp only
      have e7 := _skip_space_over []
        (',' :: (sep indent (level + 1) ++ (nme ++ (':' ::
          (sp ++ (oe ++ (t' ++ (sep indent level ++ '}' :: post))))))))
        (by simp) (by intro c hc; simp at hc; rw [← hc]; decide) fuel
        (by simp only [List.length_nil]; omega) (pre ++ ws ++ nm ++ [':'] ++ sp ++ o0)
      simp only [List.append_assoc, List.cons_append, List.nil_append, List.singleton_append,
        List.length_append, List.length_cons, List.length_nil, List.length_singleton,
        Nat.add_zero, Nat.add_assoc, Nat.add_comm, Nat.add_left_comm] at e7
      rw [e7]
      simp only
      have e8 := _eat_hit (pre ++ ws ++ nm ++ [':'] ++ sp ++ o0) ','
        (sep indent (level + 1) ++ (nme ++ (':' ::
          (sp ++ (oe ++ (t' ++ (sep indent level ++ '}' :: post)))))))
      simp only [List.append_assoc, List.cons_append, List.nil_append, List.singleton_append,
        List.length_append, List.length_cons, List.length_nil, List.length_singleton,
        Nat.add_zero, Nat.add_assoc, Nat.add_comm, Nat.add_left_comm] at e8
      rw [e8]
      simp only [if_true]
      have hins : StdMap.insert k0 v0 acc = acc ++ [(k0, v0)] := by
        apply StdMap.insert_last
        intro x hx
        exact (List.pairwise_append.mp hwf).2.2 x hx (k0, v0) (List.mem_cons_self _ _)
      rw [hins]
      have e9 := hN1 fuel (by omega) (pre ++ ws ++ nm ++ [':'] ++ sp ++ o0 ++ [','])
        (sep indent (level + 1)) sp post (acc ++ [(k0, v0)]) (sep_space indent (level + 1))
        (le_refl _) hsp hspl hspe (by simpa using hwf)
      simp only [List.append_assoc, List.cons_append, List.nil_append, List.singleton_append,
        List.length_append, List.length_cons, List.length_nil, List.length_singleton,
        Nat.add_zero, Nat.add_assoc, Nat.add_comm, Nat.add_left_comm] at e9
      rw [e9]
      refine congrArg Except.ok (Prod.ext (by simp) ?_)
      simp only [List.length_cons, List.length_append]
      omega

end json

namespace json

theorem c_str_from_prefix (pre w post : List Char) (hw : sys.NUL ∉ w) :
    c_str_from (pre ++ (w ++ post)) pre.length =
      w ++ post.takeWhile (fun c => c != sys.NUL) := by
  unfold c_str_from
  rw [List.drop_left]
  induction w with
  | nil => rfl
  | cons c w ih =>
    have hc : c ≠ sys.NUL := fun e => hw (e ▸ List.mem_cons_self _ _)
    rw [List.cons_append, List.takeWhile_cons]
    simp only [bne_iff_ne, ne_eq, hc, not_false_eq_true, decide_True, if_true,
      List.cons_append]
    rw [ih (fun h => hw (List.mem_cons_of_mem _ h))]

theorem ends_number_takeWhile (post : List Char) (h : ends_number post) :
    ends_number (post.takeWhile (fun c => c != sys.NUL)) := by
  intro c hc
  cases post with
  | nil => simp at hc
  | cons d rest =>
    rw [List.takeWhile_cons] at hc
    by_cases hd : (d != sys.NUL) = true
    · rw [if_pos hd] at hc
      simp only [List.head?_cons, Option.some.injEq] at hc
      exact h c (by simp [hc])
    · rw [if_neg hd] at hc
      simp at hc

/-- The dispatch of `_parse_val` at a character that is no white space: the
position is the one given, and the character there is read. -/
theorem _parse_val_at (pre : List Char)
    (c : Char) (rest : List Char) (hc : bin.isspace c = false) (fuel : Nat) :
    _skip_space (pre ++ c :: rest) (fuel + 1) pre.length = .ok pre.length ∧
    peek (pre ++ c :: rest) pre.length = .ok c := by
  constructor
  · have := _skip_space_over [] (c :: rest) (by simp)
      (by intro d hd; simp at hd; rw [← hd]; exact hc) (fuel + 1) (by simp) pre
    simpa using this
  · exact peek_at_cons pre c rest

theorem parses_back_NUL (put_double : Rat → String)
    (sscanf_lg : List Char → Option (Rat × Nat)) (indent : Int) :
    ParsesBack put_double sscanf_lg indent Json.NUL := by
  intro level out h
  simp only [Json.print, pure, Except.pure, Except.ok.injEq] at h
  subst h
  refine ⟨⟨'n', _, rfl, by simp [value_start]⟩, 2, ?_⟩
  intro fuel hf pre post _
  obtain ⟨f, rfl⟩ : ∃ f, fuel = f + 2 := ⟨fuel - 2, by omega⟩
  have hs := _parse_val_at pre 'n' ("ull".toList ++ post) (by decide) f
  have hcs := c_str_from_prefix pre "null".toList post (by decide)
  rw [_parse_val]
  simp only [show "null".toList ++ post = 'n' :: ("ull".toList ++ post) from rfl] at hcs ⊢
  rw [hs.1]
  simp only [hs.2, strncmp_eq, hcs]
  simp +decide [show "true".length = 4 from rfl, show "false".length = 5 from rfl,
    show "null".length = 4 from rfl, List.take]

theorem parses_back_TRU (put_double : Rat → String)
    (sscanf_lg : List Char → Option (Rat × Nat)) (indent : Int) :
    ParsesBack put_double sscanf_lg indent Json.TRU := by
  intro level out h
  simp only [Json.print, pure, Except.pure, Except.ok.injEq] at h
  subst h
  refine ⟨⟨'t', _, rfl, by simp [value_start]⟩, 2, ?_⟩
  intro fuel hf pre post _
  obtain ⟨f, rfl⟩ : ∃ f, fuel = f + 2 := ⟨fuel - 2, by omega⟩
  have hs := _parse_val_at pre 't' ("rue".toList ++ post) (by decide) f
  have hcs := c_str_from_prefix pre "true".toList post (by decide)
  rw [_parse_val]
  simp only [show "true".toList ++ post = 't' :: ("rue".toList ++ post) from rfl] at hcs ⊢
  rw [hs.1]
  simp only [hs.2, strncmp_eq, hcs]
  simp +decide [show "true".length = 4 from rfl, show "false".length = 5 from rfl,
    show "null".length = 4 from rfl, List.take]

theorem parses_back_FAL (put_double : Rat → String)
    (sscanf_lg : List Char → Option (Rat × Nat)) (indent : Int) :
    ParsesBack put_double sscanf_lg indent Json.FAL := by
  intro level out h
  simp only [Json.print, pure, Except.pure, Except.ok.injEq] at h
  subst h
  refine ⟨⟨'f', _, rfl, by simp [value_start]⟩, 2, ?_⟩
  intro fuel hf pre post _
  obtain ⟨f, rfl⟩ : ∃ f, fuel = f + 2 := ⟨fuel - 2, by omega⟩
  have hs := _parse_val_at pre 'f' ("alse".toList ++ post) (by decide) f
  have hcs := c_str_from_prefix pre "false".toList post (by decide)
  rw [_parse_val]
  simp only [show "false".toList ++ post = 'f' :: ("alse".toList ++ post) from rfl] at hcs ⊢
  rw [hs.1]
  simp only [hs.2, strncmp_eq, hcs]
  simp +decide [show "true".length = 4 from rfl, show "false".length = 5 from rfl,
    show "null".length = 4 from rfl, List.take]

theorem parses_back_STR (put_double : Rat → String)
    (sscanf_lg : List Char → Option (Rat × Nat)) (indent : Int) (val : String) :
    ParsesBack put_double sscanf_lg indent (Json.STR val) := by
  intro level out h
  simp only [Json.print] at h
  obtain ⟨rest, hq⟩ := Json.print_str_quote val out h
  refine ⟨⟨'"', rest, hq, by simp [value_start]⟩, val.length + 2, ?_⟩
  intro fuel hf pre post _
  obtain ⟨f, rfl⟩ : ∃ f, fuel = f + 1 := ⟨fuel - 1, by omega⟩
  have hp := _parse_str_printed val out h pre post f (by omega)
  obtain ⟨g, rfl⟩ : ∃ g, f = g + 1 := ⟨f - 1, by omega⟩
  subst hq
  have hs := _parse_val_at pre '"' (rest ++ post) (by decide) g
  rw [_parse_val]
  simp only [List.cons_append] at hp ⊢
  rw [hs.1]
  simp only [hs.2, if_true, hp]

theorem parses_back_NUM (put_double : Rat → String)
    (sscanf_lg : List Char → Option (Rat × Nat)) (indent : Int) (x : Rat)
    (hx : Scans put_double sscanf_lg x) :
    ParsesBack put_double sscanf_lg indent (Json.NUM x) := by
  intro level out h
  simp only [Json.print, pure, Except.pure, Except.ok.injEq] at h
  subst h
  obtain ⟨⟨c, rest, hc, hd⟩, hnul, hscan⟩ := hx
  have hst : value_start c := by
    rcases hd with hd | hd
    · exact Or.inr (Or.inr (Or.inr (Or.inl hd)))
    · exact Or.inr (Or.inr (Or.inr (Or.inr (Or.inl hd))))
  obtain ⟨hsp, -, -, -⟩ := value_start_spec c hst
  refine ⟨⟨c, rest, hc, hst⟩, 2, ?_⟩
  intro fuel hf pre post hpost
  obtain ⟨f, rfl⟩ : ∃ f, fuel = f + 2 := ⟨fuel - 2, by omega⟩
  have hcs := c_str_from_prefix pre (put_double x).toList post hnul
  have hsc := hscan _ (ends_number_takeWhile post hpost)
  have hs := _parse_val_at pre c (rest ++ post) hsp f
  have n1 : c ≠ '"' := by
    rcases hd with hd | hd
    · rw [hd]; decide
    · intro e; rw [e] at hd; exact absurd hd (by decide)
  have n2 : c ≠ '{' := by
    rcases hd with hd | hd
    · rw [hd]; decide
    · intro e; rw [e] at hd; exact absurd hd (by decide)
  have n3 : c ≠ '[' := by
    rcases hd with hd | hd
    · rw [hd]; decide
    · intro e; rw [e] at hd; exact absurd hd (by decide)
  rw [_parse_val]
  rw [hc] at hcs ⊢
  simp only [List.cons_append] at hcs ⊢
  rw [hs.1]
  simp only [hs.2, n1, n2, n3, if_false, hd, if_true, _parse_num, hcs]
  rw [← List.cons_append, ← hc, hsc]
  rfl

theorem Json.print_ARR (put_double : Rat → String) (indent : Int) (l : List Json)
    (level : Nat) (out : List Char)
    (h : Json.print put_double indent (Json.ARR l) level = .ok out) :
    ∃ body, Json.print_arr put_double indent l level true = .ok body ∧
      out = '[' :: (body ++ (sep indent level ++ [']'])) := by
  rw [Json.print] at h
  cases hb : Json.print_arr put_double indent l level true with
  | error e => simp [hb, bind, Except.bind] at h
  | ok body =>
    simp only [hb, bind, Except.bind, pure, Except.pure, Except.ok.injEq] at h
    exact ⟨body, rfl, by rw [← h]; simp⟩

theorem Json.print_OBJ (put_double : Rat → String) (indent : Int)
    (l : List (String × Json)) (level : Nat) (out : List Char)
    (h : Json.print put_double indent (Json.OBJ l) level = .ok out) :
    ∃ body, Json.print_obj put_double indent l level true = .ok body ∧
      out = '{' :: (body ++ (sep indent level ++ ['}'])) := by
  rw [Json.print] at h
  cases hb : Json.print_obj put_double indent l level true with
  | error e => simp [hb, bind, Except.bind] at h
  | ok body =>
    simp only [hb, bind, Except.bind, pure, Except.pure, Except.ok.injEq] at h
    exact ⟨body, rfl, by rw [← h]; simp⟩

end json

namespace json

theorem parses_back_ARR (put_double : Rat → String)
    (sscanf_lg : List Char → Option (Rat × Nat)) (indent : Int) (l : List Json)
    (hl : ∀ v ∈ l, ParsesBack put_double sscanf_lg indent v) :
    ParsesBack put_double sscanf_lg indent (Json.ARR l) := by
  intro level out h
  obtain ⟨body, hb, rfl⟩ := Json.print_ARR put_double indent l level out h
  refine ⟨⟨'[', _, rfl, by simp [value_start]⟩, ?_⟩
  cases l with
  | nil =>
    simp only [Json.print_arr, pure, Except.pure, Except.ok.injEq] at hb
    subst hb
    refine ⟨(sep indent level).length + 3, ?_⟩
    intro fuel hf pre post _
    obtain ⟨f, rfl⟩ : ∃ f, fuel = f + 3 := ⟨fuel - 3, by omega⟩
    have hs := _parse_val_at pre '[' (sep indent level ++ ']' :: post) (by decide) (f + 1)
    rw [_parse_val]
    simp only [List.cons_append, List.nil_append, List.append_assoc, List.singleton_append]
    rw [hs.1]
    simp only [hs.2]
    simp only [show ('[' : Char) ≠ '"' from by decide, show ('[' : Char) ≠ '{' from by decide,
      if_false, if_true]
    rw [_parse_arr, _eat_hit]
    simp only [Bool.true_eq_false, if_false]
    have e1 := _skip_space_over (sep indent level) (']' :: post) (sep_space indent level)
      (by intro c hc; simp at hc; rw [← hc]; decide) (f + 1) (by omega) (pre ++ ['['])
    have e2 := _eat_hit (pre ++ ['['] ++ sep indent level) ']' post
    simp only [List.append_assoc, List.cons_append, List.nil_append, List.singleton_append,
      List.length_append, List.length_cons, List.length_nil, List.length_singleton,
      Nat.add_zero, Nat.zero_add, Nat.add_assoc, Nat.add_comm, Nat.add_left_comm] at e1 e2
    rw [e1]
    simp only
    rw [e2]
    simp only [if_true]
    refine congrArg Except.ok (Prod.ext rfl ?_)
    simp only [List.length_cons, List.length_append, List.length_nil]
    omega
  | cons v0 rest =>
    obtain ⟨o0, t, ho0, ht, rfl⟩ :=
      Json.print_arr_cons put_double indent v0 rest level true body hb
    have hv0 := hl v0 (List.mem_cons_self _ _)
    obtain ⟨⟨c0, r0, hc0, hst⟩, -⟩ := hv0 (level + 1) o0 ho0
    obtain ⟨sp0, nb, -, -⟩ := value_start_spec c0 hst
    obtain ⟨N1, hN1⟩ := _parse_arr_loop_printed put_double sscanf_lg indent rest v0 level o0 t
      hv0 (fun v hv => hl v (List.mem_cons_of_mem _ hv)) ho0 ht
    refine ⟨N1 + (sep indent (level + 1)).length + 3, ?_⟩
    intro fuel hf pre post _
    obtain ⟨f, rfl⟩ : ∃ f, fuel = f + 3 := ⟨fuel - 3, by omega⟩
    have hs := _parse_val_at pre '['
      (sep indent (level + 1) ++ (o0 ++ (t ++ (sep indent level ++ ']' :: post))))
      (by decide) (f + 1)
    rw [_parse_val]
    simp only [if_true, List.cons_append, List.nil_append, List.append_assoc,
      List.singleton_append]
    rw [hs.1]
    simp only [hs.2]
    simp only [show ('[' : Char) ≠ '"' from by decide, show ('[' : Char) ≠ '{' from by decide,
      if_false, if_true]
    rw [_parse_arr, _eat_hit]
    simp only [Bool.true_eq_false, if_false]
    have e1 := _skip_space_over (sep indent (level + 1))
      (o0 ++ (t ++ (sep indent level ++ ']' :: post))) (sep_space indent (level + 1))
      (by intro c hc; rw [hc0] at hc; simp at hc; rw [← hc]; exact sp0) (f + 1) (by omega)
      (pre ++ ['['])
    have e2 := _eat_miss (pre ++ ['['] ++ sep indent (level + 1)) c0 ']'
      (r0 ++ (t ++ (sep indent level ++ ']' :: post))) nb
    have e3 := hN1 (f + 1) (by omega) (pre ++ ['['] ++ sep indent (level + 1)) [] post []
      (by simp) (by simp)
    rw [hc0] at e1 e3
    simp only [List.append_assoc, List.cons_append, List.nil_append, List.singleton_append,
      List.length_append, List.length_cons, List.length_nil, List.length_singleton,
      Nat.add_zero, Nat.zero_add, Nat.add_assoc, Nat.add_comm, Nat.add_left_comm] at e1 e2 e3
    rw [hc0]
    simp only [List.cons_append, Nat.zero_add, Nat.add_assoc, Nat.add_comm, Nat.add_left_comm]
    rw [e1]
    simp only
    rw [e2]
    simp only [Bool.false_eq_true, if_false]
    rw [e3]
    refine congrArg Except.ok (Prod.ext rfl ?_)
    simp only [List.length_cons, List.length_append, List.length_nil]
    omega

theorem parses_back_OBJ (put_double : Rat → String)
    (sscanf_lg : List Char → Option (Rat × Nat)) (indent : Int) (l : List (String × Json))
    (hwf : StdMap.WF l) (hl : ∀ e ∈ l, ParsesBack put_double sscanf_lg indent e.2) :
    ParsesBack put_double sscanf_lg indent (Json.OBJ l) := by
  intro level out h
  obtain ⟨body, hb, rfl⟩ := Json.print_OBJ put_double indent l level out h
  refine ⟨⟨'{', _, rfl, by simp [value_start]⟩, ?_⟩
  cases l with
  | nil =>
    simp only [Json.print_obj, pure, Except.pure, Except.ok.injEq] at hb
    subst hb
    refine ⟨(sep indent level).length + 3, ?_⟩
    intro fuel hf pre post _
    obtain ⟨f, rfl⟩ : ∃ f, fuel = f + 3 := ⟨fuel - 3, by omega⟩
    have hs := _parse_val_at pre '{' (sep indent level ++ '}' :: post) (by decide) (f + 1)
    rw [_parse_val]
    simp only [List.cons_append, List.nil_append, List.append_assoc, List.singleton_append]
    rw [hs.1]
    simp only [hs.2]
    simp only [show ('{' : Char) ≠ '"' from by decide, if_false, if_true]
    rw [_parse_obj, _eat_hit]
    simp only [Bool.true_eq_false, if_false]
    have e1 := _skip_space_over (sep indent level) ('}' :: post) (sep_space indent level)
      (by intro c hc; simp at hc; rw [← hc]; decide) (f + 1) (by omega) (pre ++ ['{'])
    have e2 := _eat_hit (pre ++ ['{'] ++ sep indent level) '}' post
    simp only [List.append_assoc, List.cons_append, List.nil_append, List.singleton_append,
      List.length_append, List.length_cons, List.length_nil, List.length_singleton,
      Nat.add_zero, Nat.zero_add, Nat.add_assoc, Nat.add_comm, Nat.add_left_comm] at e1 e2
    rw [e1]
    simp only
    rw [e2]
    simp only [if_true]
    refine congrArg Except.ok (Prod.ext rfl ?_)
    simp only [List.length_cons, List.length_append, List.length_nil]
    omega
  | cons e0 rest =>
    obtain ⟨nm, o0, t, hnm, ho0, ht, rfl⟩ :=
      Json.print_obj_cons put_double indent e0 rest level true body hb
    have hv0 := hl e0 (List.mem_cons_self _ _)
    obtain ⟨nrest, hnq⟩ := Json.print_str_quote e0.1 nm hnm
    obtain ⟨N1, hN1⟩ := _parse_obj_loop_printed put_double sscanf_lg indent rest e0.1 e0.2
      level nm o0 t hv0 (fun x hx => hl x (List.mem_cons_of_mem _ hx)) hnm ho0 ht
    refine ⟨N1 + (sep indent (level + 1)).length + 3, ?_⟩
    intro fuel hf pre post _
    obtain ⟨f, rfl⟩ : ∃ f, fuel = f + 3 := ⟨fuel - 3, by omega⟩
    have hsp : ∀ c ∈ (if indent ≠ FORMAT_MIN then [' '] else []), bin.isspace c = true := by
      intro c hc
      split at hc
      · simp only [List.mem_singleton] at hc
        rw [hc]
        decide
      · simp at hc
    have hspl : (if indent ≠ FORMAT_MIN then [' '] else ([] : List Char)).length ≤ 1 := by
      split <;> simp
    generalize hspe : (if indent ≠ FORMAT_MIN then [' '] else ([] : List Char)) = sp
      at hsp hspl hN1 ⊢
    have hs := _parse_val_at pre '{'
      (sep indent (level + 1) ++ (nm ++ (':' :: (sp ++ (o0 ++ (t ++
        (sep indent level ++ '}' :: post)))))))
      (by decide) (f + 1)
    rw [_parse_val]
    simp only [if_true, List.cons_append, List.nil_append, List.append_assoc,
      List.singleton_append]
    rw [hs.1]
    simp only [hs.2]
    simp only [show ('{' : Char) ≠ '"' from by decide, if_false, if_true]
    rw [_parse_obj, _eat_hit]
    simp only [Bool.true_eq_false, if_false]
    have e1 := _skip_space_over (sep indent (level + 1))
      (nm ++ (':' :: (sp ++ (o0 ++ (t ++ (sep indent level ++ '}' :: post))))))
      (sep_space indent (level + 1))
      (by intro c hc; rw [hnq] at hc; simp at hc; rw [← hc]; decide) (f + 1) (by omega)
      (pre ++ ['{'])
    have e2 := _eat_miss (pre ++ ['{'] ++ sep indent (level + 1)) '"' '}'
      (nrest ++ (':' :: (sp ++ (o0 ++ (t ++ (sep indent level ++ '}' :: post))))))
      (by decide)
    have e3 := hN1 (f + 1) (by omega) (pre ++ ['{'] ++ sep indent (level + 1)) [] sp post []
      (by simp) (by simp) hsp hspl rfl (by simpa using hwf)
    rw [hnq] at e1 e3
    simp only [List.append_assoc, List.cons_append, List.nil_append, List.singleton_append,
      List.length_append, List.length_cons, List.length_nil, List.length_singleton,
      Nat.add_zero, Nat.zero_add, Nat.add_assoc, Nat.add_comm, Nat.add_left_comm] at e1 e2 e3
    rw [hnq]
    simp only [List.cons_append, Nat.zero_add, Nat.add_assoc, Nat.add_comm, Nat.add_left_comm]
    rw [e1]
    simp only
    rw [e2]
    simp only [Bool.false_eq_true, if_false]
    rw [e3]
    refine congrArg Except.ok (Prod.ext rfl ?_)
    simp only [List.length_cons, List.length_append, List.length_nil]
    omega

end json

namespace json

theorem Json.print_arr_ok (put_double : Rat → String) (indent : Int) (l : List Json)
    (hl : ∀ v ∈ l, ∀ level, ∃ out, Json.print put_double indent v level = .ok out) :
    ∀ level first, ∃ out, Json.print_arr put_double indent l level first = .ok out := by
  induction l with
  | nil => intro level first; exact ⟨_, rfl⟩
  | cons v0 rest ih =>
    intro level first
    obtain ⟨o0, h0⟩ := hl v0 (List.mem_cons_self _ _) (level + 1)
    obtain ⟨t, ht⟩ := ih (fun v hv => hl v (List.mem_cons_of_mem _ hv)) level false
    rw [Json.print_arr]
    simp only [h0, ht, bind, Except.bind, pure, Except.pure]
    exact ⟨_, rfl⟩

theorem Json.print_obj_ok (put_double : Rat → String) (indent : Int)
    (l : List (String × Json))
    (hk : ∀ e ∈ l, e.1.toList.all Json.print_accepts = true)
    (hl : ∀ e ∈ l, ∀ level, ∃ out, Json.print put_double indent e.2 level = .ok out) :
    ∀ level first, ∃ out, Json.print_obj put_double indent l level first = .ok out := by
  induction l with
  | nil => intro level first; exact ⟨_, rfl⟩
  | cons e0 rest ih =>
    intro level first
    obtain ⟨nm, hnm⟩ := (Json.print_str_spec e0.1).1 (hk e0 (List.mem_cons_self _ _))
    obtain ⟨o0, h0⟩ := hl e0 (List.mem_cons_self _ _) (level + 1)
    obtain ⟨t, ht⟩ := ih (fun e he => hk e (List.mem_cons_of_mem _ he))
      (fun e he => hl e (List.mem_cons_of_mem _ he)) level false
    rw [Json.print_obj]
    simp only [hnm, h0, ht, bind, Except.bind, pure, Except.pure]
    exact ⟨_, rfl⟩

mutual
theorem Json.printable_val (put_double : Rat → String)
    (sscanf_lg : List Char → Option (Rat × Nat)) (indent : Int)
    (hlib : ∀ n : Int, -999999 ≤ n → n ≤ 999999 → Scans put_double sscanf_lg (n : Rat)) :
    (v : Json) → v.Printable →
      (∀ level, ∃ out, Json.print put_double indent v level = .ok out) ∧
        ParsesBack put_double sscanf_lg indent v
  | .NUL, _ => ⟨fun _ => ⟨_, rfl⟩, parses_back_NUL put_double sscanf_lg indent⟩
  | .FAL, _ => ⟨fun _ => ⟨_, rfl⟩, parses_back_FAL put_double sscanf_lg indent⟩
  | .TRU, _ => ⟨fun _ => ⟨_, rfl⟩, parses_back_TRU put_double sscanf_lg indent⟩
  | .NUM val, h => by
    simp only [Json.Printable] at h
    obtain ⟨n, h1, h2, rfl⟩ := h
    exact ⟨fun _ => ⟨_, rfl⟩, parses_back_NUM put_double sscanf_lg indent _ (hlib n h1 h2)⟩
  | .STR val, h => by
    simp only [Json.Printable] at h
    refine ⟨fun _ => ?_, parses_back_STR put_double sscanf_lg indent val⟩
    simp only [Json.print]
    exact (Json.print_str_spec val).1 h
  | .ARR val, h => by
    simp only [Json.Printable] at h
    have ih := Json.printable_arr put_double sscanf_lg indent hlib val h
    refine ⟨fun level => ?_,
      parses_back_ARR put_double sscanf_lg indent val (fun v hv => (ih v hv).2)⟩
    obtain ⟨body, hb⟩ := Json.print_arr_ok put_double indent val
      (fun v hv => (ih v hv).1) level true
    rw [Json.print]
    simp only [hb, bind, Except.bind, pure, Except.pure]
    exact ⟨_, rfl⟩
  | .OBJ val, h => by
    simp only [Json.Printable] at h
    have ih := Json.printable_obj put_double sscanf_lg indent hlib val h.2
    refine ⟨fun level => ?_,
      parses_back_OBJ put_double sscanf_lg indent val h.1 (fun e he => (ih e he).2.2)⟩
    obtain ⟨body, hb⟩ := Json.print_obj_ok put_double indent val
      (fun e he => (ih e he).1) (fun e he => (ih e he).2.1) level true
    rw [Json.print]
    simp only [hb, bind, Except.bind, pure, Except.pure]
    exact ⟨_, rfl⟩
theorem Json.printable_arr (put_double : Rat → String)
    (sscanf_lg : List Char → Option (Rat × Nat)) (indent : Int)
    (hlib : ∀ n : Int, -999999 ≤ n → n ≤ 999999 → Scans put_double sscanf_lg (n : Rat)) :
    (l : List Json) → Json.PrintableArr l → ∀ v ∈ l,
      (∀ level, ∃ out, Json.print put_double indent v level = .ok out) ∧
        ParsesBack put_double sscanf_lg indent v
  | [], _ => fun v hv => absurd hv (List.not_mem_nil v)
  | ent :: rest, h => by
    simp only [Json.PrintableArr] at h
    intro v hv
    rcases List.mem_cons.1 hv with e | hv
    · rw [e]
      exact Json.printable_val put_double sscanf_lg indent hlib ent h.1
    · exact Json.printable_arr put_double sscanf_lg indent hlib rest h.2 v hv
theorem Json.printable_obj (put_double : Rat → String)
    (sscanf_lg : List Char → Option (Rat × Nat)) (indent : Int)
    (hlib : ∀ n : Int, -999999 ≤ n → n ≤ 999999 → Scans put_double sscanf_lg (n : Rat)) :
    (l : List (String × Json)) → Json.PrintableObj l → ∀ e ∈ l,
      e.1.toList.all Json.print_accepts = true ∧
      (∀ level, ∃ out, Json.print put_double indent e.2 level = .ok out) ∧
        ParsesBack put_double sscanf_lg indent e.2
  | [], _ => fun e he => absurd he (List.not_mem_nil e)
  | ent :: rest, h => by
    simp only [Json.PrintableObj] at h
    intro e he
    rcases List.mem_cons.1 he with e1 | he
    · rw [e1]
      exact ⟨h.1, Json.printable_val put_double sscanf_lg indent hlib ent.2 h.2.1⟩
    · exact Json.printable_obj put_double sscanf_lg indent hlib rest h.2.2 e he
end

end json

namespace json

theorem digit_char (d : Nat) (h : d < 10) :
    isdigit (Char.ofNat (48 + d)) = true ∧ (Char.ofNat (48 + d)).toNat - 48 = d := by
  interval_cases d <;> exact ⟨by decide, by decide⟩

theorem put_nat_sample_spec : ∀ fuel n, n ≤ fuel →
    (∀ c ∈ put_nat_sample fuel n, isdigit c = true) ∧
    (∃ c rest, put_nat_sample fuel n = c :: rest) ∧
    (put_nat_sample fuel n).foldl (fun n c => 10 * n + (c.toNat - 48)) 0 = n := by
  intro fuel
  induction fuel with
  | zero =>
    intro n hn
    obtain rfl : n = 0 := by omega
    refine ⟨?_, ⟨_, _, rfl⟩, by decide⟩
    intro c hc
    simp only [put_nat_sample, List.mem_singleton] at hc
    rw [hc]
    decide
  | succ fuel ih =>
    intro n hn
    rw [put_nat_sample]
    by_cases h : n < 10
    · rw [if_pos h]
      refine ⟨?_, ⟨_, _, rfl⟩, ?_⟩
      · intro c hc
        simp only [List.mem_singleton] at hc
        rw [hc]
        exact (digit_char n h).1
      · simp only [List.foldl_cons, List.foldl_nil, Nat.mul_zero, Nat.zero_add]
        exact (digit_char n h).2
    · rw [if_neg h]
      obtain ⟨h1, ⟨c, rest, h2⟩, h3⟩ := ih (n / 10) (by omega)
      have hd := digit_char (n % 10) (Nat.mod_lt _ (by decide))
      refine ⟨?_, ⟨c, rest ++ [Char.ofNat (48 + n % 10)], by rw [h2]; rfl⟩, ?_⟩
      · intro c hc
        rcases List.mem_append.1 hc with hc | hc
        · exact h1 c hc
        · simp only [List.mem_singleton] at hc
          rw [hc]
          exact hd.1
      · rw [List.foldl_append, h3]
        simp only [List.foldl_cons, List.foldl_nil]
        rw [hd.2]
        omega

theorem sscanf_sample_digits (digits tail : List Char)
    (hd : ∀ c ∈ digits, isdigit c = true) (hne : digits ≠ [])
    (ht : ends_number tail) :
    sscanf_sample (digits ++ tail) =
      some (((digits.foldl (fun n c => 10 * n + (c.toNat - 48)) 0 : Nat) : Rat),
        digits.length) := by
  have e : (digits ++ tail).takeWhile isdigit = digits := by
    rw [List.takeWhile_append_of_pos hd]
    cases tail with
    | nil => simp
    | cons d rest =>
      have hdd : isdigit d = false := by
        rcases ht d rfl with h | h | h | h | h <;> rw [h] <;> decide
      rw [List.takeWhile_cons, hdd]
      simp
  unfold sscanf_sample
  simp only [e]
  rw [if_neg hne]

/-- The example library writes and reads back every integer. -/
theorem sample_scans (n : Int) : Scans put_double_sample sscanf_int_sample (n : Rat) := by
  obtain ⟨hdig, ⟨c, rest, hc⟩, hfold⟩ := put_nat_sample_spec n.natAbs n.natAbs (Nat.le_refl _)
  have hnum : ((n : Rat)).num = n := Rat.num_intCast n
  have hnul : ∀ c ∈ put_nat_sample n.natAbs n.natAbs, c ≠ sys.NUL := by
    intro c hc e
    have := hdig c hc
    rw [e] at this
    exact absurd this (by decide)
  by_cases hneg : n < 0
  · have htext : (put_double_sample (n : Rat)).toList =
        '-' :: put_nat_sample n.natAbs n.natAbs := by
      unfold put_double_sample
      rw [hnum, if_pos hneg]
      rfl
    refine ⟨⟨'-', _, htext, Or.inl rfl⟩, ?_, ?_⟩
    · rw [htext]
      intro hm
      rcases List.mem_cons.1 hm with h | h
      · exact absurd h (by decide)
      · exact hnul _ h rfl
    · intro tail ht
      rw [show (put_double_sample (n : Rat)).length = (put_double_sample (n : Rat)).toList.length
        from rfl, htext]
      unfold sscanf_int_sample
      rw [if_pos (by simp)]
      simp only [List.cons_append, List.tail_cons]
      rw [sscanf_sample_digits _ tail hdig (by rw [hc]; simp) ht, hfold]
      simp only [List.length_cons, Option.some.injEq, Prod.mk.injEq, and_true]
      have : ((n.natAbs : Nat) : Int) = -n := by omega
      have h2 : ((n.natAbs : Nat) : Rat) = ((-n : Int) : Rat) :=
        (Int.cast_natCast n.natAbs).symm.trans (congrArg Int.cast this)
      rw [h2]
      simp
  · have htext : (put_double_sample (n : Rat)).toList = put_nat_sample n.natAbs n.natAbs := by
      unfold put_double_sample
      rw [hnum, if_neg hneg]
      rfl
    have hcd : isdigit c = true := hdig c (by rw [hc]; exact List.mem_cons_self _ _)
    refine ⟨⟨c, rest, by rw [htext, hc], Or.inr hcd⟩, ?_, ?_⟩
    · rw [htext]
      intro hm
      exact hnul _ hm rfl
    · intro tail ht
      rw [show (put_double_sample (n : Rat)).length = (put_double_sample (n : Rat)).toList.length
        from rfl, htext]
      unfold sscanf_int_sample
      have hh : ¬ (put_nat_sample n.natAbs n.natAbs ++ tail).head? = some '-' := by
        rw [hc]
        simp only [List.cons_append, List.head?_cons, Option.some.injEq]
        intro e
        rw [e] at hcd
        exact absurd hcd (by decide)
      rw [if_neg hh, sscanf_sample_digits _ tail hdig (by rw [hc]; simp) ht, hfold]
      simp only [Option.some.injEq, Prod.mk.injEq, and_true]
      have : ((n.natAbs : Nat) : Int) = n := by omega
      have h2 : ((n.natAbs : Nat) : Rat) = ((n : Int) : Rat) :=
        (Int.cast_natCast n.natAbs).symm.trans (congrArg Int.cast this)
      exact h2

theorem doc_round_trip_printable : doc_round_trip.Printable := by
  simp +decide [doc_round_trip, Json.Printable, Json.PrintableArr, Json.PrintableObj,
    StdMap.WF]
  refine ⟨⟨-12, by decide, by decide, by norm_num⟩, ⟨999999, by decide, by decide, by norm_num⟩⟩

/-- C37: `json::parse` undoes `Json::print`. For a library whose `os << double`
and `sscanf` write and read back the integers of at most six digits, for every
value tree whose strings and object keys consist of printable characters and
the seven escaped ones and whose numbers are such integers, and for every
`indent` (`FORMAT_MIN`, `FORMAT_ONE_LINE` and the indents from 0 on among
them): `print` returns a text, and `parse` of that text, given enough fuel,
returns the value tree. -/
theorem parse_print (put_double : Rat → String)
    (sscanf_lg : List Char → Option (Rat × Nat))
    (hlib : ∀ n : Int, -999999 ≤ n → n ≤ 999999 → Scans put_double sscanf_lg (n : Rat))
    (v : Json) (hv : v.Printable) (indent : Int) :
    ∃ out, v.print put_double indent 0 = .ok out ∧
      ∃ N, ∀ fuel, N ≤ fuel → parse sscanf_lg fuel (String.mk out) = .ok v := by
  obtain ⟨hp, hb⟩ := Json.printable_val put_double sscanf_lg indent hlib v hv
  obtain ⟨out, ho⟩ := hp 0
  obtain ⟨-, N, hN⟩ := hb 0 out ho
  refine ⟨out, ho, N, ?_⟩
  intro fuel hf
  have e := hN fuel hf [] [] (by intro c hc; simp at hc)
  simp only [List.nil_append, List.append_nil, List.length_nil, Nat.zero_add] at e
  unfold parse
  rw [show (String.mk out).toList = out from rfl, e]

/-- The round trip of the example tree with the example library, printed on one
line. -/
theorem parse_print_witness :
    (∀ n : Int, -999999 ≤ n → n ≤ 999999 →
      Scans put_double_sample sscanf_int_sample (n : Rat)) ∧
    doc_round_trip.Printable ∧
    ∃ out, doc_round_trip.print put_double_sample FORMAT_ONE_LINE 0 = .ok out ∧
      ∃ N, ∀ fuel, N ≤ fuel →
        parse sscanf_int_sample fuel (String.mk out) = .ok doc_round_trip :=
  ⟨fun n _ _ => sample_scans n, doc_round_trip_printable,
    parse_print put_double_sample sscanf_int_sample (fun n _ _ => sample_scans n)
      doc_round_trip doc_round_trip_printable FORMAT_ONE_LINE⟩

end json

/-! ## C4, C5: the timer sequence with deadlines of type double -/

namespace evt

theorem Double.le_num {F : Type} [LinearOrder F] (x y : F) :
    (Double.num x ≤ Double.num y) ↔ x ≤ y := Iff.rfl

theorem Double.le_is_num {F : Type} [LinearOrder F] (a b : Double F) (h : a ≤ b) :
    a.is_num = true ∧ b.is_num = true := by
  cases a <;> cases b <;> first | exact ⟨rfl, rfl⟩ | exact absurd h (fun h => h)

theorem Double.le_chain {F : Type} [LinearOrder F] (a b c : Double F) (h1 : a ≤ b)
    (h2 : b ≤ c) : a ≤ c := by
  cases a <;> cases b <;> cases c <;>
    first | exact le_trans h1 h2 | exact absurd h1 (fun h => h) | exact absurd h2 (fun h => h)

theorem Double.le_self {F : Type} [LinearOrder F] (a : Double F) (h : a.is_num = true) :
    a ≤ a := by
  cases a with
  | nan => cases h
  | num x => exact le_refl x

theorem Double.lt_true {F : Type} [LinearOrder F] (a b : Double F)
    (h : TimeOps.lt a b = true) : a.is_num = true ∧ b.is_num = true ∧ a ≤ b := by
  cases a <;> cases b <;> first | cases h | skip
  refine ⟨rfl, rfl, ?_⟩
  exact le_of_lt (of_decide_eq_true h)

/-- What `Timer::operator<` says about two deadlines: when it answers true the
first deadline is `<=` the second, both numbers; when it answers false and both
are numbers, the second is `<=` the first; against a NaN it answers false. -/
theorem Timer.lt_double {F : Type} [LinearOrder F] (a b : Timer (Double F)) (x y : Nat) :
    (a.lt b x y = true → a.time_ ≤ b.time_) ∧
    (a.lt b x y = false → a.time_.is_num = true → b.time_.is_num = true →
      b.time_ ≤ a.time_) ∧
    (b.time_ = Double.nan → a.lt b x y = false) := by
  unfold Timer.lt
  rcases ha : a.time_ with _ | u <;> rcases hb : b.time_ with _ | v
  · exact ⟨fun h => (by cases h), fun _ h => (by cases h), fun _ => rfl⟩
  · exact ⟨fun h => (by cases h), fun _ h => (by cases h), fun h => (by cases h)⟩
  · exact ⟨fun h => (by cases h), fun _ _ h => (by cases h), fun _ => rfl⟩
  · refine ⟨?_, ?_, fun h => by cases h⟩
    · intro h
      by_cases e : u = v
      · exact (Double.le_num u v).2 (le_of_eq e)
      · have hne : TimeOps.ne (Double.num u) (Double.num v) = true := decide_eq_true e
        rw [if_pos hne] at h
        exact (Double.lt_true _ _ h).2.2
    · intro h _ _
      by_cases e : u = v
      · exact (Double.le_num v u).2 (le_of_eq e.symm)
      · have hne : TimeOps.ne (Double.num u) (Double.num v) = true := decide_eq_true e
        rw [if_pos hne] at h
        have : ¬ u < v := of_decide_eq_false h
        exact (Double.le_num v u).2 (not_lt.mp this)

/-- The position `std::lower_bound` returns, whatever the comparison answers:
the comparison is true right before it and false at it. -/
theorem lower_bound_loop_transition (less : Nat → Bool) (n : Nat) :
    ∀ fuel first len, len ≤ fuel → first + len ≤ n →
      (first = 0 ∨ less (first - 1) = true) →
      (first + len = n ∨ less (first + len) = false) →
      lower_bound_loop less fuel first len ≤ n ∧
      (lower_bound_loop less fuel first len = 0 ∨
        less (lower_bound_loop less fuel first len - 1) = true) ∧
      (lower_bound_loop less fuel first len = n ∨
        less (lower_bound_loop less fuel first len) = false) := by
  intro fuel
  induction fuel with
  | zero =>
    intro first len hf hn hlo hhi
    obtain rfl : len = 0 := by omega
    simp only [lower_bound_loop]
    exact ⟨by omega, hlo, by simpa using hhi⟩
  | succ fuel ih =>
    intro first len hf hn hlo hhi
    unfold lower_bound_loop
    by_cases h0 : len = 0
    · subst h0
      rw [if_pos rfl]
      exact ⟨by omega, hlo, by simpa using hhi⟩
    · simp only [h0, if_false]
      have hh : len / 2 < len := Nat.div_lt_self (by omega) (by decide)
      cases hl : less (first + len / 2) with
      | true =>
        simp only [if_true]
        refine ih (first + len / 2 + 1) (len - len / 2 - 1) (by omega) (by omega) ?_ ?_
        · right
          simpa using hl
        · have : first + len / 2 + 1 + (len - len / 2 - 1) = first + len := by omega
          rw [this]
          exact hhi
      | false =>
        simp only [Bool.false_eq_true, if_false]
        exact ih first (len / 2) (by omega) (by omega) hlo (Or.inr hl)

theorem lower_bound_transition (less : Nat → Bool) (n : Nat) :
    lower_bound less n ≤ n ∧
    (lower_bound less n = 0 ∨ less (lower_bound less n - 1) = true) ∧
    (lower_bound less n = n ∨ less (lower_bound less n) = false) := by
  unfold lower_bound
  exact lower_bound_loop_transition less n n 0 n (le_refl _) (by omega) (Or.inl rfl)
    (Or.inl (by omega))

end evt

namespace evt

theorem timers_before_nan_append {F : Type} (pre rest : List (Timer (Double F)))
    (hpre : ∀ t ∈ pre, t.time_.is_num = true)
    (hrest : ∀ t, rest.head? = some t → t.time_.is_num = false) :
    timers_before_nan (pre ++ rest) = pre := by
  unfold timers_before_nan
  rw [List.takeWhile_append_of_pos hpre]
  cases rest with
  | nil => simp
  | cons t l =>
    rw [List.takeWhile_cons, hrest t rfl]
    simp

theorem timers_before_nan_split {F : Type} (ts : List (Timer (Double F))) :
    ∃ pre suf, ts = pre ++ suf ∧ timers_before_nan ts = pre ∧
      (∀ t ∈ pre, t.time_.is_num = true) ∧
      (∀ t, suf.head? = some t → t.time_.is_num = false) := by
  induction ts with
  | nil => exact ⟨[], [], rfl, rfl, by simp, by simp⟩
  | cons t rest ih =>
    obtain ⟨pre, suf, h1, h2, h3, h4⟩ := ih
    cases ht : t.time_.is_num with
    | false =>
      refine ⟨[], t :: rest, rfl, ?_, by simp, ?_⟩
      · unfold timers_before_nan
        rw [List.takeWhile_cons, ht]
        simp
      · intro x hx
        simp only [List.head?_cons, Option.some.injEq] at hx
        rw [← hx]
        exact ht
    | true =>
      refine ⟨t :: pre, suf, by rw [h1]; rfl, ?_, ?_, h4⟩
      · unfold timers_before_nan at h2 ⊢
        rw [List.takeWhile_cons, ht]
        simp only [if_true]
        rw [h2]
      · intro x hx
        rcases List.mem_cons.mp hx with e | hx
        · rw [e]
          exact ht
        · exact h3 x hx

theorem timers_before_nan_all {F : Type} (ts : List (Timer (Double F)))
    (h : ∀ t ∈ ts, t.time_ ≠ Double.nan) : timers_before_nan ts = ts := by
  have := timers_before_nan_append ts [] (fun t ht => by
    have := h t ht
    cases e : t.time_ with
    | nan => exact absurd e this
    | num x => rfl) (by simp)
  simpa using this

/-- The timers in front of the first NaN deadline stay in deadline order when
a timer is put in at a position where `Timer::operator<` answers true right
before it and false at it, as `std::lower_bound` finds one. -/
theorem insert_before_nan {F : Type} [LinearOrder F] (ts : List (Timer (Double F)))
    (v : Timer (Double F)) (p : Nat) (addr : Nat → Nat) (la : Nat) (hp : p ≤ ts.length)
    (hlo : p = 0 ∨ ∃ t, ts[p - 1]? = some t ∧ t.lt v (addr (p - 1)) la = true)
    (hhi : p = ts.length ∨ ∃ t, ts[p]? = some t ∧ t.lt v (addr p) la = false)
    (h : timers_sorted (timers_before_nan ts)) :
    timers_sorted (timers_before_nan (ts.take p ++ v :: ts.drop p)) := by
  obtain ⟨pre, suf, rfl, hbn, hnum, hsuf⟩ := timers_before_nan_split ts
  rw [hbn] at h
  unfold timers_sorted at h ⊢
  have hsorted : ∀ (i j : Nat) (a b : Timer (Double F)), i ≤ j → pre[i]? = some a →
      pre[j]? = some b → a.time_ ≤ b.time_ := by
    intro i j a b hij ha hb
    obtain ⟨hi, rfl⟩ := List.getElem?_eq_some_iff.mp ha
    obtain ⟨hj, rfl⟩ := List.getElem?_eq_some_iff.mp hb
    rcases Nat.lt_or_eq_of_le hij with h' | h'
    · exact List.pairwise_iff_getElem.mp h i j hi hj h'
    · subst h'
      exact Double.le_self _ (hnum _ (List.getElem_mem _))
  by_cases hpk : p ≤ pre.length
  · rw [List.take_append_of_le_length hpk, List.drop_append_of_le_length hpk]
    cases hv : v.time_.is_num with
    | false =>
      rw [timers_before_nan_append (pre.take p) (v :: (pre.drop p ++ suf))
        (fun t ht => hnum t (List.mem_of_mem_take ht)) (by
          intro t ht
          simp only [List.head?_cons, Option.some.injEq] at ht
          rw [← ht]
          exact hv)]
      exact h.sublist (List.take_sublist _ _)
    | true =>
      have e : pre.take p ++ v :: (pre.drop p ++ suf) = (pre.take p ++ v :: pre.drop p) ++ suf := by
        simp
      rw [e, timers_before_nan_append _ suf (by
        intro t ht
        rcases List.mem_append.mp ht with ht | ht
        · exact hnum t (List.mem_of_mem_take ht)
        · rcases List.mem_cons.mp ht with e' | ht
          · rw [e']
            exact hv
          · exact hnum t (List.mem_of_mem_drop ht)) hsuf]
      have hA : ∀ a ∈ pre.take p, a.time_ ≤ v.time_ := by
        intro a ha
        obtain ⟨i, hi⟩ := List.mem_iff_getElem?.mp ha
        have hip : i < p := by
          by_contra k
          rw [List.getElem?_take_eq_none (by omega)] at hi
          cases hi
        rw [List.getElem?_take_of_lt hip] at hi
        rcases hlo with h0 | ⟨t, ht, hlt⟩
        · omega
        · rw [List.getElem?_append_left (by omega)] at ht
          exact Double.le_chain _ _ _ (hsorted i (p - 1) a t (by omega) hi ht)
            ((Timer.lt_double t v _ _).1 hlt)
      have hB : ∀ b ∈ pre.drop p, v.time_ ≤ b.time_ := by
        intro b hb
        obtain ⟨j, hj⟩ := List.mem_iff_getElem?.mp hb
        rw [List.getElem?_drop] at hj
        have hjl : p + j < pre.length := (List.getElem?_eq_some_iff.mp hj).1
        rcases hhi with h0 | ⟨t, ht, hlt⟩
        · simp only [List.length_append] at h0
          omega
        · rw [List.getElem?_append_left (by omega)] at ht
          have htn : t.time_.is_num = true := hnum t (List.getElem?_mem ht)
          exact Double.le_chain _ _ _ ((Timer.lt_double t v _ _).2.1 hlt htn hv)
            (hsorted p (p + j) t b (by omega) ht hj)
      rw [List.pairwise_append]
      refine ⟨h.sublist (List.take_sublist _ _), ?_, ?_⟩
      · rw [List.pairwise_cons]
        exact ⟨hB, h.sublist (List.drop_sublist _ _)⟩
      · intro a ha b hb
        rcases List.mem_cons.mp hb with e' | hb
        · rw [e']
          exact hA a ha
        · exact Double.le_chain _ _ _ (hA a ha) (hB b hb)
  · have hlen : p ≤ pre.length + suf.length := by simpa using hp
    cases suf with
    | nil => simp at hlen; omega
    | cons s0 suf1 =>
      have hs0 := hsuf s0 rfl
      obtain ⟨q, hq⟩ : ∃ q, p - pre.length = q + 1 := ⟨p - pre.length - 1, by omega⟩
      rw [List.take_append_eq_append_take, List.take_of_length_le (by omega), hq,
        List.take_succ_cons, List.append_assoc,
        timers_before_nan_append pre _ hnum (by
          intro t ht
          simp only [List.cons_append, List.head?_cons, Option.some.injEq] at ht
          rw [← ht]
          exact hs0)]
      exact h

theorem Reactor.add_timer_position {Time : Type} [TimeOps Time] (slot_addr : Nat → Nat)
    (local_addr : Nat) (r : Reactor Time) (time : Time) (callback : Callback) :
    ∃ p, p ≤ r.timers_.length ∧
      (p = 0 ∨ ∃ t, r.timers_[p - 1]? = some t ∧
        t.lt { time_ := time, callback_ := callback } (slot_addr (p - 1)) local_addr = true) ∧
      (p = r.timers_.length ∨ ∃ t, r.timers_[p]? = some t ∧
        t.lt { time_ := time, callback_ := callback } (slot_addr p) local_addr = false) ∧
      (r.add_timer slot_addr local_addr time callback).timers_ =
        r.timers_.take p ++ { time_ := time, callback_ := callback } :: r.timers_.drop p := by
  obtain ⟨hp, hlo, hhi⟩ := lower_bound_transition
    (fun i =>
      match r.timers_[i]? with
      | some t => t.lt { time_ := time, callback_ := callback } (slot_addr i) local_addr
      | none => false)
    r.timers_.length
  have e : (r.add_timer slot_addr local_addr time callback).timers_ =
      r.timers_.take (lower_bound
        (fun i =>
          match r.timers_[i]? with
          | some t => t.lt { time_ := time, callback_ := callback } (slot_addr i) local_addr
          | none => false)
        r.timers_.length) ++
        { time_ := time, callback_ := callback } :: r.timers_.drop (lower_bound
          (fun i =>
            match r.timers_[i]? with
            | some t => t.lt { time_ := time, callback_ := callback } (slot_addr i) local_addr
            | none => false)
          r.timers_.length) := rfl
  generalize lower_bound _ r.timers_.length = p at hp hlo hhi e
  refine ⟨p, hp, ?_, ?_, e⟩
  · rcases hlo with h0 | h1
    · exact Or.inl h0
    · right
      cases ht : r.timers_[p - 1]? with
      | none => simp [ht] at h1
      | some t =>
        simp only [ht] at h1
        exact ⟨t, rfl, h1⟩
  · rcases hhi with h0 | h1
    · exact Or.inl h0
    · cases ht : r.timers_[p]? with
      | none =>
        left
        have := List.getElem?_eq_none_iff.mp ht
        omega
      | some t =>
        right
        simp only [ht] at h1
        exact ⟨t, rfl, h1⟩

theorem Reactor.add_timer_before_nan {F : Type} [LinearOrder F] (slot_addr : Nat → Nat)
    (local_addr : Nat) (r : Reactor (Double F)) (time : Double F) (callback : Callback)
    (h : timers_sorted (timers_before_nan r.timers_)) :
    timers_sorted (timers_before_nan (r.add_timer slot_addr local_addr time callback).timers_) := by
  obtain ⟨p, hp, hlo, hhi, e⟩ := Reactor.add_timer_position slot_addr local_addr r time callback
  rw [e]
  exact insert_before_nan r.timers_ _ p slot_addr local_addr hp hlo hhi h

/-- C4 (amended): for every timer sequence sorted by non-decreasing deadline
and every (deadline, callback), no deadline being NaN, whatever the addresses
compared by the tie-break of `Timer::operator<` are, the sequence after
`add_timer` is again sorted by non-decreasing deadline, has exactly one more
element, and is the previous sequence with the new timer put in at one position
(so the previous timers keep their relative order); a deadline already present
is accepted like any other. -/
theorem Reactor.add_timer_sorted {F : Type} [LinearOrder F] (slot_addr : Nat → Nat)
    (local_addr : Nat) (r : Reactor (Double F)) (time : Double F) (callback : Callback)
    (hs : timers_sorted r.timers_) (hnum : ∀ t ∈ r.timers_, t.time_ ≠ Double.nan)
    (htime : time ≠ Double.nan) :
    timers_sorted (r.add_timer slot_addr local_addr time callback).timers_ ∧
    (∀ t ∈ (r.add_timer slot_addr local_addr time callback).timers_, t.time_ ≠ Double.nan) ∧
    (r.add_timer slot_addr local_addr time callback).timers_.length = r.timers_.length + 1 ∧
    (∃ p, p ≤ r.timers_.length ∧
      (r.add_timer slot_addr local_addr time callback).timers_ =
        r.timers_.take p ++ { time_ := time, callback_ := callback } :: r.timers_.drop p) ∧
    r.timers_.Sublist (r.add_timer slot_addr local_addr time callback).timers_ := by
  have hinv := Reactor.add_timer_before_nan slot_addr local_addr r time callback
    (by rw [timers_before_nan_all _ hnum]; exact hs)
  obtain ⟨p, hp, -, -, e⟩ := Reactor.add_timer_position slot_addr local_addr r time callback
  have hall : ∀ t ∈ (r.add_timer slot_addr local_addr time callback).timers_,
      t.time_ ≠ Double.nan := by
    intro t ht
    rw [e] at ht
    rcases List.mem_append.mp ht with ht | ht
    · exact hnum t (List.mem_of_mem_take ht)
    · rcases List.mem_cons.mp ht with e' | ht
      · rw [e']
        exact htime
      · exact hnum t (List.mem_of_mem_drop ht)
  rw [timers_before_nan_all _ hall] at hinv
  refine ⟨hinv, hall, ?_, ⟨p, hp, e⟩, ?_⟩
  · rw [e]
    simp only [List.length_append, List.length_take, List.length_cons, List.length_drop]
    omega
  · rw [e]
    conv_lhs => rw [← List.take_append_drop p r.timers_]
    exact List.Sublist.append (List.Sublist.refl _) (List.sublist_cons_self _ _)

/-- Counterexample to C4 as stated: a timer whose deadline is NaN, added to the
sorted sequence of the deadlines 10 and 20, is put in front of them, every
comparison with NaN being false; the sequence NaN, 10, 20 is not sorted by
non-decreasing deadline. -/
theorem Reactor.add_timer_sorted_counterexample :
    timers_sorted reactor_double_sample.timers_ ∧
    (reactor_double_sample.add_timer (fun i => i) 99 Double.nan (some 9)).timers_ =
      [⟨Double.nan, some 9⟩, ⟨Double.num 10, some 1⟩, ⟨Double.num 20, some 2⟩] ∧
    ¬ timers_sorted
      (reactor_double_sample.add_timer (fun i => i) 99 Double.nan (some 9)).timers_ := by
  have e : (reactor_double_sample.add_timer (fun i => i) 99 Double.nan (some 9)).timers_ =
      [⟨Double.nan, some 9⟩, ⟨Double.num 10, some 1⟩, ⟨Double.num 20, some 2⟩] := rfl
  refine ⟨?_, e, ?_⟩
  · simp only [timers_sorted, reactor_double_sample, List.pairwise_cons, List.mem_singleton,
      forall_eq, List.not_mem_nil, false_implies, implies_true, List.Pairwise.nil, and_true]
    exact (Double.le_num 10 20).2 (by decide)
  · rw [e]
    intro h
    have := (List.pairwise_cons.mp h).1 ⟨Double.num 10, some 1⟩ (List.mem_cons_self _ _)
    exact absurd this (fun h => h)

/-- Witness for C4 (amended): a second timer due at 20 is added to the sorted
sequence of the deadlines 10 and 20, with addresses that put it behind the
timer due at 20. -/
theorem Reactor.add_timer_sorted_witness :
    timers_sorted reactor_double_sample.timers_ ∧
    (reactor_double_sample.add_timer (fun i => i) 2 (Double.num 20) (some 9)).timers_ =
      [⟨Double.num 10, some 1⟩, ⟨Double.num 20, some 2⟩, ⟨Double.num 20, some 9⟩] ∧
    timers_sorted
      (reactor_double_sample.add_timer (fun i => i) 2 (Double.num 20) (some 9)).timers_ := by
  have hs : timers_sorted reactor_double_sample.timers_ := by
    simp only [timers_sorted, reactor_double_sample, List.pairwise_cons, List.mem_singleton,
      forall_eq, List.not_mem_nil, false_implies, implies_true, List.Pairwise.nil, and_true]
    exact (Double.le_num 10 20).2 (by decide)
  exact ⟨hs, rfl,
    (Reactor.add_timer_sorted (fun i => i) 2 reactor_double_sample (Double.num 20) (some 9) hs
      (by simp [reactor_double_sample]) (by simp)).1⟩

end evt

namespace evt

theorem Reactor.handle_timers_before_nan {F : Type} [LinearOrder F] (now : Double F)
    (ts : List (Timer (Double F))) (h : timers_sorted (timers_before_nan ts)) :
    (∀ e ∈ (Reactor.handle_timers now ts).1,
      ∃ t ∈ timers_before_nan ts, e.deadline = some t.time_) ∧
    (Reactor.handle_timers now ts).1.Pairwise deadline_le ∧
    (∀ n left, (Reactor.handle_timers now ts).2 = .ok (n, left) →
      (Reactor.handle_timers now ts).1.length = n ∧
      timers_sorted (timers_before_nan left)) := by
  induction ts with
  | nil => simp [Reactor.handle_timers, timers_sorted, timers_before_nan]
  | cons t rest ih =>
    unfold Reactor.handle_timers
    by_cases hlt : TimeOps.lt t.time_ now = true
    · have htn : t.time_.is_num = true := (Double.lt_true _ _ hlt).1
      have hb : timers_before_nan (t :: rest) = t :: timers_before_nan rest := by
        unfold timers_before_nan
        rw [List.takeWhile_cons, htn]
        rfl
      rw [hb] at h ⊢
      obtain ⟨hle, hs'⟩ := List.pairwise_cons.mp h
      obtain ⟨i1, i2, i3⟩ := ih hs'
      rw [if_pos hlt]
      cases hcb : t.callback_ with
      | none => simp
      | some c =>
        simp only
        refine ⟨?_, ?_, ?_⟩
        · intro e he
          rcases List.mem_cons.mp he with h' | h'
          · exact ⟨t, List.mem_cons_self _ _, by rw [h']; rfl⟩
          · obtain ⟨t', ht', he'⟩ := i1 e h'
            exact ⟨t', List.mem_cons_of_mem _ ht', he'⟩
        · rw [List.pairwise_cons]
          refine ⟨?_, i2⟩
          intro y hy ta tb ha hb'
          obtain ⟨t', ht', he'⟩ := i1 y hy
          simp only [Event.deadline, Option.some.injEq] at ha
          rw [he'] at hb'
          simp only [Option.some.injEq] at hb'
          rw [← ha, ← hb']
          exact hle t' ht'
        · intro n left h'
          obtain ⟨q, hq, hf⟩ := except_map_eq_ok _ _ _ h'
          obtain ⟨j1, j2⟩ := i3 q.1 q.2 hq
          simp only [Prod.mk.injEq] at hf
          refine ⟨?_, ?_⟩
          · simp only [List.length_cons]
            omega
          · rw [← hf.2]
            exact j2
    · rw [if_neg hlt]
      refine ⟨by simp, by simp, ?_⟩
      intro n left h'
      simp only [Except.ok.injEq, Prod.mk.injEq] at h'
      refine ⟨by simp [h'.1], ?_⟩
      rw [← h'.2]
      exact h

theorem run_order_empty {Time : Type} [LE Time] (SIGCHLD : Nat) :
    run_order SIGCHLD ([] : List (Event Time)) :=
  ⟨[], [], rfl, by simp, by simp, by simp, by simp⟩

theorem Reactor.run_loop_counted {Time : Type} [TimeOps Time] (SIG_MAX SIGCHLD : Nat)
    (later : List (SleepResult × Obs Time)) (r : Reactor Time) (num_done : Nat)
    (h : num_done ≠ 0) :
    Reactor.run_loop SIG_MAX SIGCHLD later r num_done = ([], some (.ok (num_done, r))) := by
  cases later <;> simp [Reactor.run_loop, h]

/-- One `handle_current` call on a reactor whose timer sequence has a property
that the timer loop keeps and under which it calls the timers in deadline
order: the callbacks come in the order of `run_order`, and when the call
returns their number is what it returns and the property still holds. -/
theorem Reactor.handle_current_order {Time : Type} [TimeOps Time] [LE Time]
    (Inv : List (Timer Time) → Prop)
    (hT : ∀ (now : Time) (ts : List (Timer Time)), Inv ts →
      (∀ e ∈ (Reactor.handle_timers now ts).1, e.deadline.isSome = true) ∧
      (Reactor.handle_timers now ts).1.Pairwise deadline_le ∧
      (∀ n left, (Reactor.handle_timers now ts).2 = .ok (n, left) →
        (Reactor.handle_timers now ts).1.length = n ∧ Inv left))
    (SIG_MAX SIGCHLD : Nat) (r : Reactor Time) (obs : Obs Time) (hs : Inv r.timers_) :
    run_order SIGCHLD (Reactor.handle_current SIG_MAX SIGCHLD r obs).1 ∧
    (∀ n r', (Reactor.handle_current SIG_MAX SIGCHLD r obs).2 = .ok (n, r') →
      (Reactor.handle_current SIG_MAX SIGCHLD r obs).1.length = n ∧ Inv r'.timers_) := by
  unfold Reactor.handle_current Reactor.handle_signals
  obtain ⟨s1, s2, s3⟩ := Reactor.handle_signals_loop_spec SIGCHLD obs.waitid
    (List.range' 1 (SIG_MAX - 1)) (List.pairwise_lt_range' 1 (SIG_MAX - 1)) r
  rcases hsig : Reactor.handle_signals_loop SIGCHLD obs.waitid (List.range' 1 (SIG_MAX - 1)) r
    with ⟨tr, out⟩
  rw [hsig] at s1 s2 s3
  simp only at s1 s2 s3
  have hsome : ∀ e ∈ tr, (e.signum SIGCHLD).isSome = true := by
    intro e he
    obtain ⟨s, _, hes⟩ := s1 e he
    simp [hes]
  cases out with
  | error e =>
    simp only
    exact ⟨⟨tr, [], by simp, hsome, s2, by simp, by simp⟩, by simp⟩
  | ok p =>
    obtain ⟨n, r1⟩ := p
    obtain ⟨k1, k2⟩ := s3 n r1 rfl
    have hs1 : Inv r1.timers_ := by rw [k2]; exact hs
    obtain ⟨t1, t2, t3⟩ := hT obs.now r1.timers_ hs1
    simp only
    rcases htm : Reactor.handle_timers obs.now r1.timers_ with ⟨tr', out'⟩
    rw [htm] at t1 t2 t3
    simp only at t1 t2 t3
    cases out' with
    | error e =>
      simp only
      exact ⟨⟨tr, tr', rfl, hsome, s2, t1, t2⟩, by simp⟩
    | ok q =>
      obtain ⟨k, left⟩ := q
      simp only
      refine ⟨⟨tr, tr', rfl, hsome, s2, t1, t2⟩, ?_⟩
      intro n' r' h
      simp only [Except.ok.injEq, Prod.mk.injEq] at h
      obtain ⟨u1, u2⟩ := t3 k left rfl
      refine ⟨?_, ?_⟩
      · simp only [List.length_append]
        omega
      · rw [← h.2]
        exact u2

theorem Reactor.run_loop_order {Time : Type} [TimeOps Time] [LE Time]
    (Inv : List (Timer Time) → Prop)
    (hT : ∀ (now : Time) (ts : List (Timer Time)), Inv ts →
      (∀ e ∈ (Reactor.handle_timers now ts).1, e.deadline.isSome = true) ∧
      (Reactor.handle_timers now ts).1.Pairwise deadline_le ∧
      (∀ n left, (Reactor.handle_timers now ts).2 = .ok (n, left) →
        (Reactor.handle_timers now ts).1.length = n ∧ Inv left))
    (SIG_MAX SIGCHLD : Nat) (later : List (SleepResult × Obs Time)) (r : Reactor Time)
    (num_done : Nat) (hs : Inv r.timers_) :
    run_order SIGCHLD (Reactor.run_loop SIG_MAX SIGCHLD later r num_done).1 ∧
    (∀ n r', (Reactor.run_loop SIG_MAX SIGCHLD later r num_done).2 = some (.ok (n, r')) →
      Inv r'.timers_) := by
  induction later generalizing r num_done with
  | nil =>
    unfold Reactor.run_loop
    split
    · exact ⟨run_order_empty SIGCHLD, fun n r' h => by cases h⟩
    · refine ⟨run_order_empty SIGCHLD, fun n r' h => ?_⟩
      simp only [Option.some.injEq, Except.ok.injEq, Prod.mk.injEq] at h
      rw [← h.2]
      exact hs
  | cons step later ih =>
    unfold Reactor.run_loop
    by_cases h0 : num_done = 0
    · simp only [h0, if_true]
      by_cases hf : step.1 = SleepResult.failed
      · simp only [hf, if_true]
        exact ⟨run_order_empty SIGCHLD, fun n r' h => by cases h⟩
      · simp only [hf, if_false]
        have hs' : Inv (step.2.delivered.foldl Reactor.deliver r).timers_ := by
          rw [Reactor.deliver_timers]
          exact hs
        obtain ⟨c1, c2⟩ := Reactor.handle_current_order Inv hT SIG_MAX SIGCHLD _ step.2 hs'
        rcases hcur : Reactor.handle_current SIG_MAX SIGCHLD
          (step.2.delivered.foldl Reactor.deliver r) step.2 with ⟨tr, out⟩
        rw [hcur] at c1 c2
        simp only at c1 c2
        cases out with
        | error e => exact ⟨c1, fun n r' h => by cases h⟩
        | ok p =>
          obtain ⟨n, r1⟩ := p
          obtain ⟨d1, d2⟩ := c2 n r1 rfl
          simp only
          by_cases hn : n = 0
          · have : tr = [] := List.length_eq_zero.mp (by omega)
            subst this
            simp only [List.nil_append]
            exact ih r1 (0 + n) d2
          · rw [Reactor.run_loop_counted SIG_MAX SIGCHLD later r1 (0 + n) (by omega)]
            refine ⟨by simpa using c1, fun n' r' h => ?_⟩
            simp only [Option.some.injEq, Except.ok.injEq, Prod.mk.injEq] at h
            rw [← h.2]
            exact d2
    · simp only [h0, if_false]
      refine ⟨run_order_empty SIGCHLD, fun n r' h => ?_⟩
      simp only [Option.some.injEq, Except.ok.injEq, Prod.mk.injEq] at h
      rw [← h.2]
      exact hs

/-- One `run` call on a reactor whose timer sequence has a property that the
timer loop keeps and under which it calls the timers in deadline order: the
callbacks come in the order of `run_order`, and when the call returns the
property still holds. -/
theorem Reactor.run_order_kept {Time : Type} [TimeOps Time] [LE Time]
    (Inv : List (Timer Time) → Prop)
    (hT : ∀ (now : Time) (ts : List (Timer Time)), Inv ts →
      (∀ e ∈ (Reactor.handle_timers now ts).1, e.deadline.isSome = true) ∧
      (Reactor.handle_timers now ts).1.Pairwise deadline_le ∧
      (∀ n left, (Reactor.handle_timers now ts).2 = .ok (n, left) →
        (Reactor.handle_timers now ts).1.length = n ∧ Inv left))
    (SIG_MAX SIGCHLD : Nat) (r : Reactor Time) (sleep : Bool) (first : Obs Time)
    (later : List (SleepResult × Obs Time)) (hs : Inv r.timers_) :
    run_order SIGCHLD (r.run SIG_MAX SIGCHLD sleep first later).1 ∧
    (∀ n r', (r.run SIG_MAX SIGCHLD sleep first later).2 = some (.ok (n, r')) →
      Inv r'.timers_) := by
  unfold Reactor.run
  by_cases he : r.is_empty SIG_MAX = true
  · simp only [he, if_true]
    exact ⟨run_order_empty SIGCHLD, fun n r' h => by cases h⟩
  · simp only [he, if_false]
    have hs' : Inv (first.delivered.foldl Reactor.deliver r).timers_ := by
      rw [Reactor.deliver_timers]
      exact hs
    obtain ⟨c1, c2⟩ := Reactor.handle_current_order Inv hT SIG_MAX SIGCHLD _ first hs'
    rcases hcur : Reactor.handle_current SIG_MAX SIGCHLD
      (first.delivered.foldl Reactor.deliver r) first with ⟨tr, out⟩
    rw [hcur] at c1 c2
    simp only at c1 c2
    cases out with
    | error e => exact ⟨c1, fun n r' h => by cases h⟩
    | ok p =>
      obtain ⟨n, r1⟩ := p
      obtain ⟨d1, d2⟩ := c2 n r1 rfl
      simp only
      cases sleep with
      | false =>
        refine ⟨by simpa using c1, fun n' r' h => ?_⟩
        simp only [Bool.false_eq_true, if_false, Option.some.injEq, Except.ok.injEq,
          Prod.mk.injEq] at h
        rw [← h.2]
        exact d2
      | true =>
        simp only [if_true]
        obtain ⟨l1, l2⟩ := Reactor.run_loop_order Inv hT SIG_MAX SIGCHLD later r1 n d2
        by_cases hn : n = 0
        · have : tr = [] := List.length_eq_zero.mp (by omega)
          subst this
          simp only [List.nil_append]
          exact ⟨l1, l2⟩
        · rw [Reactor.run_loop_counted SIG_MAX SIGCHLD later r1 n hn]
          refine ⟨by simpa using c1, fun n' r' h => ?_⟩
          simp only [Bool.false_eq_true, if_false, Option.some.injEq, Except.ok.injEq,
            Prod.mk.injEq] at h
          rw [← h.2]
          exact d2

/-- The timer loop on doubles keeps the timers before the first NaN in deadline
order and calls timers in deadline order. -/
theorem Reactor.handle_timers_kept {F : Type} [LinearOrder F] (now : Double F)
    (ts : List (Timer (Double F))) (h : timers_sorted (timers_before_nan ts)) :
    (∀ e ∈ (Reactor.handle_timers now ts).1, e.deadline.isSome = true) ∧
    (Reactor.handle_timers now ts).1.Pairwise deadline_le ∧
    (∀ n left, (Reactor.handle_timers now ts).2 = .ok (n, left) →
      (Reactor.handle_timers now ts).1.length = n ∧
      timers_sorted (timers_before_nan left)) := by
  obtain ⟨i1, i2, i3⟩ := Reactor.handle_timers_before_nan now ts h
  refine ⟨fun e he => ?_, i2, i3⟩
  obtain ⟨t, _, het⟩ := i1 e he
  simp [het]

theorem Reactor.set_signal_timers {Time : Type} (SIG_MAX SIGCHLD : Nat) (r : Reactor Time)
    (w : SigWorld) (signum : Nat) (callback : Callback) :
    (∀ st1, r.set_signal SIG_MAX SIGCHLD w signum callback = .ok st1 →
      st1.1.timers_ = r.timers_) ∧
    (∀ e r1 w1, r.set_signal SIG_MAX SIGCHLD w signum callback = .error (e, r1, w1) →
      r1.timers_ = r.timers_) := by
  unfold Reactor.set_signal
  by_cases c1 : ¬ (signum > 0 ∧ signum < SIG_MAX)
  · rw [if_pos c1]
    refine ⟨fun st1 h => (by cases h), fun e r1 w1 h => ?_⟩
    simp only [Except.error.injEq, Prod.mk.injEq] at h
    rw [← h.2.1]
  · rw [if_neg c1]
    by_cases c2 : signum = SIGCHLD
    · rw [if_pos c2]
      refine ⟨fun st1 h => (by cases h), fun e r1 w1 h => ?_⟩
      simp only [Except.error.injEq, Prod.mk.injEq] at h
      rw [← h.2.1]
    · rw [if_neg c2]
      by_cases c3 : (r.signals_ signum).callback_ = none
      · rw [if_pos c3]
        cases hset : SignalHandler.set_state SIG_MAX r.signal_handler_ w signum (some signum) with
        | ok s =>
          simp only [hset]
          refine ⟨fun st1 h => ?_, fun e r1 w1 h => by cases h⟩
          simp only [Except.ok.injEq] at h
          rw [← h]
        | error s =>
          simp only [hset]
          refine ⟨fun st1 h => (by cases h), fun e r1 w1 h => ?_⟩
          simp only [Except.error.injEq, Prod.mk.injEq] at h
          rw [← h.2.1]
      · rw [if_neg c3]
        refine ⟨fun st1 h => (by cases h), fun e r1 w1 h => ?_⟩
        simp only [Except.error.injEq, Prod.mk.injEq] at h
        rw [← h.2.1]

/-- Every step of a program keeps the timers in front of the first NaN deadline
in deadline order. -/
theorem Reactor.step_before_nan {F : Type} [LinearOrder F] (SIG_MAX SIGCHLD : Nat)
    (st st1 : Reactor (Double F) × SigWorld) (op : Reactor.Op (Double F))
    (hs : timers_sorted (timers_before_nan st.1.timers_))
    (h : (Reactor.step SIG_MAX SIGCHLD st op).2 = some st1) :
    timers_sorted (timers_before_nan st1.1.timers_) := by
  cases op with
  | deliver signum =>
    dsimp only [Reactor.step] at h
    by_cases c : st.2.disposition signum = sighandler_t.handler
    · rw [if_pos c] at h
      simp only [Option.some.injEq] at h
      rw [← h]
      show timers_sorted (timers_before_nan (st.1.deliver signum).timers_)
      rw [(Reactor.deliver_fields st.1 signum).1]
      exact hs
    · rw [if_neg c] at h
      simp only [Option.some.injEq] at h
      rw [← h]
      exact hs
  | add_timer slot_addr local_addr time callback =>
    simp only [Reactor.step, Option.some.injEq] at h
    rw [← h]
    exact Reactor.add_timer_before_nan slot_addr local_addr st.1 time callback hs
  | set_signal signum callback =>
    dsimp only [Reactor.step] at h
    have K := Reactor.set_signal_timers SIG_MAX SIGCHLD st.1 st.2 signum callback
    cases hss : st.1.set_signal SIG_MAX SIGCHLD st.2 signum callback with
    | ok p =>
      rw [hss] at h
      simp only [Option.some.injEq] at h
      rw [← h, K.1 p hss]
      exact hs
    | error p =>
      rw [hss] at h
      obtain ⟨e, r1, w1⟩ := p
      cases e <;> simp only [Option.some.injEq] at h <;> first | (cases h; done) | skip
      rw [← h]
      show timers_sorted (timers_before_nan r1.timers_)
      rw [K.2 _ r1 w1 hss]
      exact hs
  | set_wait pid callback =>
    dsimp only [Reactor.step] at h
    unfold Reactor.set_wait at h
    cases hf : StdMap.find st.1.waits_ pid with
    | none =>
      rw [hf] at h
      simp only [Option.some.injEq] at h
      rw [← h]
      exact hs
    | some v =>
      rw [hf] at h
      simp only [Option.some.injEq] at h
      rw [← h]
      exact hs
  | run sleep first later =>
    dsimp only [Reactor.step] at h
    have K := (Reactor.run_order_kept (fun ts => timers_sorted (timers_before_nan ts))
      Reactor.handle_timers_kept SIG_MAX SIGCHLD st.1 sleep first later hs).2
    rcases hr : st.1.run SIG_MAX SIGCHLD sleep first later with ⟨trace, out⟩
    rw [hr] at h K
    cases out with
    | none => cases h
    | some res =>
      cases res with
      | error e => cases h
      | ok p =>
        simp only [Option.some.injEq] at h
        rw [← h]
        exact K p.1 p.2 rfl

theorem Reactor.exec_before_nan {F : Type} [LinearOrder F] (SIG_MAX SIGCHLD : Nat)
    (ops : List (Reactor.Op (Double F))) (st st1 : Reactor (Double F) × SigWorld)
    (hs : timers_sorted (timers_before_nan st.1.timers_))
    (h : (Reactor.exec SIG_MAX SIGCHLD st ops).2 = some st1) :
    timers_sorted (timers_before_nan st1.1.timers_) := by
  induction ops generalizing st with
  | nil =>
    simp only [Reactor.exec, Option.some.injEq] at h
    rw [← h]
    exact hs
  | cons op rest ih =>
    unfold Reactor.exec at h
    cases hst : (Reactor.step SIG_MAX SIGCHLD st op).2 with
    | none =>
      rw [hst] at h
      cases h
    | some st2 =>
      rw [hst] at h
      exact ih st2 (Reactor.step_before_nan SIG_MAX SIGCHLD st st2 op hs hst) h

end evt

namespace evt

/-- C5: in every state that a program reaches from a freshly constructed
reactor by deliveries of signals and calls of `add_timer` (with any deadlines,
NaN among them), `set_signal`, `set_wait` and `run`, within a single
`Reactor::run` call, whatever signals arrive, whatever the clock, `waitid` and
`nanosleep` answer, and whether the call returns, throws or is still waiting,
the callbacks invoked are first the signal-driven ones in ascending signal
number (child completions taking the place of `SIGCHLD`) and then the timer
callbacks in non-decreasing deadline order; no timer callback comes before a
signal callback. -/
theorem Reactor.run_callback_order {F : Type} [LinearOrder F] (SIG_MAX SIGCHLD this : Nat)
    (w w0 : SigWorld) (r0 : Reactor (Double F))
    (hnew : Reactor.new SIG_MAX SIGCHLD this w = .ok (r0, w0))
    (ops : List (Reactor.Op (Double F))) (st : Reactor (Double F) × SigWorld)
    (hexec : (Reactor.exec SIG_MAX SIGCHLD (r0, w0) ops).2 = some st)
    (sleep : Bool) (first : Obs (Double F)) (later : List (SleepResult × Obs (Double F))) :
    run_order SIGCHLD (st.1.run SIG_MAX SIGCHLD sleep first later).1 := by
  have h0 : timers_sorted (timers_before_nan r0.timers_) := by
    rw [(Reactor.new_tables SIG_MAX SIGCHLD this w w0 r0 hnew).1]
    exact List.Pairwise.nil
  have h1 := Reactor.exec_before_nan SIG_MAX SIGCHLD ops (r0, w0) st h0 hexec
  exact (Reactor.run_order_kept (fun ts => timers_sorted (timers_before_nan ts))
    Reactor.handle_timers_kept SIG_MAX SIGCHLD st.1 sleep first later h1).1

/-- The example program on a fresh reactor: the timer due at NaN is put in
front of the one due at 10, the timers due at 5 and at 20 in front of it; a
`run` at time 25 invokes the callback of signal 10 and those of the timers due
at 5 and at 20, and stops at the timer due at NaN. -/
theorem ops_nan_sample_runs :
    ∃ (r0 : Reactor (Double Nat)) (w0 : SigWorld) (st : Reactor (Double Nat) × SigWorld),
      Reactor.new 34 17 1 world_sample = .ok (r0, w0) ∧
      (Reactor.exec 34 17 (r0, w0) ops_nan_sample).2 = some st ∧
      st.1.timers_ = [⟨Double.num 5, some 3⟩, ⟨Double.num 20, some 4⟩, ⟨Double.nan, some 2⟩,
        ⟨Double.num 10, some 1⟩] ∧
      (st.1.run 34 17 false obs_double_sample []).1 =
        [Event.signal 10 100, Event.timer (Double.num 5) 3, Event.timer (Double.num 20) 4] :=
  ⟨_, _, _, rfl, rfl, rfl, rfl⟩

/-- Witness of C5: the state that the example program reaches from a fresh
reactor, and a `run` call in it. -/
theorem Reactor.run_callback_order_witness :
    ∃ (r0 : Reactor (Double Nat)) (w0 : SigWorld) (st : Reactor (Double Nat) × SigWorld),
      Reactor.new 34 17 1 world_sample = .ok (r0, w0) ∧
      (Reactor.exec 34 17 (r0, w0) ops_nan_sample).2 = some st ∧
      (st.1.run 34 17 false obs_double_sample []).1 =
        [Event.signal 10 100, Event.timer (Double.num 5) 3, Event.timer (Double.num 20) 4] ∧
      run_order 17 (st.1.run 34 17 false obs_double_sample []).1 := by
  obtain ⟨r0, w0, st, h0, h1, -, h2⟩ := ops_nan_sample_runs
  exact ⟨r0, w0, st, h0, h1, h2,
    Reactor.run_callback_order 34 17 1 world_sample w0 r0 h0 ops_nan_sample st h1 false
      obs_double_sample []⟩

end evt

/-! ## C1: the environment built from the parent environment -/

namespace sys

/-- An `environ` entry `NAME=VALUE` is split at its first `=`: the name is what
stands before it, the value all that follows, further `=` included. -/
theorem split_entry_spec (name val : String) (h : '=' ∉ name.toList) :
    split_entry (name ++ "=" ++ val) = some (name, val) := by
  have e : (name ++ "=" ++ val).toList = name.toList ++ '=' :: val.toList := by
    simp [String.toList]
  have hn : ∀ c ∈ name.toList, (c != '=') = true := by
    intro c hc
    simp only [bne_iff_ne, ne_eq]
    intro e'
    exact h (e' ▸ hc)
  unfold split_entry
  simp only [e]
  rw [if_pos (by simp), List.takeWhile_append_of_pos hn, List.dropWhile_append_of_pos hn]
  simp

/-- An `environ` entry without `=` is skipped. -/
theorem split_entry_none (entry : String) (h : '=' ∉ entry.toList) :
    split_entry entry = none := by
  unfold split_entry
  simp only
  rw [if_neg h]

end sys

namespace StdMap

theorem find_of_mem {K V : Type} [LinearOrder K] (m : List (K × V)) (h : WF m) (e : K × V)
    (he : e ∈ m) : find m e.1 = some e.2 := by
  induction m with
  | nil => cases he
  | cons x rest ih =>
    obtain ⟨k', v'⟩ := x
    obtain ⟨hlt, hw⟩ := List.pairwise_cons.mp h
    rcases List.mem_cons.mp he with rfl | he
    · simp [find]
    · have : e.1 ≠ k' := ne_of_gt (hlt e he)
      simp only [find, this, if_false]
      exact ih hw he

theorem find_none_of_absent {K V : Type} [LinearOrder K] (m : List (K × V)) (n : K)
    (h : ∀ e ∈ m, e.1 ≠ n) : find m n = none := by
  induction m with
  | nil => rfl
  | cons x rest ih =>
    obtain ⟨k', v'⟩ := x
    have : n ≠ k' := fun e => h (k', v') (List.mem_cons_self _ _) e.symm
    simp only [find, this, if_false]
    exact ih (fun e he => h e (List.mem_cons_of_mem _ he))

end StdMap

namespace sys

/-- What `get_proc_env` makes of an `environ` whose entries with `=` are the
entries `NAME=VALUE` of the variables of `P`: the lookup of a name that has an
entry gives the value of `P`, and the lookup of a name without an entry is the
lookup in the map before the call. -/
theorem Environment.get_proc_env_step (P : Environment) (hP : StdMap.WF P)
    (hname : ∀ e ∈ P, '=' ∉ e.1.toList) (n : String) (environ : List String)
    (hin : ∀ entry ∈ environ, '=' ∉ entry.toList ∨ ∃ e ∈ P, entry = e.1 ++ "=" ++ e.2) :
    ∀ self : Environment,
      (∀ e ∈ P, e.1 = n → e.1 ++ "=" ++ e.2 ∈ environ →
        StdMap.find (Environment.get_proc_env self environ) n = some e.2) ∧
      ((∀ e ∈ P, e.1 = n → e.1 ++ "=" ++ e.2 ∉ environ) →
        StdMap.find (Environment.get_proc_env self environ) n = StdMap.find self n) := by
  induction environ with
  | nil =>
    intro self
    exact ⟨fun e _ _ h => (by cases h), fun _ => rfl⟩
  | cons entry rest ih =>
    intro self
    have ih' := ih (fun x hx => hin x (List.mem_cons_of_mem _ hx))
    have hstep : ∀ self : Environment, Environment.get_proc_env self (entry :: rest) =
        Environment.get_proc_env
          (match split_entry entry with
            | some (name, val) => StdMap.insert name val self
            | none => self) rest := fun _ => rfl
    rw [hstep]
    rcases hin entry (List.mem_cons_self _ _) with hno | ⟨e0, he0, hentry⟩
    · rw [split_entry_none entry hno]
      simp only
      obtain ⟨i1, i2⟩ := ih' self
      refine ⟨fun e he hk hm => ?_, fun hnone => ?_⟩
      · rcases List.mem_cons.mp hm with h' | h'
        · exfalso
          apply hno
          rw [← h']
          simp [String.toList]
        · exact i1 e he hk h'
      · exact i2 (fun e he hk hm => hnone e he hk (List.mem_cons_of_mem _ hm))
    · rw [hentry, split_entry_spec e0.1 e0.2 (hname e0 he0)]
      simp only
      obtain ⟨i1, i2⟩ := ih' (StdMap.insert e0.1 e0.2 self)
      refine ⟨fun e he hk hm => ?_, fun hnone => ?_⟩
      · by_cases hr : e.1 ++ "=" ++ e.2 ∈ rest
        · exact i1 e he hk hr
        · have heq : e.1 ++ "=" ++ e.2 = e0.1 ++ "=" ++ e0.2 := by
            rcases List.mem_cons.mp hm with h' | h'
            · exact h'
            · exact absurd h' hr
          have hsame : (e.1, e.2) = (e0.1, e0.2) := by
            have a := split_entry_spec e.1 e.2 (hname e he)
            rw [heq, split_entry_spec e0.1 e0.2 (hname e0 he0)] at a
            exact (Option.some.inj a).symm
          have hk0 : e0.1 = n := by
            rw [← hk]
            exact (congrArg Prod.fst hsame).symm
          have hv0 : e0.2 = e.2 := (congrArg Prod.snd hsame).symm
          rw [i2 ?_, StdMap.find_insert, if_pos hk0.symm, hv0]
          intro e' he' hk' hm'
          have : e' = e := by
            have f1 := StdMap.find_of_mem P hP e' he'
            have f2 := StdMap.find_of_mem P hP e he
            rw [hk'] at f1
            rw [hk] at f2
            rw [f1] at f2
            exact Prod.ext (hk'.trans hk.symm) (Option.some.inj f2)
          rw [this] at hm'
          exact hr hm'
      · have hne : n ≠ e0.1 := by
          intro e'
          exact hnone e0 he0 e'.symm (List.mem_cons_self _ _)
        rw [i2 (fun e he hk hm => hnone e he hk (List.mem_cons_of_mem _ hm)),
          StdMap.find_insert, if_neg hne]

/-- The process environment that `get_proc_env` reads into an empty map is the
parent environment `P`, when `environ` holds an entry `NAME=VALUE` for each
variable of `P` and beside these only entries without `=`. -/
theorem Environment.get_proc_env_find (P : Environment) (environ : List String)
    (hP : StdMap.WF P) (hname : ∀ e ∈ P, '=' ∉ e.1.toList)
    (hin : ∀ entry ∈ environ, '=' ∉ entry.toList ∨ ∃ e ∈ P, entry = e.1 ++ "=" ++ e.2)
    (hall : ∀ e ∈ P, e.1 ++ "=" ++ e.2 ∈ environ) (n : String) :
    StdMap.find (Environment.get_proc_env [] environ) n = StdMap.find P n := by
  obtain ⟨i1, i2⟩ := Environment.get_proc_env_step P hP hname n environ hin []
  by_cases h : ∃ e ∈ P, e.1 = n
  · obtain ⟨e, he, hk⟩ := h
    rw [i1 e he hk (hall e he), ← hk, StdMap.find_of_mem P hP e he]
  · have habs : ∀ e ∈ P, e.1 ≠ n := fun e he hk => h ⟨e, he, hk⟩
    rw [i2 (fun e he hk => absurd hk (habs e he)), StdMap.find_none_of_absent P n habs]
    rfl

end sys

namespace run

/-- C1: for every EnvSpec `E` (its `set_` a `std::map`) and every parent
environment `P`, given to the process as an `environ` that holds the entry
`NAME=VALUE` of each variable of `P` and beside these only entries without
`=`, the mapping returned by `EnvSpec::build` holds, for each name `n`: the
value of `E.set_` when `n` is one of its keys; otherwise nothing when `n` is in
`E.unset_`; otherwise the value `P[n]` when `n` is in `P` and `keep_all_` is
true or `n` is in `keep_`; otherwise nothing. -/
theorem EnvSpec.build_find (E : EnvSpec) (P : sys.Environment) (environ : List String)
    (hset : StdMap.WF E.set_) (hP : StdMap.WF P) (hname : ∀ e ∈ P, '=' ∉ e.1.toList)
    (hin : ∀ entry ∈ environ, '=' ∉ entry.toList ∨ ∃ e ∈ P, entry = e.1 ++ "=" ++ e.2)
    (hall : ∀ e ∈ P, e.1 ++ "=" ++ e.2 ∈ environ) (n : String) :
    StdMap.find (E.build environ) n =
      match StdMap.find E.set_ n with
      | some v => some v
      | none =>
        if n ∈ E.unset_ then none
        else if E.keep_all_ = true ∨ n ∈ E.keep_ then StdMap.find P n
        else none := by
  have h := EnvSpec.find_build E environ hset n
  rw [sys.Environment.get_proc_env_find P environ hP hname hin hall n] at h
  exact h

/-- Witness of C1 at the scenario, with the parent `A=1, B=2, C=3` and an entry
without `=` beside its three entries: the lookup of `A` in the built
environment is the value set for it, and the whole environment is exactly
`{A=z, D=4}`; without the assignment of `A` the lookup of `A` is the parent's
value 1, and the whole environment is `{A=1, D=4}`. -/
theorem EnvSpec.build_find_witness :
    StdMap.find (env_scenario.build ["A=1", "wonky", "B=2", "C=3"]) "A" = some "z" ∧
    env_scenario.build ["A=1", "wonky", "B=2", "C=3"] = [("A", "z"), ("D", "4")] ∧
    StdMap.find (env_copy_scenario.build ["A=1", "wonky", "B=2", "C=3"]) "A" = some "1" ∧
    env_copy_scenario.build ["A=1", "wonky", "B=2", "C=3"] = [("A", "1"), ("D", "4")] := by
  have hP : StdMap.WF ([("A", "1"), ("B", "2"), ("C", "3")] : sys.Environment) := by
    simp +decide [StdMap.WF]
  have hname : ∀ e ∈ ([("A", "1"), ("B", "2"), ("C", "3")] : sys.Environment),
      '=' ∉ e.1.toList := by
    simp +decide
  have hin : ∀ entry ∈ ["A=1", "wonky", "B=2", "C=3"], '=' ∉ entry.toList ∨
      ∃ e ∈ ([("A", "1"), ("B", "2"), ("C", "3")] : sys.Environment),
        entry = e.1 ++ "=" ++ e.2 := by
    simp +decide
  have hall : ∀ e ∈ ([("A", "1"), ("B", "2"), ("C", "3")] : sys.Environment),
      e.1 ++ "=" ++ e.2 ∈ ["A=1", "wonky", "B=2", "C=3"] := by
    simp +decide
  refine ⟨?_, ?_, ?_, ?_⟩
  · rw [EnvSpec.build_find env_scenario _ _ (by simp +decide [StdMap.WF, env_scenario]) hP
      hname hin hall "A"]
    simp +decide [env_scenario, StdMap.find]
  · simp +decide [EnvSpec.build, env_scenario, sys.Environment.get_proc_env, sys.split_entry,
      StdMap.insert, StdMap.find, StdMap.erase]
  · rw [EnvSpec.build_find env_copy_scenario _ _
      (by simp +decide [StdMap.WF, env_copy_scenario]) hP hname hin hall "A"]
    simp +decide [env_copy_scenario, StdMap.find]
  · simp +decide [EnvSpec.build, env_copy_scenario, sys.Environment.get_proc_env,
      sys.split_entry, StdMap.insert, StdMap.find, StdMap.erase]

end run

end alxs
